import Mathlib

/-!
# Item-filter line parser (`src/dist/parser.js`)

A shallow embedding of the line tokenizer (`LineParser`), the rule validators
(`process*Rule`) and the line classifier (`parseLine`), followed by the
properties proved about them.

Conventions of the embedding

* A JavaScript string is the list of its UTF-16 code units (`Text`); columns and
  lengths count code units, as `String.prototype.length` does.
* A JavaScript number that holds an index or a parsed integer is an `Int`;
  `parseInt` may also give `NaN` (`JSNum.NaN`).  Rounding of integers beyond
  `2^53` to a double is not modelled: every number the validators keep or compare
  is compared against bounds far below that.
* The mutable `LineParser` object becomes a value that every operation takes and
  returns; the editor buffer becomes the text of the one buffer row that
  `parseLine` reads and rewrites.
* A regular expression whose groups 1 and 2 are read by `parseSingleValue` is a
  function from the remaining text to those two groups.
-/

namespace ItemFilter

/-! ## Strings and numbers -/

/-- A JavaScript string, as its UTF-16 code units. -/
abbrev Text := List Nat

/-- The UTF-16 code units of a string literal of the source. -/
def utf16 (s : String) : Text :=
  s.toList.foldr
    (fun c acc =>
      if c.toNat < 65536 then c.toNat :: acc
      else (55296 + (c.toNat - 65536) / 1024) :: (56320 + (c.toNat - 65536) % 1024) :: acc)
    []

/-- A JavaScript number as the parser meets it: an integer or `NaN`. -/
inductive JSNum where
  | NaN
  | ofInt (i : Int)
  deriving DecidableEq, Repr

/-- JavaScript truthiness of a number: `NaN` and `0` are falsy. -/
def JSNum.truthy : JSNum → Bool
  | .NaN => false
  | .ofInt i => i != 0

/-- JavaScript `a < b` on numbers (false when either side is `NaN`). -/
def JSNum.lt : JSNum → JSNum → Bool
  | .ofInt a, .ofInt b => a < b
  | _, _ => false

/-- JavaScript `a > b` on numbers. -/
def JSNum.gt (a b : JSNum) : Bool := JSNum.lt b a

/-- JavaScript `a <= b` on numbers (false when either side is `NaN`). -/
def JSNum.le : JSNum → JSNum → Bool
  | .ofInt a, .ofInt b => a ≤ b
  | _, _ => false

/-- JavaScript `a >= b` on numbers. -/
def JSNum.ge (a b : JSNum) : Bool := JSNum.le b a

/-- JavaScript truthiness of a string: only the empty string is falsy. -/
def truthyText (t : Text) : Bool := !t.isEmpty

/-- Truthiness of a possibly `undefined` string. -/
def truthyOptText : Option Text → Bool
  | none => false
  | some t => truthyText t

/-- The class `\s` of a JavaScript regular expression. -/
def isSpace (c : Nat) : Bool :=
  (9 ≤ c && c ≤ 13) || c == 32 || c == 160 || c == 5760 || (8192 ≤ c && c ≤ 8202) ||
  c == 8232 || c == 8233 || c == 8239 || c == 8287 || c == 12288 || c == 65279

/-- The class `.` of a JavaScript regular expression: anything but a line terminator. -/
def isDot (c : Nat) : Bool :=
  !(c == 10 || c == 13 || c == 8232 || c == 8233)

/-- The class `[0-9]`. -/
def isDigit (c : Nat) : Bool := 48 ≤ c && c ≤ 57

/-- The class `[-0-9]` of `numberRegex`. -/
def isNumberChar (c : Nat) : Bool := c == 45 || isDigit c

/-- The class `[A-Za-zö]` of `wordRegex`. -/
def isWordChar (c : Nat) : Bool :=
  (65 ≤ c && c ≤ 90) || (97 ≤ c && c ≤ 122) || c == 246

/-- The class `[^\s\"\'><=]` of `stringRegex`. -/
def isBareStringChar (c : Nat) : Bool :=
  !(isSpace c || c == 34 || c == 39 || c == 62 || c == 60 || c == 61)

/-- The class `[A-F0-9]` under the `i` flag. -/
def isHexDigit (c : Nat) : Bool :=
  isDigit c || (65 ≤ c && c ≤ 70) || (97 ≤ c && c ≤ 102)

/-- Case folding of the `i` flag, for matching against ASCII pattern characters: a
character matches an ASCII letter of the pattern iff it is that letter in either
case (a character above 127 never folds to an ASCII one). -/
def canonicalize (c : Nat) : Nat := if 97 ≤ c ∧ c ≤ 122 then c - 32 else c

/-- JavaScript `toLowerCase()` on a string of ASCII characters (the only strings it
is applied to by `nextBoolean`, whose regex admits nothing else). -/
def toLowerCaseAscii (t : Text) : Text := t.map fun c => if 65 ≤ c ∧ c ≤ 90 then c + 32 else c

/-- The value of a digit of `parseInt`, for any radix up to 36. -/
def digitValue (c : Nat) : Option Nat :=
  if 48 ≤ c ∧ c ≤ 57 then some (c - 48)
  else if 97 ≤ c ∧ c ≤ 122 then some (c - 87)
  else if 65 ≤ c ∧ c ≤ 90 then some (c - 55)
  else none

/-- Whether a code unit is a digit of the given radix. -/
def isRadixDigit (radix c : Nat) : Bool :=
  match digitValue c with
  | some v => v < radix
  | none => false

/-- JavaScript `parseInt(s, radix)` for a radix in 2..36: leading whitespace is
skipped, a sign is read, for radix 16 a `0x` prefix is skipped, and the longest
run of digits of the radix is evaluated; no digit gives `NaN`. -/
def parseInt (s : Text) (radix : Nat) : JSNum :=
  let s1 := s.dropWhile isSpace
  let negative := s1.head? == some 45
  let s2 := if s1.head? == some 45 || s1.head? == some 43 then s1.tail else s1
  let s3 := if radix == 16 && (s2.take 2 == [48, 120] || s2.take 2 == [48, 88]) then s2.drop 2 else s2
  let digits := s3.takeWhile (isRadixDigit radix)
  if digits.isEmpty then JSNum.NaN
  else
    let n : Nat := digits.foldl (fun acc c => acc * radix + (digitValue c).getD 0) 0
    JSNum.ofInt (if negative then -(n : Int) else (n : Int))

/-- Decimal digits of a natural number, most significant first, as code units. -/
def decimalDigits : Nat → Nat → Text → Text
  | 0, _, acc => acc
  | fuel + 1, n, acc =>
    if n < 10 then (48 + n) :: acc
    else decimalDigits fuel (n / 10) ((48 + n % 10) :: acc)

/-- JavaScript `String(n)` for a natural number. -/
def natToString (n : Nat) : Text := decimalDigits (n + 1) n []

/-- JavaScript `String(i)` for an integer. -/
def intToString (i : Int) : Text :=
  if i < 0 then 45 :: natToString i.natAbs else natToString i.natAbs

/-- JavaScript number-to-string conversion, as string concatenation performs it. -/
def JSNum.toText : JSNum → Text
  | .NaN => utf16 "NaN"
  | .ofInt i => intToString i

/-- JavaScript `hay.includes(needle)`. -/
def includes (hay needle : Text) : Bool := decide (needle <:+: hay)

/-! ## Ranges and the editor buffer (the `atom` package) -/

/-- A buffer position of Atom. -/
structure Point where
  row : Int
  column : Int
  deriving DecidableEq, Repr

/-- Order of buffer positions: by row, then by column. -/
def Point.isLessThanOrEqual (a b : Point) : Bool :=
  a.row < b.row || (a.row == b.row && a.column ≤ b.column)

/-- A buffer range of Atom. -/
structure Range where
  start : Point
  end_ : Point
  deriving DecidableEq, Repr

/-- `new Range(a, b)`: Atom orders the two points. -/
def Range.new (a b : Point) : Range :=
  if a.isLessThanOrEqual b then { start := a, end_ := b } else { start := b, end_ := a }

/-- `new Range([row, a], [row, b])`. -/
def Range.onRow (row a b : Int) : Range := Range.new ⟨row, a⟩ ⟨row, b⟩

/-- A column clipped to a line, as Atom clips the positions of a range. -/
def clipColumn (line : Text) (c : Int) : Nat := min c.toNat line.length

/-- The editor as `parseLine` uses it: the path of its buffer and the text of the
buffer row being parsed (every range read or written lies on that row). -/
structure Editor where
  path : Option Text
  line : Text
  deriving DecidableEq, Repr

/-- `editor.getTextInBufferRange(range)` for a range on the parsed row. -/
def Editor.getTextInBufferRange (e : Editor) (r : Range) : Text :=
  (e.line.drop (clipColumn e.line r.start.column)).take
    (clipColumn e.line r.end_.column - clipColumn e.line r.start.column)

/-- `editor.setTextInBufferRange(range, text)` for a range on the parsed row. -/
def Editor.setTextInBufferRange (e : Editor) (r : Range) (text : Text) : Editor :=
  { e with line := e.line.take (clipColumn e.line r.start.column) ++ text ++
      e.line.drop (clipColumn e.line r.end_.column) }

/-! ## The regular expressions of `LineParser` -/

/-- Groups 1 and 2 of a match. -/
abbrev TokenRegex := Text → Option (Text × Text)

/-- The token boundary `(\s|$)`; `(\s+|$)` holds at the same places. -/
def atBoundary : Text → Bool
  | [] => true
  | c :: _ => isSpace c

/-- The shape `^(\s*)(C+)(\s|$)` for a class `C` that holds no whitespace: the
leading whitespace, then the longest run of `C`, which must reach a boundary. -/
def classToken (p : Nat → Bool) : TokenRegex := fun t =>
  let rest := t.dropWhile isSpace
  let token := rest.takeWhile p
  if !token.isEmpty && atBoundary (rest.dropWhile p) then some (t.takeWhile isSpace, token)
  else none

/-- The regex `/^(\s*)([-0-9]+)(\s|$)/`. -/
def numberRegex : TokenRegex := classToken isNumberChar

/-- The regex `/^(\s*)([A-Za-zö]+)(\s|$)/`. -/
def wordRegex : TokenRegex := classToken isWordChar

/-- The regex `/^(\s*)("[^"]*"|[^\s\"\'><=]+)(\s|$)/`. -/
def stringRegex : TokenRegex := fun t =>
  let rest := t.dropWhile isSpace
  match rest with
  | 34 :: r =>
    match r.dropWhile (fun c => c != 34) with
    | 34 :: after =>
      if atBoundary after then
        some (t.takeWhile isSpace, 34 :: r.takeWhile (fun c => c != 34) ++ [34])
      else none
    | _ => none
  | _ => classToken isBareStringChar t

/-- The regex `/(\r|\n)/`, as `test` uses it. -/
def eolRegex (t : Text) : Bool := t.any fun c => c == 13 || c == 10

/-- The regex `/\S+/`, as `test` uses it. -/
def textRegex (t : Text) : Bool := t.any fun c => !isSpace c

/-- A text without its trailing whitespace. -/
def dropTrailingSpace (t : Text) : Text := (t.reverse.dropWhile isSpace).reverse

/-- The regex `/^(\s*)((#.*\S+)|(#\s*))(\s*)$/`: after the leading whitespace a `#`;
then either the text up to the last non-whitespace character, none of it a line
terminator, or nothing but whitespace, all of which is then part of group 2. -/
def commentRegex : TokenRegex := fun t =>
  match t.dropWhile isSpace with
  | 35 :: r =>
    if textRegex r then
      if (dropTrailingSpace r).all isDot then some (t.takeWhile isSpace, 35 :: dropTrailingSpace r)
      else none
    else some (t.takeWhile isSpace, 35 :: r)
  | _ => none

/-- The alternatives of `operatorRegex`, in the order the regex tries them. -/
def operatorAlternatives : List Text :=
  [utf16 "<=", utf16 ">=", utf16 "=", utf16 "<", utf16 ">"]

/-- The regex `/^(\s*)(<=|>=|=|<|>){1}(\s+|$)/`. -/
def operatorRegex : TokenRegex := fun t =>
  let rest := t.dropWhile isSpace
  match operatorAlternatives.find? (fun a => a.isPrefixOf rest && atBoundary (rest.drop a.length)) with
  | some a => some (t.takeWhile isSpace, a)
  | none => none

/-- The regex `/^(")([^\"]*)(")$/`: group 2 of a match. -/
def quotationRegex (t : Text) : Option Text :=
  match t with
  | 34 :: r =>
    match r.dropWhile (fun c => c != 34) with
    | [34] => some (r.takeWhile (fun c => c != 34))
    | _ => none
  | _ => none

/-- The alternatives of `booleanRegex`, in the order the regex tries them. -/
def booleanAlternatives : List Text :=
  [utf16 "\"true\"", utf16 "true", utf16 "\"false\"", utf16 "false"]

/-- The regex `/^(\s*)("true"|true|"false"|false)(\s+|$)/i`. -/
def booleanRegex : TokenRegex := fun t =>
  let rest := t.dropWhile isSpace
  match booleanAlternatives.find? (fun a =>
      (rest.take a.length).map canonicalize == a.map canonicalize &&
        atBoundary (rest.drop a.length)) with
  | some a => some (t.takeWhile isSpace, rest.take a.length)
  | none => none

/-- The regex `/^(\s*)((#[A-F0-9]{8})|(#[A-F0-9]{6}))(\s|$)/i`. -/
def colorHexRegex : TokenRegex := fun t =>
  match t.dropWhile isSpace with
  | 35 :: r =>
    if (r.take 8).length == 8 && (r.take 8).all isHexDigit && atBoundary (r.drop 8) then
      some (t.takeWhile isSpace, 35 :: r.take 8)
    else if (r.take 6).length == 6 && (r.take 6).all isHexDigit && atBoundary (r.drop 6) then
      some (t.takeWhile isSpace, 35 :: r.take 6)
    else none
  | _ => none

/-- The regex `/^(\s*)(.*\S)\s*$/`: the leading whitespace and the text up to the
last non-whitespace character, which must hold no line terminator. -/
def surroundingWSRegex : TokenRegex := fun t =>
  let rest := t.dropWhile isSpace
  if textRegex t && (dropTrailingSpace rest).all isDot then
    some (t.takeWhile isSpace, dropTrailingSpace rest)
  else none

/-! ## The tokenizer: class `LineParser` -/

/-- The two ways a call does not return a result: the `Error` thrown by the
`LineParser` constructor, and a loop model that ran out of steps. -/
inductive Fault where
  | multipleLines
  | outOfFuel
  deriving DecidableEq, Repr

/-- The fields of a `LineParser` object. -/
structure LineParser where
  text : Text
  currentIndex : Int
  originalLength : Int
  textStartIndex : Int
  textEndIndex : Int
  empty : Bool
  deriving DecidableEq, Repr

/-- The object every `next*` method returns. -/
structure ParseResult (α : Type) where
  found : Bool
  startIndex : Int
  endIndex : Int
  value : Option α
  deriving DecidableEq, Repr

/-- The constructor `new LineParser(text)`. -/
def LineParser.new (text : Text) : Except Fault LineParser :=
  if eolRegex text then Except.error Fault.multipleLines
  else if textRegex text then
    let surroundingResult := surroundingWSRegex text
    let leadingWS := match surroundingResult with
      | some (ws, _) => ws
      | none => []
    let payload := match surroundingResult with
      | some (_, body) => body
      | none => []
    let textStartIndex : Int := if truthyText leadingWS then leadingWS.length else 0
    Except.ok
      { text := text, currentIndex := 0, originalLength := text.length,
        textStartIndex := textStartIndex, textEndIndex := textStartIndex + payload.length,
        empty := false }
  else
    Except.ok
      { text := text, currentIndex := 0, originalLength := text.length,
        textStartIndex := 0, textEndIndex := 0, empty := true }

/-- The method `isCommented()`. -/
def LineParser.isCommented (p : LineParser) : Bool := (commentRegex p.text).isSome

/-- The method `isIgnored()`. -/
def LineParser.isIgnored (p : LineParser) : Bool := p.empty || p.isCommented

/-- The method `parseSingleValue(regex)`: the result and the parser afterwards. -/
def LineParser.parseSingleValue (p : LineParser) (regex : TokenRegex) :
    ParseResult Text × LineParser :=
  match regex p.text with
  | none => ({ found := false, startIndex := 0, endIndex := 0, value := none }, p)
  | some (leadingWS, value) =>
    let shiftBy : Nat := leadingWS.length + value.length
    let text := p.text.drop shiftBy
    ({ found := true, startIndex := p.currentIndex + leadingWS.length,
       endIndex := p.currentIndex + shiftBy, value := some value },
     { p with text := text, currentIndex := p.currentIndex + shiftBy,
              empty := if !textRegex text then true else p.empty })

/-- The method `nextNumber()`. -/
def LineParser.nextNumber (p : LineParser) : ParseResult JSNum × LineParser :=
  let (result, p) := p.parseSingleValue numberRegex
  ({ found := result.found, startIndex := result.startIndex, endIndex := result.endIndex,
     value := if result.found && truthyOptText result.value then
                result.value.map fun v => parseInt v 10
              else none }, p)

/-- The method `nextBoolean()`. -/
def LineParser.nextBoolean (p : LineParser) : ParseResult Bool × LineParser :=
  let (result, p) := p.parseSingleValue booleanRegex
  ({ found := result.found, startIndex := result.startIndex, endIndex := result.endIndex,
     value := if result.found && truthyOptText result.value then
                result.value.map fun v => includes (toLowerCaseAscii v) (utf16 "true")
              else none }, p)

/-- The method `nextOperator()`. -/
def LineParser.nextOperator (p : LineParser) : ParseResult Text × LineParser :=
  p.parseSingleValue operatorRegex

/-- The method `nextWord()`. -/
def LineParser.nextWord (p : LineParser) : ParseResult Text × LineParser :=
  p.parseSingleValue wordRegex

/-- The method `nextString()`. -/
def LineParser.nextString (p : LineParser) : ParseResult Text × LineParser :=
  let (result, p) := p.parseSingleValue stringRegex
  if result.found && truthyOptText result.value then
    match result.value.bind quotationRegex with
    | some inner => ({ result with value := some inner }, p)
    | none => (result, p)
  else (result, p)

/-- The method `nextHex()`. -/
def LineParser.nextHex (p : LineParser) : ParseResult Text × LineParser :=
  p.parseSingleValue colorHexRegex

/-- The method `parseComment()`. -/
def LineParser.parseComment (p : LineParser) : ParseResult Text × LineParser :=
  p.parseSingleValue commentRegex

/-! ## Diagnostics and results -/

/-- The severity of a linter message. -/
inductive Severity where
  | error
  | warning
  deriving DecidableEq, Repr

/-- An autofix (`solutions` entry) of a message. -/
structure Fix where
  currentText : Text
  position : Range
  replaceWith : Text
  title : Text
  deriving DecidableEq, Repr

/-- The location of a message. -/
structure Location where
  file : Option Text
  position : Range
  deriving DecidableEq, Repr

/-- A linter message (diagnostic). -/
structure Message where
  location : Location
  severity : Severity
  excerpt : Text
  description : Option Text := none
  url : Text
  solutions : Option (List Fix) := none
  deriving DecidableEq, Repr

/-- A value a rule captures. -/
inductive Value where
  | number (n : JSNum)
  | string (s : Text)
  | boolean (b : Bool)
  deriving DecidableEq, Repr

/-- An entry of `values`: the value and its range. -/
structure RuleValue where
  value : Value
  range : Range
  deriving DecidableEq, Repr

/-- The `operator` of a rule result. -/
structure Operator where
  type : Text
  range : Range
  deriving DecidableEq, Repr

/-- The `trailingComment` of a rule or block result. -/
structure TrailingComment where
  text : Text
  range : Range
  deriving DecidableEq, Repr

/-- What every validator returns (`processResult`). -/
structure ProcessResult where
  messages : List Message := []
  invalid : Bool := false
  values : List RuleValue := []
  operator : Option Operator := none
  trailingComment : Option TrailingComment := none
  deriving DecidableEq, Repr

/-- The line context handed to a validator (`lineInfo`). -/
structure LineInfo where
  editor : Editor
  number : Int
  file : Option Text
  keyword : Text
  deriving DecidableEq, Repr

/-- What the parser takes from its surroundings: JavaScript's full-Unicode
`toUpperCase` and `toLowerCase`, and the setting `linterSettings.enableWarnings`. -/
structure Env where
  toUpperCase : Text → Text
  toLowerCase : Text → Text
  enableWarnings : Bool

/-! ## The validators -/

/-- An object literal with `severity: "error"`, as the validators push it. -/
def errorMessage (file : Option Text) (position : Range) (excerpt : Text) (url : Text)
    (description : Option Text := none) (solutions : Option (List Fix) := none) : Message :=
  { location := { file := file, position := position }, severity := Severity.error,
    excerpt := excerpt, description := description, url := url, solutions := solutions }

/-- The statement pair `result.messages.push(m); result.invalid = true;`. -/
def ProcessResult.fail (result : ProcessResult) (m : Message) : ProcessResult :=
  { result with messages := result.messages ++ [m], invalid := true }

/-- The statement `result.values.push({ value, range })`. -/
def ProcessResult.pushValue (result : ProcessResult) (value : Value) (range : Range) :
    ProcessResult :=
  { result with values := result.values ++ [{ value := value, range := range }] }

/-- The operator capture of the rules that keep the operator:
`if (operator.found && operator.value) result.operator = { type, range }`. -/
def captureOperator (line : LineInfo) (operator : ParseResult Text) (result : ProcessResult) :
    ProcessResult :=
  match operator.value with
  | some op =>
    if operator.found && truthyText op then
      { result with
        operator := some { type := op,
                           range := Range.onRow line.number operator.startIndex operator.endIndex } }
    else result
  | none => result

/-- The function `expectEqualityOp(parser, line)`. -/
def expectEqualityOp (parser : LineParser) (line : LineInfo) : Option Message × LineParser :=
  let (operator, parser) := parser.nextOperator
  if operator.found && operator.value != some (utf16 "=") then
    (some (errorMessage line.file
      (Range.onRow line.number operator.startIndex operator.endIndex)
      (utf16 "Invalid operator for \"" ++ line.keyword ++
        utf16 "\". Only the '=' operator is supported for this rule.")
      (utf16 "http://pathofexile.gamepedia.com/Item_filter")
      (some (utf16 ("Path of Exile allows an operator to appear for most rule types, however for\n" ++
        "some rules only the '=' operator is allowed. Any other operators will result in an error.")))),
     parser)
  else (none, parser)

/-- The function `reportTrailingComment(parser, line, result)`. -/
def reportTrailingComment (parser : LineParser) (line : LineInfo) (result : ProcessResult) :
    ProcessResult × LineParser :=
  if parser.isCommented then
    let (comment, parser) := parser.parseComment
    (result.fail (errorMessage line.file
      (Range.onRow line.number comment.startIndex parser.originalLength)
      (utf16 "A trailing comment for a \"" ++ line.keyword ++
        utf16 "\" rule will result in an error.")
      (utf16 "http://pathofexile.gamepedia.com/Item_filter")
      (some (utf16 ("Path of Exile only allows for comments to trail the following rule types:" ++
        "\n\n\tSetBorderColor\n\tSetTextColor\n\tSetBackgroundColor\n\tPlayAlertSound\n\n" ++
        "Any other rule types with a trailing comment will result in an error.")))),
     parser)
  else (result, parser)

/-- The trailing-comment capture that ends `processAlertSoundRule` and
`processRGBARule` (their last `if (parser.isCommented())` statement). -/
def captureTrailingComment (parser : LineParser) (line : LineInfo) (result : ProcessResult) :
    ProcessResult × LineParser :=
  if parser.isCommented then
    let (commentResult, parser) := parser.parseComment
    if commentResult.found && truthyOptText commentResult.value then
      ({ result with
          trailingComment := commentResult.value.map fun text =>
            { text := text,
              range := Range.onRow line.number commentResult.startIndex commentResult.endIndex } },
       parser)
    else (result, parser)
  else (result, parser)

/-- The first check of `processAlertSoundRule`: `if (retVal.value < 1 || retVal.value > 9)`. -/
def checkSoundId (line : LineInfo) (retVal : ParseResult JSNum) (result : ProcessResult) :
    ProcessResult :=
  let retValue := retVal.value.getD JSNum.NaN
  if retValue.lt (JSNum.ofInt 1) || retValue.gt (JSNum.ofInt 9) then
    result.fail (errorMessage line.file
      (Range.onRow line.number retVal.startIndex retVal.endIndex)
      (utf16 "Invalid value for rule \"" ++ line.keyword ++ utf16 "\". Expected " ++ utf16 "1-9.")
      (utf16 "http://pathofexile.gamepedia.com/Item_filter#Actions"))
  else result

/-- The second check of `processAlertSoundRule`:
`if (optVal.found && optVal.value != undefined && (optVal.value < 0 || optVal.value > 300))`. -/
def checkVolume (line : LineInfo) (optVal : ParseResult JSNum) (result : ProcessResult) :
    ProcessResult :=
  match optVal.value with
  | some optValue =>
    if optVal.found && (optValue.lt (JSNum.ofInt 0) || optValue.gt (JSNum.ofInt 300)) then
      result.fail (errorMessage line.file
        (Range.onRow line.number optVal.startIndex optVal.endIndex)
        (utf16 "Invalid value for rule \"" ++ line.keyword ++ utf16 "\". Expected " ++ utf16 "0-300.")
        (utf16 "http://pathofexile.gamepedia.com/Item_filter#Actions"))
    else result
  | none => result

/-- The capture of `processAlertSoundRule`: `if (!result.invalid)`, the id is pushed,
and the volume `if (optVal.found && optVal.value)`. -/
def captureAlertSound (line : LineInfo) (retVal optVal : ParseResult JSNum)
    (result : ProcessResult) : ProcessResult :=
  if !result.invalid then
    let result := result.pushValue (Value.number (retVal.value.getD JSNum.NaN))
      (Range.onRow line.number retVal.startIndex retVal.endIndex)
    match optVal.value with
    | some optValue =>
      if optVal.found && optValue.truthy then
        result.pushValue (Value.number optValue)
          (Range.onRow line.number optVal.startIndex optVal.endIndex)
      else result
    | none => result
  else result

/-- The checks and captures of `processAlertSoundRule`, in the order of the source. -/
def checkAlertSound (line : LineInfo) (retVal optVal : ParseResult JSNum)
    (result : ProcessResult) : ProcessResult :=
  captureAlertSound line retVal optVal (checkVolume line optVal (checkSoundId line retVal result))

/-- The function `processAlertSoundRule(parser, line)`. -/
def processAlertSoundRule (parser : LineParser) (line : LineInfo) : ProcessResult × LineParser :=
  let result : ProcessResult := {}
  let (operatorMessage, parser) := expectEqualityOp parser line
  match operatorMessage with
  | some m => (result.fail m, parser)
  | none =>
    let (retVal, parser) := parser.nextNumber
    if !retVal.found || !(retVal.value.getD JSNum.NaN).truthy then
      (result.fail (errorMessage line.file
        (Range.onRow line.number parser.textStartIndex parser.originalLength)
        (utf16 "Invalid format. Expected \"" ++ line.keyword ++ utf16 " <Value> [Value]\".")
        (utf16 "http://pathofexile.gamepedia.com/Item_filter#Actions")), parser)
    else
      let (optVal, parser) := parser.nextNumber
      captureTrailingComment parser line (checkAlertSound line retVal optVal result)

/-- The hex branch of `processRGBARule`: the literal is replaced in the buffer by its
channels in decimal, and the parser is pointed at the text read back. -/
def normalizeHex (parser : LineParser) (line : LineInfo) (hexResult : ParseResult Text)
    (value : Text) : LineParser × Editor :=
  let r := parseInt ((value.drop 1).take 2) 16
  let g := parseInt ((value.drop 3).take 2) 16
  let b := parseInt ((value.drop 5).take 2) 16
  let replacement := r.toText ++ utf16 " " ++ g.toText ++ utf16 " " ++ b.toText
  let replacementRange := Range.onRow line.number hexResult.startIndex hexResult.endIndex
  let replacement :=
    if value.length == 9 then
      replacement ++ utf16 " " ++ (parseInt ((value.drop 7).take 2) 16).toText
    else replacement
  let editor := line.editor.setTextInBufferRange replacementRange replacement
  let adjustedLength : Int := parser.originalLength - value.length + replacement.length
  let adjustedCurIndex : Int := parser.currentIndex - value.length
  let adjustedEndIndex : Int := parser.textEndIndex - value.length + replacement.length
  let newTextRange := Range.onRow line.number adjustedCurIndex adjustedEndIndex
  ({ parser with text := editor.getTextInBufferRange newTextRange,
                 originalLength := adjustedLength,
                 currentIndex := adjustedCurIndex,
                 textEndIndex := adjustedEndIndex }, editor)

/-- The test `v < 0 || v > 255` on a channel. -/
def channelOutOfRange (v : JSNum) : Bool := v.lt (JSNum.ofInt 0) || v.gt (JSNum.ofInt 255)

/-- The channel checks of `processRGBARule` (from `var partialMessage` to the end of
the `if`/`else if` chain): the first offending channel is reported, else the
channels are captured. -/
def checkChannels (line : LineInfo) (red green blue alpha : ParseResult JSNum)
    (result : ProcessResult) : ProcessResult :=
  let redValue := red.value.getD JSNum.NaN
  let greenValue := green.value.getD JSNum.NaN
  let blueValue := blue.value.getD JSNum.NaN
  let alphaValue := alpha.value.getD JSNum.NaN
  let partialMessage (position : Range) : Message :=
    errorMessage line.file position
      (utf16 "Invalid value for rule \"" ++ line.keyword ++ utf16 "\". Expected 0-255.")
      (utf16 "http://pathofexile.gamepedia.com/Item_filter#Actions")
  if channelOutOfRange redValue then
    result.fail (partialMessage (Range.onRow line.number red.startIndex red.endIndex))
  else if channelOutOfRange greenValue then
    result.fail (partialMessage (Range.onRow line.number green.startIndex green.endIndex))
  else if channelOutOfRange blueValue then
    result.fail (partialMessage (Range.onRow line.number blue.startIndex blue.endIndex))
  else if alpha.found && alphaValue.truthy && channelOutOfRange alphaValue then
    result.fail (partialMessage (Range.onRow line.number alpha.startIndex alpha.endIndex))
  else
    let result :=
      ((result.pushValue (Value.number redValue)
          (Range.onRow line.number red.startIndex red.endIndex)).pushValue
        (Value.number greenValue)
          (Range.onRow line.number green.startIndex green.endIndex)).pushValue
        (Value.number blueValue)
          (Range.onRow line.number blue.startIndex blue.endIndex)
    if alpha.found then
      result.pushValue (Value.number alphaValue)
        (Range.onRow line.number alpha.startIndex alpha.endIndex)
    else result

/-- The hex statement of `processRGBARule`: `const hexResult = parser.nextHex()` and
the `if (hexResult.found && hexResult.value)` block. -/
def hexStage (parser : LineParser) (line : LineInfo) : LineParser × Editor :=
  let (hexResult, parser) := parser.nextHex
  match hexResult.value with
  | some value =>
    if hexResult.found && truthyText value then normalizeHex parser line hexResult value
    else (parser, line.editor)
  | none => (parser, line.editor)

/-- The four `parser.nextNumber()` calls of `processRGBARule`: red, green, blue, alpha. -/
def readChannels (parser : LineParser) :
    ParseResult JSNum × ParseResult JSNum × ParseResult JSNum × ParseResult JSNum × LineParser :=
  let (red, parser) := parser.nextNumber
  let (green, parser) := parser.nextNumber
  let (blue, parser) := parser.nextNumber
  let (alpha, parser) := parser.nextNumber
  (red, green, blue, alpha, parser)

/-- The function `processRGBARule(parser, line)`; it also returns the editor, whose
buffer the hex branch rewrites. -/
def processRGBARule (parser : LineParser) (line : LineInfo) :
    ProcessResult × LineParser × Editor :=
  let result : ProcessResult := {}
  let (operatorMessage, parser) := expectEqualityOp parser line
  match operatorMessage with
  | some m => (result.fail m, parser, line.editor)
  | none =>
    let normalized := hexStage parser line
    let editor := normalized.2
    let channels := readChannels normalized.1
    let red := channels.1
    let green := channels.2.1
    let blue := channels.2.2.1
    let alpha := channels.2.2.2.1
    let parser := channels.2.2.2.2
    if !red.found || red.value.isNone || !green.found || green.value.isNone ||
        !blue.found || blue.value.isNone then
      (result.fail (errorMessage line.file
        (Range.onRow line.number parser.textStartIndex parser.originalLength)
        (utf16 "Invalid format. Expected \"" ++ line.keyword ++
          utf16 " <Red> <Green> <Blue> [Alpha]\".")
        (utf16 "http://pathofexile.gamepedia.com/Item_filter#Actions")), parser, editor)
    else
      let result := checkChannels line red green blue alpha result
      let captured := captureTrailingComment parser line result
      (captured.1, captured.2, editor)

/-- The inner `for (var value of expectedValues)` loop of `processMultiStringRule`:
whether some expected value includes the parsed one. -/
def resultFound (env : Env) (expectedValues : List Text) (caseSensitive : Bool)
    (value : Text) : Bool :=
  expectedValues.any fun expected =>
    if caseSensitive then includes expected value
    else includes (env.toUpperCase expected) (env.toUpperCase value)

/-- The `while (true)` loop of `processMultiStringRule`, one iteration per unit of
fuel; `none` when the fuel runs out before the loop breaks. -/
def processMultiStringLoop (env : Env) (line : LineInfo) (expectedValues : List Text)
    (caseSensitive : Bool) : Nat → LineParser → ProcessResult → Option (ProcessResult × LineParser)
  | 0, _, _ => none
  | fuel + 1, parser, result =>
    let (currentValue, parser) := parser.nextString
    if !currentValue.found && result.values.length == 0 && result.messages.length == 0 then
      some (result.fail (errorMessage line.file
        (Range.onRow line.number parser.textStartIndex parser.originalLength)
        (utf16 "Invalid format. Expected \"" ++ line.keyword ++ utf16 " <Text>...\".")
        (utf16 "http://pathofexile.gamepedia.com/Item_filter#Conditions")
        (some (utf16 "The '" ++ line.keyword ++
          utf16 ("' keyword should be followed by a list of words or strings.\n\n" ++
            "Any value consisting of multiple words should be surrounded by double quotation marks.")))),
        parser)
    else if !currentValue.found || !truthyOptText currentValue.value then some (result, parser)
    else
      let value := currentValue.value.getD []
      if resultFound env expectedValues caseSensitive value then
        processMultiStringLoop env line expectedValues caseSensitive fuel parser
          (result.pushValue (Value.string value)
            (Range.onRow line.number currentValue.startIndex currentValue.endIndex))
      else
        processMultiStringLoop env line expectedValues caseSensitive fuel parser
          (result.fail (errorMessage line.file
            (Range.onRow line.number currentValue.startIndex currentValue.endIndex)
            (utf16 "Invalid value for \"" ++ line.keyword ++ utf16 "\" rule.")
            (utf16 "http://pathofexile.gamepedia.com/Item_filter#Conditions")))

/-- The function `processMultiStringRule(parser, line, expectedValues, caseSensitive)`.
Every iteration that does not break consumes at least one character, so the loop
is given one step more than the remaining text has characters. -/
def processMultiStringRule (env : Env) (parser : LineParser) (line : LineInfo)
    (expectedValues : List Text) (caseSensitive : Bool) : Option (ProcessResult × LineParser) :=
  let result : ProcessResult := {}
  let (operatorMessage, parser) := expectEqualityOp parser line
  match operatorMessage with
  | some m => some (result.fail m, parser)
  | none =>
    processMultiStringLoop env line expectedValues caseSensitive (parser.text.length + 1) parser result

/-- The regex `new RegExp("^[rgbw]{1,6}$", "i")`, as `test` uses it. -/
def groupRegex (t : Text) : Bool :=
  1 ≤ t.length && t.length ≤ 6 &&
    t.all fun c => canonicalize c == 82 || canonicalize c == 71 || canonicalize c == 66 ||
      canonicalize c == 87

/-- The function `processSocketGroup(parser, line)`. -/
def processSocketGroup (parser : LineParser) (line : LineInfo) : ProcessResult × LineParser :=
  let result : ProcessResult := {}
  let (operatorMessage, parser) := expectEqualityOp parser line
  match operatorMessage with
  | some m => (result.fail m, parser)
  | none =>
    let (retVal, parser) := parser.nextString
    if !retVal.found || !truthyOptText retVal.value then
      (result.fail (errorMessage line.file
        (Range.onRow line.number parser.textStartIndex parser.originalLength)
        (utf16 "Invalid format. Expected \"" ++ line.keyword ++ utf16 " <Group>\".")
        (utf16 "http://pathofexile.gamepedia.com/Item_filter#Conditions")), parser)
    else
      let value := retVal.value.getD []
      if groupRegex value then
        (result.pushValue (Value.string value)
          (Range.onRow line.number retVal.startIndex retVal.endIndex), parser)
      else
        (result.fail (errorMessage line.file
          (Range.onRow line.number retVal.startIndex retVal.endIndex)
          (utf16 "Invalid value for \"" ++ line.keyword ++
            utf16 "\" rule. Valid characters are: R, B, G, W.")
          (utf16 "http://pathofexile.gamepedia.com/Item_filter#Conditions")), parser)

/-- The function `processOpNumberRule(parser, line, values)`. -/
def processOpNumberRule (parser : LineParser) (line : LineInfo) (values : List Int) :
    ProcessResult × LineParser :=
  let result : ProcessResult := {}
  let (operator, parser) := parser.nextOperator
  let result := captureOperator line operator result
  let (retVal, parser) := parser.nextNumber
  if !retVal.found || retVal.value.isNone then
    (result.fail (errorMessage line.file
      (Range.onRow line.number parser.textStartIndex parser.originalLength)
      (utf16 "Invalid format. Expected \"" ++ line.keyword ++ utf16 " [Operator] <Number>\".")
      (utf16 "http://pathofexile.gamepedia.com/Item_filter#Conditions")), parser)
  else
    let retValue := retVal.value.getD JSNum.NaN
    let result : ProcessResult :=
      if values.any (fun v => JSNum.ofInt v == retValue) then
        result.pushValue (Value.number retValue)
          (Range.onRow line.number retVal.startIndex retVal.endIndex)
      else
        result.fail (errorMessage line.file
          (Range.onRow line.number retVal.startIndex retVal.endIndex)
          (utf16 "Invalid value for rule \"" ++ line.keyword ++ utf16 "\". Expected " ++
            List.flatten ((values.map intToString).intersperse (utf16 ",")) ++ utf16 ".")
          (utf16 "http://pathofexile.gamepedia.com/Item_filter#Conditions"))
    reportTrailingComment parser line result

/-- The `for (var s of expectedValues)` loop of `processStringRule`: whether the
parsed value equals some expected value. -/
def matchFound (env : Env) (expectedValues : List Text) (caseSensitive : Bool)
    (value : Option Text) : Bool :=
  expectedValues.any fun s =>
    if caseSensitive then value == some s
    else truthyOptText value && value.map env.toLowerCase == some (env.toLowerCase s)

/-- The function `processStringRule(parser, line, expectedValues, caseSensitive)`. -/
def processStringRule (env : Env) (parser : LineParser) (line : LineInfo)
    (expectedValues : List Text) (caseSensitive : Bool) : ProcessResult × LineParser :=
  let result : ProcessResult := {}
  let (operator, parser) := parser.nextOperator
  let result := captureOperator line operator result
  let (retVal, parser) := parser.nextString
  if !retVal.found then
    (result.fail (errorMessage line.file
      (Range.onRow line.number parser.textStartIndex parser.originalLength)
      (utf16 "Invalid format. Expected \"" ++ line.keyword ++ utf16 " [Operator] <Text>\".")
      (utf16 "http://pathofexile.gamepedia.com/Item_filter#Conditions")), parser)
  else
    let result : ProcessResult :=
      if matchFound env expectedValues caseSensitive retVal.value && truthyOptText retVal.value then
        result.pushValue (Value.string (retVal.value.getD []))
          (Range.onRow line.number retVal.startIndex retVal.endIndex)
      else
        result.fail (errorMessage line.file
          (Range.onRow line.number retVal.startIndex retVal.endIndex)
          (utf16 "Invalid value for \"" ++ line.keyword ++ utf16 "\" rule.")
          (utf16 "http://pathofexile.gamepedia.com/Item_filter#Conditions")
          (some (expectedValues.foldl (fun d value => d ++ utf16 "\n\t" ++ value)
            (utf16 "The following values are valid for this rule:\n"))))
    reportTrailingComment parser line result

/-- The function `processBooleanRule(parser, line)`. -/
def processBooleanRule (parser : LineParser) (line : LineInfo) : ProcessResult × LineParser :=
  let result : ProcessResult := {}
  let (operatorMessage, parser) := expectEqualityOp parser line
  match operatorMessage with
  | some m => (result.fail m, parser)
  | none =>
    let (retVal, parser) := parser.nextBoolean
    let result : ProcessResult :=
      if !retVal.found then
        result.fail (errorMessage line.file
          (Range.onRow line.number parser.textStartIndex parser.originalLength)
          (utf16 "Invalid format. Expected \"" ++ line.keyword ++ utf16 " <Boolean>\".")
          (utf16 "http://pathofexile.gamepedia.com/Item_filter#Conditions")
          (some (utf16 "A Boolean is a binary value that can be either 'True' or 'False'")))
      else
        { result with
          values := [{ value := Value.boolean (retVal.value.getD false),
                       range := Range.onRow line.number retVal.startIndex retVal.endIndex }] }
    reportTrailingComment parser line result

/-- The operator statement of `processRangeRule` (its first `if (hasOperator)`): the
operator is captured where one is allowed, and is an error where none is. -/
def checkRangeOperator (line : LineInfo) (hasOperator : Bool) (operator : ParseResult Text)
    (result : ProcessResult) : ProcessResult :=
  if hasOperator then captureOperator line operator result
  else if operator.found then
    result.fail (errorMessage line.file
      (Range.onRow line.number operator.startIndex operator.endIndex)
      (utf16 "An operator for a \"" ++ line.keyword ++ utf16 "\" rule is an error.")
      (utf16 "http://pathofexile.gamepedia.com/Item_filter"))
  else result

/-- The number statement of `processRangeRule` (from
`if (!retVal.found || retVal.value == undefined)` on): a missing number and a
number outside the bounds are errors, a number inside them is the value. -/
def checkRangeNumber (parser : LineParser) (line : LineInfo) (min max : Int)
    (hasOperator : Bool) (retVal : ParseResult JSNum) (result : ProcessResult) : ProcessResult :=
  if !retVal.found || retVal.value.isNone then
    result.fail (errorMessage line.file
      (Range.onRow line.number parser.textStartIndex parser.originalLength)
      (utf16 "Invalid format. Expected \"" ++ line.keyword ++
        (if hasOperator then utf16 " [Operator] <Number>\"." else utf16 " <Number>\"."))
      (utf16 "http://pathofexile.gamepedia.com/Item_filter"))
  else
    let retValue := retVal.value.getD JSNum.NaN
    if retValue.ge (JSNum.ofInt min) && retValue.le (JSNum.ofInt max) then
      { result with
        values := [{ value := Value.number retValue,
                     range := Range.onRow line.number retVal.startIndex retVal.endIndex }] }
    else
      result.fail (errorMessage line.file
        (Range.onRow line.number retVal.startIndex retVal.endIndex)
        (utf16 "Invalid value for \"" ++ line.keyword ++ utf16 "\" rule. Expected " ++
          intToString min ++ utf16 "-" ++ intToString max ++ utf16 ".")
        (utf16 "http://pathofexile.gamepedia.com/Item_filter"))

/-- The function `processRangeRule(parser, line, min, max, hasOperator = true)`. -/
def processRangeRule (parser : LineParser) (line : LineInfo) (min max : Int)
    (hasOperator : Bool := true) : ProcessResult × LineParser :=
  let result : ProcessResult := {}
  let (operator, parser) := parser.nextOperator
  let result := checkRangeOperator line hasOperator operator result
  let (retVal, parser) := parser.nextNumber
  let result := checkRangeNumber parser line min max hasOperator retVal result
  reportTrailingComment parser line result

/-- The function `processBlock(parser, line)`, given the `enableWarnings` setting. -/
def processBlock (env : Env) (parser : LineParser) (line : LineInfo) : ProcessResult × LineParser :=
  let result : ProcessResult := {}
  if parser.isCommented then
    let (r, parser) := parser.parseComment
    if r.found && truthyOptText r.value then
      ({ result with
          trailingComment := r.value.map fun text =>
            { text := text, range := Range.onRow line.number r.startIndex r.endIndex } }, parser)
    else (result, parser)
  else if !parser.isIgnored then
    if env.enableWarnings then
      let position := Range.onRow line.number parser.currentIndex parser.originalLength
      let currentText := line.editor.getTextInBufferRange position
      let replacement := utf16 " #" ++ currentText
      let fix : Fix :=
        { currentText := currentText, position := position, replaceWith := replacement,
          title := utf16 "Comment This Text" }
      ({ result with
          messages := result.messages ++
            [{ location := { file := line.file, position := position },
               severity := Severity.warning,
               excerpt := utf16 "Trailing text for a \"" ++ line.keyword ++ utf16 "\" block will be ignored.",
               description := some (utf16 ("Path of Exile will not consider this an error, however the text will " ++
                 "be completely ignored.\n\nCommenting this text with a '#' will remove this warning.")),
               url := utf16 "http://pathofexile.gamepedia.com/Item_filter",
               solutions := some [fix] }] }, parser)
    else (result, parser)
  else (result, parser)

/-! ## The line classifier: `parseLine` -/

/-- The catalog handed to `parseLine` (`args.itemData`). -/
structure ItemData where
  classes : List Text
  bases : List Text
  whitelistClasses : List Text
  whitelistBases : List Text
  deriving DecidableEq, Repr

/-- The argument of `parseLine`. -/
structure Args where
  lineText : Text
  row : Int
  editor : Editor
  itemData : ItemData
  deriving DecidableEq, Repr

/-- The `type` tag of a line result. -/
inductive LineType where
  | Comment
  | Empty
  | Block
  | Rule
  | Unknown
  deriving DecidableEq, Repr

/-- The category of a rule (`ruleType`). -/
inductive Category where
  | condition
  | action
  deriving DecidableEq, Repr

/-- The keyword of a block or rule (`resultKeyword`). -/
structure Keyword where
  name : Text
  range : Range
  deriving DecidableEq, Repr

/-- The `data` of a line result, by its kind. -/
inductive LineData where
  | comment (text : Text) (range : Range)
  | empty
  | block (type : Keyword) (scope : Range) (trailingComment : Option TrailingComment)
  | rule (type : Keyword) (range : Range) (trailingComment : Option TrailingComment)
      (category : Category) (operator : Option Operator) (values : List RuleValue)
  | unknown (text : Text) (range : Range)
  deriving DecidableEq, Repr

/-- What `parseLine` returns. -/
structure LineResult where
  type : LineType
  data : LineData
  invalid : Bool
  messages : List Message
  deriving DecidableEq, Repr

/-- A validator's result together with the editor it left untouched. -/
def plainRule (editor : Editor) (r : ProcessResult × LineParser) :
    Option (ProcessResult × LineParser × Editor) :=
  some (r.1, r.2, editor)

/-- The keyword chain of `parseLine` (its `else` branch up to `if (ruleType)`): the
category `ruleType` and what the validator of the keyword returns, with the editor
afterwards; `none` when no branch sets `ruleType`.  The inner `none` stands for a
validator whose loop model ran out of fuel. -/
def processRule (env : Env) (parser : LineParser) (lineInfo : LineInfo)
    (validClasses validBases : List Text) (keyword : Text) :
    Option (Category × Option (ProcessResult × LineParser × Editor)) :=
  if keyword = utf16 "ItemLevel" ∨ keyword = utf16 "DropLevel" then
    some (Category.condition, plainRule lineInfo.editor (processRangeRule parser lineInfo 0 100))
  else if keyword = utf16 "Quality" then
    some (Category.condition, plainRule lineInfo.editor (processRangeRule parser lineInfo 0 20))
  else if keyword = utf16 "Sockets" then
    some (Category.condition, plainRule lineInfo.editor (processRangeRule parser lineInfo 0 6))
  else if keyword = utf16 "Height" then
    some (Category.condition, plainRule lineInfo.editor (processRangeRule parser lineInfo 1 4))
  else if keyword = utf16 "Width" then
    some (Category.condition, plainRule lineInfo.editor (processRangeRule parser lineInfo 1 2))
  else if keyword = utf16 "Identified" ∨ keyword = utf16 "Corrupted" then
    some (Category.condition, plainRule lineInfo.editor (processBooleanRule parser lineInfo))
  else if keyword = utf16 "Rarity" then
    some (Category.condition, plainRule lineInfo.editor (processStringRule env parser lineInfo
      [utf16 "Normal", utf16 "Magic", utf16 "Rare", utf16 "Unique"] false))
  else if keyword = utf16 "LinkedSockets" then
    some (Category.condition, plainRule lineInfo.editor (processOpNumberRule parser lineInfo [0, 2, 3, 4, 5, 6]))
  else if keyword = utf16 "SocketGroup" then
    some (Category.condition, plainRule lineInfo.editor (processSocketGroup parser lineInfo))
  else if keyword = utf16 "Class" then
    some (Category.condition,
      (processMultiStringRule env parser lineInfo validClasses false).bind (plainRule lineInfo.editor))
  else if keyword = utf16 "BaseType" then
    some (Category.condition,
      (processMultiStringRule env parser lineInfo validBases false).bind (plainRule lineInfo.editor))
  else if keyword = utf16 "SetFontSize" then
    some (Category.action, plainRule lineInfo.editor (processRangeRule parser lineInfo 18 45 false))
  else if keyword = utf16 "SetBorderColor" ∨ keyword = utf16 "SetTextColor" ∨
      keyword = utf16 "SetBackgroundColor" then
    some (Category.action, some (processRGBARule parser lineInfo))
  else if keyword = utf16 "PlayAlertSound" then
    some (Category.action, plainRule lineInfo.editor (processAlertSoundRule parser lineInfo))
  else none

/-- The tail of `parseLine`: `if (processResult.messages.length > 0)`, the validator's
`invalid` flag is taken over unless `invalid` is already set, and its messages
follow those `parseLine` pushed itself. -/
def mergeMessages (messages : List Message) (invalid : Bool) (processResult : ProcessResult) :
    Bool × List Message :=
  if processResult.messages.length > 0 then
    (if !invalid then processResult.invalid else invalid, messages ++ processResult.messages)
  else (invalid, messages)

/-- The result of `parseLine` when `nextWord` reads no keyword. -/
def unreadableResult (args : Args) (parser : LineParser) : LineResult :=
  { type := LineType.Unknown,
    data := LineData.unknown args.lineText (Range.new ⟨args.row, parser.textStartIndex⟩ ⟨0, 0⟩),
    invalid := true,
    messages :=
      [errorMessage args.editor.path
        (Range.onRow args.row parser.textStartIndex parser.originalLength)
        (utf16 "Unreadable keyword, likely due to a stray character.")
        (utf16 "http://pathofexile.gamepedia.com/Item_filter_guide")] }

/-- The result of `parseLine` on the `Show`/`Hide` branch, after `processBlock`. -/
def blockResult (args : Args) (resultKeyword : Keyword) (processResult : ProcessResult)
    (parser : LineParser) : LineResult :=
  let merged := mergeMessages [] false processResult
  { type := LineType.Block,
    data := LineData.block resultKeyword
      (Range.onRow args.row parser.textStartIndex parser.textEndIndex)
      processResult.trailingComment,
    invalid := merged.1, messages := merged.2 }

/-- The trailing-text check of `parseLine` (inside `if (ruleType)`): the messages and
the `invalid` flag before the validator's own are merged in. -/
def trailingText (args : Args) (keyword : Text) (processResult : ProcessResult)
    (parser : LineParser) (editor : Editor) : List Message × Bool :=
  if !processResult.invalid && !parser.empty then
    let position := Range.onRow args.row parser.currentIndex parser.textEndIndex
    let fix : Option (List Fix) :=
      if keyword = utf16 "SetBorderColor" ∨ keyword = utf16 "SetTextColor" ∨
          keyword = utf16 "SetBackgroundColor" ∨ keyword = utf16 "PlayAlertSound" then
        some [{ currentText := editor.getTextInBufferRange position,
                position := position,
                replaceWith := utf16 " #" ++ editor.getTextInBufferRange position,
                title := utf16 "Comment This Text" }]
      else none
    ([errorMessage args.editor.path position
        (utf16 "Trailing text for a filter rule.")
        (utf16 "http://pathofexile.gamepedia.com/Item_filter_guide")
        (some (utf16 "Path of Exile will consider this an error.")) fix], true)
  else ([], false)

/-- The result of `parseLine` for a keyword of the chain, after its validator. -/
def ruleResult (args : Args) (resultKeyword : Keyword) (ruleType : Category)
    (processResult : ProcessResult) (parser : LineParser) (editor : Editor) : LineResult :=
  let checked := trailingText args resultKeyword.name processResult parser editor
  let merged := mergeMessages checked.1 checked.2 processResult
  { type := LineType.Rule,
    data := LineData.rule resultKeyword
      (Range.onRow args.row parser.textStartIndex parser.textEndIndex)
      processResult.trailingComment ruleType processResult.operator processResult.values,
    invalid := merged.1, messages := merged.2 }

/-- The result of `parseLine` for a keyword no branch of the chain knows. -/
def unknownResult (args : Args) (keywordResult : ParseResult Text) (parser : LineParser) :
    LineResult :=
  { type := LineType.Unknown,
    data := LineData.unknown args.lineText
      (Range.onRow args.row parser.textStartIndex parser.textEndIndex),
    invalid := true,
    messages :=
      [errorMessage args.editor.path
        (Range.onRow args.row keywordResult.startIndex keywordResult.endIndex)
        (utf16 "Unknown filter keyword.")
        (utf16 "http://pathofexile.gamepedia.com/Item_filter_guide")] }

/-- The end of `parseLine` for a keyword other than `Show` and `Hide`, given what the
keyword chain produced: the rule result `if (ruleType)`, else the Unknown result. -/
def finishRule (args : Args) (resultKeyword : Keyword) (keywordResult : ParseResult Text)
    (parser : LineParser)
    (outcome : Option (Category × Option (ProcessResult × LineParser × Editor))) :
    Except Fault (LineResult × Editor) :=
  match outcome with
  | some (ruleType, some (processResult, parser, editor)) =>
    Except.ok (ruleResult args resultKeyword ruleType processResult parser editor, editor)
  | some (_, none) => Except.error Fault.outOfFuel
  | none => Except.ok (unknownResult args keywordResult parser, args.editor)

/-- The function `parseLine(args)`: the line result and the editor afterwards, or
the fault that kept it from returning. -/
def parseLine (env : Env) (args : Args) : Except Fault (LineResult × Editor) :=
  match LineParser.new args.lineText with
  | Except.error e => Except.error e
  | Except.ok parser =>
    let validBases := args.itemData.bases ++ args.itemData.whitelistBases
    let validClasses := args.itemData.classes ++ args.itemData.whitelistClasses
    if parser.isCommented then
      Except.ok
        ({ type := LineType.Comment,
           data := LineData.comment parser.text
             (Range.onRow args.row parser.textStartIndex parser.textEndIndex),
           invalid := false, messages := [] }, args.editor)
    else if parser.empty then
      Except.ok ({ type := LineType.Empty, data := LineData.empty, invalid := false, messages := [] },
        args.editor)
    else
      let (keywordResult, parser) := parser.nextWord
      if !keywordResult.found || !truthyOptText keywordResult.value then
        Except.ok (unreadableResult args parser, args.editor)
      else
        let keyword := keywordResult.value.getD []
        let resultKeyword : Keyword :=
          { name := keyword,
            range := Range.onRow args.row keywordResult.startIndex keywordResult.endIndex }
        let lineInfo : LineInfo :=
          { editor := args.editor, number := args.row, file := args.editor.path, keyword := keyword }
        if keyword = utf16 "Show" ∨ keyword = utf16 "Hide" then
          let (processResult, parser) := processBlock env parser lineInfo
          Except.ok (blockResult args resultKeyword processResult parser, args.editor)
        else
          finishRule args resultKeyword keywordResult parser
            (processRule env parser lineInfo validClasses validBases keyword)

/-! ## A concrete environment, for evaluating the parser on sample lines -/

/-- JavaScript `toUpperCase()` on a string of ASCII characters. -/
def toUpperCaseAscii (t : Text) : Text := t.map fun c => if 97 ≤ c ∧ c ≤ 122 then c - 32 else c

/-- An environment for ASCII text, with the warnings setting switched on. -/
def asciiEnv : Env :=
  { toUpperCase := toUpperCaseAscii, toLowerCase := toLowerCaseAscii, enableWarnings := true }

/-- A small catalog. -/
def sampleItems : ItemData :=
  { classes := [utf16 "Life Flasks", utf16 "Bows"], bases := [utf16 "Gold Ring"],
    whitelistClasses := [utf16 "Maps"], whitelistBases := [] }

/-- The argument of `parseLine` for a line of an editor whose buffer row 0 holds it. -/
def argsFor (line : Text) : Args :=
  { lineText := line, row := 0, editor := { path := none, line := line }, itemData := sampleItems }

/-! ## The claims' own notions -/

/-- The first whitespace-delimited word of a text. -/
def firstToken (t : Text) : Text := (t.dropWhile isSpace).takeWhile fun c => !isSpace c

/-- The keywords of the rules of category `condition`. -/
def conditionKeywords : List Text :=
  [utf16 "ItemLevel", utf16 "DropLevel", utf16 "Quality", utf16 "Sockets", utf16 "Height",
   utf16 "Width", utf16 "Identified", utf16 "Corrupted", utf16 "Rarity", utf16 "LinkedSockets",
   utf16 "SocketGroup", utf16 "Class", utf16 "BaseType"]

/-- The keywords of the rules of category `action`. -/
def actionKeywords : List Text :=
  [utf16 "SetFontSize", utf16 "SetBorderColor", utf16 "SetTextColor",
   utf16 "SetBackgroundColor", utf16 "PlayAlertSound"]

/-- The category of a line result: that of its rule, if it is one. -/
def LineResult.category (r : LineResult) : Option Category :=
  match r.data with
  | LineData.rule _ _ _ category _ _ => some category
  | _ => none

/-- The kind of a line that is neither a comment nor empty, by its first word. -/
def classifyWord (w : Text) : LineType × Option Category :=
  if w = utf16 "Show" ∨ w = utf16 "Hide" then (LineType.Block, none)
  else if w ∈ conditionKeywords then (LineType.Rule, some Category.condition)
  else if w ∈ actionKeywords then (LineType.Rule, some Category.action)
  else (LineType.Unknown, none)

/-- The decision list of the classifier, in the words of the specification: a comment
if the first non-whitespace character is `#`, empty if there is none, else by the
first word. -/
def classifyLine (t : Text) : LineType × Option Category :=
  match t.dropWhile isSpace with
  | [] => (LineType.Empty, none)
  | c :: _ => if c = 35 then (LineType.Comment, none) else classifyWord (firstToken t)

/-- The kind and category `parseLine` gives a line, if it returns. -/
def kindOf (env : Env) (line : Text) : Option (LineType × Option Category) :=
  (parseLine env (argsFor line)).toOption.map fun x => (x.1.type, x.1.category)

/-- A validator result is sound when its `invalid` flag is set exactly when it holds
a message, and all its messages are errors. -/
def ProcessResult.Sound (r : ProcessResult) : Prop :=
  (r.invalid = true ↔ r.messages ≠ []) ∧ ∀ m ∈ r.messages, m.severity = Severity.error

/-- Whitespace that may stand inside a line: `\s` characters other than the two
line breaks the constructor refuses. -/
def Blank (w : Text) : Prop := ∀ c ∈ w, isSpace c = true ∧ c ≠ 10 ∧ c ≠ 13

/-- The values a line result captured: those of its rule, if it is one. -/
def LineResult.values (r : LineResult) : List RuleValue :=
  match r.data with
  | LineData.rule _ _ _ _ _ values => values
  | _ => []

/-- The operator a line result captured: that of its rule, if it is one and has one. -/
def LineResult.operator (r : LineResult) : Option Operator :=
  match r.data with
  | LineData.rule _ _ _ _ operator _ => operator
  | _ => none

/-- The numeric range rules: keyword, lower bound, upper bound, and whether an
operator may be written. -/
def rangeRules : List (Text × Int × Int × Bool) :=
  [(utf16 "ItemLevel", 0, 100, true), (utf16 "DropLevel", 0, 100, true),
   (utf16 "Quality", 0, 20, true), (utf16 "Sockets", 0, 6, true),
   (utf16 "Height", 1, 4, true), (utf16 "Width", 1, 2, true),
   (utf16 "SetFontSize", 18, 45, false)]

/-- The text of an optional operator with the whitespace that follows it. -/
def operatorPart (op : Option Text) (w : Text) : Text :=
  match op with
  | some o => o ++ w
  | none => []

/-- The range from column `a` to column `b` of a row, `a ≤ b`. -/
def columns (row a b : Int) : Range := { start := ⟨row, a⟩, end_ := ⟨row, b⟩ }

instance (w : Text) : Decidable (Blank w) := by unfold Blank; infer_instance

/-- What `nextOperator` returns for an optional operator written after the
whitespace `w1`, from column `ci` on. -/
def operatorToken (ci : Int) (w1 : Text) (op : Option Text) : ParseResult Text :=
  match op with
  | some o =>
    { found := true, startIndex := ci + w1.length, endIndex := ci + w1.length + o.length,
      value := some o }
  | none => { found := false, startIndex := 0, endIndex := 0, value := none }

/-- What `nextNumber` returns for the number token `tok` that starts at column `s`. -/
def numberToken (s : Int) (tok : Text) : ParseResult JSNum :=
  { found := true, startIndex := s, endIndex := s + tok.length, value := some (parseInt tok 10) }

/-- The byte that two hex digits denote. -/
def hexByte (a b : Nat) : Nat := 16 * (digitValue a).getD 0 + (digitValue b).getD 0

/-- The colour keywords. -/
def colorKeywords : List Text :=
  [utf16 "SetBorderColor", utf16 "SetTextColor", utf16 "SetBackgroundColor"]

/-- The text of an optional alpha channel with the space before it. -/
def alphaPart (alpha : Option Text) : Text :=
  match alpha with
  | some da => 32 :: da
  | none => []

/-- What the fourth `nextNumber` of the colour rule returns for an optional alpha
channel whose space starts at column `s`. -/
def alphaToken (s : Int) (alpha : Option Text) : ParseResult JSNum :=
  match alpha with
  | some da => numberToken (s + 1) da
  | none => { found := false, startIndex := 0, endIndex := 0, value := none }

/-- The digits of a hex colour literal: red, green and blue, two digits each, and
the two alpha digits if they are written. -/
def hexDigits (a1 a2 b1 b2 c1 c2 : Nat) (ad : Option (Nat × Nat)) : Text :=
  match ad with
  | some (d1, d2) => [a1, a2, b1, b2, c1, c2, d1, d2]
  | none => [a1, a2, b1, b2, c1, c2]

/-- Three channels and an optional fourth in decimal, separated by single spaces. -/
def decimalChannels (r g b : Nat) (a : Option Nat) : Text :=
  natToString r ++ (32 :: natToString g ++ (32 :: natToString b ++ alphaPart (a.map natToString)))

/-- The values of a colour rule whose channels `r g b [a]` are written in decimal from
column `s` on with single spaces between them: each number with its columns. -/
def channelValues (row s : Int) (r g b : Nat) (a : Option Nat) : List RuleValue :=
  let sg : Int := s + (natToString r).length + 1
  let sb : Int := sg + (natToString g).length + 1
  let sa : Int := sb + (natToString b).length + 1
  [{ value := Value.number (JSNum.ofInt r), range := columns row s (s + (natToString r).length) },
   { value := Value.number (JSNum.ofInt g), range := columns row sg (sg + (natToString g).length) },
   { value := Value.number (JSNum.ofInt b), range := columns row sb (sb + (natToString b).length) }] ++
  match a with
  | some n =>
    [{ value := Value.number (JSNum.ofInt n), range := columns row sa (sa + (natToString n).length) }]
  | none => []

/-- The result of a colour rule line `K r g b [a]` with byte channels in decimal and
single spaces: a valid action rule without diagnostics that holds the channels. -/
def colourResult (row : Int) (K : Text) (r g b : Nat) (a : Option Nat) : LineResult :=
  { type := LineType.Rule,
    data := LineData.rule { name := K, range := columns row 0 K.length }
      (columns row 0 (K.length + 1 + (decimalChannels r g b a).length)) none Category.action none
      (channelValues row (K.length + 1) r g b a),
    invalid := false, messages := [] }

/-- The keywords of the rules that permit no operator but `=`. -/
def equalityRules : List Text :=
  [utf16 "Identified", utf16 "Corrupted", utf16 "SocketGroup", utf16 "Class", utf16 "BaseType",
   utf16 "SetBorderColor", utf16 "SetTextColor", utf16 "SetBackgroundColor",
   utf16 "PlayAlertSound"]

/-- The error `expectEqualityOp` gives for an operator at the columns `s` to `e`. -/
def equalityMessage (line : LineInfo) (s e : Int) : Message :=
  errorMessage line.file (columns line.number s e)
    (utf16 "Invalid operator for \"" ++ line.keyword ++
      utf16 "\". Only the '=' operator is supported for this rule.")
    (utf16 "http://pathofexile.gamepedia.com/Item_filter")
    (some (utf16 ("Path of Exile allows an operator to appear for most rule types, however for\n" ++
      "some rules only the '=' operator is allowed. Any other operators will result in an error.")))

/-- The socket counts `LinkedSockets` admits. -/
def linkedSocketCounts : List Int := [0, 2, 3, 4, 5, 6]

/-- A string token as it is written: the value itself, or the value between double
quotes. -/
def written (quoted : Bool) (s : Text) : Text := if quoted then 34 :: s ++ [34] else s

/-- The values a string token can hold: between quotes any text without a double quote
or a line break, bare a non-empty run without whitespace, quotes, `<`, `>` or `=`. -/
def IsStringValue (quoted : Bool) (s : Text) : Prop :=
  if quoted then ∀ c ∈ s, c ≠ 34 ∧ c ≠ 10 ∧ c ≠ 13
  else s ≠ [] ∧ ∀ c ∈ s, isBareStringChar c = true

instance (quoted : Bool) (s : Text) : Decidable (IsStringValue quoted s) := by
  unfold IsStringValue; infer_instance

/-- A socket group in the words of the specification: one to six characters, each of
them R, G, B or W in either case. -/
def IsSocketGroup (s : Text) : Prop :=
  1 ≤ s.length ∧ s.length ≤ 6 ∧ ∀ c ∈ s, c ∈ utf16 "RGBWrgbw"

instance (s : Text) : Decidable (IsSocketGroup s) := by
  unfold IsSocketGroup; infer_instance

/-- The text of a run of string tokens, each with the whitespace before it. -/
def tokensText : List (Text × Bool × Text) → Text
  | [] => []
  | (ws, q, s) :: rest => ws ++ written q s ++ tokensText rest

/-- The value and the start and end column of every token of a run that starts at
column `ci`. -/
def tokenColumns : Int → List (Text × Bool × Text) → List (Text × Int × Int)
  | _, [] => []
  | ci, (ws, q, s) :: rest =>
    (s, ci + ws.length, ci + ws.length + (written q s).length) ::
      tokenColumns (ci + ws.length + (written q s).length) rest

/-- The error of `processMultiStringRule` for a value that no catalog entry holds. -/
def invalidValueMessage (line : LineInfo) (s e : Int) : Message :=
  errorMessage line.file (columns line.number s e)
    (utf16 "Invalid value for \"" ++ line.keyword ++ utf16 "\" rule.")
    (utf16 "http://pathofexile.gamepedia.com/Item_filter#Conditions")

/-- What the loop of `processMultiStringRule` does with one parsed value after another:
a value that the catalog holds is captured, any other is an error over its columns. -/
def checkValues (env : Env) (line : LineInfo) (catalog : List Text) :
    List (Text × Int × Int) → ProcessResult → ProcessResult
  | [], r => r
  | (s, a, b) :: rest, r =>
    checkValues env line catalog rest
      (if resultFound env catalog false s then
        r.pushValue (Value.string s) (columns line.number a b)
      else r.fail (invalidValueMessage line a b))

/-- A run of string tokens on one line: whitespace without line breaks stands before
every token, and every token holds a value that is not empty. -/
def WellFormedTokens (toks : List (Text × Bool × Text)) : Prop :=
  ∀ t ∈ toks, Blank t.1 ∧ t.1 ≠ [] ∧ IsStringValue t.2.1 t.2.2 ∧ t.2.2 ≠ []

instance (toks : List (Text × Bool × Text)) : Decidable (WellFormedTokens toks) := by
  unfold WellFormedTokens; infer_instance

/-- The catalog a `Class` or `BaseType` line is checked against: the known names
followed by the whitelisted ones. -/
def catalogOf (itemData : ItemData) (K : Text) : List Text :=
  if K = utf16 "Class" then itemData.classes ++ itemData.whitelistClasses
  else itemData.bases ++ itemData.whitelistBases

/-- The text of the comment `#body`, as the tokenizer reads it: from the `#` to the
last character that is not whitespace; all of it when only whitespace follows the
`#`. -/
def commentText (body : Text) : Text :=
  if textRegex body then 35 :: dropTrailingSpace body else 35 :: body

/-- A `#` comment: whitespace, a `#`, and text that holds no line terminator up to its
last character that is not whitespace. -/
def IsComment (t : Text) : Prop :=
  ∃ ws body, t = ws ++ 35 :: body ∧ (∀ c ∈ ws, isSpace c = true) ∧
    ∀ c ∈ dropTrailingSpace body, isDot c = true

/-- The trailing comment a line result captured: that of its block or rule. -/
def LineResult.trailingComment (r : LineResult) : Option TrailingComment :=
  match r.data with
  | LineData.block _ _ trailingComment => trailingComment
  | LineData.rule _ _ trailingComment _ _ _ => trailingComment
  | _ => none

/-- The warning of `processBlock` for text after `Show` or `Hide`, over the columns
`s` to `e`, with its one autofix. -/
def blockWarning (editor : Editor) (row : Int) (kw : Text) (s e : Int) : Message :=
  { location := { file := editor.path, position := columns row s e },
    severity := Severity.warning,
    excerpt := utf16 "Trailing text for a \"" ++ kw ++ utf16 "\" block will be ignored.",
    description := some (utf16 ("Path of Exile will not consider this an error, however the text will " ++
      "be completely ignored.\n\nCommenting this text with a '#' will remove this warning.")),
    url := utf16 "http://pathofexile.gamepedia.com/Item_filter",
    solutions := some
      [{ currentText := editor.getTextInBufferRange (columns row s e),
         position := columns row s e,
         replaceWith := utf16 " #" ++ editor.getTextInBufferRange (columns row s e),
         title := utf16 "Comment This Text" }] }

/-- The four action rules that tolerate a trailing comment. -/
def commentTolerant : List Text :=
  [utf16 "SetBorderColor", utf16 "SetTextColor", utf16 "SetBackgroundColor",
   utf16 "PlayAlertSound"]

/-- The autofix of the trailing-text error: the buffer text of the range is replaced
by itself prefixed with ` #`. -/
def commentOutFix (editor : Editor) (position : Range) : Fix :=
  { currentText := editor.getTextInBufferRange position, position := position,
    replaceWith := utf16 " #" ++ editor.getTextInBufferRange position,
    title := utf16 "Comment This Text" }

/-- A boolean token: `true` or `false` in any letter case, bare or between double
quotes. -/
def IsBooleanToken (tok : Text) : Prop :=
  tok.map canonicalize ∈ booleanAlternatives.map (List.map canonicalize)

instance (tok : Text) : Decidable (IsBooleanToken tok) := by
  unfold IsBooleanToken; infer_instance

/-- A number token: a non-empty run of digits and `-`. -/
def IsNumberToken (tok : Text) : Prop := tok ≠ [] ∧ ∀ c ∈ tok, isNumberChar c = true

instance (tok : Text) : Decidable (IsNumberToken tok) := by
  unfold IsNumberToken; infer_instance

/-- The error of `reportTrailingComment` for a comment that starts at column `s` of a
line that is `e` long. -/
def trailingCommentMessage (line : LineInfo) (s e : Int) : Message :=
  errorMessage line.file (columns line.number s e)
    (utf16 "A trailing comment for a \"" ++ line.keyword ++
      utf16 "\" rule will result in an error.")
    (utf16 "http://pathofexile.gamepedia.com/Item_filter")
    (some (utf16 ("Path of Exile only allows for comments to trail the following rule types:" ++
      "\n\n\tSetBorderColor\n\tSetTextColor\n\tSetBackgroundColor\n\tPlayAlertSound\n\n" ++
      "Any other rule types with a trailing comment will result in an error.")))

/-- The arguments of the condition-style rules that report a trailing comment as an
error: a number token for a range rule and for `LinkedSockets`, a string token for
`Rarity`, and for `Identified` and `Corrupted` a boolean token, before which no
operator but `=` is written. -/
def ConditionArguments (kw : Text) (op : Option Text) (tok : Text) : Prop :=
  ((∃ lo hi ope, (kw, lo, hi, ope) ∈ rangeRules) ∧ IsNumberToken tok) ∨
  (kw = utf16 "LinkedSockets" ∧ IsNumberToken tok) ∨
  (kw = utf16 "Rarity" ∧ ∃ q s, tok = written q s ∧ IsStringValue q s) ∨
  ((kw = utf16 "Identified" ∨ kw = utf16 "Corrupted") ∧ (∀ o, op = some o → o = utf16 "=") ∧
    IsBooleanToken tok)

/-- The text of a run of number tokens, each with the whitespace before it. -/
def numbersText : List (Text × Text) → Text
  | [] => []
  | (w, t) :: rest => w ++ t ++ numbersText rest

/-- A number token that `parseInt` reads as an integer between `lo` and `hi`. -/
def NumberIn (lo hi : Int) (tok : Text) : Prop :=
  IsNumberToken tok ∧ ∃ n : Int, parseInt tok 10 = JSNum.ofInt n ∧ lo ≤ n ∧ n ≤ hi

/-- Valid arguments of a comment-tolerant action, the first token and then the
further ones with the whitespace before each: three or four channels in 0..255 for a
colour rule; for `PlayAlertSound` an id in 1..9 and, if it is written, a volume in
0..300. -/
def TolerantArguments (kw tok1 : Text) (more : List (Text × Text)) : Prop :=
  (∀ x ∈ more, Blank x.1 ∧ x.1 ≠ []) ∧
  ((kw ∈ colorKeywords ∧ (more.length = 2 ∨ more.length = 3) ∧ NumberIn 0 255 tok1 ∧
      ∀ x ∈ more, NumberIn 0 255 x.2) ∨
   (kw = utf16 "PlayAlertSound" ∧ more.length ≤ 1 ∧ NumberIn 1 9 tok1 ∧
      ∀ x ∈ more, NumberIn 0 300 x.2))

/-- The seven extractors of `LineParser`. -/
inductive Extractor where
  | number
  | boolean
  | operator
  | word
  | string
  | hex
  | comment
  deriving DecidableEq, Repr

/-- The regex an extractor hands to `parseSingleValue`. -/
def Extractor.regex : Extractor → TokenRegex
  | .number => numberRegex
  | .boolean => booleanRegex
  | .operator => operatorRegex
  | .word => wordRegex
  | .string => stringRegex
  | .hex => colorHexRegex
  | .comment => commentRegex

/-- What every extractor returns besides a value: the `found` flag and the columns of
the token. -/
structure Span where
  found : Bool
  startIndex : Int
  endIndex : Int
  deriving DecidableEq, Repr

/-- The flag and the columns of what an extractor returned. -/
def ParseResult.span {α : Type} (r : ParseResult α) : Span :=
  { found := r.found, startIndex := r.startIndex, endIndex := r.endIndex }

/-- A call of an extractor: the flag and columns it returns, and the parser
afterwards. -/
def LineParser.extract (p : LineParser) : Extractor → Span × LineParser
  | .number => ((p.nextNumber).1.span, (p.nextNumber).2)
  | .boolean => ((p.nextBoolean).1.span, (p.nextBoolean).2)
  | .operator => ((p.nextOperator).1.span, (p.nextOperator).2)
  | .word => ((p.nextWord).1.span, (p.nextWord).2)
  | .string => ((p.nextString).1.span, (p.nextString).2)
  | .hex => ((p.nextHex).1.span, (p.nextHex).2)
  | .comment => ((p.parseComment).1.span, (p.parseComment).2)

/-- A sequence of extractor calls: what each returned, in order, and the parser after
the last. -/
def LineParser.run (p : LineParser) : List Extractor → List Span × LineParser
  | [] => ([], p)
  | e :: es => ((p.extract e).1 :: ((p.extract e).2.run es).1, ((p.extract e).2.run es).2)

/-- The text of a line between two columns. -/
def slice (line : Text) (s e : Int) : Text := (line.drop s.toNat).take (e.toNat - s.toNat)

/-- The rule keywords: those of the conditions and those of the actions. -/
def ruleKeywords : List Text := conditionKeywords ++ actionKeywords

/-- The error of `parseLine` for a first word, at the columns `s` to `e`, that is no
keyword. -/
def unknownKeywordMessage (file : Option Text) (row s e : Int) : Message :=
  errorMessage file (columns row s e) (utf16 "Unknown filter keyword.")
    (utf16 "http://pathofexile.gamepedia.com/Item_filter_guide")

/-- The values of `Rarity`. -/
def rarities : List Text := [utf16 "Normal", utf16 "Magic", utf16 "Rare", utf16 "Unique"]

/-- A rarity, letter case ignored: a text that is not empty and equals one of the four
values once both are put in lower case. -/
def IsRarity (env : Env) (s : Text) : Prop :=
  s ≠ [] ∧ ∃ v ∈ rarities, env.toLowerCase s = env.toLowerCase v

instance (env : Env) (s : Text) : Decidable (IsRarity env s) := by
  unfold IsRarity; infer_instance

/-- A whitespace-delimited token: a non-empty run of characters that are not
whitespace. -/
def IsToken (tok : Text) : Prop := tok ≠ [] ∧ ∀ c ∈ tok, isSpace c = false

instance (tok : Text) : Decidable (IsToken tok) := by
  unfold IsToken; infer_instance

/-- The boolean a boolean token stands for: true for `true` and `"true"` in any
letter case, false for the others. -/
def booleanOf (tok : Text) : Bool :=
  decide (tok.map canonicalize ∈
    [(utf16 "\"true\"").map canonicalize, (utf16 "true").map canonicalize])

/-- An integer literal: an optional `-` and decimal digits. -/
def integerLiteral (negative : Bool) (digits : Text) : Text :=
  if negative then 45 :: digits else digits

/-- The natural number that decimal digits denote. -/
def decimalValue (digits : Text) : Nat := digits.foldl (fun acc c => acc * 10 + (c - 48)) 0

/-- The integer that an integer literal denotes. -/
def literalValue (negative : Bool) (digits : Text) : Int :=
  if negative then -(decimalValue digits : Int) else (decimalValue digits : Int)

/-- The bytes that the hex digits of a colour literal denote, two digits each. -/
def hexPairs : Text → List Nat
  | a :: b :: rest => hexByte a b :: hexPairs rest
  | _ => []

/-- The decimal expansion of a hex colour literal `#RRGGBB` or `#RRGGBBAA`: its bytes in
decimal, separated by single spaces. -/
def decimalExpansion (v : Text) : Text :=
  [32].intercalate ((hexPairs v.tail).map natToString)

/-- Whether a channel token is read as a number outside 0..255. -/
def outside255 (tok : Text) : Bool :=
  match parseInt tok 10 with
  | JSNum.ofInt n => decide (n < 0 ∨ 255 < n)
  | JSNum.NaN => false

/-- The tokens of a run of number tokens that starts at column `s`, each with the
whitespace before it, each with its start and end columns. -/
def numberColumns : Int → List (Text × Text) → List (Text × Int × Int)
  | _, [] => []
  | s, (w, t) :: rest =>
    (t, s + w.length, s + w.length + t.length) :: numberColumns (s + w.length + t.length) rest

/-- The out-of-range error of the colour validator over the columns `s` to `e`. -/
def channelMessage (file : Option Text) (row : Int) (keyword : Text) (s e : Int) : Message :=
  errorMessage file (columns row s e)
    (utf16 "Invalid value for rule \"" ++ keyword ++ utf16 "\". Expected 0-255.")
    (utf16 "http://pathofexile.gamepedia.com/Item_filter#Actions")

/-- Valid arguments of a rule that permits only `=`, as they are written: a boolean
token for `Identified` and `Corrupted`; one string token that is a socket group for
`SocketGroup`; one or more string tokens, each found in the keyword's catalog, for
`Class` and `BaseType`; three or four channels in 0..255 for a colour; an id in 1..9
and, if it is written, a volume in 0..300 for `PlayAlertSound`. -/
def EqualityArguments (env : Env) (itemData : ItemData) (K a : Text) : Prop :=
  ((K = utf16 "Identified" ∨ K = utf16 "Corrupted") ∧ IsBooleanToken a) ∨
  (K = utf16 "SocketGroup" ∧ ∃ q s, a = written q s ∧ IsStringValue q s ∧ IsSocketGroup s) ∨
  ((K = utf16 "Class" ∨ K = utf16 "BaseType") ∧
    ∃ q s more, a = written q s ++ tokensText more ∧ IsStringValue q s ∧ s ≠ [] ∧
      WellFormedTokens more ∧
      ∀ t ∈ s :: more.map (fun t => t.2.2),
        resultFound env (catalogOf itemData K) false t = true) ∨
  (∃ tok1 more, a = tok1 ++ numbersText more ∧ TolerantArguments K tok1 more)

/-- A parser in step with a buffer row: its remaining text is the row from its consumed
offset on, up to the whitespace `sp` that ends the row; the offset is at least `lo`;
`originalLength` is the row's length and `textEndIndex` the column after the row's last
character that is not whitespace; and a parser that is not flagged empty has text
other than whitespace left. -/
def LineParser.InStep (p : LineParser) (row sp : Text) (lo : Int) : Prop :=
  (∃ pre, row = pre ++ p.text ++ sp ∧ p.currentIndex = pre.length) ∧
  (∀ c ∈ sp, isSpace c = true) ∧ lo ≤ p.currentIndex ∧
  p.originalLength = row.length ∧ p.textEndIndex = (dropTrailingSpace row).length ∧
  (p.empty = false → textRegex p.text = true)

/-! ## Properties -/

theorem classToken_some {p : Nat → Bool} {t ws v : Text} (h : classToken p t = some (ws, v)) :
    v ≠ [] ∧ t ≠ [] := by
  unfold classToken at h
  simp only [] at h
  split at h
  · rename_i hc
    simp only [Option.some.injEq, Prod.mk.injEq] at h
    obtain ⟨-, rfl⟩ := h
    simp only [Bool.and_eq_true, Bool.not_eq_true', List.isEmpty_eq_false] at hc
    refine ⟨?_, ?_⟩
    · intro h0; simp [h0] at hc
    · rintro rfl; simp at hc
  · simp at h

theorem stringRegex_some {t ws v : Text} (h : stringRegex t = some (ws, v)) :
    v ≠ [] ∧ t ≠ [] := by
  unfold stringRegex at h
  simp only [] at h
  split at h
  · rename_i r hr
    split at h
    · split at h
      · simp only [Option.some.injEq, Prod.mk.injEq] at h
        obtain ⟨-, rfl⟩ := h
        refine ⟨by simp, ?_⟩
        rintro rfl; simp at hr
      · simp at h
    · simp at h
  · exact classToken_some h

theorem parseSingleValue_found_shrinks (p : LineParser) (regex : TokenRegex)
    (hre : ∀ ws v, regex p.text = some (ws, v) → v ≠ [] ∧ p.text ≠ [])
    (h : (p.parseSingleValue regex).1.found = true) :
    (p.parseSingleValue regex).2.text.length < p.text.length := by
  unfold LineParser.parseSingleValue at h ⊢
  cases hr : regex p.text with
  | none => simp [hr] at h
  | some wv =>
    obtain ⟨ws, v⟩ := wv
    obtain ⟨hv, ht⟩ := hre ws v hr
    have h1 : 0 < v.length := List.length_pos.mpr hv
    have h2 : 0 < p.text.length := List.length_pos.mpr ht
    simp only [List.length_drop]
    omega

theorem nextString_found (p : LineParser) :
    (p.nextString).1.found = (p.parseSingleValue stringRegex).1.found ∧
    (p.nextString).2 = (p.parseSingleValue stringRegex).2 := by
  unfold LineParser.nextString
  simp only []
  split
  · split <;> simp
  · simp

theorem nextString_found_shrinks (p : LineParser) (h : (p.nextString).1.found = true) :
    (p.nextString).2.text.length < p.text.length := by
  rw [(nextString_found p).1] at h
  rw [(nextString_found p).2]
  exact parseSingleValue_found_shrinks p stringRegex (fun ws v hr => stringRegex_some hr) h

theorem processMultiStringLoop_total (env : Env) (line : LineInfo) (expectedValues : List Text)
    (caseSensitive : Bool) :
    ∀ (fuel : Nat) (parser : LineParser) (result : ProcessResult),
      parser.text.length < fuel →
      ∃ r, processMultiStringLoop env line expectedValues caseSensitive fuel parser result = some r := by
  intro fuel
  induction fuel with
  | zero => intro parser result h; omega
  | succ n ih =>
    intro parser result h
    unfold processMultiStringLoop
    simp only []
    split
    · exact ⟨_, rfl⟩
    · split
      · exact ⟨_, rfl⟩
      · rename_i h1 h2
        have hf : (parser.nextString).1.found = true := by
          simp only [Bool.or_eq_true, Bool.not_eq_true', not_or, Bool.not_eq_false] at h2
          exact h2.1
        have hs := nextString_found_shrinks parser hf
        split
        · apply ih; omega
        · apply ih; omega

theorem sound_empty : ProcessResult.Sound {} := by
  simp [ProcessResult.Sound]

@[simp] theorem errorMessage_severity (f : Option Text) (p : Range) (e u : Text)
    (d : Option Text) (s : Option (List Fix)) :
    (errorMessage f p e u d s).severity = Severity.error := rfl

theorem sound_fail {r : ProcessResult} {m : Message} (h : r.Sound)
    (hm : m.severity = Severity.error) : (r.fail m).Sound := by
  refine ⟨by simp [ProcessResult.fail], ?_⟩
  intro x hx
  simp only [ProcessResult.fail, List.mem_append, List.mem_singleton] at hx
  rcases hx with hx | rfl
  · exact h.2 x hx
  · exact hm

theorem sound_of_eq {r r' : ProcessResult} (h : r.Sound) (h1 : r'.messages = r.messages)
    (h2 : r'.invalid = r.invalid) : r'.Sound := by
  unfold ProcessResult.Sound at *
  rw [h1, h2]; exact h

theorem sound_pushValue {r : ProcessResult} (h : r.Sound) (v : Value) (rg : Range) :
    (r.pushValue v rg).Sound := sound_of_eq h rfl rfl

theorem sound_captureOperator {r : ProcessResult} (h : r.Sound) (line : LineInfo)
    (op : ParseResult Text) : (captureOperator line op r).Sound := by
  unfold captureOperator
  split
  · split
    · exact sound_of_eq h rfl rfl
    · exact h
  · exact h

theorem expectEqualityOp_severity {parser : LineParser} {line : LineInfo} {m : Message}
    (h : (expectEqualityOp parser line).1 = some m) : m.severity = Severity.error := by
  unfold expectEqualityOp at h
  simp only [] at h
  split at h
  · simp only [Option.some.injEq] at h
    rw [← h]; rfl
  · simp at h

theorem sound_reportTrailingComment {r : ProcessResult} (h : r.Sound) (parser : LineParser)
    (line : LineInfo) : (reportTrailingComment parser line r).1.Sound := by
  unfold reportTrailingComment
  split
  · exact sound_fail h rfl
  · exact h

theorem sound_captureTrailingComment {r : ProcessResult} (h : r.Sound) (parser : LineParser)
    (line : LineInfo) : (captureTrailingComment parser line r).1.Sound := by
  unfold captureTrailingComment
  split
  · simp only []
    split
    · exact sound_of_eq h rfl rfl
    · exact h
  · exact h

theorem sound_checkRangeOperator {r : ProcessResult} (h : r.Sound) (line : LineInfo)
    (hasOperator : Bool) (operator : ParseResult Text) :
    (checkRangeOperator line hasOperator operator r).Sound := by
  unfold checkRangeOperator
  split
  · exact sound_captureOperator h _ _
  · split
    · exact sound_fail h rfl
    · exact h

theorem sound_checkRangeNumber {r : ProcessResult} (h : r.Sound) (parser : LineParser)
    (line : LineInfo) (min max : Int) (hasOperator : Bool) (retVal : ParseResult JSNum) :
    (checkRangeNumber parser line min max hasOperator retVal r).Sound := by
  unfold checkRangeNumber
  split
  · exact sound_fail h rfl
  · simp only []
    split
    · exact sound_of_eq h rfl rfl
    · exact sound_fail h rfl

theorem sound_processRangeRule (parser : LineParser) (line : LineInfo) (min max : Int)
    (hasOperator : Bool) : (processRangeRule parser line min max hasOperator).1.Sound := by
  unfold processRangeRule
  simp only []
  exact sound_reportTrailingComment
    (sound_checkRangeNumber (sound_checkRangeOperator sound_empty _ _ _) _ _ _ _ _ _) _ _

theorem sound_processOpNumberRule (parser : LineParser) (line : LineInfo) (values : List Int) :
    (processOpNumberRule parser line values).1.Sound := by
  unfold processOpNumberRule
  simp only []
  have h1 := sound_captureOperator sound_empty line (parser.nextOperator).1
  split
  · exact sound_fail h1 rfl
  · apply sound_reportTrailingComment
    split
    · exact sound_pushValue h1 _ _
    · exact sound_fail h1 rfl

theorem sound_processStringRule (env : Env) (parser : LineParser) (line : LineInfo)
    (expectedValues : List Text) (caseSensitive : Bool) :
    (processStringRule env parser line expectedValues caseSensitive).1.Sound := by
  unfold processStringRule
  simp only []
  have h1 := sound_captureOperator sound_empty line (parser.nextOperator).1
  split
  · exact sound_fail h1 rfl
  · apply sound_reportTrailingComment
    split
    · exact sound_pushValue h1 _ _
    · exact sound_fail h1 rfl

theorem sound_processBooleanRule (parser : LineParser) (line : LineInfo) :
    (processBooleanRule parser line).1.Sound := by
  unfold processBooleanRule
  simp only []
  split
  · rename_i m hm
    exact sound_fail sound_empty (expectEqualityOp_severity hm)
  · apply sound_reportTrailingComment
    split
    · exact sound_fail sound_empty rfl
    · exact sound_of_eq sound_empty rfl rfl

theorem sound_processSocketGroup (parser : LineParser) (line : LineInfo) :
    (processSocketGroup parser line).1.Sound := by
  unfold processSocketGroup
  simp only []
  split
  · rename_i m hm
    exact sound_fail sound_empty (expectEqualityOp_severity hm)
  · split
    · exact sound_fail sound_empty rfl
    · split
      · exact sound_pushValue sound_empty _ _
      · exact sound_fail sound_empty rfl

theorem sound_checkChannels {r : ProcessResult} (h : r.Sound) (line : LineInfo)
    (red green blue alpha : ParseResult JSNum) :
    (checkChannels line red green blue alpha r).Sound := by
  unfold checkChannels
  simp only []
  split
  · exact sound_fail h rfl
  · split
    · exact sound_fail h rfl
    · split
      · exact sound_fail h rfl
      · split
        · exact sound_fail h rfl
        · split
          · exact sound_of_eq h rfl rfl
          · exact sound_of_eq h rfl rfl

theorem sound_processRGBARule (parser : LineParser) (line : LineInfo) :
    (processRGBARule parser line).1.Sound := by
  unfold processRGBARule
  simp only []
  split
  · rename_i m hm
    exact sound_fail sound_empty (expectEqualityOp_severity hm)
  · split
    · dsimp only
      exact sound_fail sound_empty rfl
    · dsimp only
      exact sound_captureTrailingComment (sound_checkChannels sound_empty _ _ _ _ _) _ _

theorem sound_checkAlertSound {r : ProcessResult} (h : r.Sound) (line : LineInfo)
    (retVal optVal : ParseResult JSNum) : (checkAlertSound line retVal optVal r).Sound := by
  have h1 : (checkSoundId line retVal r).Sound := by
    unfold checkSoundId
    simp only []
    split
    · exact sound_fail h rfl
    · exact h
  have h2 : (checkVolume line optVal (checkSoundId line retVal r)).Sound := by
    unfold checkVolume
    split
    · split
      · exact sound_fail h1 rfl
      · exact h1
    · exact h1
  unfold checkAlertSound captureAlertSound
  simp only []
  split
  · split
    · split
      · exact sound_of_eq h2 rfl rfl
      · exact sound_of_eq h2 rfl rfl
    · exact sound_of_eq h2 rfl rfl
  · exact h2

theorem sound_processAlertSoundRule (parser : LineParser) (line : LineInfo) :
    (processAlertSoundRule parser line).1.Sound := by
  unfold processAlertSoundRule
  simp only []
  split
  · rename_i m hm
    exact sound_fail sound_empty (expectEqualityOp_severity hm)
  · split
    · exact sound_fail sound_empty rfl
    · exact sound_captureTrailingComment (sound_checkAlertSound sound_empty _ _ _) _ _

theorem sound_processMultiStringLoop (env : Env) (line : LineInfo) (expectedValues : List Text)
    (caseSensitive : Bool) :
    ∀ (fuel : Nat) (parser : LineParser) (result : ProcessResult) (r : ProcessResult × LineParser),
      result.Sound →
      processMultiStringLoop env line expectedValues caseSensitive fuel parser result = some r →
      r.1.Sound := by
  intro fuel
  induction fuel with
  | zero => intro parser result r _ h; simp [processMultiStringLoop] at h
  | succ n ih =>
    intro parser result r hs h
    unfold processMultiStringLoop at h
    simp only [] at h
    split at h
    · simp only [Option.some.injEq] at h
      rw [← h]; exact sound_fail hs rfl
    · split at h
      · simp only [Option.some.injEq] at h
        rw [← h]; exact hs
      · split at h
        · exact ih _ _ _ (sound_pushValue hs _ _) h
        · exact ih _ _ _ (sound_fail hs rfl) h

theorem sound_processMultiStringRule (env : Env) (parser : LineParser) (line : LineInfo)
    (expectedValues : List Text) (caseSensitive : Bool) (r : ProcessResult × LineParser)
    (h : processMultiStringRule env parser line expectedValues caseSensitive = some r) :
    r.1.Sound := by
  unfold processMultiStringRule at h
  simp only [] at h
  split at h
  · rename_i m hm
    simp only [Option.some.injEq] at h
    rw [← h]
    exact sound_fail sound_empty (expectEqualityOp_severity hm)
  · exact sound_processMultiStringLoop env line expectedValues caseSensitive _ _ _ _ sound_empty h

theorem processMultiStringRule_total (env : Env) (parser : LineParser) (line : LineInfo)
    (expectedValues : List Text) (caseSensitive : Bool) :
    ∃ r, processMultiStringRule env parser line expectedValues caseSensitive = some r := by
  unfold processMultiStringRule
  simp only []
  split
  · exact ⟨_, rfl⟩
  · exact processMultiStringLoop_total env line expectedValues caseSensitive _ _ _ (by omega)

theorem processBlock_warnings (env : Env) (parser : LineParser) (line : LineInfo) :
    (processBlock env parser line).1.invalid = false ∧
    ∀ m ∈ (processBlock env parser line).1.messages, m.severity = Severity.warning := by
  unfold processBlock
  simp only []
  split
  · split <;> simp
  · split
    · split <;> simp
    · simp

theorem processRule_sound (env : Env) (parser : LineParser) (lineInfo : LineInfo)
    (validClasses validBases : List Text) (keyword : Text) (ruleType : Category)
    (x : Option (ProcessResult × LineParser × Editor))
    (h : processRule env parser lineInfo validClasses validBases keyword = some (ruleType, x)) :
    ∃ r, x = some r ∧ r.1.Sound := by
  unfold processRule at h
  by_cases h0 : keyword = utf16 "ItemLevel" ∨ keyword = utf16 "DropLevel"
  · rw [if_pos h0] at h
    simp only [Option.some.injEq, Prod.mk.injEq, plainRule] at h
    obtain ⟨-, rfl⟩ := h
    exact ⟨_, rfl, sound_processRangeRule _ _ _ _ _⟩
  rw [if_neg h0] at h
  by_cases h1 : keyword = utf16 "Quality"
  · rw [if_pos h1] at h
    simp only [Option.some.injEq, Prod.mk.injEq, plainRule] at h
    obtain ⟨-, rfl⟩ := h
    exact ⟨_, rfl, sound_processRangeRule _ _ _ _ _⟩
  rw [if_neg h1] at h
  by_cases h2 : keyword = utf16 "Sockets"
  · rw [if_pos h2] at h
    simp only [Option.some.injEq, Prod.mk.injEq, plainRule] at h
    obtain ⟨-, rfl⟩ := h
    exact ⟨_, rfl, sound_processRangeRule _ _ _ _ _⟩
  rw [if_neg h2] at h
  by_cases h3 : keyword = utf16 "Height"
  · rw [if_pos h3] at h
    simp only [Option.some.injEq, Prod.mk.injEq, plainRule] at h
    obtain ⟨-, rfl⟩ := h
    exact ⟨_, rfl, sound_processRangeRule _ _ _ _ _⟩
  rw [if_neg h3] at h
  by_cases h4 : keyword = utf16 "Width"
  · rw [if_pos h4] at h
    simp only [Option.some.injEq, Prod.mk.injEq, plainRule] at h
    obtain ⟨-, rfl⟩ := h
    exact ⟨_, rfl, sound_processRangeRule _ _ _ _ _⟩
  rw [if_neg h4] at h
  by_cases h5 : keyword = utf16 "Identified" ∨ keyword = utf16 "Corrupted"
  · rw [if_pos h5] at h
    simp only [Option.some.injEq, Prod.mk.injEq, plainRule] at h
    obtain ⟨-, rfl⟩ := h
    exact ⟨_, rfl, sound_processBooleanRule _ _⟩
  rw [if_neg h5] at h
  by_cases h6 : keyword = utf16 "Rarity"
  · rw [if_pos h6] at h
    simp only [Option.some.injEq, Prod.mk.injEq, plainRule] at h
    obtain ⟨-, rfl⟩ := h
    exact ⟨_, rfl, sound_processStringRule _ _ _ _ _⟩
  rw [if_neg h6] at h
  by_cases h7 : keyword = utf16 "LinkedSockets"
  · rw [if_pos h7] at h
    simp only [Option.some.injEq, Prod.mk.injEq, plainRule] at h
    obtain ⟨-, rfl⟩ := h
    exact ⟨_, rfl, sound_processOpNumberRule _ _ _⟩
  rw [if_neg h7] at h
  by_cases h8 : keyword = utf16 "SocketGroup"
  · rw [if_pos h8] at h
    simp only [Option.some.injEq, Prod.mk.injEq, plainRule] at h
    obtain ⟨-, rfl⟩ := h
    exact ⟨_, rfl, sound_processSocketGroup _ _⟩
  rw [if_neg h8] at h
  by_cases h9 : keyword = utf16 "Class"
  · rw [if_pos h9] at h
    simp only [Option.some.injEq, Prod.mk.injEq, plainRule] at h
    obtain ⟨-, rfl⟩ := h
    obtain ⟨r, hr⟩ := processMultiStringRule_total env parser lineInfo validClasses false
    rw [hr]
    exact ⟨_, rfl, sound_processMultiStringRule _ _ _ _ _ _ hr⟩
  rw [if_neg h9] at h
  by_cases h10 : keyword = utf16 "BaseType"
  · rw [if_pos h10] at h
    simp only [Option.some.injEq, Prod.mk.injEq, plainRule] at h
    obtain ⟨-, rfl⟩ := h
    obtain ⟨r, hr⟩ := processMultiStringRule_total env parser lineInfo validBases false
    rw [hr]
    exact ⟨_, rfl, sound_processMultiStringRule _ _ _ _ _ _ hr⟩
  rw [if_neg h10] at h
  by_cases h11 : keyword = utf16 "SetFontSize"
  · rw [if_pos h11] at h
    simp only [Option.some.injEq, Prod.mk.injEq, plainRule] at h
    obtain ⟨-, rfl⟩ := h
    exact ⟨_, rfl, sound_processRangeRule _ _ _ _ _⟩
  rw [if_neg h11] at h
  by_cases h12 : keyword = utf16 "SetBorderColor" ∨ keyword = utf16 "SetTextColor" ∨
      keyword = utf16 "SetBackgroundColor"
  · rw [if_pos h12] at h
    simp only [Option.some.injEq, Prod.mk.injEq, plainRule] at h
    obtain ⟨-, rfl⟩ := h
    exact ⟨_, rfl, sound_processRGBARule _ _⟩
  rw [if_neg h12] at h
  by_cases h13 : keyword = utf16 "PlayAlertSound"
  · rw [if_pos h13] at h
    simp only [Option.some.injEq, Prod.mk.injEq, plainRule] at h
    obtain ⟨-, rfl⟩ := h
    exact ⟨_, rfl, sound_processAlertSoundRule _ _⟩
  rw [if_neg h13] at h
  cases h

theorem LineParser.new_eq (text : Text) :
    (eolRegex text = true ∧ LineParser.new text = Except.error Fault.multipleLines) ∨
    (eolRegex text = false ∧ ∃ p, LineParser.new text = Except.ok p) := by
  unfold LineParser.new
  cases h : eolRegex text
  · right
    refine ⟨rfl, ?_⟩
    simp only [Bool.false_eq_true, if_false]
    split
    · exact ⟨_, rfl⟩
    · exact ⟨_, rfl⟩
  · left
    simp

theorem blockResult_valid (env : Env) (args : Args) (kw : Keyword) (parser : LineParser)
    (line : LineInfo) :
    let r := blockResult args kw (processBlock env parser line).1 (processBlock env parser line).2
    r.invalid = false ∧ ∀ m ∈ r.messages, m.severity = Severity.warning := by
  obtain ⟨h1, h2⟩ := processBlock_warnings env parser line
  simp only [blockResult, mergeMessages]
  split
  · simp only [Bool.not_false, if_true, List.nil_append]
    exact ⟨h1, h2⟩
  · simp

theorem ruleResult_invalid_iff (args : Args) (kw : Keyword) (ruleType : Category)
    (processResult : ProcessResult) (parser : LineParser) (editor : Editor)
    (hs : processResult.Sound) :
    (ruleResult args kw ruleType processResult parser editor).invalid = true ↔
      ∃ m ∈ (ruleResult args kw ruleType processResult parser editor).messages,
        m.severity = Severity.error := by
  obtain ⟨h1, h2⟩ := hs
  simp only [ruleResult, mergeMessages, trailingText]
  by_cases hm : processResult.messages = []
  · have hi : processResult.invalid = false := by
      cases hp : processResult.invalid
      · rfl
      · exact absurd hm (h1.mp hp)
    simp only [hm, hi, List.length_nil, gt_iff_lt, lt_self_iff_false, if_false, Bool.not_false,
      Bool.true_and]
    split
    · simp
    · simp
  · have hi : processResult.invalid = true := h1.mpr hm
    have hl : processResult.messages.length > 0 := List.length_pos.mpr hm
    simp only [hi, hl, if_true, Bool.not_true, Bool.false_and, Bool.false_eq_true, if_false,
      List.nil_append, Bool.not_false]
    obtain ⟨m, hmem⟩ := List.exists_mem_of_ne_nil _ hm
    exact ⟨fun _ => ⟨m, hmem, h2 m hmem⟩, fun _ => trivial⟩

theorem parseLine_returns (env : Env) (args : Args) (h : eolRegex args.lineText = false) :
    ∃ r ed, parseLine env args = Except.ok (r, ed) ∧
      (r.invalid = true ↔ ∃ m ∈ r.messages, m.severity = Severity.error) := by
  rcases LineParser.new_eq args.lineText with ⟨h1, -⟩ | ⟨-, p, hp⟩
  · rw [h] at h1; cases h1
  unfold parseLine
  rw [hp]
  simp only []
  split
  · exact ⟨_, _, rfl, by simp⟩
  · split
    · exact ⟨_, _, rfl, by simp⟩
    · split
      · refine ⟨_, _, rfl, ?_⟩
        simp [unreadableResult]
      · split
        · refine ⟨_, _, rfl, ?_⟩
          obtain ⟨h1, h2⟩ := blockResult_valid env args _ (p.nextWord).2 _
          rw [h1]
          constructor
          · intro hc; cases hc
          · rintro ⟨m, hm, hs⟩
            rw [h2 m hm] at hs; cases hs
        · unfold finishRule
          split
          · rename_i ruleType processResult parser editor heq
            obtain ⟨r, hr, hs⟩ := processRule_sound _ _ _ _ _ _ _ _ heq
            cases hr
            exact ⟨_, _, rfl, ruleResult_invalid_iff _ _ _ _ _ _ hs⟩
          · rename_i cat heq
            obtain ⟨r, hr, -⟩ := processRule_sound _ _ _ _ _ _ _ _ heq
            cases hr
          · refine ⟨_, _, rfl, ?_⟩
            simp [unknownResult]

theorem eolRegex_false_iff (t : Text) : eolRegex t = false ↔ ∀ c ∈ t, c ≠ 13 ∧ c ≠ 10 := by
  unfold eolRegex
  rw [List.any_eq_false]
  constructor
  · intro h c hc
    have := h c hc
    simpa using this
  · intro h c hc
    have := h c hc
    simpa using this

theorem eolRegex_true_iff (t : Text) : eolRegex t = true ↔ ∃ c ∈ t, c = 13 ∨ c = 10 := by
  unfold eolRegex
  rw [List.any_eq_true]
  simp

/-- C1. For every single-line text (no carriage return or line feed), catalog and
warnings setting, `parseLine` returns a result whose `invalid` flag is set if and
only if one of its diagnostics has severity `error`; in particular a result all of
whose diagnostics are warnings is not invalid. -/
theorem parseLine_invalid_iff_error (env : Env) (args : Args)
    (h : ∀ c ∈ args.lineText, c ≠ 13 ∧ c ≠ 10) :
    ∃ r ed, parseLine env args = Except.ok (r, ed) ∧
      (r.invalid = true ↔ ∃ m ∈ r.messages, m.severity = Severity.error) ∧
      ((∀ m ∈ r.messages, m.severity = Severity.warning) → r.invalid = false) := by
  obtain ⟨r, ed, h1, h2⟩ := parseLine_returns env args ((eolRegex_false_iff _).mpr h)
  refine ⟨r, ed, h1, h2, ?_⟩
  intro hw
  cases hi : r.invalid
  · rfl
  · obtain ⟨m, hm, hs⟩ := h2.mp hi
    rw [hw m hm] at hs
    cases hs

/-- C1, at the line `Show junk` with warnings on: the hypothesis holds, and the result
carries one warning and is not invalid. -/
theorem parseLine_invalid_iff_error_witness :
    (∀ c ∈ (argsFor (utf16 "Show junk")).lineText, c ≠ 13 ∧ c ≠ 10) ∧
    (∃ r ed, parseLine asciiEnv (argsFor (utf16 "Show junk")) = Except.ok (r, ed) ∧
      (r.invalid = true ↔ ∃ m ∈ r.messages, m.severity = Severity.error) ∧
      ((∀ m ∈ r.messages, m.severity = Severity.warning) → r.invalid = false)) ∧
    (parseLine asciiEnv (argsFor (utf16 "Show junk"))).toOption.map
      (fun x => (x.1.invalid, x.1.messages.map (fun m => m.severity))) =
      some (false, [Severity.warning]) :=
  ⟨by decide, parseLine_invalid_iff_error asciiEnv (argsFor (utf16 "Show junk")) (by decide),
   by decide⟩

/-- C2. `parseLine` fails, and the `LineParser` constructor with it, exactly when the
line text holds a carriage return or a line feed, and the failure is the
constructor's `Error`; on every other text `parseLine` returns a line result, of
one of the five kinds, that carries an error diagnostic whenever it is invalid. -/
theorem parseLine_fault_iff_line_break (env : Env) (args : Args) :
    (parseLine env args = Except.error Fault.multipleLines ↔
      ∃ c ∈ args.lineText, c = 13 ∨ c = 10) ∧
    (LineParser.new args.lineText = Except.error Fault.multipleLines ↔
      ∃ c ∈ args.lineText, c = 13 ∨ c = 10) ∧
    (parseLine env args = Except.error Fault.multipleLines ∨
      ∃ r ed, parseLine env args = Except.ok (r, ed) ∧
        r.type ∈ [LineType.Comment, LineType.Empty, LineType.Block, LineType.Rule,
          LineType.Unknown] ∧
        (r.invalid = true → ∃ m ∈ r.messages, m.severity = Severity.error)) := by
  rcases LineParser.new_eq args.lineText with ⟨h1, h2⟩ | ⟨h1, p, hp⟩
  · have hpl : parseLine env args = Except.error Fault.multipleLines := by
      unfold parseLine; rw [h2]
    have he := (eolRegex_true_iff _).mp h1
    exact ⟨⟨fun _ => he, fun _ => hpl⟩, ⟨fun _ => he, fun _ => h2⟩, Or.inl hpl⟩
  · obtain ⟨r, ed, hr, hi⟩ := parseLine_returns env args h1
    have hne : ¬ ∃ c ∈ args.lineText, c = 13 ∨ c = 10 := by
      rw [← eolRegex_true_iff, h1]; simp
    refine ⟨⟨fun h => ?_, fun h => absurd h hne⟩, ⟨fun h => ?_, fun h => absurd h hne⟩,
      Or.inr ⟨r, ed, hr, ?_, hi.mp⟩⟩
    · rw [hr] at h; cases h
    · rw [hp] at h; cases h
    · cases r.type <;> simp

theorem isWordChar_not_space {c : Nat} (h : isWordChar c = true) : isSpace c = false := by
  simp only [isWordChar, Bool.or_eq_true, Bool.and_eq_true, decide_eq_true_eq, beq_iff_eq] at h
  simp only [isSpace, Bool.or_eq_false_iff, Bool.and_eq_false_imp, decide_eq_true_eq,
    decide_eq_false_iff_not, beq_eq_false_iff_ne, ne_eq]
  omega

theorem textRegex_false_iff (t : Text) : textRegex t = false ↔ t.dropWhile isSpace = [] := by
  unfold textRegex
  rw [List.any_eq_false, List.dropWhile_eq_nil_iff]
  simp

theorem mem_dropTrailingSpace {t : Text} {c : Nat} (h : c ∈ dropTrailingSpace t) : c ∈ t := by
  unfold dropTrailingSpace at h
  rw [List.mem_reverse] at h
  exact List.mem_reverse.mp ((List.dropWhile_sublist _).subset h)

theorem commentRegex_isSome_iff (t : Text) (hdot : ∀ c ∈ t, isDot c = true) :
    (commentRegex t).isSome = true ↔ ∃ r, t.dropWhile isSpace = 35 :: r := by
  unfold commentRegex
  split
  · rename_i r hr
    have hall : (dropTrailingSpace r).all isDot = true := by
      rw [List.all_eq_true]
      intro c hc
      apply hdot
      have h1 : c ∈ t.dropWhile isSpace := by
        rw [hr]; exact List.mem_cons_of_mem _ (mem_dropTrailingSpace hc)
      exact (List.dropWhile_sublist _).subset h1
    simp only [hall, if_true]
    constructor
    · intro _; exact ⟨r, hr⟩
    · intro _; split <;> rfl
  · rename_i hne
    constructor
    · intro h; cases h
    · rintro ⟨r, hr⟩
      exact absurd hr (hne r)

theorem LineParser.new_ok (t : Text) (h : eolRegex t = false) :
    ∃ p, LineParser.new t = Except.ok p ∧ p.text = t ∧ p.empty = !textRegex t ∧
      p.currentIndex = 0 ∧ p.originalLength = t.length := by
  unfold LineParser.new
  simp only [h, Bool.false_eq_true, if_false]
  split
  · rename_i ht
    exact ⟨_, rfl, rfl, by simp [ht], rfl, rfl⟩
  · rename_i ht
    exact ⟨_, rfl, rfl, by simp [ht], rfl, rfl⟩

theorem takeWhile_append_stop (p : Nat → Bool) (a b : Text) (ha : ∀ c ∈ a, p c = true)
    (hb : ∀ c, b.head? = some c → p c = false) :
    (a ++ b).takeWhile p = a ∧ (a ++ b).dropWhile p = b := by
  rw [List.takeWhile_append_of_pos ha, List.dropWhile_append_of_pos ha]
  cases b with
  | nil => simp
  | cons c r =>
    have hc : p c = false := hb c rfl
    simp [hc]

theorem dropWhile_head_stop (p : Nat → Bool) (t : Text) :
    ∀ c, (t.dropWhile p).head? = some c → p c = false := by
  induction t with
  | nil => intro c h; simp at h
  | cons a r ih =>
    intro c h
    by_cases ha : p a = true
    · rw [List.dropWhile_cons_of_pos ha] at h
      exact ih c h
    · rw [List.dropWhile_cons_of_neg ha] at h
      simp only [List.head?_cons, Option.some.injEq] at h
      subst h
      simpa using ha

theorem atBoundary_iff (t : Text) : atBoundary t = true ↔ ∀ c, t.head? = some c → isSpace c = true := by
  cases t with
  | nil => simp [atBoundary]
  | cons a r => simp [atBoundary]

/-- A regex of the shape `^(\s*)(C+)(\s|$)` matches exactly when the first token is a
non-empty run of characters of `C`, and its group 2 is then that token. -/
theorem classToken_eq_some_iff (p : Nat → Bool) (hp : ∀ c, p c = true → isSpace c = false)
    (t ws w : Text) :
    classToken p t = some (ws, w) ↔
      ws = t.takeWhile isSpace ∧ w = firstToken t ∧ w ≠ [] ∧ ∀ c ∈ w, p c = true := by
  unfold classToken firstToken
  simp only []
  generalize t.dropWhile isSpace = rest
  have hsplit : rest.takeWhile p ++ rest.dropWhile p = rest := List.takeWhile_append_dropWhile _ _
  have hw : ∀ c ∈ rest.takeWhile p, p c = true := fun c hc => List.mem_takeWhile_imp hc
  constructor
  · intro h
    split at h
    · rename_i hc
      simp only [Bool.and_eq_true, Bool.not_eq_true', List.isEmpty_eq_false] at hc
      simp only [Option.some.injEq, Prod.mk.injEq] at h
      obtain ⟨rfl, rfl⟩ := h
      refine ⟨rfl, ?_, ?_, hw⟩
      · have h2 := (takeWhile_append_stop (fun c => !isSpace c) (rest.takeWhile p)
          (rest.dropWhile p)
          (fun c hc' => by simp [hp c (hw c hc')])
          (fun c hc' => by simp [(atBoundary_iff _).mp hc.2 c hc'])).1
        rw [hsplit] at h2
        exact h2.symm
      · intro h0; simp [h0] at hc
    · simp at h
  · rintro ⟨rfl, rfl, hne, hall⟩
    have hns : rest.takeWhile (fun c => !isSpace c) ++ rest.dropWhile (fun c => !isSpace c) = rest :=
      List.takeWhile_append_dropWhile _ _
    have h2 := takeWhile_append_stop p (rest.takeWhile (fun c => !isSpace c))
      (rest.dropWhile (fun c => !isSpace c)) hall
      (fun c hc' => by
        have := dropWhile_head_stop (fun c => !isSpace c) rest c hc'
        simp only [Bool.not_eq_false'] at this
        cases hpc : p c
        · rfl
        · rw [hp c hpc] at this; cases this)
    rw [hns] at h2
    rw [h2.1, h2.2]
    have hb : atBoundary (rest.dropWhile (fun c => !isSpace c)) = true := by
      rw [atBoundary_iff]
      intro c hc'
      simpa using dropWhile_head_stop (fun c => !isSpace c) rest c hc'
    simp [hb, hne]

theorem wordRegex_eq_some_iff (t ws w : Text) :
    wordRegex t = some (ws, w) ↔
      ws = t.takeWhile isSpace ∧ w = firstToken t ∧ w ≠ [] ∧ ∀ c ∈ w, isWordChar c = true :=
  classToken_eq_some_iff isWordChar (fun _ h => isWordChar_not_space h) t ws w

theorem processRule_category (env : Env) (parser : LineParser) (lineInfo : LineInfo)
    (validClasses validBases : List Text) (keyword : Text) :
    (∃ x, processRule env parser lineInfo validClasses validBases keyword =
        some (Category.condition, x) ∧ keyword ∈ conditionKeywords) ∨
    (∃ x, processRule env parser lineInfo validClasses validBases keyword =
        some (Category.action, x) ∧ keyword ∈ actionKeywords) ∨
    (processRule env parser lineInfo validClasses validBases keyword = none ∧
      keyword ∉ conditionKeywords ∧ keyword ∉ actionKeywords) := by
  unfold processRule
  by_cases h0 : keyword = utf16 "ItemLevel" ∨ keyword = utf16 "DropLevel"
  · rw [if_pos h0]
    refine Or.inl ⟨_, rfl, ?_⟩
    simp only [conditionKeywords, List.mem_cons, List.mem_singleton]
    tauto
  rw [if_neg h0]
  by_cases h1 : keyword = utf16 "Quality"
  · rw [if_pos h1]
    refine Or.inl ⟨_, rfl, ?_⟩
    simp only [conditionKeywords, List.mem_cons, List.mem_singleton]
    tauto
  rw [if_neg h1]
  by_cases h2 : keyword = utf16 "Sockets"
  · rw [if_pos h2]
    refine Or.inl ⟨_, rfl, ?_⟩
    simp only [conditionKeywords, List.mem_cons, List.mem_singleton]
    tauto
  rw [if_neg h2]
  by_cases h3 : keyword = utf16 "Height"
  · rw [if_pos h3]
    refine Or.inl ⟨_, rfl, ?_⟩
    simp only [conditionKeywords, List.mem_cons, List.mem_singleton]
    tauto
  rw [if_neg h3]
  by_cases h4 : keyword = utf16 "Width"
  · rw [if_pos h4]
    refine Or.inl ⟨_, rfl, ?_⟩
    simp only [conditionKeywords, List.mem_cons, List.mem_singleton]
    tauto
  rw [if_neg h4]
  by_cases h5 : keyword = utf16 "Identified" ∨ keyword = utf16 "Corrupted"
  · rw [if_pos h5]
    refine Or.inl ⟨_, rfl, ?_⟩
    simp only [conditionKeywords, List.mem_cons, List.mem_singleton]
    tauto
  rw [if_neg h5]
  by_cases h6 : keyword = utf16 "Rarity"
  · rw [if_pos h6]
    refine Or.inl ⟨_, rfl, ?_⟩
    simp only [conditionKeywords, List.mem_cons, List.mem_singleton]
    tauto
  rw [if_neg h6]
  by_cases h7 : keyword = utf16 "LinkedSockets"
  · rw [if_pos h7]
    refine Or.inl ⟨_, rfl, ?_⟩
    simp only [conditionKeywords, List.mem_cons, List.mem_singleton]
    tauto
  rw [if_neg h7]
  by_cases h8 : keyword = utf16 "SocketGroup"
  · rw [if_pos h8]
    refine Or.inl ⟨_, rfl, ?_⟩
    simp only [conditionKeywords, List.mem_cons, List.mem_singleton]
    tauto
  rw [if_neg h8]
  by_cases h9 : keyword = utf16 "Class"
  · rw [if_pos h9]
    refine Or.inl ⟨_, rfl, ?_⟩
    simp only [conditionKeywords, List.mem_cons, List.mem_singleton]
    tauto
  rw [if_neg h9]
  by_cases h10 : keyword = utf16 "BaseType"
  · rw [if_pos h10]
    refine Or.inl ⟨_, rfl, ?_⟩
    simp only [conditionKeywords, List.mem_cons, List.mem_singleton]
    tauto
  rw [if_neg h10]
  by_cases h11 : keyword = utf16 "SetFontSize"
  · rw [if_pos h11]
    refine Or.inr (Or.inl ⟨_, rfl, ?_⟩)
    simp only [actionKeywords, List.mem_cons, List.mem_singleton]
    tauto
  rw [if_neg h11]
  by_cases h12 : keyword = utf16 "SetBorderColor" ∨ keyword = utf16 "SetTextColor" ∨
      keyword = utf16 "SetBackgroundColor"
  · rw [if_pos h12]
    refine Or.inr (Or.inl ⟨_, rfl, ?_⟩)
    simp only [actionKeywords, List.mem_cons, List.mem_singleton]
    tauto
  rw [if_neg h12]
  by_cases h13 : keyword = utf16 "PlayAlertSound"
  · rw [if_pos h13]
    refine Or.inr (Or.inl ⟨_, rfl, ?_⟩)
    simp only [actionKeywords, List.mem_cons, List.mem_singleton]
    tauto
  rw [if_neg h13]
  refine Or.inr (Or.inr ⟨rfl, ?_, ?_⟩)
  · simp only [conditionKeywords, List.mem_cons, List.mem_singleton, List.mem_nil_iff]
    tauto
  · simp only [actionKeywords, List.mem_cons, List.mem_singleton, List.mem_nil_iff]
    tauto

theorem keywords_disjoint :
    (∀ k ∈ conditionKeywords, k ∉ actionKeywords ∧ k ≠ utf16 "Show" ∧ k ≠ utf16 "Hide" ∧
      k ≠ [] ∧ ∀ c ∈ k, isWordChar c = true) ∧
    (∀ k ∈ actionKeywords, k ≠ utf16 "Show" ∧ k ≠ utf16 "Hide" ∧
      k ≠ [] ∧ ∀ c ∈ k, isWordChar c = true) ∧
    (∀ c ∈ utf16 "Show", isWordChar c = true) ∧ (∀ c ∈ utf16 "Hide", isWordChar c = true) := by
  decide

theorem isCommented_iff (p : LineParser) (hdot : ∀ c ∈ p.text, isDot c = true) :
    p.isCommented = true ↔ ∃ r, p.text.dropWhile isSpace = 35 :: r := by
  unfold LineParser.isCommented
  exact commentRegex_isSome_iff p.text hdot

theorem nextWord_eq (p : LineParser) :
    (wordRegex p.text = none ∧ (p.nextWord).1.found = false ∧ (p.nextWord).2 = p) ∨
    (∃ ws w, wordRegex p.text = some (ws, w) ∧ (p.nextWord).1.found = true ∧
      (p.nextWord).1.value = some w) := by
  unfold LineParser.nextWord LineParser.parseSingleValue
  cases h : wordRegex p.text with
  | none => left; simp
  | some x =>
    obtain ⟨ws, w⟩ := x
    right
    exact ⟨ws, w, rfl, rfl, rfl⟩

theorem parseLine_classifies_core (env : Env) (args : Args)
    (h : ∀ c ∈ args.lineText, c ≠ 10 ∧ c ≠ 13 ∧ c ≠ 8232 ∧ c ≠ 8233) :
    ∃ r ed, parseLine env args = Except.ok (r, ed) ∧
      r.type = (classifyLine args.lineText).1 ∧
      r.category = (classifyLine args.lineText).2 ∧
      ((r.type = LineType.Comment ∨ r.type = LineType.Empty) →
        r.messages = [] ∧ r.invalid = false) ∧
      (r.type = LineType.Unknown → r.invalid = true) := by
  have hdot : ∀ c ∈ args.lineText, isDot c = true := by
    intro c hc
    obtain ⟨h1, h2, h3, h4⟩ := h c hc
    simp [isDot, h1, h2, h3, h4]
  have heol : eolRegex args.lineText = false := by
    rw [eolRegex_false_iff]
    intro c hc
    exact ⟨(h c hc).2.1, (h c hc).1⟩
  obtain ⟨p, hp, hpt, hpe, -, -⟩ := LineParser.new_ok args.lineText heol
  have hcom := isCommented_iff p (by rw [hpt]; exact hdot)
  rw [hpt] at hcom
  unfold parseLine
  rw [hp]
  simp only []
  unfold classifyLine
  cases hd : args.lineText.dropWhile isSpace with
  | nil =>
    have hnc : p.isCommented = false := by
      cases hc : p.isCommented
      · rfl
      · obtain ⟨r, hr⟩ := hcom.mp hc
        rw [hd] at hr; cases hr
    have hem : p.empty = true := by
      rw [hpe, (textRegex_false_iff _).mpr hd]; rfl
    simp only [hnc, hem, Bool.false_eq_true, if_false, if_true]
    exact ⟨_, _, rfl, rfl, rfl, fun _ => ⟨rfl, rfl⟩, fun hu => by cases hu⟩
  | cons c r =>
    by_cases hc35 : c = 35
    · subst hc35
      have hic : p.isCommented = true := hcom.mpr ⟨r, hd⟩
      simp only [hic, if_true]
      exact ⟨_, _, rfl, rfl, rfl, fun _ => ⟨rfl, rfl⟩, fun hu => by cases hu⟩
    · have hnc : p.isCommented = false := by
        cases hc : p.isCommented
        · rfl
        · obtain ⟨r', hr'⟩ := hcom.mp hc
          rw [hd] at hr'
          simp only [List.cons.injEq] at hr'
          exact absurd hr'.1 hc35
      have hem : p.empty = false := by
        rw [hpe]
        cases ht : textRegex args.lineText
        · rw [(textRegex_false_iff _).mp ht] at hd; cases hd
        · rfl
      simp only [hnc, hem, Bool.false_eq_true, if_false, hc35]
      obtain ⟨hk1, hk2, hk3, hk4⟩ := keywords_disjoint
      rcases nextWord_eq p with ⟨hw, hf, -⟩ | ⟨ws, w, hw, hf, hv⟩
      · -- no word can be read
        rw [hpt] at hw
        have hnot : ∀ k : Text, k ≠ [] → (∀ c ∈ k, isWordChar c = true) →
            firstToken args.lineText ≠ k := by
          intro k hk1 hk2 hft
          have := (wordRegex_eq_some_iff args.lineText _ k).mpr ⟨rfl, hft.symm, hk1, hk2⟩
          rw [hw] at this; cases this
        have hcw : classifyWord (firstToken args.lineText) = (LineType.Unknown, none) := by
          unfold classifyWord
          rw [if_neg, if_neg, if_neg]
          · intro hm
            exact hnot _ (hk2 _ hm).2.2.1 (hk2 _ hm).2.2.2 rfl
          · intro hm
            exact hnot _ (hk1 _ hm).2.2.2.1 (hk1 _ hm).2.2.2.2 rfl
          · rintro (hs | hs)
            · exact hnot _ (by decide) hk3 hs
            · exact hnot _ (by decide) hk4 hs
        rw [hcw]
        simp only [hf, Bool.not_false, Bool.true_or, if_true]
        refine ⟨_, _, rfl, rfl, rfl, ?_, fun _ => rfl⟩
        intro hu
        rcases hu with hu | hu <;> cases hu
      · -- a word is read: it is the first token
        rw [hpt] at hw
        obtain ⟨-, hwt, hwne, hwall⟩ := (wordRegex_eq_some_iff _ _ _).mp hw
        have htr : truthyOptText (some w) = true := by
          cases w with
          | nil => exact absurd rfl hwne
          | cons a b => rfl
        simp only [hf, hv, htr, Bool.not_true, Bool.or_self, Bool.false_eq_true, if_false,
          Option.getD_some]
        rw [← hwt]
        unfold classifyWord
        by_cases hsh : w = utf16 "Show" ∨ w = utf16 "Hide"
        · rw [if_pos hsh, if_pos hsh]
          obtain ⟨hb1, hb2⟩ := blockResult_valid env args
            { name := w, range := Range.onRow args.row p.nextWord.1.startIndex p.nextWord.1.endIndex }
            p.nextWord.2
            { editor := args.editor, number := args.row, file := args.editor.path, keyword := w }
          refine ⟨_, _, rfl, rfl, rfl, ?_, ?_⟩
          · intro hu
            rcases hu with hu | hu <;> cases hu
          · intro hu; cases hu
        · rw [if_neg hsh, if_neg hsh]
          rcases processRule_category env p.nextWord.2
            { editor := args.editor, number := args.row, file := args.editor.path, keyword := w }
            (args.itemData.classes ++ args.itemData.whitelistClasses)
            (args.itemData.bases ++ args.itemData.whitelistBases) w with
            ⟨x, hx, hmem⟩ | ⟨x, hx, hmem⟩ | ⟨hx, hm1, hm2⟩
          · obtain ⟨rr, hrr, -⟩ := processRule_sound _ _ _ _ _ _ _ _ hx
            subst hrr
            rw [hx, if_pos hmem]
            unfold finishRule
            refine ⟨_, _, rfl, rfl, rfl, ?_, ?_⟩
            · intro hu
              rcases hu with hu | hu <;> cases hu
            · intro hu; cases hu
          · obtain ⟨rr, hrr, -⟩ := processRule_sound _ _ _ _ _ _ _ _ hx
            subst hrr
            rw [hx, if_neg (fun hc => (hk1 _ hc).1 hmem), if_pos hmem]
            unfold finishRule
            refine ⟨_, _, rfl, rfl, rfl, ?_, ?_⟩
            · intro hu
              rcases hu with hu | hu <;> cases hu
            · intro hu; cases hu
          · rw [hx, if_neg hm1, if_neg hm2]
            unfold finishRule
            refine ⟨_, _, rfl, rfl, rfl, ?_, fun _ => rfl⟩
            intro hu
            rcases hu with hu | hu <;> cases hu

/-- C3, as amended. For every line text without a line terminator (line feed,
carriage return, U+2028, U+2029), `parseLine` returns a result whose kind and
category follow the decision list `classifyLine`: Comment if the first
non-whitespace character is `#`; Empty if there is none; otherwise Block if the
first word is exactly `Show` or `Hide`; Rule if it is one of the 18 rule keywords,
of category `action` for the five of `actionKeywords` and `condition` for the
thirteen of `conditionKeywords`; Unknown, and invalid, in every remaining case.
Comment and Empty results carry no diagnostics and are not invalid. -/
theorem parseLine_classifies (env : Env) (args : Args)
    (h : ∀ c ∈ args.lineText, c ≠ 10 ∧ c ≠ 13 ∧ c ≠ 8232 ∧ c ≠ 8233) :
    ∃ r ed, parseLine env args = Except.ok (r, ed) ∧
      r.type = (classifyLine args.lineText).1 ∧
      r.category = (classifyLine args.lineText).2 ∧
      ((r.type = LineType.Comment ∨ r.type = LineType.Empty) →
        r.messages = [] ∧ r.invalid = false) ∧
      (r.type = LineType.Unknown → r.invalid = true) :=
  parseLine_classifies_core env args h

/-- C3 as amended, at the line `SetFontSize 20`: the hypothesis holds, and the decision
list gives a rule of category `action`. -/
theorem parseLine_classifies_witness :
    (∀ c ∈ (argsFor (utf16 "SetFontSize 20")).lineText, c ≠ 10 ∧ c ≠ 13 ∧ c ≠ 8232 ∧ c ≠ 8233) ∧
    (∃ r ed, parseLine asciiEnv (argsFor (utf16 "SetFontSize 20")) = Except.ok (r, ed) ∧
      r.type = (classifyLine (argsFor (utf16 "SetFontSize 20")).lineText).1 ∧
      r.category = (classifyLine (argsFor (utf16 "SetFontSize 20")).lineText).2 ∧
      ((r.type = LineType.Comment ∨ r.type = LineType.Empty) →
        r.messages = [] ∧ r.invalid = false) ∧
      (r.type = LineType.Unknown → r.invalid = true)) ∧
    classifyLine (utf16 "SetFontSize 20") = (LineType.Rule, some Category.action) :=
  ⟨by decide, parseLine_classifies asciiEnv (argsFor (utf16 "SetFontSize 20")) (by decide),
   by decide⟩

/-- C3, as stated, fails: the claim counts 17 rule keywords, twelve of them
conditions, and has every other first word give Unknown; but thirteen distinct
first words give a rule of category `condition`, so no list of twelve words holds
every first word that does. -/
theorem parseLine_thirteen_condition_keywords :
    conditionKeywords.Nodup ∧ conditionKeywords.length = 13 ∧
    (∀ k ∈ conditionKeywords,
      kindOf asciiEnv (k ++ utf16 " 1") = some (LineType.Rule, some Category.condition)) ∧
    ¬ ∃ ks : List Text, ks.length ≤ 12 ∧
      ∀ k, kindOf asciiEnv (k ++ utf16 " 1") = some (LineType.Rule, some Category.condition) →
        k ∈ ks := by
  have h1 : conditionKeywords.Nodup := by decide
  have h2 : conditionKeywords.length = 13 := by decide
  have h3 : ∀ k ∈ conditionKeywords,
      kindOf asciiEnv (k ++ utf16 " 1") = some (LineType.Rule, some Category.condition) := by
    decide
  refine ⟨h1, h2, h3, ?_⟩
  rintro ⟨ks, hlen, hks⟩
  have hsub : conditionKeywords ⊆ ks := fun k hk => hks k (h3 k hk)
  have := (List.subperm_of_subset h1 hsub).length_le
  omega

/-- A `#` line that holds the line separator U+2028 before its last character is not
read as a comment (`.` of `commentRegex` does not match it): it is Unknown. -/
theorem parseLine_line_separator_in_comment :
    kindOf asciiEnv [35, 97, 8232, 98] = some (LineType.Unknown, none) := by
  decide

theorem parseSingleValue_of_some (p : LineParser) (regex : TokenRegex) (ws v : Text)
    (h : regex p.text = some (ws, v)) :
    p.parseSingleValue regex =
      ({ found := true, startIndex := p.currentIndex + ws.length,
         endIndex := p.currentIndex + ((ws.length + v.length : Nat) : Int), value := some v },
       { p with text := p.text.drop (ws.length + v.length),
                currentIndex := p.currentIndex + ((ws.length + v.length : Nat) : Int),
                empty := if !textRegex (p.text.drop (ws.length + v.length)) then true else p.empty }) := by
  unfold LineParser.parseSingleValue
  rw [h]

theorem parseSingleValue_of_none (p : LineParser) (regex : TokenRegex)
    (h : regex p.text = none) :
    p.parseSingleValue regex = ({ found := false, startIndex := 0, endIndex := 0, value := none }, p) := by
  unfold LineParser.parseSingleValue
  rw [h]

theorem drop_token (ws tok rest : Text) :
    (ws ++ tok ++ rest).drop (ws.length + tok.length) = rest := by
  rw [← List.length_append]
  exact List.drop_left' rfl

theorem Blank.isSpace {w : Text} (h : Blank w) : ∀ c ∈ w, isSpace c = true := fun c hc => (h c hc).1

theorem Blank.textRegex {w : Text} (h : Blank w) : textRegex w = false := by
  unfold ItemFilter.textRegex
  rw [List.any_eq_false]
  intro c hc
  simp [h.isSpace c hc]

theorem Blank.dropWhile {w : Text} (h : Blank w) : w.dropWhile ItemFilter.isSpace = [] :=
  List.dropWhile_eq_nil_iff.mpr h.isSpace

theorem Blank.atBoundary {w : Text} (h : Blank w) (rest : Text) (hr : rest = [] ∨ w ≠ []) :
    ItemFilter.atBoundary (w ++ rest) = true := by
  cases w with
  | nil =>
    rcases hr with rfl | hr
    · rfl
    · exact absurd rfl hr
  | cons a b => simp [ItemFilter.atBoundary, h.isSpace a (List.mem_cons_self _ _)]

/-- On `ws ++ tok ++ rest`, with `ws` whitespace, `tok` a non-empty run of a class that
holds no whitespace and `rest` at a boundary, a class-token regex reads `tok`. -/
theorem classToken_append (p : Nat → Bool) (hp : ∀ c, p c = true → isSpace c = false)
    (ws tok rest : Text) (hws : ∀ c ∈ ws, isSpace c = true) (hne : tok ≠ [])
    (htok : ∀ c ∈ tok, p c = true) (hrest : atBoundary rest = true) :
    classToken p (ws ++ tok ++ rest) = some (ws, tok) := by
  have hstop1 : ∀ c, (tok ++ rest).head? = some c → isSpace c = false := by
    intro c hc
    cases tok with
    | nil => exact absurd rfl hne
    | cons a b =>
      simp only [List.cons_append, List.head?_cons, Option.some.injEq] at hc
      subst hc
      exact hp _ (htok _ (List.mem_cons_self _ _))
  have h1 := takeWhile_append_stop isSpace ws (tok ++ rest) hws hstop1
  have hstop2 : ∀ c, rest.head? = some c → p c = false := by
    intro c hc
    have hsp := (atBoundary_iff rest).mp hrest c hc
    cases hpc : p c
    · rfl
    · rw [hp c hpc] at hsp; cases hsp
  have h2 := takeWhile_append_stop p tok rest htok hstop2
  unfold classToken
  simp only [List.append_assoc, h1.1, h1.2, h2.1, h2.2, hrest]
  cases tok with
  | nil => exact absurd rfl hne
  | cons a b => simp

theorem isNumberChar_not_space {c : Nat} (h : isNumberChar c = true) : isSpace c = false := by
  simp only [isNumberChar, isDigit, Bool.or_eq_true, Bool.and_eq_true, decide_eq_true_eq,
    beq_iff_eq] at h
  simp only [isSpace, Bool.or_eq_false_iff, Bool.and_eq_false_imp, decide_eq_true_eq,
    decide_eq_false_iff_not, beq_eq_false_iff_ne, ne_eq]
  omega

theorem operatorAlternatives_eq :
    operatorAlternatives = [[60, 61], [62, 61], [61], [60], [62]] := by decide

theorem not_space_of_operator_char {c : Nat} (h : isSpace c = true) :
    c ≠ 60 ∧ c ≠ 61 ∧ c ≠ 62 := by
  refine ⟨?_, ?_, ?_⟩ <;> (rintro rfl; revert h; decide)

/-- Where the text after the whitespace does not start with `<`, `=` or `>`,
`operatorRegex` finds nothing. -/
theorem operatorRegex_none (ws rest : Text) (hws : ∀ c ∈ ws, isSpace c = true)
    (h : ∀ c, rest.head? = some c → isSpace c = false ∧ c ≠ 60 ∧ c ≠ 61 ∧ c ≠ 62) :
    operatorRegex (ws ++ rest) = none := by
  have h1 := takeWhile_append_stop isSpace ws rest hws (fun c hc => (h c hc).1)
  unfold operatorRegex
  simp only [h1.2, operatorAlternatives_eq]
  cases rest with
  | nil => rfl
  | cons c r =>
    obtain ⟨-, h60, h61, h62⟩ := h c rfl
    have e60 : (60 == c) = false := by simpa using h60.symm
    have e61 : (61 == c) = false := by simpa using h61.symm
    have e62 : (62 == c) = false := by simpa using h62.symm
    simp [List.find?, List.isPrefixOf, e60, e61, e62]

/-- An operator that is followed by whitespace or ends the text is read by
`operatorRegex`. -/
theorem operatorRegex_some (ws op rest : Text) (hws : ∀ c ∈ ws, isSpace c = true)
    (hop : op ∈ operatorAlternatives) (hrest : atBoundary rest = true) :
    operatorRegex (ws ++ op ++ rest) = some (ws, op) := by
  have hstop : ∀ c, (op ++ rest).head? = some c → isSpace c = false := by
    intro c hc
    rw [operatorAlternatives_eq] at hop
    simp only [List.mem_cons, List.mem_singleton, List.mem_nil_iff, or_false] at hop
    rcases hop with rfl | rfl | rfl | rfl | rfl <;>
      (simp only [List.cons_append, List.head?_cons, Option.some.injEq] at hc; subst hc; rfl)
  have h1 := takeWhile_append_stop isSpace ws (op ++ rest) hws hstop
  unfold operatorRegex
  simp only [List.append_assoc, h1.1, h1.2]
  rw [operatorAlternatives_eq] at hop ⊢
  simp only [List.mem_cons, List.mem_singleton, List.mem_nil_iff, or_false] at hop
  cases rest with
  | nil =>
    rcases hop with rfl | rfl | rfl | rfl | rfl <;>
      simp [List.find?, List.isPrefixOf, atBoundary]
  | cons c r =>
    have hc : isSpace c = true := hrest
    obtain ⟨h60, h61, h62⟩ := not_space_of_operator_char hc
    have e61 : (61 == c) = false := by simpa using h61.symm
    rcases hop with rfl | rfl | rfl | rfl | rfl <;>
      simp [List.find?, List.isPrefixOf, atBoundary, hc, e61]

theorem nextOperator_none (p : LineParser) (ws rest : Text) (hp : p.text = ws ++ rest)
    (hws : ∀ c ∈ ws, isSpace c = true)
    (h : ∀ c, rest.head? = some c → isSpace c = false ∧ c ≠ 60 ∧ c ≠ 61 ∧ c ≠ 62) :
    p.nextOperator = ({ found := false, startIndex := 0, endIndex := 0, value := none }, p) := by
  unfold LineParser.nextOperator
  exact parseSingleValue_of_none p _ (by rw [hp]; exact operatorRegex_none ws rest hws h)

theorem nextOperator_some (p : LineParser) (ws op rest : Text) (hp : p.text = ws ++ op ++ rest)
    (hws : ∀ c ∈ ws, isSpace c = true) (hop : op ∈ operatorAlternatives)
    (hrest : atBoundary rest = true) :
    p.nextOperator =
      ({ found := true, startIndex := p.currentIndex + ws.length,
         endIndex := p.currentIndex + ((ws.length + op.length : Nat) : Int), value := some op },
       { p with text := rest,
                currentIndex := p.currentIndex + ((ws.length + op.length : Nat) : Int),
                empty := if !textRegex rest then true else p.empty }) := by
  unfold LineParser.nextOperator
  rw [parseSingleValue_of_some p _ ws op (by rw [hp]; exact operatorRegex_some ws op rest hws hop hrest)]
  rw [hp, drop_token]

theorem nextNumber_some (p : LineParser) (ws tok rest : Text) (hp : p.text = ws ++ tok ++ rest)
    (hws : ∀ c ∈ ws, isSpace c = true) (hne : tok ≠ [])
    (htok : ∀ c ∈ tok, isNumberChar c = true) (hrest : atBoundary rest = true) :
    p.nextNumber =
      ({ found := true, startIndex := p.currentIndex + ws.length,
         endIndex := p.currentIndex + ((ws.length + tok.length : Nat) : Int),
         value := some (parseInt tok 10) },
       { p with text := rest,
                currentIndex := p.currentIndex + ((ws.length + tok.length : Nat) : Int),
                empty := if !textRegex rest then true else p.empty }) := by
  unfold LineParser.nextNumber numberRegex
  rw [parseSingleValue_of_some p _ ws tok (by
    rw [hp]; exact classToken_append _ (fun _ h => isNumberChar_not_space h) ws tok rest hws hne htok hrest)]
  rw [hp, drop_token]
  have ht : truthyOptText (some tok) = true := by
    cases tok with
    | nil => exact absurd rfl hne
    | cons a b => rfl
  simp [ht]

theorem nextWord_some (p : LineParser) (ws tok rest : Text) (hp : p.text = ws ++ tok ++ rest)
    (hws : ∀ c ∈ ws, isSpace c = true) (hne : tok ≠ [])
    (htok : ∀ c ∈ tok, isWordChar c = true) (hrest : atBoundary rest = true) :
    p.nextWord =
      ({ found := true, startIndex := p.currentIndex + ws.length,
         endIndex := p.currentIndex + ((ws.length + tok.length : Nat) : Int),
         value := some tok },
       { p with text := rest,
                currentIndex := p.currentIndex + ((ws.length + tok.length : Nat) : Int),
                empty := if !textRegex rest then true else p.empty }) := by
  unfold LineParser.nextWord wordRegex
  rw [parseSingleValue_of_some p _ ws tok (by
    rw [hp]; exact classToken_append _ (fun _ h => isWordChar_not_space h) ws tok rest hws hne htok hrest)]
  rw [hp, drop_token]

theorem Range.onRow_of_le (row a b : Int) (h : a ≤ b) : Range.onRow row a b = columns row a b := by
  unfold Range.onRow Range.new Point.isLessThanOrEqual columns
  simp [h]

theorem commentRegex_of_spaces (w : Text) (h : ∀ c ∈ w, isSpace c = true) :
    commentRegex w = none := by
  unfold commentRegex
  rw [List.dropWhile_eq_nil_iff.mpr h]

theorem textRegex_of_spaces (w : Text) (h : ∀ c ∈ w, isSpace c = true) : textRegex w = false := by
  unfold textRegex
  rw [List.any_eq_false]
  intro c hc
  simp [h c hc]

theorem textRegex_append_token (ws tok rest : Text) (hne : tok ≠ [])
    (htok : ∀ c ∈ tok, isSpace c = false) : textRegex (ws ++ tok ++ rest) = true := by
  unfold textRegex
  rw [List.any_eq_true]
  cases tok with
  | nil => exact absurd rfl hne
  | cons a b =>
    exact ⟨a, by simp, by simp [htok a (List.mem_cons_self _ _)]⟩

theorem reportTrailingComment_of_spaces (p : LineParser) (line : LineInfo) (r : ProcessResult)
    (h : ∀ c ∈ p.text, isSpace c = true) : reportTrailingComment p line r = (r, p) := by
  unfold reportTrailingComment LineParser.isCommented
  rw [commentRegex_of_spaces _ h]
  rfl

theorem number_head (tok rest : Text) (hne : tok ≠ []) (htok : ∀ c ∈ tok, isNumberChar c = true) :
    ∀ c, (tok ++ rest).head? = some c → isSpace c = false ∧ c ≠ 60 ∧ c ≠ 61 ∧ c ≠ 62 := by
  intro c hc
  cases tok with
  | nil => exact absurd rfl hne
  | cons a b =>
    simp only [List.cons_append, List.head?_cons, Option.some.injEq] at hc
    subst hc
    have ha := htok a (List.mem_cons_self _ _)
    refine ⟨isNumberChar_not_space ha, ?_, ?_, ?_⟩ <;> (rintro rfl; revert ha; decide)

/-- `processRangeRule` on an optional operator and a number inside the bounds, with
nothing but whitespace after it: the operator and the number are captured with
their columns and nothing is reported. -/
theorem processRangeRule_in_range (p : LineParser) (line : LineInfo) (lo hi : Int) (ope : Bool)
    (w1 : Text) (op : Option Text) (w2 tok w3 : Text) (n : Int)
    (hp : p.text = w1 ++ operatorPart op w2 ++ tok ++ w3)
    (hw1 : ∀ c ∈ w1, isSpace c = true)
    (hop : ∀ o, op = some o → ope = true ∧ o ∈ operatorAlternatives ∧ w2 ≠ [] ∧
      ∀ c ∈ w2, isSpace c = true)
    (hne : tok ≠ []) (htok : ∀ c ∈ tok, isNumberChar c = true)
    (hn : parseInt tok 10 = JSNum.ofInt n) (hlo : lo ≤ n) (hhi : n ≤ hi)
    (hw3 : ∀ c ∈ w3, isSpace c = true) :
    (processRangeRule p line lo hi ope).1 =
      { messages := [], invalid := false,
        values := [{ value := Value.number (JSNum.ofInt n),
                     range := columns line.number
                       (p.currentIndex + w1.length + (operatorPart op w2).length)
                       (p.currentIndex + w1.length + (operatorPart op w2).length + tok.length) }],
        operator := op.map fun o =>
          { type := o,
            range := columns line.number (p.currentIndex + w1.length)
              (p.currentIndex + w1.length + o.length) },
        trailingComment := none } ∧
    (processRangeRule p line lo hi ope).2.empty = true := by
  have hb3 : atBoundary w3 = true := by
    rw [atBoundary_iff]; intro c hc
    cases w3 with
    | nil => simp at hc
    | cons a b =>
      simp only [List.head?_cons, Option.some.injEq] at hc
      subst hc; exact hw3 _ (List.mem_cons_self _ _)
  have hrange : ((JSNum.ofInt n).ge (JSNum.ofInt lo) && (JSNum.ofInt n).le (JSNum.ofInt hi)) = true := by
    simp [JSNum.ge, JSNum.le, hlo, hhi]
  cases op with
  | none =>
    simp only [operatorPart, List.append_nil] at hp ⊢
    have hno := nextOperator_none p w1 (tok ++ w3) (by rw [hp, List.append_assoc]) hw1
      (number_head tok w3 hne htok)
    have hnum := nextNumber_some p w1 tok w3 hp hw1 hne htok hb3
    have hco : checkRangeOperator line ope
        { found := false, startIndex := 0, endIndex := 0, value := none } {} = {} := by
      unfold checkRangeOperator captureOperator
      cases ope <;> simp
    unfold processRangeRule
    simp only [hno, hnum, hn, hco]
    rw [reportTrailingComment_of_spaces _ _ _ hw3]
    simp only [checkRangeNumber, Bool.not_true, Option.isNone_some, Bool.or_self,
      Bool.false_eq_true, if_false, Option.getD_some, hrange, if_true, textRegex_of_spaces w3 hw3,
      Bool.not_false, Option.map_none', List.length_nil, Nat.cast_zero, add_zero]
    rw [Range.onRow_of_le _ _ _ (by push_cast; omega)]
    refine ⟨?_, trivial⟩
    simp only [Nat.cast_add, add_assoc]
  | some o =>
    obtain ⟨hope, hmem, hw2ne, hw2⟩ := hop o rfl
    subst hope
    simp only [operatorPart] at hp ⊢
    have hb2 : atBoundary (w2 ++ tok ++ w3) = true := by
      cases w2 with
      | nil => exact absurd rfl hw2ne
      | cons a b => exact hw2 a (List.mem_cons_self _ _)
    have hop' := nextOperator_some p w1 o (w2 ++ tok ++ w3)
      (by rw [hp]; simp only [List.append_assoc]) hw1 hmem hb2
    have hnum := nextNumber_some
      { p with text := w2 ++ tok ++ w3,
               currentIndex := p.currentIndex + ((w1.length + o.length : Nat) : Int),
               empty := if !textRegex (w2 ++ tok ++ w3) then true else p.empty }
      w2 tok w3 rfl hw2 hne htok hb3
    have hone : o ≠ [] := by
      rw [operatorAlternatives_eq] at hmem
      intro h0; subst h0; simp at hmem
    have htr : truthyText o = true := by
      cases o with
      | nil => exact absurd rfl hone
      | cons a b => rfl
    unfold processRangeRule
    simp only [hop', hnum, hn]
    rw [reportTrailingComment_of_spaces _ _ _ hw3]
    simp only [checkRangeNumber, checkRangeOperator, captureOperator, htr, Bool.not_true,
      Option.isNone_some, Bool.or_self, Bool.and_self,
      Bool.false_eq_true, if_false, Option.getD_some, hrange, if_true, textRegex_of_spaces w3 hw3,
      Bool.not_false, Option.map_some', List.length_append]
    rw [Range.onRow_of_le _ _ _ (by push_cast; omega), Range.onRow_of_le _ _ _ (by push_cast; omega)]
    refine ⟨?_, trivial⟩
    simp only [Nat.cast_add, add_assoc]

theorem rangeRules_keyword (kw : Text) (lo hi : Int) (ope : Bool)
    (h : (kw, lo, hi, ope) ∈ rangeRules) :
    kw ≠ utf16 "Show" ∧ kw ≠ utf16 "Hide" ∧ kw ≠ [] ∧ (∀ c ∈ kw, isWordChar c = true) ∧
    ¬ (kw = utf16 "SetBorderColor" ∨ kw = utf16 "SetTextColor" ∨
        kw = utf16 "SetBackgroundColor" ∨ kw = utf16 "PlayAlertSound") := by
  simp only [rangeRules, List.mem_cons, List.mem_singleton, Prod.mk.injEq, List.mem_nil_iff,
    or_false] at h
  rcases h with ⟨rfl, rfl, rfl, rfl⟩ | ⟨rfl, rfl, rfl, rfl⟩ | ⟨rfl, rfl, rfl, rfl⟩ |
    ⟨rfl, rfl, rfl, rfl⟩ | ⟨rfl, rfl, rfl, rfl⟩ | ⟨rfl, rfl, rfl, rfl⟩ | ⟨rfl, rfl, rfl, rfl⟩ <;>
  decide

theorem processRule_rangeRules (env : Env) (p : LineParser) (li : LineInfo) (vc vb : List Text)
    (kw : Text) (lo hi : Int) (ope : Bool) (h : (kw, lo, hi, ope) ∈ rangeRules) :
    processRule env p li vc vb kw =
      some (if ope = true then Category.condition else Category.action,
        plainRule li.editor (processRangeRule p li lo hi ope)) := by
  simp only [rangeRules, List.mem_cons, List.mem_singleton, Prod.mk.injEq, List.mem_nil_iff,
    or_false] at h
  rcases h with ⟨rfl, rfl, rfl, rfl⟩ | ⟨rfl, rfl, rfl, rfl⟩ | ⟨rfl, rfl, rfl, rfl⟩ |
    ⟨rfl, rfl, rfl, rfl⟩ | ⟨rfl, rfl, rfl, rfl⟩ | ⟨rfl, rfl, rfl, rfl⟩ | ⟨rfl, rfl, rfl, rfl⟩ <;>
  (unfold processRule; simp +decide only [if_false, if_true])

theorem eolRegex_append (a b : Text) : eolRegex (a ++ b) = (eolRegex a || eolRegex b) := by
  unfold eolRegex; exact List.any_append

theorem eolRegex_of_not_space (t : Text) (h : ∀ c ∈ t, isSpace c = false) : eolRegex t = false := by
  rw [eolRegex_false_iff]
  intro c hc
  have := h c hc
  constructor <;> (rintro rfl; revert this; decide)

theorem Blank.eolRegex {w : Text} (h : Blank w) : ItemFilter.eolRegex w = false := by
  rw [eolRegex_false_iff]
  intro c hc
  exact ⟨(h c hc).2.2, (h c hc).2.1⟩

theorem operator_not_space (o : Text) (h : o ∈ operatorAlternatives) :
    ∀ c ∈ o, isSpace c = false := by
  rw [operatorAlternatives_eq] at h
  simp only [List.mem_cons, List.mem_singleton, List.mem_nil_iff, or_false] at h
  rcases h with rfl | rfl | rfl | rfl | rfl <;> decide

theorem commentRegex_of_head (t : Text) (h : ∀ r, t.dropWhile isSpace ≠ 35 :: r) :
    commentRegex t = none := by
  unfold commentRegex
  split
  · rename_i r hr
    exact absurd hr (h r)
  · rfl

theorem dropWhile_space_token (ws tok rest : Text) (hws : ∀ c ∈ ws, isSpace c = true)
    (hne : tok ≠ []) (htok : ∀ c ∈ tok, isSpace c = false) :
    (ws ++ tok ++ rest).dropWhile isSpace = tok ++ rest := by
  rw [List.append_assoc]
  refine (takeWhile_append_stop isSpace ws (tok ++ rest) hws ?_).2
  intro c hc
  cases tok with
  | nil => exact absurd rfl hne
  | cons a b =>
    simp only [List.cons_append, List.head?_cons, Option.some.injEq] at hc
    subst hc
    exact htok _ (List.mem_cons_self _ _)

/-- The start of `parseLine` on a line that opens with a word other than `Show` and
`Hide`: the constructor returns a parser, the line is neither a comment nor empty,
the word is read, and the keyword chain decides the rest. -/
theorem parseLine_keyword_line (env : Env) (args : Args) (w0 kw rest : Text)
    (hline : args.lineText = w0 ++ kw ++ rest) (hw0 : Blank w0) (hne : kw ≠ [])
    (hkw : ∀ c ∈ kw, isWordChar c = true) (hb : atBoundary rest = true)
    (heol : eolRegex rest = false) (hshow : kw ≠ utf16 "Show" ∧ kw ≠ utf16 "Hide") :
    ∃ p0, LineParser.new args.lineText = Except.ok p0 ∧
      parseLine env args =
        finishRule args
          { name := kw, range := Range.onRow args.row w0.length ((w0.length + kw.length : Nat) : Int) }
          { found := true, startIndex := w0.length,
            endIndex := ((w0.length + kw.length : Nat) : Int), value := some kw }
          { p0 with text := rest, currentIndex := ((w0.length + kw.length : Nat) : Int),
                    empty := !textRegex rest }
          (processRule env
            { p0 with text := rest, currentIndex := ((w0.length + kw.length : Nat) : Int),
                      empty := !textRegex rest }
            { editor := args.editor, number := args.row, file := args.editor.path, keyword := kw }
            (args.itemData.classes ++ args.itemData.whitelistClasses)
            (args.itemData.bases ++ args.itemData.whitelistBases) kw) := by
  have hkws : ∀ c ∈ kw, isSpace c = false := fun c hc => isWordChar_not_space (hkw c hc)
  have heol' : eolRegex args.lineText = false := by
    rw [hline, eolRegex_append, eolRegex_append, hw0.eolRegex, eolRegex_of_not_space kw hkws, heol]
    rfl
  obtain ⟨p0, hp0, hpt, hpe, hci, -⟩ := LineParser.new_ok args.lineText heol'
  refine ⟨p0, hp0, ?_⟩
  have htr : textRegex args.lineText = true := by
    rw [hline]; exact textRegex_append_token w0 kw rest hne hkws
  have hem : p0.empty = false := by rw [hpe, htr]; rfl
  have hnc : p0.isCommented = false := by
    unfold LineParser.isCommented
    rw [hpt, commentRegex_of_head]
    · rfl
    · intro r hr
      rw [hline, dropWhile_space_token w0 kw rest hw0.isSpace hne hkws] at hr
      cases kw with
      | nil => exact absurd rfl hne
      | cons a b =>
        simp only [List.cons_append, List.cons.injEq] at hr
        have := hkw a (List.mem_cons_self _ _)
        rw [hr.1] at this
        revert this; decide
  have hword := nextWord_some p0 w0 kw rest (by rw [hpt, hline]) hw0.isSpace hne hkw hb
  have htruthy : truthyOptText (some kw) = true := by
    cases kw with
    | nil => exact absurd rfl hne
    | cons a b => rfl
  unfold parseLine
  rw [hp0]
  simp only [hnc, hem, hword, htruthy, hci, zero_add, Bool.false_eq_true, if_false, Bool.not_true,
    Bool.or_self, Option.getD_some]
  rw [if_neg (by rintro (h | h); exact hshow.1 h; exact hshow.2 h)]
  cases textRegex rest <;> rfl

theorem eolRegex_operatorPart (op : Option Text) (w2 : Text)
    (hop : ∀ o, op = some o → o ∈ operatorAlternatives ∧ Blank w2) :
    eolRegex (operatorPart op w2) = false := by
  cases op with
  | none => rfl
  | some o =>
    obtain ⟨h1, h2⟩ := hop o rfl
    simp only [operatorPart]
    rw [eolRegex_append, eolRegex_of_not_space o (operator_not_space o h1), h2.eolRegex]
    rfl

theorem ruleResult_of_clean (args : Args) (kw : Keyword) (ruleType : Category)
    (res : ProcessResult) (parser : LineParser) (editor : Editor)
    (hm : res.messages = []) (hi : res.invalid = false) (he : parser.empty = true) :
    (ruleResult args kw ruleType res parser editor).type = LineType.Rule ∧
    (ruleResult args kw ruleType res parser editor).category = some ruleType ∧
    (ruleResult args kw ruleType res parser editor).invalid = false ∧
    (ruleResult args kw ruleType res parser editor).messages = [] ∧
    (ruleResult args kw ruleType res parser editor).operator = res.operator ∧
    (ruleResult args kw ruleType res parser editor).values = res.values := by
  simp [ruleResult, trailingText, mergeMessages, hm, hi, he, LineResult.category,
    LineResult.operator, LineResult.values]

/-- C4. For every numeric range rule (ItemLevel and DropLevel 0-100, Quality 0-20,
Sockets 0-6, Height 1-4, Width 1-2, each with an optional operator, and SetFontSize
18-45 without one): on a line made of the keyword, the operator if one is written,
and a number token that `parseInt` reads as an integer `n` within the bounds, the
parts separated by whitespace, `parseLine` returns a Rule that is not invalid, has
no diagnostics, holds the written operator with its columns, and holds exactly one
value, `n`, whose range is the columns of the number token. -/
theorem parseLine_range_rule_in_range (env : Env) (row : Int) (editor : Editor)
    (itemData : ItemData) (kw : Text) (lo hi : Int) (ope : Bool)
    (w0 w1 : Text) (op : Option Text) (w2 tok w3 : Text) (n : Int)
    (hrule : (kw, lo, hi, ope) ∈ rangeRules)
    (hw0 : Blank w0) (hw1 : Blank w1) (hw1ne : w1 ≠ [])
    (hop : ∀ o, op = some o → ope = true ∧ o ∈ operatorAlternatives ∧ Blank w2 ∧ w2 ≠ [])
    (hne : tok ≠ []) (htok : ∀ c ∈ tok, isNumberChar c = true)
    (hn : parseInt tok 10 = JSNum.ofInt n) (hlo : lo ≤ n) (hhi : n ≤ hi) (hw3 : Blank w3) :
    ∃ r, parseLine env
        { lineText := w0 ++ kw ++ (w1 ++ operatorPart op w2 ++ tok ++ w3), row := row,
          editor := editor, itemData := itemData } = Except.ok (r, editor) ∧
      r.type = LineType.Rule ∧
      r.category = some (if ope = true then Category.condition else Category.action) ∧
      r.invalid = false ∧ r.messages = [] ∧
      r.operator = op.map (fun o =>
        { type := o,
          range := columns row (w0.length + kw.length + w1.length)
            (w0.length + kw.length + w1.length + o.length) }) ∧
      r.values =
        [{ value := Value.number (JSNum.ofInt n),
           range := columns row
             (w0.length + kw.length + w1.length + (operatorPart op w2).length)
             (w0.length + kw.length + w1.length + (operatorPart op w2).length + tok.length) }] := by
  obtain ⟨hs1, hs2, hkne, hkw, -⟩ := rangeRules_keyword kw lo hi ope hrule
  have hb1 : atBoundary (w1 ++ operatorPart op w2 ++ tok ++ w3) = true := by
    rw [List.append_assoc, List.append_assoc]
    exact hw1.atBoundary _ (Or.inr hw1ne)
  have hnsp : ∀ c ∈ tok, isSpace c = false := fun c hc => isNumberChar_not_space (htok c hc)
  have heol : eolRegex (w1 ++ operatorPart op w2 ++ tok ++ w3) = false := by
    rw [eolRegex_append, eolRegex_append, eolRegex_append, hw1.eolRegex,
      eolRegex_operatorPart op w2 (fun o ho => ⟨(hop o ho).2.1, (hop o ho).2.2.1⟩),
      eolRegex_of_not_space tok hnsp, hw3.eolRegex]
    rfl
  obtain ⟨p0, hp0, hpl⟩ := parseLine_keyword_line env
    { lineText := w0 ++ kw ++ (w1 ++ operatorPart op w2 ++ tok ++ w3), row := row,
      editor := editor, itemData := itemData }
    w0 kw (w1 ++ operatorPart op w2 ++ tok ++ w3) rfl hw0 hkne hkw hb1 heol ⟨hs1, hs2⟩
  dsimp only at hpl
  rw [hpl, processRule_rangeRules _ _ _ _ _ kw lo hi ope hrule]
  obtain ⟨hres, hemp⟩ := processRangeRule_in_range
    { p0 with text := w1 ++ operatorPart op w2 ++ tok ++ w3,
              currentIndex := ((w0.length + kw.length : Nat) : Int),
              empty := !textRegex (w1 ++ operatorPart op w2 ++ tok ++ w3) }
    { editor := editor, number := row, file := editor.path, keyword := kw }
    lo hi ope w1 op w2 tok w3 n rfl hw1.isSpace
    (fun o ho => ⟨(hop o ho).1, (hop o ho).2.1, (hop o ho).2.2.2, (hop o ho).2.2.1.isSpace⟩)
    hne htok hn hlo hhi hw3.isSpace
  simp only [finishRule, plainRule]
  generalize processRangeRule
    { p0 with text := w1 ++ operatorPart op w2 ++ tok ++ w3,
              currentIndex := ((w0.length + kw.length : Nat) : Int),
              empty := !textRegex (w1 ++ operatorPart op w2 ++ tok ++ w3) }
    { editor := editor, number := row, file := editor.path, keyword := kw }
    lo hi ope = pr at hres hemp ⊢
  refine ⟨_, rfl, ?_⟩
  have hclean := ruleResult_of_clean
    { lineText := w0 ++ kw ++ (w1 ++ operatorPart op w2 ++ tok ++ w3), row := row,
      editor := editor, itemData := itemData }
    { name := kw, range := Range.onRow row w0.length ((w0.length + kw.length : Nat) : Int) }
    (if ope = true then Category.condition else Category.action) pr.1 pr.2 editor
    (by rw [hres]) (by rw [hres]) hemp
  obtain ⟨h1, h2, h3, h4, h5, h6⟩ := hclean
  refine ⟨h1, h2, h3, h4, ?_, ?_⟩
  · rw [h5, hres]
    simp only [Nat.cast_add, add_assoc]
  · rw [h6, hres]
    simp only [Nat.cast_add, add_assoc]

/-- C4, at the line `ItemLevel >= 85`: the hypotheses hold, and the result is a
condition rule with the operator `>=` at columns 10-12 and the single value 85 at
columns 13-15. -/
theorem parseLine_range_rule_in_range_witness :
    ((utf16 "ItemLevel", (0 : Int), (100 : Int), true) ∈ rangeRules ∧
      parseInt (utf16 "85") 10 = JSNum.ofInt 85 ∧
      [] ++ utf16 "ItemLevel" ++ ([32] ++ operatorPart (some (utf16 ">=")) [32] ++ utf16 "85" ++ []) =
        utf16 "ItemLevel >= 85") ∧
    ∃ r, parseLine asciiEnv
        { lineText := [] ++ utf16 "ItemLevel" ++
            ([32] ++ operatorPart (some (utf16 ">=")) [32] ++ utf16 "85" ++ []),
          row := 0, editor := { path := none, line := utf16 "ItemLevel >= 85" },
          itemData := sampleItems } =
          Except.ok (r, { path := none, line := utf16 "ItemLevel >= 85" }) ∧
      r.type = LineType.Rule ∧
      r.category = some (if true = true then Category.condition else Category.action) ∧
      r.invalid = false ∧ r.messages = [] ∧
      r.operator = (some (utf16 ">=")).map (fun o =>
        { type := o,
          range := columns 0
            ((([] : Text).length : Int) + (utf16 "ItemLevel").length + ([32] : Text).length)
            ((([] : Text).length : Int) + (utf16 "ItemLevel").length + ([32] : Text).length +
              o.length) }) ∧
      r.values =
        [{ value := Value.number (JSNum.ofInt 85),
           range := columns 0
             ((([] : Text).length : Int) + (utf16 "ItemLevel").length + ([32] : Text).length +
               (operatorPart (some (utf16 ">=")) [32]).length)
             ((([] : Text).length : Int) + (utf16 "ItemLevel").length + ([32] : Text).length +
               (operatorPart (some (utf16 ">=")) [32]).length + (utf16 "85").length) }] :=
  ⟨⟨by decide, by decide, by decide⟩,
   parseLine_range_rule_in_range asciiEnv 0 { path := none, line := utf16 "ItemLevel >= 85" }
     sampleItems (utf16 "ItemLevel") 0 100 true [] [32] (some (utf16 ">=")) [32] (utf16 "85") [] 85
     (by decide) (by decide) (by decide) (by decide)
     (fun o ho => by cases ho; exact ⟨rfl, by decide, by decide, by decide⟩)
     (by decide) (by decide) (by decide) (by decide) (by decide) (by decide)⟩

/-- The scenario `ItemLevel >= 85`, evaluated: a valid condition rule, operator `>=`
at columns 10-12, one value 85 at columns 13-15, no diagnostics. -/
theorem parseLine_ItemLevel_85 :
    (parseLine asciiEnv (argsFor (utf16 "ItemLevel >= 85"))).toOption.map
      (fun x => (x.1.type, x.1.category, x.1.invalid, x.1.messages, x.1.operator, x.1.values)) =
    some (LineType.Rule, some Category.condition, false, [],
      some { type := utf16 ">=", range := columns 0 10 12 },
      [{ value := Value.number (JSNum.ofInt 85), range := columns 0 13 15 }]) := by
  rfl

theorem atBoundary_of_spaces_append (w rest : Text) (hw : ∀ c ∈ w, isSpace c = true)
    (hne : w ≠ []) : atBoundary (w ++ rest) = true := by
  cases w with
  | nil => exact absurd rfl hne
  | cons a b => exact hw a (List.mem_cons_self _ _)

theorem operator_ne_nil (o : Text) (h : o ∈ operatorAlternatives) : o ≠ [] := by
  rw [operatorAlternatives_eq] at h
  intro h0; subst h0; simp at h

/-- The two token reads of a range rule on `w1 [op w2] tok rest`: the parser after
them, the operator token and the number token. -/
theorem range_tokens (p : LineParser) (w1 : Text) (op : Option Text) (w2 tok rest : Text)
    (hp : p.text = w1 ++ operatorPart op w2 ++ tok ++ rest)
    (hw1 : ∀ c ∈ w1, isSpace c = true)
    (hop : ∀ o, op = some o → o ∈ operatorAlternatives ∧ w2 ≠ [] ∧ ∀ c ∈ w2, isSpace c = true)
    (hne : tok ≠ []) (htok : ∀ c ∈ tok, isNumberChar c = true)
    (hb : atBoundary rest = true) :
    p.nextOperator.1 = operatorToken p.currentIndex w1 op ∧
    p.nextOperator.2.nextNumber.1 =
      numberToken (p.currentIndex + w1.length + (operatorPart op w2).length) tok ∧
    p.nextOperator.2.nextNumber.2 =
      { p with text := rest,
               currentIndex := p.currentIndex + w1.length + (operatorPart op w2).length + tok.length,
               empty := if !textRegex rest then true else p.empty } := by
  have hnsp : ∀ c ∈ tok, isSpace c = false := fun c hc => isNumberChar_not_space (htok c hc)
  cases op with
  | none =>
    simp only [operatorPart, List.append_nil] at hp ⊢
    have hno := nextOperator_none p w1 (tok ++ rest) (by rw [hp, List.append_assoc]) hw1
      (number_head tok rest hne htok)
    have hnum := nextNumber_some p w1 tok rest hp hw1 hne htok hb
    rw [hno]
    simp only [hnum, operatorToken, numberToken, List.length_nil, Nat.cast_zero, add_zero,
      Nat.cast_add, add_assoc, and_self]
  | some o =>
    obtain ⟨hmem, hw2ne, hw2⟩ := hop o rfl
    simp only [operatorPart] at hp ⊢
    have hb2 : atBoundary (w2 ++ tok ++ rest) = true := by
      rw [List.append_assoc]; exact atBoundary_of_spaces_append w2 _ hw2 hw2ne
    have hop' := nextOperator_some p w1 o (w2 ++ tok ++ rest)
      (by rw [hp]; simp only [List.append_assoc]) hw1 hmem hb2
    have hnum := nextNumber_some
      { p with text := w2 ++ tok ++ rest,
               currentIndex := p.currentIndex + ((w1.length + o.length : Nat) : Int),
               empty := if !textRegex (w2 ++ tok ++ rest) then true else p.empty }
      w2 tok rest rfl hw2 hne htok hb
    rw [hop']
    dsimp only at hnum ⊢
    rw [hnum]
    simp only [operatorToken, numberToken, List.length_append, Nat.cast_add, add_assoc,
      textRegex_append_token w2 tok rest hne hnsp, Bool.not_true, Bool.false_eq_true, if_false,
      and_self]

theorem processRangeRule_tokens (p : LineParser) (line : LineInfo) (lo hi : Int) (ope : Bool)
    (w1 : Text) (op : Option Text) (w2 tok rest : Text)
    (hp : p.text = w1 ++ operatorPart op w2 ++ tok ++ rest)
    (hw1 : ∀ c ∈ w1, isSpace c = true)
    (hop : ∀ o, op = some o → o ∈ operatorAlternatives ∧ w2 ≠ [] ∧ ∀ c ∈ w2, isSpace c = true)
    (hne : tok ≠ []) (htok : ∀ c ∈ tok, isNumberChar c = true)
    (hb : atBoundary rest = true) :
    processRangeRule p line lo hi ope =
      reportTrailingComment
        { p with text := rest,
                 currentIndex := p.currentIndex + w1.length + (operatorPart op w2).length + tok.length,
                 empty := if !textRegex rest then true else p.empty }
        line
        (checkRangeNumber
          { p with text := rest,
                   currentIndex := p.currentIndex + w1.length + (operatorPart op w2).length + tok.length,
                   empty := if !textRegex rest then true else p.empty }
          line lo hi ope
          (numberToken (p.currentIndex + w1.length + (operatorPart op w2).length) tok)
          (checkRangeOperator line ope (operatorToken p.currentIndex w1 op) {})) := by
  obtain ⟨h1, h2, h3⟩ := range_tokens p w1 op w2 tok rest hp hw1 hop hne htok hb
  unfold processRangeRule
  simp only [h1, h2, h3]

theorem checkRangeOperator_allowed (line : LineInfo) (ope : Bool) (ci : Int) (w1 : Text)
    (op : Option Text) (hop : ∀ o, op = some o → ope = true) :
    (checkRangeOperator line ope (operatorToken ci w1 op) {}).messages = [] ∧
    (checkRangeOperator line ope (operatorToken ci w1 op) {}).invalid = false ∧
    (checkRangeOperator line ope (operatorToken ci w1 op) {}).values = [] := by
  unfold checkRangeOperator captureOperator operatorToken
  cases op with
  | none => cases ope <;> simp
  | some o =>
    rw [hop o rfl]
    simp only [if_true]
    split <;> simp

theorem checkRangeNumber_outside (parser : LineParser) (line : LineInfo) (lo hi : Int)
    (ope : Bool) (s : Int) (tok : Text) (r : ProcessResult)
    (hout : ∀ n, parseInt tok 10 = JSNum.ofInt n → n < lo ∨ hi < n) :
    checkRangeNumber parser line lo hi ope (numberToken s tok) r =
      r.fail (errorMessage line.file (Range.onRow line.number s (s + tok.length))
        (utf16 "Invalid value for \"" ++ line.keyword ++ utf16 "\" rule. Expected " ++
          intToString lo ++ utf16 "-" ++ intToString hi ++ utf16 ".")
        (utf16 "http://pathofexile.gamepedia.com/Item_filter")) := by
  have hr : ((parseInt tok 10).ge (JSNum.ofInt lo) && (parseInt tok 10).le (JSNum.ofInt hi)) = false := by
    cases hv : parseInt tok 10 with
    | NaN => rfl
    | ofInt n =>
      have := hout n hv
      simp only [JSNum.ge, JSNum.le, Bool.and_eq_false_imp, decide_eq_true_eq,
        decide_eq_false_iff_not, not_le]
      intro h1
      omega
  unfold checkRangeNumber numberToken
  simp only [Bool.not_true, Option.isNone_some, Bool.or_self, Bool.false_eq_true, if_false,
    Option.getD_some, hr]

theorem commentRegex_some_leading (t ws v : Text) (h : commentRegex t = some (ws, v)) :
    ws = t.takeWhile isSpace := by
  unfold commentRegex at h
  split at h
  · split at h
    · split at h
      · simp only [Option.some.injEq, Prod.mk.injEq] at h
        exact h.1.symm
      · cases h
    · simp only [Option.some.injEq, Prod.mk.injEq] at h
      exact h.1.symm
  · cases h

/-- `reportTrailingComment` in full: nothing where the remaining text is no comment,
else one more error from the comment's first column to `originalLength`. -/
theorem reportTrailingComment_eq (p : LineParser) (line : LineInfo) (r : ProcessResult) :
    (commentRegex p.text = none ∧ reportTrailingComment p line r = (r, p)) ∨
    (∃ v c, commentRegex p.text = some (p.text.takeWhile isSpace, v) ∧
      (reportTrailingComment p line r).1 = r.fail c ∧ c.severity = Severity.error ∧
      c.location.position =
        Range.onRow line.number (p.currentIndex + (p.text.takeWhile isSpace).length)
          p.originalLength) := by
  unfold reportTrailingComment LineParser.isCommented LineParser.parseComment
  cases h : commentRegex p.text with
  | none => left; exact ⟨rfl, rfl⟩
  | some x =>
    obtain ⟨ws, v⟩ := x
    have hws := commentRegex_some_leading _ _ _ h
    subst hws
    right
    refine ⟨v, errorMessage line.file
      (Range.onRow line.number (p.currentIndex + (p.text.takeWhile isSpace).length)
        p.originalLength)
      (utf16 "A trailing comment for a \"" ++ line.keyword ++
        utf16 "\" rule will result in an error.")
      (utf16 "http://pathofexile.gamepedia.com/Item_filter")
      (some (utf16 ("Path of Exile only allows for comments to trail the following rule types:" ++
        "\n\n\tSetBorderColor\n\tSetTextColor\n\tSetBackgroundColor\n\tPlayAlertSound\n\n" ++
        "Any other rule types with a trailing comment will result in an error."))),
      rfl, ?_, rfl, rfl⟩
    simp only [Option.isSome_some, if_true, parseSingleValue_of_some p _ _ v h]

theorem ruleResult_of_invalid (args : Args) (kw : Keyword) (ruleType : Category)
    (res : ProcessResult) (parser : LineParser) (editor : Editor)
    (hi : res.invalid = true) (hm : res.messages ≠ []) :
    (ruleResult args kw ruleType res parser editor).type = LineType.Rule ∧
    (ruleResult args kw ruleType res parser editor).category = some ruleType ∧
    (ruleResult args kw ruleType res parser editor).invalid = true ∧
    (ruleResult args kw ruleType res parser editor).messages = res.messages ∧
    (ruleResult args kw ruleType res parser editor).operator = res.operator ∧
    (ruleResult args kw ruleType res parser editor).values = res.values := by
  have hl : res.messages.length > 0 := List.length_pos.mpr hm
  simp [ruleResult, trailingText, mergeMessages, hi, hl, LineResult.category,
    LineResult.operator, LineResult.values]

theorem LineParser.new_originalLength (t : Text) (p : LineParser)
    (h : LineParser.new t = Except.ok p) : p.originalLength = t.length ∧ p.text = t := by
  rcases LineParser.new_eq t with ⟨-, h2⟩ | ⟨h1, -⟩
  · rw [h2] at h; cases h
  · obtain ⟨q, hq, hqt, -, -, hql⟩ := LineParser.new_ok t h1
    rw [hq] at h
    cases h
    exact ⟨hql, hqt⟩

theorem takeWhile_length_le (p : Nat → Bool) (t : Text) : (t.takeWhile p).length ≤ t.length :=
  (List.takeWhile_sublist p).length_le

/-- C5, as amended. For every numeric range rule (with its operator where one is
allowed, SetFontSize without one) on a line whose number token is not an integer
within the keyword's bounds, whatever follows the number: `parseLine` returns an
invalid Rule without values whose first diagnostic is an error ranging over the
columns of the number token; it is the only diagnostic unless the rest of the line
is a `#` comment, and then exactly one more error follows, ranging from the
comment's first column to the end of the line. -/
theorem parseLine_range_rule_out_of_range (env : Env) (row : Int) (editor : Editor)
    (itemData : ItemData) (kw : Text) (lo hi : Int) (ope : Bool)
    (w0 w1 : Text) (op : Option Text) (w2 tok rest : Text)
    (hrule : (kw, lo, hi, ope) ∈ rangeRules)
    (hw0 : Blank w0) (hw1 : Blank w1) (hw1ne : w1 ≠ [])
    (hop : ∀ o, op = some o → ope = true ∧ o ∈ operatorAlternatives ∧ Blank w2 ∧ w2 ≠ [])
    (hne : tok ≠ []) (htok : ∀ c ∈ tok, isNumberChar c = true)
    (hout : ∀ n, parseInt tok 10 = JSNum.ofInt n → n < lo ∨ hi < n)
    (hb : atBoundary rest = true) (hrest : ∀ c ∈ rest, c ≠ 13 ∧ c ≠ 10) :
    ∃ r m, parseLine env
        { lineText := w0 ++ kw ++ (w1 ++ operatorPart op w2 ++ tok ++ rest), row := row,
          editor := editor, itemData := itemData } = Except.ok (r, editor) ∧
      r.type = LineType.Rule ∧ r.invalid = true ∧ r.values = [] ∧
      m.severity = Severity.error ∧
      m.location.position = columns row
        (w0.length + kw.length + w1.length + (operatorPart op w2).length)
        (w0.length + kw.length + w1.length + (operatorPart op w2).length + tok.length) ∧
      m.excerpt = utf16 "Invalid value for \"" ++ kw ++ utf16 "\" rule. Expected " ++
        intToString lo ++ utf16 "-" ++ intToString hi ++ utf16 "." ∧
      ((commentRegex rest = none ∧ r.messages = [m]) ∨
       (∃ c, (commentRegex rest).isSome = true ∧ r.messages = [m, c] ∧
          c.severity = Severity.error ∧
          c.location.position = columns row
            (w0.length + kw.length + w1.length + (operatorPart op w2).length + tok.length +
              (rest.takeWhile isSpace).length)
            (w0 ++ kw ++ (w1 ++ operatorPart op w2 ++ tok ++ rest)).length)) := by
  obtain ⟨hs1, hs2, hkne, hkw, -⟩ := rangeRules_keyword kw lo hi ope hrule
  have hb1 : atBoundary (w1 ++ operatorPart op w2 ++ tok ++ rest) = true := by
    rw [List.append_assoc, List.append_assoc]
    exact hw1.atBoundary _ (Or.inr hw1ne)
  have hnsp : ∀ c ∈ tok, isSpace c = false := fun c hc => isNumberChar_not_space (htok c hc)
  have heol : eolRegex (w1 ++ operatorPart op w2 ++ tok ++ rest) = false := by
    rw [eolRegex_append, eolRegex_append, eolRegex_append, hw1.eolRegex,
      eolRegex_operatorPart op w2 (fun o ho => ⟨(hop o ho).2.1, (hop o ho).2.2.1⟩),
      eolRegex_of_not_space tok hnsp, (eolRegex_false_iff rest).mpr hrest]
    rfl
  obtain ⟨p0, hp0, hpl⟩ := parseLine_keyword_line env
    { lineText := w0 ++ kw ++ (w1 ++ operatorPart op w2 ++ tok ++ rest), row := row,
      editor := editor, itemData := itemData }
    w0 kw (w1 ++ operatorPart op w2 ++ tok ++ rest) rfl hw0 hkne hkw hb1 heol ⟨hs1, hs2⟩
  obtain ⟨hol, -⟩ := LineParser.new_originalLength _ _ hp0
  dsimp only at hpl hol
  rw [hpl, processRule_rangeRules _ _ _ _ _ kw lo hi ope hrule]
  rw [processRangeRule_tokens _ _ lo hi ope w1 op w2 tok rest rfl hw1.isSpace
    (fun o ho => ⟨(hop o ho).2.1, (hop o ho).2.2.2, (hop o ho).2.2.1.isSpace⟩) hne htok hb]
  dsimp only
  rw [checkRangeNumber_outside _ _ lo hi ope _ tok _ hout]
  obtain ⟨ho1, ho2, ho3⟩ := checkRangeOperator_allowed
    { editor := editor, number := row, file := editor.path, keyword := kw } ope
    ((w0.length + kw.length : Nat) : Int) w1 op (fun o ho => (hop o ho).1)
  generalize checkRangeOperator
    { editor := editor, number := row, file := editor.path, keyword := kw } ope
    (operatorToken ((w0.length + kw.length : Nat) : Int) w1 op) {} = rop at ho1 ho2 ho3 ⊢
  have hcases := reportTrailingComment_eq
    { text := rest,
      currentIndex := ((w0.length + kw.length : Nat) : Int) + w1.length +
        (operatorPart op w2).length + tok.length,
      originalLength := p0.originalLength, textStartIndex := p0.textStartIndex,
      textEndIndex := p0.textEndIndex,
      empty := if (!textRegex rest) = true then true
        else !textRegex (w1 ++ operatorPart op w2 ++ tok ++ rest) }
    { editor := editor, number := row, file := editor.path, keyword := kw }
    (rop.fail
      (errorMessage editor.path
        (Range.onRow row
          (((w0.length + kw.length : Nat) : Int) + w1.length + (operatorPart op w2).length)
          (((w0.length + kw.length : Nat) : Int) + w1.length + (operatorPart op w2).length +
            tok.length))
        (utf16 "Invalid value for \"" ++ kw ++ utf16 "\" rule. Expected " ++
          intToString lo ++ utf16 "-" ++ intToString hi ++ utf16 ".")
        (utf16 "http://pathofexile.gamepedia.com/Item_filter")))
  dsimp only at hcases ⊢
  simp only [finishRule, plainRule]
  generalize reportTrailingComment _ _ _ = rt at hcases ⊢
  refine ⟨_, errorMessage editor.path
        (Range.onRow row
          (((w0.length + kw.length : Nat) : Int) + w1.length + (operatorPart op w2).length)
          (((w0.length + kw.length : Nat) : Int) + w1.length + (operatorPart op w2).length +
            tok.length))
        (utf16 "Invalid value for \"" ++ kw ++ utf16 "\" rule. Expected " ++
          intToString lo ++ utf16 "-" ++ intToString hi ++ utf16 ".")
        (utf16 "http://pathofexile.gamepedia.com/Item_filter"), rfl, ?_⟩
  have hpos : ∀ (a b : Int), a ≤ b → (errorMessage editor.path (Range.onRow row a b)
      (utf16 "Invalid value for \"" ++ kw ++ utf16 "\" rule. Expected " ++
          intToString lo ++ utf16 "-" ++ intToString hi ++ utf16 ".")
      (utf16 "http://pathofexile.gamepedia.com/Item_filter")).location.position = columns row a b := by
    intro a b hab
    rw [Range.onRow_of_le _ _ _ hab]; rfl
  rcases hcases with ⟨hc, hrt⟩ | ⟨v, c, hc, hrt, hcs, hcp⟩
  · subst hrt
    obtain ⟨h1, -, h3, h4, -, h6⟩ := ruleResult_of_invalid
      { lineText := w0 ++ kw ++ (w1 ++ operatorPart op w2 ++ tok ++ rest), row := row,
        editor := editor, itemData := itemData }
      { name := kw, range := Range.onRow row w0.length ((w0.length + kw.length : Nat) : Int) }
      (if ope = true then Category.condition else Category.action)
      (rop.fail (errorMessage editor.path
        (Range.onRow row
          (((w0.length + kw.length : Nat) : Int) + w1.length + (operatorPart op w2).length)
          (((w0.length + kw.length : Nat) : Int) + w1.length + (operatorPart op w2).length +
            tok.length))
        (utf16 "Invalid value for \"" ++ kw ++ utf16 "\" rule. Expected " ++
          intToString lo ++ utf16 "-" ++ intToString hi ++ utf16 ".")
        (utf16 "http://pathofexile.gamepedia.com/Item_filter")))
      { text := rest,
        currentIndex := ((w0.length + kw.length : Nat) : Int) + w1.length +
          (operatorPart op w2).length + tok.length,
        originalLength := p0.originalLength, textStartIndex := p0.textStartIndex,
        textEndIndex := p0.textEndIndex,
        empty := if (!textRegex rest) = true then true
          else !textRegex (w1 ++ operatorPart op w2 ++ tok ++ rest) }
      editor rfl (by simp [ProcessResult.fail])
    refine ⟨h1, h3, ?_, rfl, ?_, rfl, Or.inl ⟨hc, ?_⟩⟩
    · rw [h6]; exact ho3
    · rw [hpos _ _ (by omega)]
      simp only [Nat.cast_add]
    · rw [h4]
      simp only [ProcessResult.fail, ho1, List.nil_append]
  · obtain ⟨h1, -, h3, h4, -, h6⟩ := ruleResult_of_invalid
      { lineText := w0 ++ kw ++ (w1 ++ operatorPart op w2 ++ tok ++ rest), row := row,
        editor := editor, itemData := itemData }
      { name := kw, range := Range.onRow row w0.length ((w0.length + kw.length : Nat) : Int) }
      (if ope = true then Category.condition else Category.action)
      rt.1 rt.2 editor (by rw [hrt]; rfl) (by rw [hrt]; simp [ProcessResult.fail])
    refine ⟨h1, h3, ?_, rfl, ?_, rfl, Or.inr ⟨c, by rw [hc]; rfl, ?_, hcs, ?_⟩⟩
    · rw [h6, hrt]; exact ho3
    · rw [hpos _ _ (by omega)]
      simp only [Nat.cast_add]
    · rw [h4, hrt]
      simp only [ProcessResult.fail, ho1, List.nil_append, List.singleton_append]
    · rw [hcp, hol]
      have hle := takeWhile_length_le isSpace rest
      rw [Range.onRow_of_le _ _ _ (by
        simp only [List.length_append, Nat.cast_add]
        omega)]
      simp only [Nat.cast_add]

/-- C5 as amended, at the line `ItemLevel >= 150`: the hypotheses hold and the
conclusion is that of the theorem, with the number token at columns 13-16. -/
theorem parseLine_range_rule_out_of_range_witness :
    ((utf16 "ItemLevel", (0 : Int), (100 : Int), true) ∈ rangeRules ∧
      parseInt (utf16 "150") 10 = JSNum.ofInt 150 ∧
      [] ++ utf16 "ItemLevel" ++ ([32] ++ operatorPart (some (utf16 ">=")) [32] ++ utf16 "150" ++ []) =
        utf16 "ItemLevel >= 150") ∧
    ∃ r m, parseLine asciiEnv
        { lineText := [] ++ utf16 "ItemLevel" ++
            ([32] ++ operatorPart (some (utf16 ">=")) [32] ++ utf16 "150" ++ []),
          row := 0, editor := { path := none, line := utf16 "ItemLevel >= 150" },
          itemData := sampleItems } =
          Except.ok (r, { path := none, line := utf16 "ItemLevel >= 150" }) ∧
      r.type = LineType.Rule ∧ r.invalid = true ∧ r.values = [] ∧
      m.severity = Severity.error ∧
      m.location.position = columns 0
        ((([] : Text).length : Int) + (utf16 "ItemLevel").length + ([32] : Text).length +
          (operatorPart (some (utf16 ">=")) [32]).length)
        ((([] : Text).length : Int) + (utf16 "ItemLevel").length + ([32] : Text).length +
          (operatorPart (some (utf16 ">=")) [32]).length + (utf16 "150").length) ∧
      m.excerpt = utf16 "Invalid value for \"" ++ utf16 "ItemLevel" ++ utf16 "\" rule. Expected " ++
        intToString 0 ++ utf16 "-" ++ intToString 100 ++ utf16 "." ∧
      ((commentRegex [] = none ∧ r.messages = [m]) ∨
       (∃ c, (commentRegex []).isSome = true ∧ r.messages = [m, c] ∧
          c.severity = Severity.error ∧
          c.location.position = columns 0
            ((([] : Text).length : Int) + (utf16 "ItemLevel").length + ([32] : Text).length +
              (operatorPart (some (utf16 ">=")) [32]).length + (utf16 "150").length +
              (([] : Text).takeWhile isSpace).length)
            ([] ++ utf16 "ItemLevel" ++
              ([32] ++ operatorPart (some (utf16 ">=")) [32] ++ utf16 "150" ++ [])).length)) :=
  ⟨⟨by decide, by decide, by decide⟩,
   parseLine_range_rule_out_of_range asciiEnv 0
     { path := none, line := utf16 "ItemLevel >= 150" }
     sampleItems (utf16 "ItemLevel") 0 100 true [] [32] (some (utf16 ">=")) [32] (utf16 "150") []
     (by decide) (by decide) (by decide) (by decide)
     (fun o ho => by cases ho; exact ⟨rfl, by decide, by decide, by decide⟩)
     (by decide) (by decide)
     (fun n hn => by
       have h150 : parseInt (utf16 "150") 10 = JSNum.ofInt 150 := by decide
       rw [h150] at hn
       cases hn
       exact Or.inr (by decide))
     (by decide) (by decide)⟩

/-- C5, as stated, fails: on `ItemLevel >= 150 # c` the result carries two error
diagnostics, one for the number (columns 13-16) and one for the trailing comment
(columns 17-20), not exactly one. -/
theorem parseLine_out_of_range_and_comment :
    (parseLine asciiEnv (argsFor (utf16 "ItemLevel >= 150 # c"))).toOption.map
      (fun x => (x.1.invalid,
        x.1.messages.map (fun m => (m.severity, m.location.position)))) =
    some (true, [(Severity.error, columns 0 13 16), (Severity.error, columns 0 17 20)]) := by
  rfl

/-- The scenario `ItemLevel >= 150`, evaluated: invalid, one error "Expected 0-100"
over the columns 13-16 of `150`. -/
theorem parseLine_ItemLevel_150 :
    (parseLine asciiEnv (argsFor (utf16 "ItemLevel >= 150"))).toOption.map
      (fun x => (x.1.type, x.1.category, x.1.invalid,
        x.1.messages.map (fun m => (m.severity, m.location.position, m.excerpt)))) =
    some (LineType.Rule, some Category.condition, true,
      [(Severity.error, columns 0 13 16,
        utf16 "Invalid value for \"ItemLevel\" rule. Expected 0-100.")]) := by
  rfl

/-- C6, at the line `Class "" Bows` with a catalog that holds `Bows`: the loop of
`processMultiStringRule` stops at the empty quoted string, so `Bows` is never parsed;
no value is captured, the validator reports nothing, and `parseLine` reports the
rest of the line, columns 8-13, as trailing text. -/
theorem parseLine_Class_empty_then_Bows :
    (parseLine asciiEnv (argsFor (utf16 "Class \"\" Bows"))).toOption.map
      (fun x => (x.1.type, x.1.invalid, x.1.values,
        x.1.messages.map (fun m => (m.severity, m.location.position, m.excerpt)))) =
    some (LineType.Rule, true, [],
      [(Severity.error, columns 0 8 13, utf16 "Trailing text for a filter rule.")]) := by
  rfl

/-- C7, at the line `Class ""`: no value is captured, and yet the result is not
invalid and carries no diagnostic. -/
theorem parseLine_Class_empty_string :
    (parseLine asciiEnv (argsFor (utf16 "Class \"\""))).toOption.map
      (fun x => (x.1.type, x.1.invalid, x.1.values, x.1.messages)) =
    some (LineType.Rule, false, [], []) := by
  rfl

/-- C8, at the line `SetTextColor - 0 0`: the result is not invalid, carries no
diagnostic, and its first captured value is `NaN`, which is no integer between 0
and 255. -/
theorem parseLine_SetTextColor_dash :
    (parseLine asciiEnv (argsFor (utf16 "SetTextColor - 0 0"))).toOption.map
      (fun x => (x.1.type, x.1.invalid, x.1.messages, x.1.values)) =
    some (LineType.Rule, false, [],
      [{ value := Value.number JSNum.NaN, range := columns 0 13 14 },
       { value := Value.number (JSNum.ofInt 0), range := columns 0 15 16 },
       { value := Value.number (JSNum.ofInt 0), range := columns 0 17 18 }]) := by
  rfl

/-- C10, at the line `PlayAlertSound 1 0`: the result is valid and without
diagnostics, but only the id is captured; the volume 0 is not. -/
theorem parseLine_PlayAlertSound_volume_zero :
    (parseLine asciiEnv (argsFor (utf16 "PlayAlertSound 1 0"))).toOption.map
      (fun x => (x.1.type, x.1.invalid, x.1.messages, x.1.values)) =
    some (LineType.Rule, false, [],
      [{ value := Value.number (JSNum.ofInt 1), range := columns 0 15 16 }]) := by
  rfl

/-- C11, at the line `PlayAlertSound 0 500`: the id 0 is outside 1..9 and the volume
500 is outside 0..300, but the result carries one error only, the format error over
the whole line (columns 0-20), and none anchored to the id or to the volume. -/
theorem parseLine_PlayAlertSound_id_zero :
    (parseLine asciiEnv (argsFor (utf16 "PlayAlertSound 0 500"))).toOption.map
      (fun x => (x.1.type, x.1.invalid, x.1.values,
        x.1.messages.map (fun m => (m.severity, m.location.position, m.excerpt)))) =
    some (LineType.Rule, true, [],
      [(Severity.error, columns 0 0 20,
        utf16 "Invalid format. Expected \"PlayAlertSound <Value> [Value]\".")]) := by
  rfl

/-- The scenario `PlayAlertSound 11`: invalid, one error "Expected 1-9" over the
columns 15-17 of `11`. -/
theorem parseLine_PlayAlertSound_11 :
    (parseLine asciiEnv (argsFor (utf16 "PlayAlertSound 11"))).toOption.map
      (fun x => (x.1.type, x.1.invalid, x.1.values,
        x.1.messages.map (fun m => (m.severity, m.location.position, m.excerpt)))) =
    some (LineType.Rule, true, [],
      [(Severity.error, columns 0 15 17,
        utf16 "Invalid value for rule \"PlayAlertSound\". Expected 1-9.")]) := by
  rfl

/-- The line `PlayAlertSound 11 500`: invalid, with one error over the columns of the
id and one over the columns of the volume. -/
theorem parseLine_PlayAlertSound_11_500 :
    (parseLine asciiEnv (argsFor (utf16 "PlayAlertSound 11 500"))).toOption.map
      (fun x => (x.1.type, x.1.invalid, x.1.values,
        x.1.messages.map (fun m => (m.severity, m.location.position, m.excerpt)))) =
    some (LineType.Rule, true, [],
      [(Severity.error, columns 0 15 17,
        utf16 "Invalid value for rule \"PlayAlertSound\". Expected 1-9."),
       (Severity.error, columns 0 18 21,
        utf16 "Invalid value for rule \"PlayAlertSound\". Expected 0-300.")]) := by
  rfl

set_option maxRecDepth 100000 in
theorem natToString_byte :
    ∀ n < 256, natToString n ≠ [] ∧ (∀ c ∈ natToString n, isDigit c = true) ∧
      parseInt (natToString n) 10 = JSNum.ofInt n := by
  decide

theorem isHexDigit_lt {c : Nat} (h : isHexDigit c = true) : c < 103 := by
  simp only [isHexDigit, isDigit, Bool.or_eq_true, Bool.and_eq_true, decide_eq_true_eq] at h
  omega

set_option maxRecDepth 100000 in
theorem hexDigit_value : ∀ c < 103, isHexDigit c = true →
    (digitValue c).getD 0 < 16 ∧ isRadixDigit 16 c = true ∧ isSpace c = false ∧ c ≠ 45 ∧
      c ≠ 43 ∧ c ≠ 120 ∧ c ≠ 88 ∧ isDot c = true := by
  decide

theorem hexDigit_facts {c : Nat} (h : isHexDigit c = true) :
    (digitValue c).getD 0 < 16 ∧ isRadixDigit 16 c = true ∧ isSpace c = false ∧ c ≠ 45 ∧
      c ≠ 43 ∧ c ≠ 120 ∧ c ≠ 88 ∧ isDot c = true :=
  hexDigit_value c (isHexDigit_lt h) h

theorem hexByte_lt {a b : Nat} (ha : isHexDigit a = true) (hb : isHexDigit b = true) :
    hexByte a b < 256 := by
  have h1 := (hexDigit_facts ha).1
  have h2 := (hexDigit_facts hb).1
  unfold hexByte
  omega

theorem parseInt_hexPair {a b : Nat} (ha : isHexDigit a = true) (hb : isHexDigit b = true) :
    parseInt [a, b] 16 = JSNum.ofInt (hexByte a b) := by
  obtain ⟨-, ra, sa, a45, a43, -, -, -⟩ := hexDigit_facts ha
  obtain ⟨-, rb, sb, -, -, b120, b88, -⟩ := hexDigit_facts hb
  unfold parseInt hexByte
  simp [sa, ra, rb, a45, a43, b120, b88, List.takeWhile, List.dropWhile, mul_comm]

theorem toText_byte (n : Nat) : (JSNum.ofInt (n : Int)).toText = natToString n := by
  simp [JSNum.toText, intToString]

theorem numberRegex_nil : numberRegex [] = none := by decide

theorem nextNumber_nil (q : LineParser) (h : q.text = []) :
    q.nextNumber = ({ found := false, startIndex := 0, endIndex := 0, value := none }, q) := by
  unfold LineParser.nextNumber
  rw [parseSingleValue_of_none q _ (by rw [h]; exact numberRegex_nil)]
  rfl

theorem atBoundary_space (t : Text) : atBoundary (32 :: t) = true := by
  simp [atBoundary]; decide

/-- The four number reads of the colour rule on `ws r g b [a]`, the channels
separated by single spaces and nothing after them. -/
theorem readChannels_decimal (q : LineParser) (ws dr dg db : Text) (alpha : Option Text)
    (hq : q.text = ws ++ dr ++ (32 :: dg ++ (32 :: db ++ alphaPart alpha)))
    (hws : ∀ c ∈ ws, isSpace c = true)
    (hr : dr ≠ [] ∧ ∀ c ∈ dr, isNumberChar c = true)
    (hg : dg ≠ [] ∧ ∀ c ∈ dg, isNumberChar c = true)
    (hb : db ≠ [] ∧ ∀ c ∈ db, isNumberChar c = true)
    (ha : ∀ da, alpha = some da → da ≠ [] ∧ ∀ c ∈ da, isNumberChar c = true) :
    readChannels q =
      (numberToken (q.currentIndex + ws.length) dr,
       numberToken (q.currentIndex + ws.length + dr.length + 1) dg,
       numberToken (q.currentIndex + ws.length + dr.length + 1 + dg.length + 1) db,
       alphaToken (q.currentIndex + ws.length + dr.length + 1 + dg.length + 1 + db.length) alpha,
       { q with text := [],
                currentIndex := q.currentIndex + ws.length + dr.length + 1 + dg.length + 1 +
                  db.length + (alphaPart alpha).length,
                empty := true }) := by
  have hsp : ∀ c ∈ ([32] : Text), isSpace c = true := by decide
  have h1 := nextNumber_some q ws dr (32 :: dg ++ (32 :: db ++ alphaPart alpha)) hq hws hr.1 hr.2
    (atBoundary_space _)
  have h2 := nextNumber_some
    { q with text := 32 :: dg ++ (32 :: db ++ alphaPart alpha),
             currentIndex := q.currentIndex + ((ws.length + dr.length : Nat) : Int),
             empty := if !textRegex (32 :: dg ++ (32 :: db ++ alphaPart alpha)) then true else q.empty }
    [32] dg (32 :: db ++ alphaPart alpha) (by simp) hsp hg.1 hg.2 (atBoundary_space _)
  unfold readChannels
  rw [h1]
  dsimp only at h2 ⊢
  rw [h2]
  dsimp only
  have htn : textRegex [] = false := rfl
  cases alpha with
  | none =>
    simp only [alphaPart, List.append_nil] at *
    have h3 := nextNumber_some
      { q with text := 32 :: db,
               currentIndex := q.currentIndex + ((ws.length + dr.length : Nat) : Int) +
                 ((([32] : Text).length + dg.length : Nat) : Int),
               empty := if !textRegex (32 :: db) then true
                 else if !textRegex (32 :: dg ++ 32 :: db) then true else q.empty }
      [32] db [] (by simp) hsp hb.1 hb.2 rfl
    dsimp only at h3
    rw [h3]
    dsimp only
    rw [nextNumber_nil _ rfl]
    simp only [numberToken, alphaToken, List.length_singleton, List.length_nil, Nat.cast_add,
      Nat.cast_one, Nat.cast_zero, add_zero, htn, Bool.not_false, if_true]
    ring_nf
  | some da =>
    obtain ⟨hane, hadig⟩ := ha da rfl
    simp only [alphaPart] at *
    have h3 := nextNumber_some
      { q with text := 32 :: db ++ 32 :: da,
               currentIndex := q.currentIndex + ((ws.length + dr.length : Nat) : Int) +
                 ((([32] : Text).length + dg.length : Nat) : Int),
               empty := if !textRegex (32 :: db ++ 32 :: da) then true
                 else if !textRegex (32 :: dg ++ (32 :: db ++ 32 :: da)) then true else q.empty }
      [32] db (32 :: da) (by simp) hsp hb.1 hb.2 (atBoundary_space _)
    dsimp only at h3
    rw [h3]
    dsimp only
    have h4 := nextNumber_some
      { q with text := 32 :: da,
               currentIndex := q.currentIndex + ((ws.length + dr.length : Nat) : Int) +
                 ((([32] : Text).length + dg.length : Nat) : Int) +
                 ((([32] : Text).length + db.length : Nat) : Int),
               empty := if !textRegex (32 :: da) then true
                 else if !textRegex (32 :: db ++ 32 :: da) then true
                 else if !textRegex (32 :: dg ++ (32 :: db ++ 32 :: da)) then true else q.empty }
      [32] da [] (by simp) hsp hane hadig rfl
    dsimp only at h4
    rw [h4]
    simp only [numberToken, alphaToken, List.length_singleton, List.length_nil, Nat.cast_add,
      Nat.cast_one, Nat.cast_zero, add_zero, htn, Bool.not_false, if_true, List.length_cons]
    ring_nf

theorem setText_replace (path : Option Text) (a old b new : Text) (row s e : Int)
    (hs : s = a.length) (he : e = a.length + old.length) :
    ({ path := path, line := a ++ old ++ b } : Editor).setTextInBufferRange (columns row s e) new =
      { path := path, line := a ++ new ++ b } := by
  unfold Editor.setTextInBufferRange clipColumn columns
  subst hs he
  have h1 : min ((a.length : Int)).toNat (a ++ old ++ b).length = a.length := by
    simp only [List.length_append]; omega
  have h2 : min ((a.length : Int) + old.length).toNat (a ++ old ++ b).length =
      a.length + old.length := by
    simp only [List.length_append]; omega
  simp only [h1, h2]
  rw [List.append_assoc a old b, List.take_left' rfl, ← List.append_assoc a old b,
    ← List.length_append, List.drop_left' rfl]

theorem getText_middle (path : Option Text) (a mid b : Text) (row s e : Int)
    (hs : s = a.length) (he : e = a.length + mid.length) :
    ({ path := path, line := a ++ mid ++ b } : Editor).getTextInBufferRange (columns row s e) = mid := by
  unfold Editor.getTextInBufferRange clipColumn columns
  subst hs he
  have h1 : min ((a.length : Int)).toNat (a ++ mid ++ b).length = a.length := by
    simp only [List.length_append]; omega
  have h2 : min ((a.length : Int) + mid.length).toNat (a ++ mid ++ b).length =
      a.length + mid.length := by
    simp only [List.length_append]; omega
  simp only [h1, h2]
  rw [List.append_assoc a mid b, List.drop_left' rfl, Nat.add_sub_cancel_left,
    List.take_left' rfl]

theorem colorHexRegex_hex (a1 a2 b1 b2 c1 c2 : Nat) (ad : Option (Nat × Nat))
    (h : ∀ c ∈ hexDigits a1 a2 b1 b2 c1 c2 ad, isHexDigit c = true) :
    colorHexRegex (32 :: 35 :: hexDigits a1 a2 b1 b2 c1 c2 ad) =
      some ([32], 35 :: hexDigits a1 a2 b1 b2 c1 c2 ad) := by
  have h32 : isSpace 32 = true := by decide
  have h35 : isSpace 35 = false := by decide
  unfold colorHexRegex
  cases ad with
  | none =>
    simp only [hexDigits, List.mem_cons, List.mem_singleton, forall_eq_or_imp, forall_eq,
      List.mem_nil_iff, IsEmpty.forall_iff, implies_true, and_true] at h
    obtain ⟨h1, h2, h3, h4, h5, h6⟩ := h
    simp [hexDigits, List.dropWhile, List.takeWhile, h32, h35, h1, h2, h3, h4, h5, h6, atBoundary]
  | some d =>
    obtain ⟨d1, d2⟩ := d
    simp only [hexDigits, List.mem_cons, List.mem_singleton, forall_eq_or_imp, forall_eq,
      List.mem_nil_iff, IsEmpty.forall_iff, implies_true, and_true] at h
    obtain ⟨h1, h2, h3, h4, h5, h6, h7, h8⟩ := h
    simp [hexDigits, List.dropWhile, List.takeWhile, h32, h35, h1, h2, h3, h4, h5, h6, h7, h8,
      atBoundary]

theorem dropWhile_of_head (p : Nat → Bool) (t : Text) (h : ∀ c, t.head? = some c → p c = false) :
    t.dropWhile p = t ∧ t.takeWhile p = [] := by
  cases t with
  | nil => simp
  | cons c r =>
    have hc : p c = false := h c rfl
    simp [List.dropWhile, List.takeWhile, hc]

theorem dropTrailingSpace_of_last (t : Text) (h : ∀ c, t.getLast? = some c → isSpace c = false) :
    dropTrailingSpace t = t := by
  unfold dropTrailingSpace
  rw [(dropWhile_of_head isSpace t.reverse (by simpa using h)).1, List.reverse_reverse]

/-- The constructor on a text without line terminators that neither starts nor ends
with whitespace: the text is its own payload. -/
theorem LineParser.new_trimmed (t : Text) (hne : t ≠ [])
    (hhead : ∀ c, t.head? = some c → isSpace c = false)
    (hlast : ∀ c, t.getLast? = some c → isSpace c = false)
    (hdot : ∀ c ∈ t, isDot c = true) :
    LineParser.new t =
      Except.ok { text := t, currentIndex := 0, originalLength := t.length, textStartIndex := 0,
                  textEndIndex := t.length, empty := false } := by
  have heol : eolRegex t = false := by
    unfold eolRegex
    rw [List.any_eq_false]
    intro c hc
    have := hdot c hc
    simp only [isDot, Bool.not_eq_true', Bool.or_eq_false_iff] at this
    simp [this.1.1.1, this.1.1.2]
  have htext : textRegex t = true := by
    cases t with
    | nil => exact absurd rfl hne
    | cons c r =>
      have hc : isSpace c = false := hhead c rfl
      simp [textRegex, hc]
  have hdrop := dropWhile_of_head isSpace t hhead
  have hall : t.all isDot = true := by rw [List.all_eq_true]; exact hdot
  unfold LineParser.new surroundingWSRegex
  simp [heol, htext, hdrop.1, hdrop.2, dropTrailingSpace_of_last t hlast, hall, truthyText]

theorem channelOutOfRange_byte (n : Nat) (h : n < 256) :
    channelOutOfRange (JSNum.ofInt n) = false := by
  simp only [channelOutOfRange, JSNum.lt, JSNum.gt, Bool.or_eq_false_iff, decide_eq_false_iff_not]
  omega

theorem isNumberChar_of_isDigit {c : Nat} (h : isDigit c = true) : isNumberChar c = true := by
  simp [isNumberChar, h]

/-- The channel checks on three or four decimal channels that are bytes: the
channels are captured with their columns and nothing is reported. -/
theorem checkChannels_bytes (line : LineInfo) (s : Int) (r g b : Nat) (a : Option Nat)
    (hr : r < 256) (hg : g < 256) (hb : b < 256) (ha : ∀ n, a = some n → n < 256) :
    checkChannels line
      (numberToken s (natToString r))
      (numberToken (s + (natToString r).length + 1) (natToString g))
      (numberToken (s + (natToString r).length + 1 + (natToString g).length + 1) (natToString b))
      (alphaToken (s + (natToString r).length + 1 + (natToString g).length + 1 +
        (natToString b).length) (a.map natToString)) {} =
    { values := channelValues line.number s r g b a } := by
  have pr := (natToString_byte r hr).2.2
  have pg := (natToString_byte g hg).2.2
  have pb := (natToString_byte b hb).2.2
  have hon : ∀ (x : Int) (t : Text), Range.onRow line.number x (x + t.length) =
      columns line.number x (x + t.length) :=
    fun x t => Range.onRow_of_le _ _ _ (by omega)
  unfold checkChannels
  cases a with
  | none =>
    simp only [numberToken, alphaToken, Option.map_none', Option.getD_some, pr, pg, pb,
      channelOutOfRange_byte r hr, channelOutOfRange_byte g hg, channelOutOfRange_byte b hb,
      Bool.false_and, Bool.false_eq_true, if_false, ProcessResult.pushValue, hon, channelValues,
      List.nil_append, List.append_nil, List.cons_append]
  | some n =>
    have hn := ha n rfl
    have pn := (natToString_byte n hn).2.2
    simp only [numberToken, alphaToken, Option.map_some', Option.getD_some, pr, pg, pb, pn,
      channelOutOfRange_byte r hr, channelOutOfRange_byte g hg, channelOutOfRange_byte b hb,
      channelOutOfRange_byte n hn, Bool.and_false,
      Bool.false_eq_true, if_false, if_true, ProcessResult.pushValue, hon, channelValues,
      List.nil_append, List.append_nil, List.cons_append]

theorem commentRegex_nil : commentRegex [] = none := by decide

theorem captureTrailingComment_nil (q : LineParser) (line : LineInfo) (res : ProcessResult)
    (h : q.text = []) : captureTrailingComment q line res = (res, q) := by
  unfold captureTrailingComment LineParser.isCommented
  rw [h, commentRegex_nil]
  rfl

/-- The colour validator once the operator check and the hex statement are done, on
three or four decimal byte channels separated by single spaces with nothing after
them: the channels are captured with their columns, nothing is reported, and the
parser has consumed the text. -/
theorem processRGBARule_of_stage (p p1 q : LineParser) (line : LineInfo) (ed : Editor)
    (ws : Text) (r g b : Nat) (a : Option Nat)
    (hop : expectEqualityOp p line = (none, p1)) (hst : hexStage p1 line = (q, ed))
    (hq : q.text = ws ++ decimalChannels r g b a) (hws : ∀ c ∈ ws, isSpace c = true)
    (hr : r < 256) (hg : g < 256) (hb : b < 256) (ha : ∀ n, a = some n → n < 256) :
    processRGBARule p line =
      ({ values := channelValues line.number (q.currentIndex + ws.length) r g b a },
       { q with text := [],
                currentIndex := q.currentIndex + ws.length + (natToString r).length + 1 +
                  (natToString g).length + 1 + (natToString b).length +
                  (alphaPart (a.map natToString)).length,
                empty := true }, ed) := by
  have tok : ∀ n, n < 256 →
      natToString n ≠ [] ∧ ∀ c ∈ natToString n, isNumberChar c = true := fun n hn =>
    ⟨(natToString_byte n hn).1, fun c hc => isNumberChar_of_isDigit ((natToString_byte n hn).2.1 c hc)⟩
  have hread := readChannels_decimal q ws (natToString r) (natToString g) (natToString b)
    (a.map natToString) (by rw [hq, decimalChannels, List.append_assoc]) hws (tok r hr) (tok g hg)
    (tok b hb) (by
      intro da hda
      cases a with
      | none => simp at hda
      | some n =>
        simp only [Option.map_some', Option.some.injEq] at hda
        subst hda
        exact tok n (ha n rfl))
  unfold processRGBARule
  rw [hop]
  dsimp only
  rw [hst]
  dsimp only
  rw [hread]
  dsimp only
  rw [checkChannels_bytes line _ r g b a hr hg hb ha, captureTrailingComment_nil _ _ _ rfl]
  simp [numberToken]

theorem normalizeHex_six (p2 : LineParser) (line : LineInfo) (path : Option Text) (pre : Text)
    (a1 a2 b1 b2 c1 c2 : Nat) (hexResult : ParseResult Text)
    (h1 : isHexDigit a1 = true) (h2 : isHexDigit a2 = true) (h3 : isHexDigit b1 = true)
    (h4 : isHexDigit b2 = true) (h5 : isHexDigit c1 = true) (h6 : isHexDigit c2 = true)
    (hed : line.editor = { path := path, line := pre ++ [35, a1, a2, b1, b2, c1, c2] ++ [] })
    (hs : hexResult.startIndex = pre.length) (he : hexResult.endIndex = pre.length + 7)
    (hci : p2.currentIndex = pre.length + 7) (hol : p2.originalLength = pre.length + 7)
    (hte : p2.textEndIndex = pre.length + 7) :
    normalizeHex p2 line hexResult [35, a1, a2, b1, b2, c1, c2] =
      ({ p2 with text := decimalChannels (hexByte a1 a2) (hexByte b1 b2) (hexByte c1 c2) none,
                 originalLength := pre.length +
                   (decimalChannels (hexByte a1 a2) (hexByte b1 b2) (hexByte c1 c2) none).length,
                 currentIndex := pre.length,
                 textEndIndex := pre.length +
                   (decimalChannels (hexByte a1 a2) (hexByte b1 b2) (hexByte c1 c2) none).length },
       { path := path,
         line := pre ++ decimalChannels (hexByte a1 a2) (hexByte b1 b2) (hexByte c1 c2) none }) := by
  have hsp : utf16 " " = [32] := by decide
  simp only [normalizeHex, List.drop, List.take, List.length, parseInt_hexPair h1 h2,
    parseInt_hexPair h3 h4, parseInt_hexPair h5 h6, toText_byte, hed, hs, he, hci, hol, hte, hsp]
  have hD : natToString (hexByte a1 a2) ++ [32] ++ natToString (hexByte b1 b2) ++ [32] ++
      natToString (hexByte c1 c2) =
      decimalChannels (hexByte a1 a2) (hexByte b1 b2) (hexByte c1 c2) none := by
    simp [decimalChannels, alphaPart]
  have h7 : ((0 + 1 + 1 + 1 + 1 + 1 + 1 + 1 : Nat) == 9) = false := by decide
  have hc7 : ((0 + 1 + 1 + 1 + 1 + 1 + 1 + 1 : Nat) : Int) = 7 := by norm_num
  simp only [h7, Bool.false_eq_true, if_false, hD, hc7, add_sub_cancel_right]
  rw [Range.onRow_of_le _ _ _ (by omega), Range.onRow_of_le _ _ _ (by omega),
    setText_replace path pre [35, a1, a2, b1, b2, c1, c2] [] _ _ _ _ rfl (by simp),
    getText_middle path pre _ [] _ _ _ rfl rfl, List.append_nil]

theorem normalizeHex_eight (p2 : LineParser) (line : LineInfo) (path : Option Text) (pre : Text)
    (a1 a2 b1 b2 c1 c2 d1 d2 : Nat) (hexResult : ParseResult Text)
    (h1 : isHexDigit a1 = true) (h2 : isHexDigit a2 = true) (h3 : isHexDigit b1 = true)
    (h4 : isHexDigit b2 = true) (h5 : isHexDigit c1 = true) (h6 : isHexDigit c2 = true)
    (h7 : isHexDigit d1 = true) (h8 : isHexDigit d2 = true)
    (hed : line.editor = { path := path, line := pre ++ [35, a1, a2, b1, b2, c1, c2, d1, d2] ++ [] })
    (hs : hexResult.startIndex = pre.length) (he : hexResult.endIndex = pre.length + 9)
    (hci : p2.currentIndex = pre.length + 9) (hol : p2.originalLength = pre.length + 9)
    (hte : p2.textEndIndex = pre.length + 9) :
    normalizeHex p2 line hexResult [35, a1, a2, b1, b2, c1, c2, d1, d2] =
      ({ p2 with
           text := decimalChannels (hexByte a1 a2) (hexByte b1 b2) (hexByte c1 c2)
             (some (hexByte d1 d2)),
           originalLength := pre.length +
             (decimalChannels (hexByte a1 a2) (hexByte b1 b2) (hexByte c1 c2)
               (some (hexByte d1 d2))).length,
           currentIndex := pre.length,
           textEndIndex := pre.length +
             (decimalChannels (hexByte a1 a2) (hexByte b1 b2) (hexByte c1 c2)
               (some (hexByte d1 d2))).length },
       { path := path,
         line := pre ++ decimalChannels (hexByte a1 a2) (hexByte b1 b2) (hexByte c1 c2)
           (some (hexByte d1 d2)) }) := by
  have hsp : utf16 " " = [32] := by decide
  simp only [normalizeHex, List.drop, List.take, List.length, parseInt_hexPair h1 h2,
    parseInt_hexPair h3 h4, parseInt_hexPair h5 h6, parseInt_hexPair h7 h8, toText_byte, hed, hs,
    he, hci, hol, hte, hsp]
  have hD : natToString (hexByte a1 a2) ++ [32] ++ natToString (hexByte b1 b2) ++ [32] ++
      natToString (hexByte c1 c2) ++ [32] ++ natToString (hexByte d1 d2) =
      decimalChannels (hexByte a1 a2) (hexByte b1 b2) (hexByte c1 c2) (some (hexByte d1 d2)) := by
    simp [decimalChannels, alphaPart]
  have h9 : ((0 + 1 + 1 + 1 + 1 + 1 + 1 + 1 + 1 + 1 : Nat) == 9) = true := by decide
  have hc9 : ((0 + 1 + 1 + 1 + 1 + 1 + 1 + 1 + 1 + 1 : Nat) : Int) = 9 := by norm_num
  simp only [h9, if_true, hD, hc9, add_sub_cancel_right]
  rw [Range.onRow_of_le _ _ _ (by omega), Range.onRow_of_le _ _ _ (by omega),
    setText_replace path pre [35, a1, a2, b1, b2, c1, c2, d1, d2] [] _ _ _ _ rfl (by simp),
    getText_middle path pre _ [] _ _ _ rfl rfl, List.append_nil]

/-- The hex statement of the colour validator on a hex literal that ends the line,
after the text `pre` and one space: the buffer row becomes `pre` followed by the
channels in decimal, and the parser is pointed at those decimal channels. -/
theorem hexStage_hex (p1 : LineParser) (line : LineInfo) (path : Option Text) (pre : Text)
    (a1 a2 b1 b2 c1 c2 : Nat) (ad : Option (Nat × Nat))
    (hex : ∀ c ∈ hexDigits a1 a2 b1 b2 c1 c2 ad, isHexDigit c = true)
    (hp : p1.text = 32 :: 35 :: hexDigits a1 a2 b1 b2 c1 c2 ad)
    (hci : p1.currentIndex + 1 = pre.length)
    (hol : p1.originalLength = pre.length + ((hexDigits a1 a2 b1 b2 c1 c2 ad).length + 1 : Nat))
    (hte : p1.textEndIndex = pre.length + ((hexDigits a1 a2 b1 b2 c1 c2 ad).length + 1 : Nat))
    (hed : line.editor =
      { path := path, line := pre ++ (35 :: hexDigits a1 a2 b1 b2 c1 c2 ad) ++ [] }) :
    hexStage p1 line =
      ({ text := decimalChannels (hexByte a1 a2) (hexByte b1 b2) (hexByte c1 c2)
           (ad.map fun d => hexByte d.1 d.2),
         currentIndex := pre.length,
         originalLength := pre.length +
           (decimalChannels (hexByte a1 a2) (hexByte b1 b2) (hexByte c1 c2)
             (ad.map fun d => hexByte d.1 d.2)).length,
         textStartIndex := p1.textStartIndex,
         textEndIndex := pre.length +
           (decimalChannels (hexByte a1 a2) (hexByte b1 b2) (hexByte c1 c2)
             (ad.map fun d => hexByte d.1 d.2)).length,
         empty := true },
       { path := path,
         line := pre ++ decimalChannels (hexByte a1 a2) (hexByte b1 b2) (hexByte c1 c2)
           (ad.map fun d => hexByte d.1 d.2) }) := by
  have hre : colorHexRegex p1.text = some ([32], 35 :: hexDigits a1 a2 b1 b2 c1 c2 ad) := by
    rw [hp]; exact colorHexRegex_hex a1 a2 b1 b2 c1 c2 ad hex
  unfold hexStage LineParser.nextHex
  rw [parseSingleValue_of_some p1 _ _ _ hre]
  dsimp only
  have htr : truthyText (35 :: hexDigits a1 a2 b1 b2 c1 c2 ad) = true := rfl
  rw [htr]
  simp only [Bool.and_self, if_true]
  cases ad with
  | none =>
    simp only [hexDigits, List.mem_cons, List.mem_singleton, forall_eq_or_imp, forall_eq,
      List.mem_nil_iff, IsEmpty.forall_iff, implies_true, and_true] at hex
    obtain ⟨h1, h2, h3, h4, h5, h6⟩ := hex
    simp only [hexDigits] at hp hol hte hed ⊢
    rw [normalizeHex_six _ line path pre a1 a2 b1 b2 c1 c2 _ h1 h2 h3 h4 h5 h6 hed
      (by simp; omega) (by simp; omega) (by simp; omega) (by simp [hol]) (by simp [hte])]
    simp [hp, textRegex]
  | some d =>
    obtain ⟨d1, d2⟩ := d
    simp only [hexDigits, List.mem_cons, List.mem_singleton, forall_eq_or_imp, forall_eq,
      List.mem_nil_iff, IsEmpty.forall_iff, implies_true, and_true] at hex
    obtain ⟨h1, h2, h3, h4, h5, h6, h7, h8⟩ := hex
    simp only [hexDigits] at hp hol hte hed ⊢
    rw [normalizeHex_eight _ line path pre a1 a2 b1 b2 c1 c2 d1 d2 _ h1 h2 h3 h4 h5 h6 h7 h8 hed
      (by simp; omega) (by simp; omega) (by simp; omega) (by simp [hol]) (by simp [hte])]
    simp [hp, textRegex]

theorem isDot_of_not_space {c : Nat} (h : isSpace c = false) : isDot c = true := by
  by_contra hd
  have hc : c = 10 ∨ c = 13 ∨ c = 8232 ∨ c = 8233 := by
    simp only [isDot, Bool.not_eq_true', Bool.not_eq_false, Bool.or_eq_true, beq_iff_eq] at hd
    tauto
  rcases hc with rfl | rfl | rfl | rfl <;> simp [isSpace] at h

theorem getLast_append_token (a b : Text) (hb : b ≠ []) (hall : ∀ c ∈ b, isSpace c = false) :
    ∀ c, (a ++ b).getLast? = some c → isSpace c = false := by
  intro c hc
  rw [List.getLast?_append_of_ne_nil a hb] at hc
  exact hall c (List.mem_of_getLast?_eq_some hc)

theorem isDigit_not_space {c : Nat} (h : isDigit c = true) : isSpace c = false :=
  isNumberChar_not_space (isNumberChar_of_isDigit h)

theorem colorHexRegex_none (ws rest : Text) (hws : ∀ c ∈ ws, isSpace c = true)
    (h : ∀ c, rest.head? = some c → isSpace c = false ∧ c ≠ 35) :
    colorHexRegex (ws ++ rest) = none := by
  unfold colorHexRegex
  rw [(takeWhile_append_stop isSpace ws rest hws (fun c hc => (h c hc).1)).2]
  cases rest with
  | nil => rfl
  | cons c r =>
    have hc := (h c rfl).2
    split
    · rename_i r2 heq
      simp only [List.cons.injEq] at heq
      exact absurd heq.1 hc
    · rfl

theorem hexStage_none (p : LineParser) (line : LineInfo) (h : colorHexRegex p.text = none) :
    hexStage p line = (p, line.editor) := by
  unfold hexStage LineParser.nextHex
  rw [parseSingleValue_of_none p _ h]

/-- The shape of decimal byte channels: every character is a digit or a space, and
the text is a first and a last non-empty run of digits around the rest. -/
theorem decimalChannels_shape (r g b : Nat) (a : Option Nat)
    (hr : r < 256) (hg : g < 256) (hb : b < 256) (ha : ∀ n, a = some n → n < 256) :
    (∀ c ∈ decimalChannels r g b a, isDigit c = true ∨ c = 32) ∧
    (∃ rest, decimalChannels r g b a = natToString r ++ rest) ∧
    (∃ init last, decimalChannels r g b a = init ++ last ∧ last ≠ [] ∧
      ∀ c ∈ last, isDigit c = true) := by
  have dr := natToString_byte r hr
  have dg := natToString_byte g hg
  have db := natToString_byte b hb
  cases a with
  | none =>
    refine ⟨?_, ⟨_, rfl⟩, natToString r ++ (32 :: natToString g ++ [32]), natToString b, ?_,
      db.1, db.2.1⟩
    · intro c hc
      simp only [decimalChannels, alphaPart, Option.map_none', List.append_nil, List.mem_append,
        List.mem_cons] at hc
      rcases hc with hc | (hc | hc) | hc | hc
      · exact Or.inl (dr.2.1 c hc)
      · exact Or.inr hc
      · exact Or.inl (dg.2.1 c hc)
      · exact Or.inr hc
      · exact Or.inl (db.2.1 c hc)
    · simp [decimalChannels, alphaPart]
  | some n =>
    have dn := natToString_byte n (ha n rfl)
    refine ⟨?_, ⟨_, rfl⟩,
      natToString r ++ (32 :: natToString g ++ (32 :: natToString b ++ [32])), natToString n, ?_,
      dn.1, dn.2.1⟩
    · intro c hc
      simp only [decimalChannels, alphaPart, Option.map_some', List.mem_append,
        List.mem_cons] at hc
      rcases hc with hc | (hc | hc) | (hc | hc) | hc | hc
      · exact Or.inl (dr.2.1 c hc)
      · exact Or.inr hc
      · exact Or.inl (dg.2.1 c hc)
      · exact Or.inr hc
      · exact Or.inl (db.2.1 c hc)
      · exact Or.inr hc
      · exact Or.inl (dn.2.1 c hc)
    · simp [decimalChannels, alphaPart]

theorem ruleResult_clean_eq (args : Args) (kw : Keyword) (ruleType : Category)
    (res : ProcessResult) (parser : LineParser) (editor : Editor)
    (hm : res.messages = []) (hi : res.invalid = false) (he : parser.empty = true) :
    ruleResult args kw ruleType res parser editor =
      { type := LineType.Rule,
        data := LineData.rule kw (Range.onRow args.row parser.textStartIndex parser.textEndIndex)
          res.trailingComment ruleType res.operator res.values,
        invalid := false, messages := [] } := by
  simp [ruleResult, trailingText, mergeMessages, hm, hi, he]

theorem colorKeywords_facts (K : Text) (h : K ∈ colorKeywords) :
    K ≠ utf16 "Show" ∧ K ≠ utf16 "Hide" ∧ K ≠ [] ∧ (∀ c ∈ K, isWordChar c = true) := by
  simp only [colorKeywords, List.mem_cons, List.mem_singleton, List.mem_nil_iff, or_false] at h
  rcases h with rfl | rfl | rfl <;> decide

theorem processRule_colorKeywords (env : Env) (p : LineParser) (li : LineInfo)
    (vc vb : List Text) (K : Text) (h : K ∈ colorKeywords) :
    processRule env p li vc vb K = some (Category.action, some (processRGBARule p li)) := by
  simp only [colorKeywords, List.mem_cons, List.mem_singleton, List.mem_nil_iff, or_false] at h
  rcases h with rfl | rfl | rfl <;>
  (unfold processRule; simp +decide only [if_false, if_true])

theorem decimalChannels_clean (r g b : Nat) (a : Option Nat)
    (hr : r < 256) (hg : g < 256) (hb : b < 256) (ha : ∀ n, a = some n → n < 256) :
    (∀ c ∈ decimalChannels r g b a, isDot c = true) ∧ eolRegex (decimalChannels r g b a) = false ∧
    (∀ c, (decimalChannels r g b a).head? = some c →
      (isSpace c = false ∧ c ≠ 60 ∧ c ≠ 61 ∧ c ≠ 62) ∧ c ≠ 35) := by
  obtain ⟨hall, ⟨rest, hrest⟩, -⟩ := decimalChannels_shape r g b a hr hg hb ha
  have hd : ∀ c, isDigit c = true ∨ c = 32 → isDot c = true ∧ (c == 13 || c == 10) = false := by
    intro c hc
    rcases hc with hc | rfl
    · refine ⟨isDot_of_not_space (isDigit_not_space hc), ?_⟩
      simp only [isDigit, Bool.and_eq_true, decide_eq_true_eq] at hc
      simp only [Bool.or_eq_false_iff, beq_eq_false_iff_ne, ne_eq]
      omega
    · decide
  refine ⟨fun c hc => (hd c (hall c hc)).1, ?_, ?_⟩
  · unfold eolRegex
    rw [List.any_eq_false]
    intro c hc
    simp [(hd c (hall c hc)).2]
  · intro c hc
    have dr := natToString_byte r hr
    rw [hrest] at hc
    have h1 := number_head (natToString r) rest dr.1
      (fun c hc => isNumberChar_of_isDigit (dr.2.1 c hc)) c hc
    refine ⟨h1, ?_⟩
    cases hnr : natToString r with
    | nil => exact absurd hnr dr.1
    | cons d ds =>
      rw [hnr] at hc
      simp only [List.cons_append, List.head?_cons, Option.some.injEq] at hc
      subst hc
      have := dr.2.1 d (by rw [hnr]; exact List.mem_cons_self _ _)
      simp only [isDigit, Bool.and_eq_true, decide_eq_true_eq] at this
      omega

/-- The colour rule line `K r g b [a]` with byte channels in decimal and single
spaces, parsed against any editor: the editor is left alone. -/
theorem parseLine_colour_decimal (env : Env) (row : Int) (editor : Editor) (itemData : ItemData)
    (K : Text) (r g b : Nat) (a : Option Nat) (hK : K ∈ colorKeywords)
    (hr : r < 256) (hg : g < 256) (hb : b < 256) (ha : ∀ n, a = some n → n < 256) :
    parseLine env
      { lineText := K ++ (32 :: decimalChannels r g b a), row := row, editor := editor,
        itemData := itemData } = Except.ok (colourResult row K r g b a, editor) := by
  obtain ⟨hs1, hs2, hne, hkw⟩ := colorKeywords_facts K hK
  obtain ⟨hall, -, init, last, hlast, hlne, hldig⟩ := decimalChannels_shape r g b a hr hg hb ha
  obtain ⟨hdot, heolD, hhead⟩ := decimalChannels_clean r g b a hr hg hb ha
  have heol : eolRegex (32 :: decimalChannels r g b a) = false := by
    have := eolRegex_append [32] (decimalChannels r g b a)
    rw [List.singleton_append] at this
    rw [this, heolD]; rfl
  obtain ⟨p0, hp0, hpl⟩ := parseLine_keyword_line env
    { lineText := K ++ (32 :: decimalChannels r g b a), row := row, editor := editor,
      itemData := itemData }
    [] K (32 :: decimalChannels r g b a) rfl (by intro c hc; simp at hc) hne hkw
    (atBoundary_space _) heol ⟨hs1, hs2⟩
  have hnew := LineParser.new_trimmed (K ++ (32 :: decimalChannels r g b a)) (by simp)
    (by
      intro c hc
      cases K with
      | nil => exact absurd rfl hne
      | cons k ks =>
        simp only [List.cons_append, List.head?_cons, Option.some.injEq] at hc
        subst hc
        exact isWordChar_not_space (hkw k (List.mem_cons_self _ _)))
    (by
      have e : K ++ (32 :: decimalChannels r g b a) = (K ++ 32 :: init) ++ last := by
        rw [hlast]; simp
      rw [e]
      exact getLast_append_token _ _ hlne (fun c hc => isDigit_not_space (hldig c hc)))
    (by
      intro c hc
      simp only [List.mem_append, List.mem_cons] at hc
      rcases hc with hc | rfl | hc
      · exact isDot_of_not_space (isWordChar_not_space (hkw c hc))
      · decide
      · exact hdot c hc)
  dsimp only at hp0 hpl
  rw [hnew] at hp0
  injection hp0 with hp0
  subst hp0
  dsimp only at hpl
  rw [hpl, processRule_colorKeywords _ _ _ _ _ K hK]
  have hop : expectEqualityOp
      { text := 32 :: decimalChannels r g b a, currentIndex := ((([] : Text).length + K.length : Nat) : Int),
        originalLength := ((K ++ 32 :: decimalChannels r g b a).length : Int),
        textStartIndex := 0,
        textEndIndex := ((K ++ 32 :: decimalChannels r g b a).length : Int),
        empty := !textRegex (32 :: decimalChannels r g b a) }
      { editor := editor, number := row, file := editor.path, keyword := K } =
      (none, { text := 32 :: decimalChannels r g b a,
               currentIndex := ((([] : Text).length + K.length : Nat) : Int),
               originalLength := ((K ++ 32 :: decimalChannels r g b a).length : Int),
               textStartIndex := 0,
               textEndIndex := ((K ++ 32 :: decimalChannels r g b a).length : Int),
               empty := !textRegex (32 :: decimalChannels r g b a) }) := by
    unfold expectEqualityOp
    rw [nextOperator_none _ [32] (decimalChannels r g b a) rfl (by decide)
      (fun c hc => (hhead c hc).1)]
    rfl
  have hst := hexStage_none
    { text := 32 :: decimalChannels r g b a, currentIndex := ((([] : Text).length + K.length : Nat) : Int),
      originalLength := ((K ++ 32 :: decimalChannels r g b a).length : Int),
      textStartIndex := 0,
      textEndIndex := ((K ++ 32 :: decimalChannels r g b a).length : Int),
      empty := !textRegex (32 :: decimalChannels r g b a) }
    { editor := editor, number := row, file := editor.path, keyword := K }
    (colorHexRegex_none [32] (decimalChannels r g b a) (by decide)
      (fun c hc => ⟨(hhead c hc).1.1, (hhead c hc).2⟩))
  rw [processRGBARule_of_stage _ _ _ _ _ [32] r g b a hop hst rfl (by decide) hr hg hb ha]
  simp only [finishRule]
  rw [ruleResult_clean_eq _ _ _ _ _ _ rfl rfl rfl]
  simp only [colourResult, List.length_nil, Nat.zero_add, Nat.cast_zero,
    List.length_singleton, Nat.cast_one, List.length_append, List.length_cons, Nat.cast_add]
  rw [Range.onRow_of_le _ _ _ (by omega), Range.onRow_of_le _ _ _ (by omega)]
  simp only [add_assoc, add_comm (1 : Int)]

theorem hexDigits_ne_nil (a1 a2 b1 b2 c1 c2 : Nat) (ad : Option (Nat × Nat)) :
    hexDigits a1 a2 b1 b2 c1 c2 ad ≠ [] := by
  cases ad with
  | none => simp [hexDigits]
  | some d => obtain ⟨d1, d2⟩ := d; simp [hexDigits]

theorem hexDigits_bytes (a1 a2 b1 b2 c1 c2 : Nat) (ad : Option (Nat × Nat))
    (hex : ∀ c ∈ hexDigits a1 a2 b1 b2 c1 c2 ad, isHexDigit c = true) :
    hexByte a1 a2 < 256 ∧ hexByte b1 b2 < 256 ∧ hexByte c1 c2 < 256 ∧
    ∀ n, ad.map (fun d => hexByte d.1 d.2) = some n → n < 256 := by
  cases ad with
  | none =>
    simp only [hexDigits, List.mem_cons, List.mem_singleton, forall_eq_or_imp, forall_eq,
      List.mem_nil_iff, IsEmpty.forall_iff, implies_true, and_true] at hex
    obtain ⟨h1, h2, h3, h4, h5, h6⟩ := hex
    exact ⟨hexByte_lt h1 h2, hexByte_lt h3 h4, hexByte_lt h5 h6, by simp⟩
  | some d =>
    obtain ⟨d1, d2⟩ := d
    simp only [hexDigits, List.mem_cons, List.mem_singleton, forall_eq_or_imp, forall_eq,
      List.mem_nil_iff, IsEmpty.forall_iff, implies_true, and_true] at hex
    obtain ⟨h1, h2, h3, h4, h5, h6, h7, h8⟩ := hex
    refine ⟨hexByte_lt h1 h2, hexByte_lt h3 h4, hexByte_lt h5 h6, ?_⟩
    intro n hn
    simp only [Option.map_some', Option.some.injEq] at hn
    subst hn
    exact hexByte_lt h7 h8

/-- The colour rule line `K #RRGGBB` or `K #RRGGBBAA`, parsed against an editor whose
buffer row holds that line: the row is rewritten to the decimal line, and the
result is that of the decimal line. -/
theorem parseLine_colour_hex (env : Env) (row : Int) (path : Option Text) (itemData : ItemData)
    (K : Text) (a1 a2 b1 b2 c1 c2 : Nat) (ad : Option (Nat × Nat)) (hK : K ∈ colorKeywords)
    (hex : ∀ c ∈ hexDigits a1 a2 b1 b2 c1 c2 ad, isHexDigit c = true) :
    parseLine env
      { lineText := K ++ (32 :: 35 :: hexDigits a1 a2 b1 b2 c1 c2 ad), row := row,
        editor := { path := path, line := K ++ (32 :: 35 :: hexDigits a1 a2 b1 b2 c1 c2 ad) },
        itemData := itemData } =
      Except.ok
        (colourResult row K (hexByte a1 a2) (hexByte b1 b2) (hexByte c1 c2)
          (ad.map fun d => hexByte d.1 d.2),
         { path := path,
           line := K ++ (32 :: decimalChannels (hexByte a1 a2) (hexByte b1 b2) (hexByte c1 c2)
             (ad.map fun d => hexByte d.1 d.2)) }) := by
  obtain ⟨hs1, hs2, hne, hkw⟩ := colorKeywords_facts K hK
  obtain ⟨hr, hg, hb, ha⟩ := hexDigits_bytes a1 a2 b1 b2 c1 c2 ad hex
  have hns : ∀ c ∈ hexDigits a1 a2 b1 b2 c1 c2 ad, isSpace c = false :=
    fun c hc => (hexDigit_facts (hex c hc)).2.2.1
  have heol : eolRegex (32 :: 35 :: hexDigits a1 a2 b1 b2 c1 c2 ad) = false := by
    have := eolRegex_append [32, 35] (hexDigits a1 a2 b1 b2 c1 c2 ad)
    simp only [List.cons_append, List.nil_append] at this
    rw [this, eolRegex_of_not_space _ hns]; rfl
  obtain ⟨p0, hp0, hpl⟩ := parseLine_keyword_line env
    { lineText := K ++ (32 :: 35 :: hexDigits a1 a2 b1 b2 c1 c2 ad), row := row,
      editor := { path := path, line := K ++ (32 :: 35 :: hexDigits a1 a2 b1 b2 c1 c2 ad) },
      itemData := itemData }
    [] K (32 :: 35 :: hexDigits a1 a2 b1 b2 c1 c2 ad) rfl (by intro c hc; simp at hc) hne hkw
    (atBoundary_space _) heol ⟨hs1, hs2⟩
  have hnew := LineParser.new_trimmed (K ++ (32 :: 35 :: hexDigits a1 a2 b1 b2 c1 c2 ad))
    (by simp)
    (by
      intro c hc
      cases K with
      | nil => exact absurd rfl hne
      | cons k ks =>
        simp only [List.cons_append, List.head?_cons, Option.some.injEq] at hc
        subst hc
        exact isWordChar_not_space (hkw k (List.mem_cons_self _ _)))
    (by
      have e : K ++ (32 :: 35 :: hexDigits a1 a2 b1 b2 c1 c2 ad) =
          (K ++ [32, 35]) ++ hexDigits a1 a2 b1 b2 c1 c2 ad := by simp
      rw [e]
      exact getLast_append_token _ _ (hexDigits_ne_nil a1 a2 b1 b2 c1 c2 ad) hns)
    (by
      intro c hc
      simp only [List.mem_append, List.mem_cons] at hc
      rcases hc with hc | rfl | rfl | hc
      · exact isDot_of_not_space (isWordChar_not_space (hkw c hc))
      · decide
      · decide
      · exact isDot_of_not_space (hns c hc))
  dsimp only at hp0 hpl
  rw [hnew] at hp0
  injection hp0 with hp0
  subst hp0
  dsimp only at hpl
  rw [hpl, processRule_colorKeywords _ _ _ _ _ K hK]
  have hop : expectEqualityOp
      { text := 32 :: 35 :: hexDigits a1 a2 b1 b2 c1 c2 ad,
        currentIndex := ((([] : Text).length + K.length : Nat) : Int),
        originalLength := ((K ++ 32 :: 35 :: hexDigits a1 a2 b1 b2 c1 c2 ad).length : Int),
        textStartIndex := 0,
        textEndIndex := ((K ++ 32 :: 35 :: hexDigits a1 a2 b1 b2 c1 c2 ad).length : Int),
        empty := !textRegex (32 :: 35 :: hexDigits a1 a2 b1 b2 c1 c2 ad) }
      { editor := { path := path, line := K ++ (32 :: 35 :: hexDigits a1 a2 b1 b2 c1 c2 ad) },
        number := row, file := path, keyword := K } =
      (none, { text := 32 :: 35 :: hexDigits a1 a2 b1 b2 c1 c2 ad,
               currentIndex := ((([] : Text).length + K.length : Nat) : Int),
               originalLength := ((K ++ 32 :: 35 :: hexDigits a1 a2 b1 b2 c1 c2 ad).length : Int),
               textStartIndex := 0,
               textEndIndex := ((K ++ 32 :: 35 :: hexDigits a1 a2 b1 b2 c1 c2 ad).length : Int),
               empty := !textRegex (32 :: 35 :: hexDigits a1 a2 b1 b2 c1 c2 ad) }) := by
    unfold expectEqualityOp
    rw [nextOperator_none _ [32] (35 :: hexDigits a1 a2 b1 b2 c1 c2 ad) rfl (by decide)
      (by
        intro c hc
        simp only [List.head?_cons, Option.some.injEq] at hc
        subst hc
        decide)]
    rfl
  have hst := hexStage_hex
    { text := 32 :: 35 :: hexDigits a1 a2 b1 b2 c1 c2 ad,
      currentIndex := ((([] : Text).length + K.length : Nat) : Int),
      originalLength := ((K ++ 32 :: 35 :: hexDigits a1 a2 b1 b2 c1 c2 ad).length : Int),
      textStartIndex := 0,
      textEndIndex := ((K ++ 32 :: 35 :: hexDigits a1 a2 b1 b2 c1 c2 ad).length : Int),
      empty := !textRegex (32 :: 35 :: hexDigits a1 a2 b1 b2 c1 c2 ad) }
    { editor := { path := path, line := K ++ (32 :: 35 :: hexDigits a1 a2 b1 b2 c1 c2 ad) },
      number := row, file := path, keyword := K }
    path (K ++ [32]) a1 a2 b1 b2 c1 c2 ad hex rfl (by simp) (by simp; omega) (by simp; omega)
    (by simp)
  rw [processRGBARule_of_stage _ _ _ _ _ [] _ _ _ _ hop hst rfl (by simp) hr hg hb ha]
  simp only [finishRule]
  rw [ruleResult_clean_eq _ _ _ _ _ _ rfl rfl rfl]
  simp only [colourResult, List.length_nil, Nat.zero_add, Nat.cast_zero,
    List.length_singleton, Nat.cast_one, List.length_append, List.length_cons, Nat.cast_add,
    add_zero, List.append_assoc, List.singleton_append]
  rw [Range.onRow_of_le _ _ _ (by omega), Range.onRow_of_le _ _ _ (by omega)]

/-- C9. For every colour keyword `K` (SetBorderColor, SetTextColor,
SetBackgroundColor) and all hex digits, in either case, of a literal `#RRGGBB` or
`#RRGGBBAA`: parsing the line `K #RRGGBB[AA]` against a buffer row that holds that
line rewrites the row to `K r g b [a]`, the channels in decimal separated by single
spaces, and returns the very result that parsing that decimal line returns (kind,
validity, diagnostics, and values with their columns); that result is a valid Rule
without diagnostics whose values are the channels. -/
theorem parseLine_hex_colour_as_decimal (env : Env) (row : Int) (path : Option Text)
    (itemData : ItemData) (K : Text) (a1 a2 b1 b2 c1 c2 : Nat) (ad : Option (Nat × Nat))
    (hK : K ∈ colorKeywords)
    (hex : ∀ c ∈ hexDigits a1 a2 b1 b2 c1 c2 ad, isHexDigit c = true) :
    ∃ r,
      parseLine env
        { lineText := K ++ (32 :: 35 :: hexDigits a1 a2 b1 b2 c1 c2 ad), row := row,
          editor := { path := path, line := K ++ (32 :: 35 :: hexDigits a1 a2 b1 b2 c1 c2 ad) },
          itemData := itemData } =
        Except.ok (r,
          { path := path,
            line := K ++ (32 :: decimalChannels (hexByte a1 a2) (hexByte b1 b2) (hexByte c1 c2)
              (ad.map fun d => hexByte d.1 d.2)) }) ∧
      parseLine env
        { lineText := K ++ (32 :: decimalChannels (hexByte a1 a2) (hexByte b1 b2) (hexByte c1 c2)
            (ad.map fun d => hexByte d.1 d.2)), row := row,
          editor :=
            { path := path,
              line := K ++ (32 :: decimalChannels (hexByte a1 a2) (hexByte b1 b2) (hexByte c1 c2)
                (ad.map fun d => hexByte d.1 d.2)) },
          itemData := itemData } =
        Except.ok (r,
          { path := path,
            line := K ++ (32 :: decimalChannels (hexByte a1 a2) (hexByte b1 b2) (hexByte c1 c2)
              (ad.map fun d => hexByte d.1 d.2)) }) ∧
      r.type = LineType.Rule ∧ r.invalid = false ∧ r.messages = [] ∧
      r.values = channelValues row (K.length + 1) (hexByte a1 a2) (hexByte b1 b2) (hexByte c1 c2)
        (ad.map fun d => hexByte d.1 d.2) := by
  obtain ⟨hr, hg, hb, ha⟩ := hexDigits_bytes a1 a2 b1 b2 c1 c2 ad hex
  exact ⟨_, parseLine_colour_hex env row path itemData K a1 a2 b1 b2 c1 c2 ad hK hex,
    parseLine_colour_decimal env row _ itemData K _ _ _ _ hK hr hg hb ha, rfl, rfl, rfl, rfl⟩

/-- C9, at the line `SetTextColor #FF0080`: the hypotheses hold, the lines are
`SetTextColor #FF0080` and `SetTextColor 255 0 128`, and the conclusion is that of
the theorem. -/
theorem parseLine_hex_colour_as_decimal_witness :
    (utf16 "SetTextColor" ∈ colorKeywords ∧
      (∀ c ∈ hexDigits 70 70 48 48 56 48 none, isHexDigit c = true) ∧
      utf16 "SetTextColor" ++ (32 :: 35 :: hexDigits 70 70 48 48 56 48 none) =
        utf16 "SetTextColor #FF0080" ∧
      utf16 "SetTextColor" ++ (32 :: decimalChannels (hexByte 70 70) (hexByte 48 48)
        (hexByte 56 48) ((none : Option (Nat × Nat)).map fun d => hexByte d.1 d.2)) =
        utf16 "SetTextColor 255 0 128") ∧
    ∃ r,
      parseLine asciiEnv
        { lineText := utf16 "SetTextColor" ++ (32 :: 35 :: hexDigits 70 70 48 48 56 48 none),
          row := 0,
          editor := { path := none,
                      line := utf16 "SetTextColor" ++ (32 :: 35 :: hexDigits 70 70 48 48 56 48 none) },
          itemData := sampleItems } =
        Except.ok (r,
          { path := none,
            line := utf16 "SetTextColor" ++ (32 :: decimalChannels (hexByte 70 70) (hexByte 48 48)
              (hexByte 56 48) ((none : Option (Nat × Nat)).map fun d => hexByte d.1 d.2)) }) ∧
      parseLine asciiEnv
        { lineText := utf16 "SetTextColor" ++ (32 :: decimalChannels (hexByte 70 70)
            (hexByte 48 48) (hexByte 56 48) ((none : Option (Nat × Nat)).map fun d => hexByte d.1 d.2)),
          row := 0,
          editor :=
            { path := none,
              line := utf16 "SetTextColor" ++ (32 :: decimalChannels (hexByte 70 70)
                (hexByte 48 48) (hexByte 56 48)
                ((none : Option (Nat × Nat)).map fun d => hexByte d.1 d.2)) },
          itemData := sampleItems } =
        Except.ok (r,
          { path := none,
            line := utf16 "SetTextColor" ++ (32 :: decimalChannels (hexByte 70 70) (hexByte 48 48)
              (hexByte 56 48) ((none : Option (Nat × Nat)).map fun d => hexByte d.1 d.2)) }) ∧
      r.type = LineType.Rule ∧ r.invalid = false ∧ r.messages = [] ∧
      r.values = channelValues 0 ((utf16 "SetTextColor").length + 1) (hexByte 70 70)
        (hexByte 48 48) (hexByte 56 48) ((none : Option (Nat × Nat)).map fun d => hexByte d.1 d.2) :=
  ⟨⟨by decide, by decide, by decide, by decide⟩,
   parseLine_hex_colour_as_decimal asciiEnv 0 none sampleItems (utf16 "SetTextColor")
     70 70 48 48 56 48 none (by decide) (by decide)⟩

/-- The line `SetTextColor #ff008000`, evaluated against a buffer row that holds it:
the row becomes `SetTextColor 255 0 128 0` and the four channels are the values. -/
theorem parseLine_SetTextColor_hex_alpha :
    (parseLine asciiEnv (argsFor (utf16 "SetTextColor #ff008000"))).toOption.map
      (fun x => (x.1.type, x.1.invalid, x.1.messages, x.1.values.map (fun v => v.value), x.2.line)) =
    some (LineType.Rule, false, [],
      [Value.number (JSNum.ofInt 255), Value.number (JSNum.ofInt 0),
       Value.number (JSNum.ofInt 128), Value.number (JSNum.ofInt 0)],
      utf16 "SetTextColor 255 0 128 0") := by
  rfl

/-- The start of `parseLine` on a line that opens with a word other than `Show` and
`Hide`, with the parser the validator is given: it holds the rest of the line, its
cursor stands after the keyword, and its `originalLength` is the line's length. -/
theorem parseLine_rule_line (env : Env) (args : Args) (w0 kw rest : Text)
    (hline : args.lineText = w0 ++ kw ++ rest) (hw0 : Blank w0) (hne : kw ≠ [])
    (hkw : ∀ c ∈ kw, isWordChar c = true) (hb : atBoundary rest = true)
    (heol : eolRegex rest = false) (hshow : kw ≠ utf16 "Show" ∧ kw ≠ utf16 "Hide") :
    ∃ p1 : LineParser, p1.text = rest ∧ p1.currentIndex = (w0.length : Int) + kw.length ∧
      p1.originalLength = args.lineText.length ∧ p1.empty = (!textRegex rest) ∧
      parseLine env args =
        finishRule args
          { name := kw, range := Range.onRow args.row w0.length ((w0.length + kw.length : Nat) : Int) }
          { found := true, startIndex := w0.length,
            endIndex := ((w0.length + kw.length : Nat) : Int), value := some kw }
          p1
          (processRule env p1
            { editor := args.editor, number := args.row, file := args.editor.path, keyword := kw }
            (args.itemData.classes ++ args.itemData.whitelistClasses)
            (args.itemData.bases ++ args.itemData.whitelistBases) kw) := by
  obtain ⟨p0, hp0, hpl⟩ := parseLine_keyword_line env args w0 kw rest hline hw0 hne hkw hb heol hshow
  refine ⟨_, rfl, ?_, ?_, rfl, hpl⟩
  · simp
  · exact (LineParser.new_originalLength _ _ hp0).1

theorem expectEqualityOp_other (p : LineParser) (line : LineInfo) (w1 op rest : Text)
    (hp : p.text = w1 ++ op ++ rest) (hw1 : ∀ c ∈ w1, isSpace c = true)
    (hop : op ∈ operatorAlternatives) (hne : op ≠ utf16 "=") (hb : atBoundary rest = true) :
    expectEqualityOp p line =
      (some (equalityMessage line (p.currentIndex + w1.length) (p.currentIndex + w1.length + op.length)),
       { p with text := rest,
                currentIndex := p.currentIndex + ((w1.length + op.length : Nat) : Int),
                empty := if !textRegex rest then true else p.empty }) := by
  unfold expectEqualityOp
  rw [nextOperator_some p w1 op rest hp hw1 hop hb]
  have h : (some op != some (utf16 "=")) = true := by
    simp only [bne_iff_ne, ne_eq, Option.some.injEq]
    exact hne
  simp only [h, Bool.and_self, if_true, equalityMessage]
  rw [Range.onRow_of_le _ _ _ (by omega)]
  simp only [Nat.cast_add, add_assoc]

theorem expectEqualityOp_equals (p : LineParser) (line : LineInfo) (w1 rest : Text)
    (hp : p.text = w1 ++ utf16 "=" ++ rest) (hw1 : ∀ c ∈ w1, isSpace c = true)
    (hb : atBoundary rest = true) :
    expectEqualityOp p line =
      (none,
       { p with text := rest,
                currentIndex := p.currentIndex + ((w1.length + (utf16 "=").length : Nat) : Int),
                empty := if !textRegex rest then true else p.empty }) := by
  unfold expectEqualityOp
  rw [nextOperator_some p w1 (utf16 "=") rest hp hw1 (by decide) hb]
  simp

theorem expectEqualityOp_absent (p : LineParser) (line : LineInfo) (ws rest : Text)
    (hp : p.text = ws ++ rest) (hws : ∀ c ∈ ws, isSpace c = true)
    (h : ∀ c, rest.head? = some c → isSpace c = false ∧ c ≠ 60 ∧ c ≠ 61 ∧ c ≠ 62) :
    expectEqualityOp p line = (none, p) := by
  unfold expectEqualityOp
  rw [nextOperator_none p ws rest hp hws h]
  rfl

/-- Every validator of a rule that permits only `=` returns, on an operator error of
`expectEqualityOp`, that error alone, with no value and the editor untouched. -/
theorem processRule_equalityRules (env : Env) (p p1 : LineParser) (li : LineInfo)
    (vc vb : List Text) (K : Text) (m : Message) (hK : K ∈ equalityRules)
    (hop : expectEqualityOp p li = (some m, p1)) :
    ∃ cat, processRule env p li vc vb K =
      some (cat, some (({} : ProcessResult).fail m, p1, li.editor)) := by
  have hb : processBooleanRule p li = (({} : ProcessResult).fail m, p1) := by
    unfold processBooleanRule; rw [hop]
  have hs : processSocketGroup p li = (({} : ProcessResult).fail m, p1) := by
    unfold processSocketGroup; rw [hop]
  have hm : ∀ ev, processMultiStringRule env p li ev false =
      some (({} : ProcessResult).fail m, p1) := by
    intro ev; unfold processMultiStringRule; rw [hop]
  have hc : processRGBARule p li = (({} : ProcessResult).fail m, p1, li.editor) := by
    unfold processRGBARule; rw [hop]
  have ha : processAlertSoundRule p li = (({} : ProcessResult).fail m, p1) := by
    unfold processAlertSoundRule; rw [hop]
  simp only [equalityRules, List.mem_cons, List.mem_singleton, List.mem_nil_iff, or_false] at hK
  rcases hK with rfl | rfl | rfl | rfl | rfl | rfl | rfl | rfl | rfl <;>
  (unfold processRule
   simp +decide only [if_false, if_true, hb, hs, hm, hc, ha, plainRule, Option.bind]
   exact ⟨_, rfl⟩)

theorem equalityRules_facts (K : Text) (h : K ∈ equalityRules) :
    K ≠ utf16 "Show" ∧ K ≠ utf16 "Hide" ∧ K ≠ [] ∧ (∀ c ∈ K, isWordChar c = true) := by
  simp only [equalityRules, List.mem_cons, List.mem_singleton, List.mem_nil_iff, or_false] at h
  rcases h with rfl | rfl | rfl | rfl | rfl | rfl | rfl | rfl | rfl <;> decide

theorem eolRegex_operator_rest (w1 op rest : Text) (hw1 : Blank w1)
    (hop : op ∈ operatorAlternatives) (heol : eolRegex rest = false) :
    eolRegex (w1 ++ op ++ rest) = false := by
  rw [eolRegex_append, eolRegex_append, hw1.eolRegex,
    eolRegex_of_not_space op (operator_not_space op hop), heol]
  rfl

theorem fail_fields (m : Message) :
    (({} : ProcessResult).fail m).invalid = true ∧ (({} : ProcessResult).fail m).messages = [m] ∧
    (({} : ProcessResult).fail m).values = [] ∧ (({} : ProcessResult).fail m).operator = none :=
  ⟨rfl, rfl, rfl, rfl⟩

/-- The line `Identified = True`, evaluated: the written `=` is accepted, the result
is valid, without diagnostics, and holds the value `true`. -/
theorem parseLine_Identified_equals :
    (parseLine asciiEnv (argsFor (utf16 "Identified = True"))).toOption.map
      (fun x => (x.1.type, x.1.invalid, x.1.messages, x.1.values)) =
    some (LineType.Rule, false, [],
      [{ value := Value.boolean true, range := columns 0 13 17 }]) := by
  rfl

theorem checkRangeNumber_extends (parser : LineParser) (line : LineInfo) (lo hi : Int)
    (ope : Bool) (retVal : ParseResult JSNum) (r : ProcessResult) (h : r.invalid = true) :
    (checkRangeNumber parser line lo hi ope retVal r).invalid = true ∧
    ∃ tail, (checkRangeNumber parser line lo hi ope retVal r).messages = r.messages ++ tail := by
  unfold checkRangeNumber
  split
  · exact ⟨rfl, _, rfl⟩
  · dsimp only
    split
    · exact ⟨h, [], by simp⟩
    · exact ⟨rfl, _, rfl⟩

theorem reportTrailingComment_extends (p : LineParser) (line : LineInfo) (r : ProcessResult)
    (h : r.invalid = true) :
    (reportTrailingComment p line r).1.invalid = true ∧
    ∃ tail, (reportTrailingComment p line r).1.messages = r.messages ++ tail := by
  rcases reportTrailingComment_eq p line r with ⟨-, h1⟩ | ⟨v, c, -, h1, -, -⟩
  · rw [h1]; exact ⟨h, [], by simp⟩
  · rw [h1]; exact ⟨rfl, _, rfl⟩

/-- `processRangeRule` for a rule without operator, on a text that starts with an
operator token: the result is invalid and its first message is the operator error
over the operator's columns, whatever follows. -/
theorem processRangeRule_no_operator (p : LineParser) (line : LineInfo) (lo hi : Int)
    (w1 op rest : Text) (hp : p.text = w1 ++ op ++ rest) (hw1 : ∀ c ∈ w1, isSpace c = true)
    (hop : op ∈ operatorAlternatives) (hb : atBoundary rest = true) :
    (processRangeRule p line lo hi false).1.invalid = true ∧
    ∃ tail, (processRangeRule p line lo hi false).1.messages =
      errorMessage line.file
        (columns line.number (p.currentIndex + w1.length) (p.currentIndex + w1.length + op.length))
        (utf16 "An operator for a \"" ++ line.keyword ++ utf16 "\" rule is an error.")
        (utf16 "http://pathofexile.gamepedia.com/Item_filter") :: tail := by
  unfold processRangeRule
  rw [nextOperator_some p w1 op rest hp hw1 hop hb]
  dsimp only
  have hc : checkRangeOperator line false
      { found := true, startIndex := p.currentIndex + w1.length,
        endIndex := p.currentIndex + ((w1.length + op.length : Nat) : Int), value := some op } {} =
      ({} : ProcessResult).fail (errorMessage line.file
        (columns line.number (p.currentIndex + w1.length) (p.currentIndex + w1.length + op.length))
        (utf16 "An operator for a \"" ++ line.keyword ++ utf16 "\" rule is an error.")
        (utf16 "http://pathofexile.gamepedia.com/Item_filter")) := by
    unfold checkRangeOperator
    simp only [Bool.false_eq_true, if_false, if_true]
    rw [Range.onRow_of_le _ _ _ (by omega)]
    simp only [Nat.cast_add, add_assoc]
  rw [hc]
  generalize LineParser.nextNumber _ = nn
  obtain ⟨h1, t1, h2⟩ := checkRangeNumber_extends nn.2 line lo hi false nn.1 _
    (fail_fields (errorMessage line.file
      (columns line.number (p.currentIndex + w1.length) (p.currentIndex + w1.length + op.length))
      (utf16 "An operator for a \"" ++ line.keyword ++ utf16 "\" rule is an error.")
      (utf16 "http://pathofexile.gamepedia.com/Item_filter"))).1
  obtain ⟨h3, t2, h4⟩ := reportTrailingComment_extends nn.2 line _ h1
  refine ⟨h3, t1 ++ t2, ?_⟩
  rw [h4, h2]
  simp [ProcessResult.fail]

/-- C18. For every SetFontSize line in which an operator token, `=` included,
follows the keyword, whatever follows the operator (a number in 18..45 included):
`parseLine` returns an invalid Rule whose first diagnostic is an error over the
operator's columns. -/
theorem parseLine_SetFontSize_operator (env : Env) (row : Int) (editor : Editor)
    (itemData : ItemData) (w0 w1 op rest : Text) (hw0 : Blank w0) (hw1 : Blank w1)
    (hw1ne : w1 ≠ []) (hop : op ∈ operatorAlternatives) (hb : atBoundary rest = true)
    (heol : eolRegex rest = false) :
    ∃ r m tail, parseLine env
        { lineText := w0 ++ utf16 "SetFontSize" ++ (w1 ++ op ++ rest), row := row,
          editor := editor, itemData := itemData } = Except.ok (r, editor) ∧
      r.type = LineType.Rule ∧ r.invalid = true ∧ r.messages = m :: tail ∧
      m.severity = Severity.error ∧
      m.location.position = columns row (w0.length + (utf16 "SetFontSize").length + w1.length)
        (w0.length + (utf16 "SetFontSize").length + w1.length + op.length) ∧
      m.excerpt = utf16 "An operator for a \"SetFontSize\" rule is an error." := by
  obtain ⟨p1, hp1t, hp1c, -, -, hpl⟩ := parseLine_rule_line env
    { lineText := w0 ++ utf16 "SetFontSize" ++ (w1 ++ op ++ rest), row := row, editor := editor,
      itemData := itemData }
    w0 (utf16 "SetFontSize") (w1 ++ op ++ rest) rfl hw0 (by decide) (by decide)
    (by rw [List.append_assoc]; exact atBoundary_of_spaces_append w1 _ hw1.isSpace hw1ne)
    (eolRegex_operator_rest w1 op rest hw1 hop heol) ⟨by decide, by decide⟩
  dsimp only at hpl
  rw [hpl, processRule_rangeRules _ _ _ _ _ (utf16 "SetFontSize") 18 45 false (by decide)]
  obtain ⟨hi, tail, hm⟩ := processRangeRule_no_operator p1
    { editor := editor, number := row, file := editor.path, keyword := utf16 "SetFontSize" }
    18 45 w1 op rest hp1t hw1.isSpace hop hb
  simp only [finishRule, plainRule]
  generalize processRangeRule p1 _ 18 45 false = pr at hi hm ⊢
  obtain ⟨h1, -, h3, h4, -, -⟩ := ruleResult_of_invalid
    { lineText := w0 ++ utf16 "SetFontSize" ++ (w1 ++ op ++ rest), row := row, editor := editor,
      itemData := itemData }
    { name := utf16 "SetFontSize",
      range := Range.onRow row w0.length ((w0.length + (utf16 "SetFontSize").length : Nat) : Int) }
    (if false = true then Category.condition else Category.action) pr.1 pr.2 editor hi
    (by rw [hm]; simp)
  refine ⟨_, errorMessage editor.path
      (columns row (p1.currentIndex + w1.length) (p1.currentIndex + w1.length + op.length))
      (utf16 "An operator for a \"" ++ utf16 "SetFontSize" ++ utf16 "\" rule is an error.")
      (utf16 "http://pathofexile.gamepedia.com/Item_filter"), tail, rfl, h1, h3, ?_, ?_, ?_, ?_⟩
  · rw [h4, hm]
  · rfl
  · simp only [errorMessage, hp1c]
  · rfl

/-- C18, at the line `SetFontSize = 20`: the hypotheses hold, and the result is an
invalid Rule whose first diagnostic is the operator error over the columns 12-13 of
`=`, although 20 lies in 18..45. -/
theorem parseLine_SetFontSize_operator_witness :
    (Blank [] ∧ Blank [32] ∧ utf16 "=" ∈ operatorAlternatives ∧
      atBoundary (utf16 " 20") = true ∧ eolRegex (utf16 " 20") = false ∧
      [] ++ utf16 "SetFontSize" ++ ([32] ++ utf16 "=" ++ utf16 " 20") = utf16 "SetFontSize = 20") ∧
    ∃ r m tail, parseLine asciiEnv
        { lineText := utf16 "SetFontSize = 20", row := 0,
          editor := { path := none, line := utf16 "SetFontSize = 20" },
          itemData := sampleItems } =
          Except.ok (r, { path := none, line := utf16 "SetFontSize = 20" }) ∧
      r.type = LineType.Rule ∧ r.invalid = true ∧ r.messages = m :: tail ∧
      m.severity = Severity.error ∧ m.location.position = columns 0 12 13 ∧
      m.excerpt = utf16 "An operator for a \"SetFontSize\" rule is an error." :=
  ⟨⟨by decide, by decide, by decide, by decide, by decide, by decide⟩,
   parseLine_SetFontSize_operator asciiEnv 0 { path := none, line := utf16 "SetFontSize = 20" }
     sampleItems [] [32] (utf16 "=") (utf16 " 20")
     (by decide) (by decide) (by decide) (by decide) (by decide) (by decide)⟩

/-- The line `SetFontSize = 20`, evaluated: invalid, with the operator error over the
columns 12-13 as its only diagnostic. -/
theorem parseLine_SetFontSize_equals_20 :
    (parseLine asciiEnv (argsFor (utf16 "SetFontSize = 20"))).toOption.map
      (fun x => (x.1.type, x.1.invalid,
        x.1.messages.map (fun m => (m.severity, m.location.position, m.excerpt)))) =
    some (LineType.Rule, true,
      [(Severity.error, columns 0 12 13,
        utf16 "An operator for a \"SetFontSize\" rule is an error.")]) := by
  rfl

theorem captureOperator_token (line : LineInfo) (ci : Int) (w1 : Text) (op : Option Text)
    (hop : ∀ o, op = some o → o ∈ operatorAlternatives) (r : ProcessResult) :
    captureOperator line (operatorToken ci w1 op) r =
      { r with operator := match op with
          | some o => some { type := o,
                             range := columns line.number (ci + w1.length) (ci + w1.length + o.length) }
          | none => r.operator } := by
  cases op with
  | none => simp [captureOperator, operatorToken]
  | some o =>
    have hne := operator_ne_nil o (hop o rfl)
    have ht : truthyText o = true := by
      cases o with
      | nil => exact absurd rfl hne
      | cons a b => rfl
    simp only [captureOperator, operatorToken, ht, Bool.and_self, if_true]
    rw [Range.onRow_of_le _ _ _ (by omega)]

/-- `processOpNumberRule` on `w1 [op w2] tok rest`: the two tokens are read, the
operator is captured, the number is checked against the list, and the trailing
comment check runs on the rest. -/
theorem processOpNumberRule_tokens (p : LineParser) (line : LineInfo) (values : List Int)
    (w1 : Text) (op : Option Text) (w2 tok rest : Text) (n : Int)
    (hp : p.text = w1 ++ operatorPart op w2 ++ tok ++ rest)
    (hw1 : ∀ c ∈ w1, isSpace c = true)
    (hop : ∀ o, op = some o → o ∈ operatorAlternatives ∧ w2 ≠ [] ∧ ∀ c ∈ w2, isSpace c = true)
    (hne : tok ≠ []) (htok : ∀ c ∈ tok, isNumberChar c = true)
    (hn : parseInt tok 10 = JSNum.ofInt n) (hb : atBoundary rest = true) :
    processOpNumberRule p line values =
      reportTrailingComment
        { p with text := rest,
                 currentIndex := p.currentIndex + w1.length + (operatorPart op w2).length + tok.length,
                 empty := if !textRegex rest then true else p.empty }
        line
        (if n ∈ values then
          { values := [{ value := Value.number (JSNum.ofInt n),
                         range := columns line.number
                           (p.currentIndex + w1.length + (operatorPart op w2).length)
                           (p.currentIndex + w1.length + (operatorPart op w2).length + tok.length) }],
            operator := op.map fun o =>
              { type := o,
                range := columns line.number (p.currentIndex + w1.length)
                  (p.currentIndex + w1.length + o.length) } }
        else
          { messages := [errorMessage line.file
              (columns line.number
                (p.currentIndex + w1.length + (operatorPart op w2).length)
                (p.currentIndex + w1.length + (operatorPart op w2).length + tok.length))
              (utf16 "Invalid value for rule \"" ++ line.keyword ++ utf16 "\". Expected " ++
                List.flatten ((values.map intToString).intersperse (utf16 ",")) ++ utf16 ".")
              (utf16 "http://pathofexile.gamepedia.com/Item_filter#Conditions")],
            invalid := true,
            operator := op.map fun o =>
              { type := o,
                range := columns line.number (p.currentIndex + w1.length)
                  (p.currentIndex + w1.length + o.length) } }) := by
  obtain ⟨h1, h2, h3⟩ := range_tokens p w1 op w2 tok rest hp hw1 hop hne htok hb
  have hany : (values.any fun v => JSNum.ofInt v == JSNum.ofInt n) = decide (n ∈ values) := by
    rw [Bool.eq_iff_iff]
    simp only [List.any_eq_true, beq_iff_eq, JSNum.ofInt.injEq, decide_eq_true_eq]
    constructor
    · rintro ⟨v, hv, rfl⟩; exact hv
    · intro h; exact ⟨n, h, rfl⟩
  unfold processOpNumberRule
  simp only [h1, h2, h3]
  rw [captureOperator_token line _ w1 op (fun o ho => (hop o ho).1)]
  simp only [numberToken, hn, Bool.not_true, Option.isNone_some, Bool.or_self, Bool.false_eq_true,
    if_false, Option.getD_some, hany, decide_eq_true_eq]
  rw [Range.onRow_of_le _ _ _ (by omega)]
  congr 1
  cases op <;> by_cases hv : n ∈ values <;>
    simp [hv, ProcessResult.pushValue, ProcessResult.fail]

theorem processRule_LinkedSockets (env : Env) (p : LineParser) (li : LineInfo)
    (vc vb : List Text) :
    processRule env p li vc vb (utf16 "LinkedSockets") =
      some (Category.condition, plainRule li.editor (processOpNumberRule p li linkedSocketCounts)) := by
  unfold processRule
  simp +decide only [if_false, if_true, linkedSocketCounts]

/-- C19. For every line made of `LinkedSockets`, an operator if one is written, and a
number token that `parseInt` reads as the integer `n`, the parts separated by
whitespace: the result is a Rule that holds the written operator; it is not invalid
and holds the single value `n` exactly when `n` is one of 0, 2, 3, 4, 5, 6, and then
it has no diagnostics; for any other `n` it is invalid, holds no value, and its only
diagnostic is one error over the columns of the number token. -/
theorem parseLine_LinkedSockets (env : Env) (row : Int) (editor : Editor) (itemData : ItemData)
    (w0 w1 : Text) (op : Option Text) (w2 tok w3 : Text) (n : Int)
    (hw0 : Blank w0) (hw1 : Blank w1) (hw1ne : w1 ≠ [])
    (hop : ∀ o, op = some o → o ∈ operatorAlternatives ∧ Blank w2 ∧ w2 ≠ [])
    (hne : tok ≠ []) (htok : ∀ c ∈ tok, isNumberChar c = true)
    (hn : parseInt tok 10 = JSNum.ofInt n) (hw3 : Blank w3) :
    ∃ r, parseLine env
        { lineText := w0 ++ utf16 "LinkedSockets" ++ (w1 ++ operatorPart op w2 ++ tok ++ w3),
          row := row, editor := editor, itemData := itemData } = Except.ok (r, editor) ∧
      r.type = LineType.Rule ∧
      r.operator = op.map (fun o =>
        { type := o,
          range := columns row (w0.length + (utf16 "LinkedSockets").length + w1.length)
            (w0.length + (utf16 "LinkedSockets").length + w1.length + o.length) }) ∧
      ((r.invalid = false ∧
        r.values =
          [{ value := Value.number (JSNum.ofInt n),
             range := columns row
               (w0.length + (utf16 "LinkedSockets").length + w1.length + (operatorPart op w2).length)
               (w0.length + (utf16 "LinkedSockets").length + w1.length +
                 (operatorPart op w2).length + tok.length) }]) ↔ n ∈ linkedSocketCounts) ∧
      (n ∈ linkedSocketCounts → r.messages = []) ∧
      (n ∉ linkedSocketCounts →
        r.invalid = true ∧ r.values = [] ∧
        ∃ m, r.messages = [m] ∧ m.severity = Severity.error ∧
          m.location.position = columns row
            (w0.length + (utf16 "LinkedSockets").length + w1.length + (operatorPart op w2).length)
            (w0.length + (utf16 "LinkedSockets").length + w1.length +
              (operatorPart op w2).length + tok.length) ∧
          m.excerpt = utf16 "Invalid value for rule \"LinkedSockets\". Expected 0,2,3,4,5,6.") := by
  have hb3 : atBoundary w3 = true := by
    cases w3 with
    | nil => rfl
    | cons c r => exact (hw3 c (List.mem_cons_self _ _)).1
  have hnum : ∀ c ∈ tok, isSpace c = false := fun c hc => isNumberChar_not_space (htok c hc)
  have heol : eolRegex (w1 ++ operatorPart op w2 ++ tok ++ w3) = false := by
    rw [eolRegex_append, eolRegex_append, eolRegex_append, hw1.eolRegex,
      eolRegex_operatorPart op w2 (fun o ho => ⟨(hop o ho).1, (hop o ho).2.1⟩),
      eolRegex_of_not_space tok hnum, hw3.eolRegex]
    rfl
  obtain ⟨p1, hp1t, hp1c, -, hp1e, hpl⟩ := parseLine_rule_line env
    { lineText := w0 ++ utf16 "LinkedSockets" ++ (w1 ++ operatorPart op w2 ++ tok ++ w3),
      row := row, editor := editor, itemData := itemData }
    w0 (utf16 "LinkedSockets") (w1 ++ operatorPart op w2 ++ tok ++ w3) rfl hw0 (by decide)
    (by decide)
    (by rw [List.append_assoc, List.append_assoc]
        exact atBoundary_of_spaces_append w1 _ hw1.isSpace hw1ne)
    heol ⟨by decide, by decide⟩
  dsimp only at hpl
  have htok := processOpNumberRule_tokens p1
    { editor := editor, number := row, file := editor.path, keyword := utf16 "LinkedSockets" }
    linkedSocketCounts w1 op w2 tok w3 n hp1t hw1.isSpace
    (fun o ho => ⟨(hop o ho).1, (hop o ho).2.2, (hop o ho).2.1.isSpace⟩) hne htok hn hb3
  rw [reportTrailingComment_of_spaces _ _ _ hw3.isSpace] at htok
  rw [hpl, processRule_LinkedSockets, htok]
  simp only [finishRule, plainRule]
  refine ⟨_, rfl, ?_⟩
  by_cases hv : n ∈ linkedSocketCounts
  · rw [if_pos hv]
    obtain ⟨h1, -, h3, h4, h5, h6⟩ := ruleResult_of_clean
      { lineText := w0 ++ utf16 "LinkedSockets" ++ (w1 ++ operatorPart op w2 ++ tok ++ w3),
        row := row, editor := editor, itemData := itemData }
      { name := utf16 "LinkedSockets",
        range := Range.onRow row w0.length ((w0.length + (utf16 "LinkedSockets").length : Nat) : Int) }
      Category.condition
      { values := [{ value := Value.number (JSNum.ofInt n),
                     range := columns row
                       (p1.currentIndex + w1.length + (operatorPart op w2).length)
                       (p1.currentIndex + w1.length + (operatorPart op w2).length + tok.length) }],
        operator := op.map fun o =>
          { type := o,
            range := columns row (p1.currentIndex + w1.length)
              (p1.currentIndex + w1.length + o.length) } }
      { p1 with text := w3,
                currentIndex := p1.currentIndex + w1.length + (operatorPart op w2).length + tok.length,
                empty := if !textRegex w3 then true else p1.empty }
      editor rfl rfl (by simp [hw3.textRegex])
    refine ⟨h1, ?_, ?_, fun _ => h4, fun h => absurd hv h⟩
    · rw [h5, hp1c]
    · rw [h3, h6, hp1c]
      simp [hv]
  · rw [if_neg hv]
    obtain ⟨h1, -, h3, h4, h5, h6⟩ := ruleResult_of_invalid
      { lineText := w0 ++ utf16 "LinkedSockets" ++ (w1 ++ operatorPart op w2 ++ tok ++ w3),
        row := row, editor := editor, itemData := itemData }
      { name := utf16 "LinkedSockets",
        range := Range.onRow row w0.length ((w0.length + (utf16 "LinkedSockets").length : Nat) : Int) }
      Category.condition
      { messages := [errorMessage editor.path
          (columns row
            (p1.currentIndex + w1.length + (operatorPart op w2).length)
            (p1.currentIndex + w1.length + (operatorPart op w2).length + tok.length))
          (utf16 "Invalid value for rule \"" ++ utf16 "LinkedSockets" ++ utf16 "\". Expected " ++
            List.flatten ((linkedSocketCounts.map intToString).intersperse (utf16 ",")) ++ utf16 ".")
          (utf16 "http://pathofexile.gamepedia.com/Item_filter#Conditions")],
        invalid := true,
        operator := op.map fun o =>
          { type := o,
            range := columns row (p1.currentIndex + w1.length)
              (p1.currentIndex + w1.length + o.length) } }
      { p1 with text := w3,
                currentIndex := p1.currentIndex + w1.length + (operatorPart op w2).length + tok.length,
                empty := if !textRegex w3 then true else p1.empty }
      editor rfl (by simp)
    refine ⟨h1, ?_, ?_, fun h => absurd h hv, fun _ => ⟨h3, h6, _, h4, rfl, ?_, ?_⟩⟩
    · rw [h5, hp1c]
    · rw [h3]
      simp [hv]
    · simp only [errorMessage, hp1c]
    · show utf16 "Invalid value for rule \"" ++ utf16 "LinkedSockets" ++ utf16 "\". Expected " ++
          List.flatten ((linkedSocketCounts.map intToString).intersperse (utf16 ",")) ++ utf16 "." =
        utf16 "Invalid value for rule \"LinkedSockets\". Expected 0,2,3,4,5,6."
      decide

/-- C19, at the line `LinkedSockets >= 5`: the hypotheses hold, and the result holds
the operator `>=` at columns 14-16 and is valid with the single value 5 at columns
17-18, since 5 is an admitted count. -/
theorem parseLine_LinkedSockets_witness :
    (Blank [] ∧ Blank [32] ∧ utf16 ">=" ∈ operatorAlternatives ∧
      parseInt (utf16 "5") 10 = JSNum.ofInt 5 ∧ (5 : Int) ∈ linkedSocketCounts ∧
      [] ++ utf16 "LinkedSockets" ++ ([32] ++ operatorPart (some (utf16 ">=")) [32] ++ utf16 "5" ++ []) =
        utf16 "LinkedSockets >= 5") ∧
    ∃ r, parseLine asciiEnv
        { lineText := utf16 "LinkedSockets >= 5", row := 0,
          editor := { path := none, line := utf16 "LinkedSockets >= 5" },
          itemData := sampleItems } =
          Except.ok (r, { path := none, line := utf16 "LinkedSockets >= 5" }) ∧
      r.type = LineType.Rule ∧
      r.operator = some { type := utf16 ">=", range := columns 0 14 16 } ∧
      ((r.invalid = false ∧
        r.values = [{ value := Value.number (JSNum.ofInt 5), range := columns 0 17 18 }]) ↔
          (5 : Int) ∈ linkedSocketCounts) ∧
      ((5 : Int) ∈ linkedSocketCounts → r.messages = []) ∧
      ((5 : Int) ∉ linkedSocketCounts →
        r.invalid = true ∧ r.values = [] ∧
        ∃ m, r.messages = [m] ∧ m.severity = Severity.error ∧
          m.location.position = columns 0 17 18 ∧
          m.excerpt = utf16 "Invalid value for rule \"LinkedSockets\". Expected 0,2,3,4,5,6.") :=
  ⟨⟨by decide, by decide, by decide, by decide, by decide, by decide⟩,
   parseLine_LinkedSockets asciiEnv 0 { path := none, line := utf16 "LinkedSockets >= 5" }
     sampleItems [] [32] (some (utf16 ">=")) [32] (utf16 "5") [] 5
     (by decide) (by decide) (by decide)
     (fun o ho => by cases ho; exact ⟨by decide, by decide, by decide⟩)
     (by decide) (by decide) (by decide) (by decide)⟩

/-- The line `LinkedSockets 1`, evaluated: invalid, no value, one error over the
columns 14-15 of `1`. -/
theorem parseLine_LinkedSockets_1 :
    (parseLine asciiEnv (argsFor (utf16 "LinkedSockets 1"))).toOption.map
      (fun x => (x.1.type, x.1.invalid, x.1.values,
        x.1.messages.map (fun m => (m.severity, m.location.position, m.excerpt)))) =
    some (LineType.Rule, true, [],
      [(Severity.error, columns 0 14 15,
        utf16 "Invalid value for rule \"LinkedSockets\". Expected 0,2,3,4,5,6.")]) := by
  rfl

theorem isBareStringChar_facts {c : Nat} (h : isBareStringChar c = true) :
    isSpace c = false ∧ c ≠ 34 ∧ c ≠ 39 ∧ c ≠ 62 ∧ c ≠ 60 ∧ c ≠ 61 := by
  simp only [isBareStringChar, Bool.not_eq_true', Bool.or_eq_false_iff, beq_eq_false_iff_ne,
    ne_eq] at h
  tauto

theorem written_ne_nil (q : Bool) (s : Text) (h : IsStringValue q s) : written q s ≠ [] := by
  cases q with
  | true => simp [written]
  | false =>
    simp only [IsStringValue, Bool.false_eq_true, if_false] at h
    simpa [written] using h.1

theorem written_head (q : Bool) (s rest : Text) (h : IsStringValue q s) :
    ∀ c, (written q s ++ rest).head? = some c → isSpace c = false ∧ c ≠ 60 ∧ c ≠ 61 ∧ c ≠ 62 := by
  intro c hc
  cases q with
  | true =>
    simp only [written, if_true, List.cons_append, List.head?_cons, Option.some.injEq] at hc
    subst hc
    decide
  | false =>
    simp only [IsStringValue, Bool.false_eq_true, if_false] at h
    simp only [written, Bool.false_eq_true, if_false] at hc
    cases s with
    | nil => exact absurd rfl h.1
    | cons a r =>
      simp only [List.cons_append, List.head?_cons, Option.some.injEq] at hc
      subst hc
      have := isBareStringChar_facts (h.2 a (List.mem_cons_self _ _))
      tauto

theorem eolRegex_written (q : Bool) (s : Text) (h : IsStringValue q s) :
    eolRegex (written q s) = false := by
  unfold eolRegex
  rw [List.any_eq_false]
  intro c hc
  cases q with
  | true =>
    simp only [IsStringValue, if_true] at h
    simp only [written, if_true, List.mem_cons, List.mem_append, List.mem_singleton,
      List.mem_nil_iff, or_false] at hc
    rcases hc with (rfl | hc) | rfl
    · decide
    · have := h c hc
      simp [this.2.1, this.2.2]
    · decide
  | false =>
    simp only [IsStringValue, Bool.false_eq_true, if_false] at h
    simp only [written, Bool.false_eq_true, if_false] at hc
    have hs := (isBareStringChar_facts (h.2 c hc)).1
    have : c ≠ 13 ∧ c ≠ 10 := by
      constructor <;> (rintro rfl; simp [isSpace] at hs)
    simp [this.1, this.2]

theorem dropWhile_not_quote (inner rest : Text) (h : ∀ c ∈ inner, c ≠ 34) :
    (inner ++ 34 :: rest).dropWhile (fun c => c != 34) = 34 :: rest ∧
    (inner ++ 34 :: rest).takeWhile (fun c => c != 34) = inner := by
  have ha : ∀ c ∈ inner, (fun c => c != 34) c = true := by
    intro c hc; simpa using h c hc
  have := takeWhile_append_stop (fun c => c != 34) inner (34 :: rest) ha
    (by intro c hc; simp only [List.head?_cons, Option.some.injEq] at hc; subst hc; rfl)
  exact ⟨this.2, this.1⟩

/-- On `ws ++ written q s ++ rest`, with `ws` whitespace and `rest` at a boundary,
`stringRegex` reads the token as written. -/
theorem stringRegex_token (ws : Text) (q : Bool) (s rest : Text)
    (hws : ∀ c ∈ ws, isSpace c = true) (hs : IsStringValue q s) (hb : atBoundary rest = true) :
    stringRegex (ws ++ written q s ++ rest) = some (ws, written q s) := by
  cases q with
  | true =>
    simp only [IsStringValue, if_true] at hs
    have hd := dropWhile_not_quote s rest (fun c hc => (hs c hc).1)
    have hdrop : (ws ++ written true s ++ rest).dropWhile isSpace = 34 :: (s ++ 34 :: rest) := by
      rw [List.append_assoc]
      rw [(takeWhile_append_stop isSpace ws _ hws (by
        intro c hc
        simp only [written, if_true, List.cons_append, List.head?_cons, Option.some.injEq] at hc
        subst hc; rfl)).2]
      simp [written]
    have htake : (ws ++ written true s ++ rest).takeWhile isSpace = ws := by
      rw [List.append_assoc]
      exact (takeWhile_append_stop isSpace ws _ hws (by
        intro c hc
        simp only [written, if_true, List.cons_append, List.head?_cons, Option.some.injEq] at hc
        subst hc; rfl)).1
    simp only [written, if_true] at hdrop htake ⊢
    unfold stringRegex
    simp only [hdrop, hd.1, hd.2, hb, if_true, htake]
  | false =>
    simp only [IsStringValue, Bool.false_eq_true, if_false] at hs
    have hns : ∀ c ∈ s, isSpace c = false := fun c hc => (isBareStringChar_facts (hs.2 c hc)).1
    have hdrop : (ws ++ written false s ++ rest).dropWhile isSpace = s ++ rest := by
      simp only [written, Bool.false_eq_true, if_false]
      exact dropWhile_space_token ws s rest hws hs.1 hns
    have hcls := classToken_append isBareStringChar
      (fun c hc => (isBareStringChar_facts hc).1) ws s rest hws hs.1 hs.2 hb
    unfold stringRegex
    simp only [hdrop]
    cases s with
    | nil => exact absurd rfl hs.1
    | cons a r =>
      have ha : a ≠ 34 := (isBareStringChar_facts (hs.2 a (List.mem_cons_self _ _))).2.1
      simp only [written, Bool.false_eq_true, if_false] at hcls ⊢
      split
      · rename_i r2 heq
        simp only [List.cons_append, List.cons.injEq] at heq
        exact absurd heq.1 ha
      · exact hcls

theorem quotationRegex_written (q : Bool) (s : Text) (hs : IsStringValue q s) :
    quotationRegex (written q s) = if q then some s else none := by
  cases q with
  | true =>
    simp only [IsStringValue, if_true] at hs
    have hd := dropWhile_not_quote s [] (fun c hc => (hs c hc).1)
    simp only [written, if_true, quotationRegex, List.cons_append]
    simp only [hd.1, hd.2]
  | false =>
    simp only [IsStringValue, Bool.false_eq_true, if_false] at hs
    cases s with
    | nil => exact absurd rfl hs.1
    | cons a r =>
      have ha : a ≠ 34 := (isBareStringChar_facts (hs.2 a (List.mem_cons_self _ _))).2.1
      simp only [written, Bool.false_eq_true, if_false, quotationRegex]
      split
      · rename_i r2 heq
        simp only [List.cons.injEq] at heq
        exact absurd heq.1 ha
      · rfl

/-- What `nextString` returns for a string token. -/
theorem nextString_token (p : LineParser) (ws : Text) (q : Bool) (s rest : Text)
    (hp : p.text = ws ++ written q s ++ rest) (hws : ∀ c ∈ ws, isSpace c = true)
    (hs : IsStringValue q s) (hb : atBoundary rest = true) :
    p.nextString =
      ({ found := true, startIndex := p.currentIndex + ws.length,
         endIndex := p.currentIndex + ws.length + (written q s).length, value := some s },
       { p with text := rest,
                currentIndex := p.currentIndex + ws.length + (written q s).length,
                empty := if !textRegex rest then true else p.empty }) := by
  have hre : stringRegex p.text = some (ws, written q s) := by
    rw [hp]; exact stringRegex_token ws q s rest hws hs hb
  have htr : truthyText (written q s) = true := by
    have := written_ne_nil q s hs
    cases hw : written q s with
    | nil => exact absurd hw this
    | cons a b => rfl
  unfold LineParser.nextString
  rw [parseSingleValue_of_some p _ _ _ hre]
  simp only [truthyOptText, htr, Bool.and_self, if_true, Option.bind, quotationRegex_written q s hs,
    hp, drop_token, Nat.cast_add, add_assoc]
  cases q <;> simp [written]

/-- An optional `=` before the arguments of a rule: `expectEqualityOp` reports
nothing and leaves the parser on whitespace followed by the arguments. -/
theorem expectEqualityOp_optional (p : LineParser) (line : LineInfo) (w1 : Text)
    (op : Option Text) (w2 rest : Text) (hp : p.text = w1 ++ operatorPart op w2 ++ rest)
    (hw1 : ∀ c ∈ w1, isSpace c = true)
    (hop : ∀ o, op = some o → o = utf16 "=" ∧ w2 ≠ [] ∧ ∀ c ∈ w2, isSpace c = true)
    (hhead : ∀ c, rest.head? = some c → isSpace c = false ∧ c ≠ 60 ∧ c ≠ 61 ∧ c ≠ 62) :
    ∃ p1 wz, expectEqualityOp p line = (none, p1) ∧ p1.text = wz ++ rest ∧
      (∀ c ∈ wz, isSpace c = true) ∧
      p1.currentIndex + wz.length = p.currentIndex + w1.length + (operatorPart op w2).length ∧
      p1.originalLength = p.originalLength ∧ p1.textStartIndex = p.textStartIndex ∧
      p1.textEndIndex = p.textEndIndex ∧ (textRegex rest = true → p1.empty = p.empty) := by
  cases op with
  | none =>
    simp only [operatorPart, List.append_nil] at hp ⊢
    exact ⟨p, w1, expectEqualityOp_absent p line w1 rest hp hw1 hhead, hp, hw1, by simp, rfl, rfl,
      rfl, fun _ => rfl⟩
  | some o =>
    obtain ⟨rfl, hw2ne, hw2⟩ := hop o rfl
    simp only [operatorPart] at hp ⊢
    have hp2 : p.text = w1 ++ utf16 "=" ++ (w2 ++ rest) := by rw [hp]; simp
    refine ⟨_, w2, expectEqualityOp_equals p line w1 (w2 ++ rest) hp2 hw1
      (atBoundary_of_spaces_append w2 rest hw2 hw2ne), rfl, hw2, ?_, rfl, rfl, rfl, ?_⟩
    · simp only [List.length_append, Nat.cast_add]
      ring
    · intro ht
      have : textRegex (w2 ++ rest) = true := by
        unfold textRegex at ht ⊢
        rw [List.any_append, ht, Bool.or_true]
      simp [this]

theorem groupRegex_iff (s : Text) : groupRegex s = true ↔ IsSocketGroup s := by
  have hc : ∀ c : Nat, (canonicalize c == 82 || canonicalize c == 71 || canonicalize c == 66 ||
      canonicalize c == 87) = true ↔ c ∈ utf16 "RGBWrgbw" := by
    intro c
    have hu : utf16 "RGBWrgbw" = [82, 71, 66, 87, 114, 103, 98, 119] := by decide
    rw [hu]
    simp only [canonicalize, Bool.or_eq_true, beq_iff_eq, List.mem_cons, List.mem_singleton,
      List.mem_nil_iff, or_false]
    split <;> omega
  unfold groupRegex IsSocketGroup
  simp only [Bool.and_eq_true, decide_eq_true_eq, List.all_eq_true, hc, and_assoc]

/-- The column where the text of a line starts, as the constructor computes it: the
length of the leading whitespace, or 0. -/
theorem LineParser.new_textStartIndex (t : Text) (p : LineParser)
    (h : LineParser.new t = Except.ok p) :
    p.textStartIndex = 0 ∨ p.textStartIndex = (t.takeWhile isSpace).length := by
  unfold LineParser.new at h
  split at h
  · exact absurd h (by simp)
  · split at h
    · simp only [Except.ok.injEq] at h
      subst h
      dsimp only
      unfold surroundingWSRegex
      by_cases hc : (textRegex t && List.all (dropTrailingSpace (t.dropWhile isSpace)) isDot) = true
      · simp only [hc, if_true]
        split
        · exact Or.inr rfl
        · exact Or.inl rfl
      · simp only [hc]
        exact Or.inl rfl
    · simp only [Except.ok.injEq] at h
      subst h
      exact Or.inl rfl

/-- The start of `parseLine` on a rule line, as `parseLine_rule_line` gives it, with
the column where the constructor lets the line's text start. -/
theorem parseLine_rule_line_start (env : Env) (args : Args) (w0 kw rest : Text)
    (hline : args.lineText = w0 ++ kw ++ rest) (hw0 : Blank w0) (hne : kw ≠ [])
    (hkw : ∀ c ∈ kw, isWordChar c = true) (hb : atBoundary rest = true)
    (heol : eolRegex rest = false) (hshow : kw ≠ utf16 "Show" ∧ kw ≠ utf16 "Hide") :
    ∃ p1 : LineParser, p1.text = rest ∧ p1.currentIndex = (w0.length : Int) + kw.length ∧
      p1.originalLength = args.lineText.length ∧ p1.empty = (!textRegex rest) ∧
      (p1.textStartIndex = 0 ∨ p1.textStartIndex = w0.length) ∧
      parseLine env args =
        finishRule args
          { name := kw, range := Range.onRow args.row w0.length ((w0.length + kw.length : Nat) : Int) }
          { found := true, startIndex := w0.length,
            endIndex := ((w0.length + kw.length : Nat) : Int), value := some kw }
          p1
          (processRule env p1
            { editor := args.editor, number := args.row, file := args.editor.path, keyword := kw }
            (args.itemData.classes ++ args.itemData.whitelistClasses)
            (args.itemData.bases ++ args.itemData.whitelistBases) kw) := by
  obtain ⟨p0, hp0, hpl⟩ := parseLine_keyword_line env args w0 kw rest hline hw0 hne hkw hb heol hshow
  have htw : args.lineText.takeWhile isSpace = w0 := by
    rw [hline, List.append_assoc]
    refine (takeWhile_append_stop isSpace w0 (kw ++ rest) hw0.isSpace ?_).1
    intro c hc
    cases kw with
    | nil => exact absurd rfl hne
    | cons k ks =>
      simp only [List.cons_append, List.head?_cons, Option.some.injEq] at hc
      subst hc
      exact isWordChar_not_space (hkw k (List.mem_cons_self _ _))
  refine ⟨_, rfl, ?_, ?_, rfl, ?_, hpl⟩
  · simp
  · exact (LineParser.new_originalLength _ _ hp0).1
  · have := LineParser.new_textStartIndex _ _ hp0
    rw [htw] at this
    exact this

theorem processRule_SocketGroup (env : Env) (p : LineParser) (li : LineInfo)
    (vc vb : List Text) :
    processRule env p li vc vb (utf16 "SocketGroup") =
      some (Category.condition, plainRule li.editor (processSocketGroup p li)) := by
  unfold processRule
  simp +decide only [if_false, if_true]

/-- `processSocketGroup` on an optional `=` and one string token followed by
whitespace only: the format error for an empty value, else the value if it is a
socket group, else the error over the token's columns. -/
theorem processSocketGroup_token (p : LineParser) (line : LineInfo) (w1 : Text)
    (op : Option Text) (w2 : Text) (q : Bool) (s w3 : Text)
    (hp : p.text = w1 ++ operatorPart op w2 ++ written q s ++ w3)
    (hw1 : ∀ c ∈ w1, isSpace c = true)
    (hop : ∀ o, op = some o → o = utf16 "=" ∧ w2 ≠ [] ∧ ∀ c ∈ w2, isSpace c = true)
    (hs : IsStringValue q s) (hw3 : ∀ c ∈ w3, isSpace c = true) :
    (processSocketGroup p line).2.empty = true ∧
    (processSocketGroup p line).1 =
      if s = [] then
        ({} : ProcessResult).fail (errorMessage line.file
          (Range.onRow line.number p.textStartIndex p.originalLength)
          (utf16 "Invalid format. Expected \"" ++ line.keyword ++ utf16 " <Group>\".")
          (utf16 "http://pathofexile.gamepedia.com/Item_filter#Conditions"))
      else if groupRegex s then
        { values := [{ value := Value.string s,
                       range := columns line.number
                         (p.currentIndex + w1.length + (operatorPart op w2).length)
                         (p.currentIndex + w1.length + (operatorPart op w2).length +
                           (written q s).length) }] }
      else
        ({} : ProcessResult).fail (errorMessage line.file
          (columns line.number
            (p.currentIndex + w1.length + (operatorPart op w2).length)
            (p.currentIndex + w1.length + (operatorPart op w2).length + (written q s).length))
          (utf16 "Invalid value for \"" ++ line.keyword ++
            utf16 "\" rule. Valid characters are: R, B, G, W.")
          (utf16 "http://pathofexile.gamepedia.com/Item_filter#Conditions")) := by
  have hb3 : atBoundary w3 = true := by
    cases w3 with
    | nil => rfl
    | cons c r => exact hw3 c (List.mem_cons_self _ _)
  obtain ⟨p2, wz, hexp, hp2t, hwz, hp2c, hp2o, hp2s, -, -⟩ := expectEqualityOp_optional p line w1 op
    w2 (written q s ++ w3) (by rw [hp, List.append_assoc]) hw1 hop (written_head q s w3 hs)
  have hns := nextString_token p2 wz q s w3 (by rw [hp2t, List.append_assoc]) hwz hs hb3
  have ht3 : textRegex w3 = false := textRegex_of_spaces w3 hw3
  have hidx : p2.currentIndex + wz.length = p.currentIndex + w1.length + (operatorPart op w2).length :=
    hp2c
  unfold processSocketGroup
  rw [hexp]
  dsimp only
  rw [hns]
  dsimp only
  by_cases hsn : s = []
  · subst hsn
    simp [truthyOptText, truthyText, ht3, hp2o, hp2s]
  · have htr : truthyText s = true := by
      cases s with
      | nil => exact absurd rfl hsn
      | cons a b => rfl
    simp only [truthyOptText, htr, Bool.not_true, Bool.or_self, Bool.false_eq_true, if_false,
      Option.getD_some, hsn, hidx]
    rw [Range.onRow_of_le _ _ _ (by omega)]
    by_cases hg : groupRegex s = true
    · simp [hg, ht3, ProcessResult.pushValue]
    · simp [hg, ht3]

theorem eolRegex_equals_part (op : Option Text) (w2 : Text)
    (hop : ∀ o, op = some o → o = utf16 "=" ∧ Blank w2 ∧ w2 ≠ []) :
    eolRegex (operatorPart op w2) = false :=
  eolRegex_operatorPart op w2 (fun o ho => ⟨by rw [(hop o ho).1]; decide, (hop o ho).2.1⟩)

/-- C20, as stated, fails: on `SocketGroup ""` the token `""` stands at columns 12-14
and its value is no socket group, but the one error of the result is the format
error over columns 0-14, not an error over the token's columns. -/
theorem parseLine_SocketGroup_empty_quotes :
    utf16 "SocketGroup \"\"" = utf16 "SocketGroup" ++ ([32] ++ written true []) ∧
    ¬ IsSocketGroup [] ∧
    (parseLine asciiEnv (argsFor (utf16 "SocketGroup \"\""))).toOption.map
      (fun x => (x.1.type, x.1.invalid, x.1.values,
        x.1.messages.map (fun m => (m.severity, m.location.position, m.excerpt)))) =
    some (LineType.Rule, true, [],
      [(Severity.error, columns 0 0 14,
        utf16 "Invalid format. Expected \"SocketGroup <Group>\".")]) ∧
    columns 0 0 14 ≠ columns 0 12 14 := by
  refine ⟨by decide, by decide, rfl, by decide⟩

/-- The scenario `SocketGroup XYZ`, evaluated: invalid, with one error over the columns
12-15 of `XYZ` that names the valid characters. -/
theorem parseLine_SocketGroup_XYZ :
    (parseLine asciiEnv (argsFor (utf16 "SocketGroup XYZ"))).toOption.map
      (fun x => (x.1.type, x.1.invalid, x.1.values,
        x.1.messages.map (fun m => (m.severity, m.location.position, m.excerpt)))) =
    some (LineType.Rule, true, [],
      [(Severity.error, columns 0 12 15,
        utf16 "Invalid value for \"SocketGroup\" rule. Valid characters are: R, B, G, W.")]) := by
  rfl

theorem stringRegex_of_spaces (w : Text) (h : ∀ c ∈ w, isSpace c = true) :
    stringRegex w = none := by
  have hd : w.dropWhile isSpace = [] := by
    rw [List.dropWhile_eq_nil_iff]; exact h
  unfold stringRegex classToken
  simp [hd]

theorem nextString_of_spaces (p : LineParser) (h : ∀ c ∈ p.text, isSpace c = true) :
    p.nextString = ({ found := false, startIndex := 0, endIndex := 0, value := none }, p) := by
  unfold LineParser.nextString
  rw [parseSingleValue_of_none p _ (stringRegex_of_spaces _ h)]
  rfl

theorem atBoundary_tokensText (toks : List (Text × Bool × Text)) (w3 : Text)
    (hw : WellFormedTokens toks) (hw3 : ∀ c ∈ w3, isSpace c = true) :
    atBoundary (tokensText toks ++ w3) = true := by
  cases toks with
  | nil =>
    simp only [tokensText, List.nil_append]
    cases w3 with
    | nil => rfl
    | cons c r => exact hw3 c (List.mem_cons_self _ _)
  | cons t rest =>
    obtain ⟨ws, q, s⟩ := t
    obtain ⟨h1, h2, -, -⟩ := hw (ws, q, s) (List.mem_cons_self _ _)
    simp only [tokensText, List.append_assoc]
    exact atBoundary_of_spaces_append ws _ h1.isSpace h2

theorem textRegex_tokensText (toks : List (Text × Bool × Text)) (w3 : Text)
    (hw : WellFormedTokens toks) (hne : toks ≠ []) :
    textRegex (tokensText toks ++ w3) = true := by
  cases toks with
  | nil => exact absurd rfl hne
  | cons t rest =>
    obtain ⟨ws, q, s⟩ := t
    obtain ⟨-, -, h3, -⟩ := hw (ws, q, s) (List.mem_cons_self _ _)
    simp only [tokensText, List.append_assoc]
    have hh := written_head q s (tokensText rest ++ w3) h3
    have hne2 := written_ne_nil q s h3
    unfold textRegex
    rw [List.any_append, List.any_append]
    cases hw2 : written q s with
    | nil => exact absurd hw2 hne2
    | cons a b =>
      rw [hw2] at hh
      have := (hh a rfl).1
      simp [this]

/-- The loop of `processMultiStringRule` on a run of string tokens followed by
whitespace only: it returns, having checked every token in turn, and the parser it
leaves has consumed the tokens. -/
theorem processMultiStringLoop_tokens (env : Env) (line : LineInfo) (catalog : List Text)
    (w3 : Text) (hw3 : ∀ c ∈ w3, isSpace c = true) :
    ∀ (toks : List (Text × Bool × Text)) (fuel : Nat) (p : LineParser) (r : ProcessResult),
      WellFormedTokens toks → p.text = tokensText toks ++ w3 → toks.length + 1 ≤ fuel →
      (toks ≠ [] ∨ r.values.length ≠ 0 ∨ r.messages.length ≠ 0) →
      ∃ pf, processMultiStringLoop env line catalog false fuel p r =
          some (checkValues env line catalog (tokenColumns p.currentIndex toks) r, pf) ∧
        (toks = [] → pf = p) ∧ (toks ≠ [] → pf.empty = true) := by
  intro toks
  induction toks with
  | nil =>
    intro fuel p r _ hp hfuel hr
    obtain ⟨f, rfl⟩ : ∃ f, fuel = f + 1 := ⟨fuel - 1, by omega⟩
    simp only [tokensText, List.nil_append] at hp
    have hr2 : (r.values.length == 0 && r.messages.length == 0) = false := by
      rcases hr with h | h | h
      · exact absurd rfl h
      · simp [h]
      · simp [h]
    refine ⟨p, ?_, fun _ => rfl, fun h => absurd rfl h⟩
    unfold processMultiStringLoop
    rw [nextString_of_spaces p (by rw [hp]; exact hw3)]
    simp [hr2, tokenColumns, checkValues, Bool.and_assoc]
  | cons t rest ih =>
    intro fuel p r hw hp hfuel _
    obtain ⟨ws, q, s⟩ := t
    obtain ⟨f, rfl⟩ : ∃ f, fuel = f + 1 := ⟨fuel - 1, by simp at hfuel; omega⟩
    have hwr : WellFormedTokens rest := fun t ht => hw t (List.mem_cons_of_mem _ ht)
    obtain ⟨h1, h2, h3, h4⟩ := hw (ws, q, s) (List.mem_cons_self _ _)
    dsimp only at h1 h2 h3 h4
    have hns := nextString_token p ws q s (tokensText rest ++ w3)
      (by rw [hp]; simp [tokensText]) h1.isSpace h3 (atBoundary_tokensText rest w3 hwr hw3)
    have htr : truthyText s = true := by
      cases s with
      | nil => exact absurd rfl h4
      | cons a b => rfl
    have hstep : processMultiStringLoop env line catalog false (f + 1) p r =
        processMultiStringLoop env line catalog false f
          { p with text := tokensText rest ++ w3,
                   currentIndex := p.currentIndex + ws.length + (written q s).length,
                   empty := if !textRegex (tokensText rest ++ w3) then true else p.empty }
          (if resultFound env catalog false s then
            r.pushValue (Value.string s)
              (columns line.number (p.currentIndex + ws.length)
                (p.currentIndex + ws.length + (written q s).length))
          else r.fail (invalidValueMessage line (p.currentIndex + ws.length)
                (p.currentIndex + ws.length + (written q s).length))) := by
      rw [processMultiStringLoop, hns]
      simp only [truthyOptText, htr, Bool.not_true, Bool.false_and, Bool.or_self,
        Bool.false_eq_true, if_false, Option.getD_some]
      rw [Range.onRow_of_le _ _ _ (by omega)]
      split <;> rfl
    obtain ⟨pf, hpf, hnil, hcons⟩ := ih f
      { p with text := tokensText rest ++ w3,
               currentIndex := p.currentIndex + ws.length + (written q s).length,
               empty := if !textRegex (tokensText rest ++ w3) then true else p.empty }
      (if resultFound env catalog false s then
        r.pushValue (Value.string s)
          (columns line.number (p.currentIndex + ws.length)
            (p.currentIndex + ws.length + (written q s).length))
      else r.fail (invalidValueMessage line (p.currentIndex + ws.length)
            (p.currentIndex + ws.length + (written q s).length)))
      hwr rfl (by simp at hfuel; omega)
      (by
        right
        split
        · left; simp [ProcessResult.pushValue]
        · right; simp [ProcessResult.fail])
    refine ⟨pf, ?_, fun h => absurd h (by simp), fun _ => ?_⟩
    · rw [hstep, hpf]
      rfl
    · by_cases hrest : rest = []
      · rw [hnil hrest]
        subst hrest
        simp [tokensText, textRegex_of_spaces w3 hw3]
      · exact hcons hrest

theorem checkValues_fields (env : Env) (line : LineInfo) (catalog : List Text) :
    ∀ (cols : List (Text × Int × Int)) (r : ProcessResult),
      (checkValues env line catalog cols r).values =
        r.values ++ (cols.filter fun t => resultFound env catalog false t.1).map
          (fun t => { value := Value.string t.1, range := columns line.number t.2.1 t.2.2 }) ∧
      (checkValues env line catalog cols r).messages =
        r.messages ++ (cols.filter fun t => !resultFound env catalog false t.1).map
          (fun t => invalidValueMessage line t.2.1 t.2.2) ∧
      (checkValues env line catalog cols r).invalid =
        (r.invalid || cols.any fun t => !resultFound env catalog false t.1) ∧
      (checkValues env line catalog cols r).operator = r.operator ∧
      (checkValues env line catalog cols r).trailingComment = r.trailingComment := by
  intro cols
  induction cols with
  | nil => intro r; simp [checkValues]
  | cons t rest ih =>
    intro r
    obtain ⟨s, a, b⟩ := t
    unfold checkValues
    by_cases hf : resultFound env catalog false s = true
    · obtain ⟨h1, h2, h3, h4, h5⟩ := ih (r.pushValue (Value.string s) (columns line.number a b))
      simp only [hf, if_true]
      rw [h1, h2, h3, h4, h5]
      simp [ProcessResult.pushValue, hf]
    · obtain ⟨h1, h2, h3, h4, h5⟩ := ih (r.fail (invalidValueMessage line a b))
      simp only [hf, Bool.false_eq_true, if_false]
      rw [h1, h2, h3, h4, h5]
      simp [ProcessResult.fail, hf]

theorem eolRegex_tokensText (toks : List (Text × Bool × Text)) (hw : WellFormedTokens toks) :
    eolRegex (tokensText toks) = false := by
  induction toks with
  | nil => rfl
  | cons t rest ih =>
    obtain ⟨ws, q, s⟩ := t
    obtain ⟨h1, -, h3, -⟩ := hw (ws, q, s) (List.mem_cons_self _ _)
    simp only [tokensText]
    rw [eolRegex_append, eolRegex_append, h1.eolRegex, eolRegex_written q s h3,
      ih (fun t ht => hw t (List.mem_cons_of_mem _ ht))]
    rfl

theorem length_le_tokensText (toks : List (Text × Bool × Text)) (hw : WellFormedTokens toks) :
    toks.length ≤ (tokensText toks).length := by
  induction toks with
  | nil => simp
  | cons t rest ih =>
    obtain ⟨ws, q, s⟩ := t
    obtain ⟨-, h2, -, -⟩ := hw (ws, q, s) (List.mem_cons_self _ _)
    have := ih (fun t ht => hw t (List.mem_cons_of_mem _ ht))
    have hl : 0 < ws.length := List.length_pos.mpr h2
    simp only [tokensText, List.length_cons, List.length_append]
    omega

/-- The result of `parseLine` for a rule whose validator consumed the line and whose
`invalid` flag is set exactly when it holds a message: the validator's result. -/
theorem ruleResult_of_consumed (args : Args) (kw : Keyword) (ruleType : Category)
    (res : ProcessResult) (parser : LineParser) (editor : Editor)
    (hs : res.invalid = true ↔ res.messages ≠ []) (he : parser.empty = true) :
    (ruleResult args kw ruleType res parser editor).type = LineType.Rule ∧
    (ruleResult args kw ruleType res parser editor).invalid = res.invalid ∧
    (ruleResult args kw ruleType res parser editor).messages = res.messages ∧
    (ruleResult args kw ruleType res parser editor).operator = res.operator ∧
    (ruleResult args kw ruleType res parser editor).values = res.values := by
  by_cases hi : res.invalid = true
  · obtain ⟨h1, -, h3, h4, h5, h6⟩ :=
      ruleResult_of_invalid args kw ruleType res parser editor hi (hs.mp hi)
    exact ⟨h1, by rw [h3, hi], h4, h5, h6⟩
  · have hm : res.messages = [] := by
      by_contra h
      exact hi (hs.mpr h)
    have hi2 : res.invalid = false := by simpa using hi
    obtain ⟨h1, -, h3, h4, h5, h6⟩ :=
      ruleResult_of_clean args kw ruleType res parser editor hm hi2 he
    exact ⟨h1, by rw [h3, hi2], by rw [h4, hm], h5, h6⟩

theorem processRule_multiString (env : Env) (p : LineParser) (li : LineInfo)
    (itemData : ItemData) (K : Text) (hK : K = utf16 "Class" ∨ K = utf16 "BaseType") :
    processRule env p li (itemData.classes ++ itemData.whitelistClasses)
        (itemData.bases ++ itemData.whitelistBases) K =
      some (Category.condition,
        (processMultiStringRule env p li (catalogOf itemData K) false).bind
          (plainRule li.editor)) := by
  rcases hK with rfl | rfl <;>
  (unfold processRule catalogOf; simp +decide only [if_false, if_true])

theorem any_iff_filter_ne_nil {α : Type} (l : List α) (f : α → Bool) :
    l.any f = true ↔ l.filter f ≠ [] := by
  rw [Ne, List.filter_eq_nil_iff, List.any_eq_true]
  push_neg
  rfl

/-- C15, as amended, in general. For every `Class` or `BaseType` line made of the
keyword and one or more string tokens (bare or in double quotes, each with a value
that is not empty), separated by whitespace: `parseLine` returns a Rule that holds,
in line order, every token value that occurs (ignoring case) in an entry of the
keyword's catalog, with its columns, and whose diagnostics are, in line order, one
error "Invalid value" over the columns of every other token; it is invalid exactly
when there is such a token. A token that matches no entry is thus never reported as
trailing text, wherever it stands. -/
theorem parseLine_multi_string (env : Env) (row : Int) (editor : Editor) (itemData : ItemData)
    (K w0 : Text) (toks : List (Text × Bool × Text)) (w3 : Text)
    (hK : K = utf16 "Class" ∨ K = utf16 "BaseType") (hw0 : Blank w0)
    (hw : WellFormedTokens toks) (hne : toks ≠ []) (hw3 : Blank w3) :
    ∃ r, parseLine env
        { lineText := w0 ++ K ++ (tokensText toks ++ w3), row := row, editor := editor,
          itemData := itemData } = Except.ok (r, editor) ∧
      r.type = LineType.Rule ∧
      r.values =
        ((tokenColumns (w0.length + K.length) toks).filter
          fun t => resultFound env (catalogOf itemData K) false t.1).map
          (fun t => { value := Value.string t.1, range := columns row t.2.1 t.2.2 }) ∧
      r.messages =
        ((tokenColumns (w0.length + K.length) toks).filter
          fun t => !resultFound env (catalogOf itemData K) false t.1).map
          (fun t => errorMessage editor.path (columns row t.2.1 t.2.2)
            (utf16 "Invalid value for \"" ++ K ++ utf16 "\" rule.")
            (utf16 "http://pathofexile.gamepedia.com/Item_filter#Conditions")) ∧
      r.invalid = (tokenColumns (w0.length + K.length) toks).any
        (fun t => !resultFound env (catalogOf itemData K) false t.1) := by
  have hkf : K ≠ utf16 "Show" ∧ K ≠ utf16 "Hide" ∧ K ≠ [] ∧ ∀ c ∈ K, isWordChar c = true := by
    rcases hK with rfl | rfl <;> decide
  have heol : eolRegex (tokensText toks ++ w3) = false := by
    rw [eolRegex_append, eolRegex_tokensText toks hw, hw3.eolRegex]; rfl
  obtain ⟨p1, hp1t, hp1c, -, -, hpl⟩ := parseLine_rule_line env
    { lineText := w0 ++ K ++ (tokensText toks ++ w3), row := row, editor := editor,
      itemData := itemData }
    w0 K (tokensText toks ++ w3) rfl hw0 hkf.2.2.1 hkf.2.2.2
    (atBoundary_tokensText toks w3 hw hw3.isSpace) heol ⟨hkf.1, hkf.2.1⟩
  dsimp only at hpl
  have hexp : expectEqualityOp p1
      { editor := editor, number := row, file := editor.path, keyword := K } = (none, p1) := by
    cases toks with
    | nil => exact absurd rfl hne
    | cons t rest =>
      obtain ⟨ws, q, s⟩ := t
      obtain ⟨h1, -, h3, -⟩ := hw (ws, q, s) (List.mem_cons_self _ _)
      exact expectEqualityOp_absent p1 _ ws (written q s ++ (tokensText rest ++ w3))
        (by rw [hp1t]; simp [tokensText]) h1.isSpace (written_head q s _ h3)
  obtain ⟨pf, hloop, -, hemp⟩ := processMultiStringLoop_tokens env
    { editor := editor, number := row, file := editor.path, keyword := K }
    (catalogOf itemData K) w3 hw3.isSpace toks (p1.text.length + 1) p1 {} hw hp1t
    (by
      have := length_le_tokensText toks hw
      rw [hp1t, List.length_append]
      omega)
    (Or.inl hne)
  have hrule : processMultiStringRule env p1
      { editor := editor, number := row, file := editor.path, keyword := K }
      (catalogOf itemData K) false =
      some (checkValues env
        { editor := editor, number := row, file := editor.path, keyword := K }
        (catalogOf itemData K) (tokenColumns p1.currentIndex toks) {}, pf) := by
    unfold processMultiStringRule
    rw [hexp]
    exact hloop
  rw [hpl, processRule_multiString env p1 _ itemData K hK, hrule]
  simp only [Option.bind, plainRule, finishRule]
  obtain ⟨c1, c2, c3, -, -⟩ := checkValues_fields env
    { editor := editor, number := row, file := editor.path, keyword := K }
    (catalogOf itemData K) (tokenColumns p1.currentIndex toks) {}
  obtain ⟨h1, h2, h3, -, h5⟩ := ruleResult_of_consumed
    { lineText := w0 ++ K ++ (tokensText toks ++ w3), row := row, editor := editor,
      itemData := itemData }
    { name := K, range := Range.onRow row w0.length ((w0.length + K.length : Nat) : Int) }
    Category.condition
    (checkValues env { editor := editor, number := row, file := editor.path, keyword := K }
      (catalogOf itemData K) (tokenColumns p1.currentIndex toks) {})
    pf editor
    (by
      rw [c2, c3]
      simp only [Bool.false_or, List.nil_append, ne_eq, List.map_eq_nil_iff]
      exact any_iff_filter_ne_nil _ _)
    (hemp hne)
  refine ⟨_, rfl, h1, ?_, ?_, ?_⟩
  · rw [h5, c1, hp1c]; rfl
  · rw [h3, c2, hp1c]; rfl
  · rw [h2, c3, hp1c]; rfl

/-- C15 as amended, at the line `Class "Life Flasks" extra` with a catalog that has
the class `Life Flasks` and no entry that contains `extra`: the hypotheses hold, the
one value is `Life Flasks` at columns 6-19, and the one diagnostic is the error
"Invalid value" over the columns 20-25 of `extra`. -/
theorem parseLine_multi_string_witness :
    (Blank [] ∧ Blank [] ∧
      WellFormedTokens [([32], true, utf16 "Life Flasks"), ([32], false, utf16 "extra")] ∧
      [] ++ utf16 "Class" ++
        (tokensText [([32], true, utf16 "Life Flasks"), ([32], false, utf16 "extra")] ++ []) =
        utf16 "Class \"Life Flasks\" extra") ∧
    ∃ r, parseLine asciiEnv
        { lineText := utf16 "Class \"Life Flasks\" extra", row := 0,
          editor := { path := none, line := utf16 "Class \"Life Flasks\" extra" },
          itemData := sampleItems } =
          Except.ok (r, { path := none, line := utf16 "Class \"Life Flasks\" extra" }) ∧
      r.type = LineType.Rule ∧
      r.values = [{ value := Value.string (utf16 "Life Flasks"), range := columns 0 6 19 }] ∧
      r.messages =
        [errorMessage none (columns 0 20 25) (utf16 "Invalid value for \"Class\" rule.")
          (utf16 "http://pathofexile.gamepedia.com/Item_filter#Conditions")] ∧
      r.invalid = true := by
  refine ⟨⟨by decide, by decide, by decide, by decide⟩, ?_⟩
  obtain ⟨r, h1, h2, h3, h4, h5⟩ := parseLine_multi_string asciiEnv 0
    { path := none, line := utf16 "Class \"Life Flasks\" extra" } sampleItems (utf16 "Class") []
    [([32], true, utf16 "Life Flasks"), ([32], false, utf16 "extra")] []
    (Or.inl rfl) (by decide) (by decide) (by decide) (by decide)
  refine ⟨r, h1, h2, ?_, ?_, ?_⟩
  · rw [h3]; rfl
  · rw [h4]; rfl
  · rw [h5]; rfl

/-- C15, as stated, fails: on `Class "Life Flasks" extra` the word `extra` is not
reported with the trailing-text error; the one diagnostic of the result is the error
"Invalid value for "Class" rule." over the columns 20-25 of `extra`. -/
theorem parseLine_Class_Life_Flasks_extra :
    (parseLine asciiEnv (argsFor (utf16 "Class \"Life Flasks\" extra"))).toOption.map
      (fun x => (x.1.type, x.1.invalid, x.1.values,
        x.1.messages.map (fun m => (m.severity, m.location.position, m.excerpt)))) =
    some (LineType.Rule, true,
      [{ value := Value.string (utf16 "Life Flasks"), range := columns 0 6 19 }],
      [(Severity.error, columns 0 20 25, utf16 "Invalid value for \"Class\" rule.")]) ∧
    utf16 "Invalid value for \"Class\" rule." ≠ utf16 "Trailing text for a filter rule." := by
  refine ⟨rfl, by decide⟩

theorem dropTrailingSpace_split (t : Text) :
    ∃ tail, t = dropTrailingSpace t ++ tail ∧ ∀ c ∈ tail, isSpace c = true := by
  refine ⟨(t.reverse.takeWhile isSpace).reverse, ?_, ?_⟩
  · unfold dropTrailingSpace
    rw [← List.reverse_append, List.takeWhile_append_dropWhile, List.reverse_reverse]
  · intro c hc
    rw [List.mem_reverse] at hc
    exact List.mem_takeWhile_imp hc

theorem dropTrailingSpace_of_spaces (t : Text) (h : textRegex t = false) :
    dropTrailingSpace t = [] := by
  unfold dropTrailingSpace
  rw [List.reverse_eq_nil_iff, List.dropWhile_eq_nil_iff]
  intro c hc
  rw [List.mem_reverse] at hc
  unfold textRegex at h
  rw [List.any_eq_false] at h
  simpa using h c hc

/-- The text `#body` is its comment text followed by whitespace only. -/
theorem commentText_split (body : Text) :
    ∃ tail, 35 :: body = commentText body ++ tail ∧ ∀ c ∈ tail, isSpace c = true := by
  unfold commentText
  by_cases h : textRegex body = true
  · obtain ⟨tail, h1, h2⟩ := dropTrailingSpace_split body
    refine ⟨tail, ?_, h2⟩
    simp only [h, if_true, List.cons_append]
    rw [← h1]
  · refine ⟨[], ?_, by simp⟩
    simp [h]

theorem commentRegex_comment (ws body : Text) (hws : ∀ c ∈ ws, isSpace c = true)
    (hdot : ∀ c ∈ dropTrailingSpace body, isDot c = true) :
    commentRegex (ws ++ 35 :: body) = some (ws, commentText body) := by
  have hst := takeWhile_append_stop isSpace ws (35 :: body) hws
    (by intro c hc; simp only [List.head?_cons, Option.some.injEq] at hc; subst hc; rfl)
  have hall : (dropTrailingSpace body).all isDot = true := by
    rw [List.all_eq_true]; exact hdot
  unfold commentRegex commentText
  simp only [hst.1, hst.2, hall, if_true]
  split <;> rfl

theorem commentRegex_isSome_iff_isComment (t : Text) :
    (commentRegex t).isSome = true ↔ IsComment t := by
  constructor
  · intro h
    unfold commentRegex at h
    split at h
    · rename_i r heq
      refine ⟨t.takeWhile isSpace, r, ?_, fun c hc => List.mem_takeWhile_imp hc, ?_⟩
      · rw [← heq, List.takeWhile_append_dropWhile]
      · by_cases htr : textRegex r = true
        · simp only [htr, if_true] at h
          by_cases hall : (dropTrailingSpace r).all isDot = true
          · rw [List.all_eq_true] at hall; exact hall
          · simp [hall] at h
        · rw [dropTrailingSpace_of_spaces r (by simpa using htr)]
          intro c hc
          simp at hc
    · simp at h
  · rintro ⟨ws, body, rfl, hws, hdot⟩
    rw [commentRegex_comment ws body hws hdot]
    rfl

/-- The start of `parseLine` on a line that opens with `Show` or `Hide`: the block
validator runs on a parser that holds the rest of the line, with its cursor after the
keyword and the line's length as `originalLength`. -/
theorem parseLine_block_line (env : Env) (args : Args) (w0 kw rest : Text)
    (hline : args.lineText = w0 ++ kw ++ rest) (hw0 : Blank w0)
    (hkw : kw = utf16 "Show" ∨ kw = utf16 "Hide") (hb : atBoundary rest = true)
    (heol : eolRegex rest = false) :
    ∃ p1 : LineParser, p1.text = rest ∧ p1.currentIndex = (w0.length : Int) + kw.length ∧
      p1.originalLength = args.lineText.length ∧ p1.empty = (!textRegex rest) ∧
      parseLine env args =
        Except.ok
          (blockResult args
            { name := kw, range := Range.onRow args.row w0.length ((w0.length + kw.length : Nat) : Int) }
            (processBlock env p1
              { editor := args.editor, number := args.row, file := args.editor.path, keyword := kw }).1
            (processBlock env p1
              { editor := args.editor, number := args.row, file := args.editor.path, keyword := kw }).2,
           args.editor) := by
  have hne : kw ≠ [] := by rcases hkw with rfl | rfl <;> decide
  have hkwc : ∀ c ∈ kw, isWordChar c = true := by rcases hkw with rfl | rfl <;> decide
  have hkws : ∀ c ∈ kw, isSpace c = false := fun c hc => isWordChar_not_space (hkwc c hc)
  have heol' : eolRegex args.lineText = false := by
    rw [hline, eolRegex_append, eolRegex_append, hw0.eolRegex, eolRegex_of_not_space kw hkws, heol]
    rfl
  obtain ⟨p0, hp0, hpt, hpe, hci, hol⟩ := LineParser.new_ok args.lineText heol'
  have htr : textRegex args.lineText = true := by
    rw [hline]; exact textRegex_append_token w0 kw rest hne hkws
  have hem : p0.empty = false := by rw [hpe, htr]; rfl
  have hnc : p0.isCommented = false := by
    unfold LineParser.isCommented
    rw [hpt, commentRegex_of_head]
    · rfl
    · intro r hr
      rw [hline, dropWhile_space_token w0 kw rest hw0.isSpace hne hkws] at hr
      cases kw with
      | nil => exact absurd rfl hne
      | cons a b =>
        simp only [List.cons_append, List.cons.injEq] at hr
        have := hkwc a (List.mem_cons_self _ _)
        rw [hr.1] at this
        revert this; decide
  have hword := nextWord_some p0 w0 kw rest (by rw [hpt, hline]) hw0.isSpace hne hkwc hb
  have htruthy : truthyOptText (some kw) = true := by
    cases kw with
    | nil => exact absurd rfl hne
    | cons a b => rfl
  refine ⟨{ p0 with text := rest, currentIndex := ((w0.length + kw.length : Nat) : Int),
                    empty := !textRegex rest }, rfl, by simp, hol, rfl, ?_⟩
  unfold parseLine
  rw [hp0]
  simp only [hnc, hem, hword, htruthy, hci, zero_add, Bool.false_eq_true, if_false, Bool.not_true,
    Bool.or_self, Option.getD_some]
  rw [if_pos hkw]
  cases textRegex rest <;> rfl

theorem processBlock_blank (env : Env) (p : LineParser) (line : LineInfo)
    (h : ∀ c ∈ p.text, isSpace c = true) (he : p.empty = true) :
    (processBlock env p line).1 = {} := by
  unfold processBlock LineParser.isIgnored LineParser.isCommented
  rw [commentRegex_of_spaces _ h]
  simp [he]

theorem commentText_truthy (body : Text) : truthyText (commentText body) = true := by
  unfold commentText
  split <;> rfl

theorem processBlock_comment (env : Env) (p : LineParser) (line : LineInfo) (ws body : Text)
    (hp : p.text = ws ++ 35 :: body) (hws : ∀ c ∈ ws, isSpace c = true)
    (hdot : ∀ c ∈ dropTrailingSpace body, isDot c = true) :
    (processBlock env p line).1 =
      { trailingComment := some
          { text := commentText body,
            range := columns line.number (p.currentIndex + ws.length)
              (p.currentIndex + ws.length + (commentText body).length) } } := by
  have hre : commentRegex p.text = some (ws, commentText body) := by
    rw [hp]; exact commentRegex_comment ws body hws hdot
  unfold processBlock LineParser.isCommented LineParser.parseComment
  rw [parseSingleValue_of_some p _ _ _ hre, hre]
  simp only [Option.isSome_some, if_true, truthyOptText, commentText_truthy, Bool.and_self,
    Option.map_some']
  rw [Range.onRow_of_le _ _ _ (by omega)]
  simp only [Nat.cast_add, add_assoc]

theorem processBlock_other (env : Env) (p : LineParser) (line : LineInfo)
    (hc : commentRegex p.text = none) (he : p.empty = false) :
    (processBlock env p line).1 =
      if env.enableWarnings then
        { messages :=
            [{ location := { file := line.file,
                             position := Range.onRow line.number p.currentIndex p.originalLength },
               severity := Severity.warning,
               excerpt := utf16 "Trailing text for a \"" ++ line.keyword ++
                 utf16 "\" block will be ignored.",
               description := some (utf16 ("Path of Exile will not consider this an error, however the text will " ++
                 "be completely ignored.\n\nCommenting this text with a '#' will remove this warning.")),
               url := utf16 "http://pathofexile.gamepedia.com/Item_filter",
               solutions := some
                 [{ currentText := line.editor.getTextInBufferRange
                      (Range.onRow line.number p.currentIndex p.originalLength),
                    position := Range.onRow line.number p.currentIndex p.originalLength,
                    replaceWith := utf16 " #" ++ line.editor.getTextInBufferRange
                      (Range.onRow line.number p.currentIndex p.originalLength),
                    title := utf16 "Comment This Text" }] }] }
      else {} := by
  unfold processBlock LineParser.isIgnored LineParser.isCommented
  rw [hc]
  simp only [Option.isSome_none, Bool.false_eq_true, if_false, he, Bool.or_self, Bool.not_false,
    if_true]
  split <;> simp

theorem blockResult_fields (args : Args) (kw : Keyword) (res : ProcessResult) (p : LineParser)
    (hi : res.invalid = false) :
    (blockResult args kw res p).type = LineType.Block ∧
    (blockResult args kw res p).invalid = false ∧
    (blockResult args kw res p).messages = res.messages ∧
    (blockResult args kw res p).trailingComment = res.trailingComment := by
  unfold blockResult mergeMessages
  cases hm : res.messages with
  | nil => simp [LineResult.trailingComment, hm]
  | cons a b => simp [LineResult.trailingComment, hm, hi]

theorem getText_rest (path : Option Text) (a rest : Text) (row : Int) :
    ({ path := path, line := a ++ rest } : Editor).getTextInBufferRange
      (columns row a.length (a ++ rest).length) = rest := by
  have := getText_middle path a rest [] row a.length (a ++ rest).length rfl
    (by simp only [List.length_append, Nat.cast_add])
  simpa using this

/-- What the code does for C16. For every line whose first word is `Show` or `Hide`,
`parseLine` returns a Block that is not invalid and has no error diagnostic. If the
rest of the line is whitespace, there is no diagnostic and no trailing comment. If the
rest is a `#` comment that holds no line separator (U+2028, U+2029) before its last
character that is not whitespace, it is captured as the trailing comment, with its
columns, and there is no diagnostic. Otherwise, a `#` comment that holds such a
separator included, nothing is captured and, when the warnings setting is on, there
is exactly one diagnostic, a warning that ranges from the column after the keyword to
the end of the line and has one autofix, which replaces the buffer text of that range
by itself prefixed with ` #` (with the buffer row holding the line, that text is the
rest of the line); when the setting is off there is no diagnostic. -/
theorem parseLine_block (env : Env) (row : Int) (editor : Editor) (itemData : ItemData)
    (w0 kw rest : Text) (hkw : kw = utf16 "Show" ∨ kw = utf16 "Hide") (hw0 : Blank w0)
    (hb : atBoundary rest = true) (heol : eolRegex rest = false) :
    ∃ r, parseLine env
        { lineText := w0 ++ kw ++ rest, row := row, editor := editor, itemData := itemData } =
          Except.ok (r, editor) ∧
      r.type = LineType.Block ∧ r.invalid = false ∧
      (∀ m ∈ r.messages, m.severity ≠ Severity.error) ∧
      ((∀ c ∈ rest, isSpace c = true) → r.messages = [] ∧ r.trailingComment = none) ∧
      (∀ ws body, rest = ws ++ 35 :: body → (∀ c ∈ ws, isSpace c = true) →
        (∀ c ∈ dropTrailingSpace body, isDot c = true) →
        r.messages = [] ∧
        r.trailingComment = some
          { text := commentText body,
            range := columns row (w0.length + kw.length + ws.length)
              (w0.length + kw.length + ws.length + (commentText body).length) }) ∧
      (textRegex rest = true → ¬ IsComment rest →
        r.trailingComment = none ∧
        r.messages =
          if env.enableWarnings then
            [blockWarning editor row kw (w0.length + kw.length) (w0 ++ kw ++ rest).length]
          else []) ∧
      (editor.line = w0 ++ kw ++ rest →
        editor.getTextInBufferRange
          (columns row (w0.length + kw.length) (w0 ++ kw ++ rest).length) = rest) := by
  obtain ⟨p1, hp1t, hp1c, hp1o, hp1e, hpl⟩ := parseLine_block_line env
    { lineText := w0 ++ kw ++ rest, row := row, editor := editor, itemData := itemData }
    w0 kw rest rfl hw0 hkw hb heol
  dsimp only at hpl hp1o
  obtain ⟨hval, hwarn⟩ := processBlock_warnings env p1
    { editor := editor, number := row, file := editor.path, keyword := kw }
  obtain ⟨b1, b2, b3, b4⟩ := blockResult_fields
    { lineText := w0 ++ kw ++ rest, row := row, editor := editor, itemData := itemData }
    { name := kw, range := Range.onRow row w0.length ((w0.length + kw.length : Nat) : Int) }
    (processBlock env p1 { editor := editor, number := row, file := editor.path, keyword := kw }).1
    (processBlock env p1 { editor := editor, number := row, file := editor.path, keyword := kw }).2
    hval
  refine ⟨_, hpl, b1, b2, ?_, ?_, ?_, ?_, ?_⟩
  · intro m hm
    rw [b3] at hm
    rw [hwarn m hm]
    decide
  · intro hsp
    rw [b3, b4, processBlock_blank env p1 _ (by rw [hp1t]; exact hsp)
      (by rw [hp1e, textRegex_of_spaces rest hsp]; rfl)]
    exact ⟨rfl, rfl⟩
  · intro ws body hrest hws hdot
    rw [b3, b4, processBlock_comment env p1 _ ws body (by rw [hp1t, hrest]) hws hdot, hp1c]
    exact ⟨rfl, rfl⟩
  · intro htr hnc
    have hc : commentRegex p1.text = none := by
      rw [hp1t]
      cases h : commentRegex rest with
      | none => rfl
      | some v =>
        exact absurd ((commentRegex_isSome_iff_isComment rest).mp (by rw [h]; rfl)) hnc
    rw [b3, b4, processBlock_other env p1 _ hc (by rw [hp1e, htr]; rfl), hp1c, hp1o]
    rw [Range.onRow_of_le _ _ _ (by simp only [List.length_append, Nat.cast_add]; omega)]
    split
    · exact ⟨rfl, rfl⟩
    · exact ⟨rfl, rfl⟩
  · intro hed
    obtain ⟨path, line⟩ := editor
    simp only at hed
    subst hed
    have := getText_rest path (w0 ++ kw) rest row
    simpa using this

/-- The line `Show junk` with the warnings setting on: the hypotheses hold,
the rest ` junk` is neither whitespace nor a comment, and the result is a valid Block
whose one diagnostic is the warning over columns 4-9, with the autofix that replaces
` junk` by ` # junk`. -/
theorem parseLine_block_witness :
    ((utf16 "Show" = utf16 "Show" ∨ utf16 "Show" = utf16 "Hide") ∧ Blank [] ∧
      atBoundary (utf16 " junk") = true ∧ eolRegex (utf16 " junk") = false ∧
      textRegex (utf16 " junk") = true ∧ ¬ IsComment (utf16 " junk") ∧
      [] ++ utf16 "Show" ++ utf16 " junk" = utf16 "Show junk") ∧
    ∃ r, parseLine asciiEnv
        { lineText := utf16 "Show junk", row := 0,
          editor := { path := none, line := utf16 "Show junk" }, itemData := sampleItems } =
          Except.ok (r, { path := none, line := utf16 "Show junk" }) ∧
      r.type = LineType.Block ∧ r.invalid = false ∧ r.trailingComment = none ∧
      r.messages = [blockWarning { path := none, line := utf16 "Show junk" } 0 (utf16 "Show") 4 9] ∧
      (blockWarning { path := none, line := utf16 "Show junk" } 0 (utf16 "Show") 4 9).solutions =
        some [{ currentText := utf16 " junk", position := columns 0 4 9,
                replaceWith := utf16 " # junk", title := utf16 "Comment This Text" }] := by
  have hnc : ¬ IsComment (utf16 " junk") := by
    rw [← commentRegex_isSome_iff_isComment]; decide
  refine ⟨⟨Or.inl rfl, by decide, by decide, by decide, by decide, hnc, by decide⟩, ?_⟩
  obtain ⟨r, h1, h2, h3, -, -, -, h7, -⟩ := parseLine_block asciiEnv 0
    { path := none, line := utf16 "Show junk" } sampleItems [] (utf16 "Show") (utf16 " junk")
    (Or.inl rfl) (by decide) (by decide) (by decide)
  obtain ⟨h8, h9⟩ := h7 (by decide) hnc
  exact ⟨r, h1, h2, h3, h8, h9, by decide⟩

/-- Lines that open with `Show` or `Hide`, evaluated with the warnings setting on:
`Show` and `Show` followed by spaces give no diagnostic; `Hide # c ` captures the
comment `# c` at columns 5-8; `Show junk  ` gives one warning over columns 4-11. -/
theorem parseLine_block_scenarios :
    [utf16 "Show", utf16 "Show   ", utf16 "Hide # c ", utf16 "Show junk  "].map
      (fun line => (parseLine asciiEnv (argsFor line)).toOption.map
        (fun x => (x.1.type, x.1.invalid, x.1.trailingComment,
          x.1.messages.map (fun m => (m.severity, m.location.position))))) =
    [some (LineType.Block, false, none, []),
     some (LineType.Block, false, none, []),
     some (LineType.Block, false, some { text := utf16 "# c", range := columns 0 5 8 }, []),
     some (LineType.Block, false, none, [(Severity.warning, columns 0 4 11)])] := by
  rfl

/-- The line `Show junk` with the warnings setting off: a valid Block without
diagnostics. -/
theorem parseLine_block_warnings_off :
    (parseLine { asciiEnv with enableWarnings := false } (argsFor (utf16 "Show junk"))).toOption.map
      (fun x => (x.1.type, x.1.invalid, x.1.trailingComment, x.1.messages)) =
    some (LineType.Block, false, none, []) := by
  rfl

theorem LineParser.new_no_line_break (t : Text) (p : LineParser)
    (h : LineParser.new t = Except.ok p) : eolRegex t = false := by
  rcases LineParser.new_eq t with ⟨-, h2⟩ | ⟨h1, -⟩
  · rw [h2] at h; cases h
  · exact h1

theorem processRule_keyword (env : Env) (p : LineParser) (li : LineInfo) (vc vb : List Text)
    (kw : Text) (x : Category × Option (ProcessResult × LineParser × Editor))
    (h : processRule env p li vc vb kw = some x) :
    kw ≠ utf16 "Show" ∧ kw ≠ utf16 "Hide" ∧ kw ≠ [] ∧ ∀ c ∈ kw, isWordChar c = true := by
  obtain ⟨hc, ha, -, -⟩ := keywords_disjoint
  rcases processRule_category env p li vc vb kw with ⟨-, -, hk⟩ | ⟨-, -, hk⟩ | ⟨hn, -⟩
  · exact (hc kw hk).2
  · exact ha kw hk
  · rw [hn] at h; cases h

/-- The trailing-text check of `parseLine` on a validator result that is valid while
the parser is not empty: one error from the cursor to `textEndIndex`, with the
autofix exactly for the comment-tolerant actions. -/
theorem trailingText_of_valid (args : Args) (kw : Text) (res : ProcessResult) (p : LineParser)
    (ed : Editor) (hv : res.invalid = false) (he : p.empty = false) :
    trailingText args kw res p ed =
      ([errorMessage args.editor.path (Range.onRow args.row p.currentIndex p.textEndIndex)
          (utf16 "Trailing text for a filter rule.")
          (utf16 "http://pathofexile.gamepedia.com/Item_filter_guide")
          (some (utf16 "Path of Exile will consider this an error."))
          (if kw ∈ commentTolerant then
            some [commentOutFix ed (Range.onRow args.row p.currentIndex p.textEndIndex)]
          else none)], true) := by
  have hmem : kw ∈ commentTolerant ↔
      (kw = utf16 "SetBorderColor" ∨ kw = utf16 "SetTextColor" ∨
        kw = utf16 "SetBackgroundColor" ∨ kw = utf16 "PlayAlertSound") := by
    simp [commentTolerant]
  unfold trailingText
  simp only [hv, he, Bool.not_false, Bool.and_self, if_true, commentOutFix]
  by_cases hk : kw ∈ commentTolerant
  · rw [if_pos hk, if_pos (hmem.mp hk)]
  · rw [if_neg hk, if_neg (fun h => hk (hmem.mpr h))]

/-- C14, as stated, fails on both counts: on `ItemLevel 5 x`, a rule that is no
comment-tolerant action, the trailing-text error carries no autofix; and on
`SetTextColor 1 2 3 x`, a comment-tolerant action, the trailing-text check is made
and its error carries the autofix that replaces ` x` by ` # x`. -/
theorem parseLine_trailing_text_autofix :
    (parseLine asciiEnv (argsFor (utf16 "ItemLevel 5 x"))).toOption.map
      (fun x => (x.1.invalid,
        x.1.messages.map (fun m => (m.severity, m.location.position, m.excerpt, m.solutions)))) =
    some (true,
      [(Severity.error, columns 0 11 13, utf16 "Trailing text for a filter rule.", none)]) ∧
    (parseLine asciiEnv (argsFor (utf16 "SetTextColor 1 2 3 x"))).toOption.map
      (fun x => (x.1.invalid,
        x.1.messages.map (fun m => (m.severity, m.location.position, m.excerpt, m.solutions)))) =
    some (true,
      [(Severity.error, columns 0 18 20, utf16 "Trailing text for a filter rule.",
        some [{ currentText := utf16 " x", position := columns 0 18 20,
                replaceWith := utf16 " # x", title := utf16 "Comment This Text" }])]) := by
  exact ⟨rfl, rfl⟩

theorem canonicalize_not_space {c : Nat} (h : 33 ≤ canonicalize c ∧ canonicalize c ≤ 127) :
    isSpace c = false := by
  unfold canonicalize at h
  simp only [isSpace, Bool.or_eq_false_iff, Bool.and_eq_false_iff, decide_eq_false_iff_not,
    beq_eq_false_iff_ne, ne_eq, not_le]
  split at h <;> omega

/-- On `ws ++ tok ++ rest`, with `tok` a boolean token and `rest` at a boundary,
`booleanRegex` reads `tok`. -/
theorem booleanRegex_token (ws tok rest : Text) (hws : ∀ c ∈ ws, isSpace c = true)
    (htok : IsBooleanToken tok) (hb : atBoundary rest = true) :
    booleanRegex (ws ++ tok ++ rest) = some (ws, tok) := by
  have halt : booleanAlternatives.map (List.map canonicalize) =
      [[34, 84, 82, 85, 69, 34], [84, 82, 85, 69], [34, 70, 65, 76, 83, 69, 34],
       [70, 65, 76, 83, 69]] := by decide
  have hcanon : ∀ a ∈ booleanAlternatives, a.map canonicalize ∈
      [[34, 84, 82, 85, 69, 34], [84, 82, 85, 69], [34, 70, 65, 76, 83, 69, 34],
       [70, 65, 76, 83, 69]] := by decide
  unfold IsBooleanToken at htok
  rw [halt] at htok
  simp only [List.mem_cons, List.mem_singleton, List.mem_nil_iff, or_false] at htok
  have hdrop : ∀ (t : Text), t ≠ [] → (∀ c, t.head? = some c → isSpace c = false) →
      (ws ++ t ++ rest).dropWhile isSpace = t ++ rest ∧
      (ws ++ t ++ rest).takeWhile isSpace = ws := by
    intro t _ hh
    rw [List.append_assoc]
    have := takeWhile_append_stop isSpace ws (t ++ rest) hws (by
      intro c hc
      cases t with
      | nil => contradiction
      | cons a b =>
        simp only [List.cons_append, List.head?_cons, Option.some.injEq] at hc
        subst hc
        exact hh a rfl)
    exact ⟨this.2, this.1⟩
  have c1 : List.map canonicalize [34, 116, 114, 117, 101, 34] = [34, 84, 82, 85, 69, 34] := by
    decide
  have c2 : List.map canonicalize [116, 114, 117, 101] = [84, 82, 85, 69] := by decide
  have c3 : List.map canonicalize [34, 102, 97, 108, 115, 101, 34] =
      [34, 70, 65, 76, 83, 69, 34] := by decide
  have c4 : List.map canonicalize [102, 97, 108, 115, 101] = [70, 65, 76, 83, 69] := by decide
  have hbool : booleanAlternatives =
      [[34, 116, 114, 117, 101, 34], [116, 114, 117, 101], [34, 102, 97, 108, 115, 101, 34],
       [102, 97, 108, 115, 101]] := by decide
  rcases htok with h | h | h | h
  all_goals
    simp only [List.map_eq_cons_iff, List.map_eq_nil_iff] at h
  · obtain ⟨t1, r1, rfl, h1, t2, r2, rfl, h2, t3, r3, rfl, h3, t4, r4, rfl, h4, t5, r5, rfl, h5,
      t6, r6, rfl, h6, rfl⟩ := h
    obtain ⟨hd, ht⟩ := hdrop [t1, t2, t3, t4, t5, t6] (by simp) (by
      intro c hc
      simp only [List.head?_cons, Option.some.injEq] at hc
      subst hc
      exact canonicalize_not_space (by omega))
    unfold booleanRegex
    simp only [hd, ht, hbool]
    simp [List.find?, c1, c2, c3, c4, h1, h2, h3, h4, h5, h6, hb]
  · obtain ⟨t1, r1, rfl, h1, t2, r2, rfl, h2, t3, r3, rfl, h3, t4, r4, rfl, h4, rfl⟩ := h
    obtain ⟨hd, ht⟩ := hdrop [t1, t2, t3, t4] (by simp) (by
      intro c hc
      simp only [List.head?_cons, Option.some.injEq] at hc
      subst hc
      exact canonicalize_not_space (by omega))
    unfold booleanRegex
    simp only [hd, ht, hbool]
    simp [List.find?, c1, c2, c3, c4, h1, h2, h3, h4, hb]
  · obtain ⟨t1, r1, rfl, h1, t2, r2, rfl, h2, t3, r3, rfl, h3, t4, r4, rfl, h4, t5, r5, rfl, h5,
      t6, r6, rfl, h6, t7, r7, rfl, h7, rfl⟩ := h
    obtain ⟨hd, ht⟩ := hdrop [t1, t2, t3, t4, t5, t6, t7] (by simp) (by
      intro c hc
      simp only [List.head?_cons, Option.some.injEq] at hc
      subst hc
      exact canonicalize_not_space (by omega))
    unfold booleanRegex
    simp only [hd, ht, hbool]
    simp [List.find?, c1, c2, c3, c4, h1, h2, h3, h4, h5, h6, h7, hb]
  · obtain ⟨t1, r1, rfl, h1, t2, r2, rfl, h2, t3, r3, rfl, h3, t4, r4, rfl, h4, t5, r5, rfl, h5,
      rfl⟩ := h
    obtain ⟨hd, ht⟩ := hdrop [t1, t2, t3, t4, t5] (by simp) (by
      intro c hc
      simp only [List.head?_cons, Option.some.injEq] at hc
      subst hc
      exact canonicalize_not_space (by omega))
    unfold booleanRegex
    simp only [hd, ht, hbool]
    simp [List.find?, c1, c2, c3, c4, h1, h2, h3, h4, h5, hb]

theorem booleanToken_chars (tok : Text) (h : IsBooleanToken tok) :
    tok ≠ [] ∧ ∀ c ∈ tok, isSpace c = false ∧ c ≠ 60 ∧ c ≠ 61 ∧ c ≠ 62 := by
  have halt : booleanAlternatives.map (List.map canonicalize) =
      [[34, 84, 82, 85, 69, 34], [84, 82, 85, 69], [34, 70, 65, 76, 83, 69, 34],
       [70, 65, 76, 83, 69]] := by decide
  unfold IsBooleanToken at h
  rw [halt] at h
  constructor
  · rintro rfl
    revert h
    decide
  · intro c hc
    have hm : canonicalize c ∈ tok.map canonicalize := List.mem_map_of_mem _ hc
    have hr : 33 ≤ canonicalize c ∧ canonicalize c ≤ 127 ∧ canonicalize c ≠ 60 ∧
        canonicalize c ≠ 61 ∧ canonicalize c ≠ 62 := by
      simp only [List.mem_cons, List.mem_singleton, List.mem_nil_iff, or_false] at h
      rcases h with h | h | h | h <;> rw [h] at hm <;>
        simp only [List.mem_cons, List.mem_singleton, List.mem_nil_iff, or_false] at hm <;>
        omega
    refine ⟨canonicalize_not_space ⟨hr.1, hr.2.1⟩, ?_, ?_, ?_⟩ <;>
      (rintro rfl; simp [canonicalize] at hr)

/-- What `nextBoolean` returns for a boolean token. -/
theorem nextBoolean_token (p : LineParser) (ws tok rest : Text) (hp : p.text = ws ++ tok ++ rest)
    (hws : ∀ c ∈ ws, isSpace c = true) (htok : IsBooleanToken tok)
    (hb : atBoundary rest = true) :
    p.nextBoolean =
      ({ found := true, startIndex := p.currentIndex + ws.length,
         endIndex := p.currentIndex + ws.length + tok.length,
         value := some (includes (toLowerCaseAscii tok) (utf16 "true")) },
       { p with text := rest,
                currentIndex := p.currentIndex + ws.length + tok.length,
                empty := if !textRegex rest then true else p.empty }) := by
  have hre : booleanRegex p.text = some (ws, tok) := by
    rw [hp]; exact booleanRegex_token ws tok rest hws htok hb
  have htr : truthyText tok = true := by
    have := (booleanToken_chars tok htok).1
    cases tok with
    | nil => exact absurd rfl this
    | cons a b => rfl
  unfold LineParser.nextBoolean
  rw [parseSingleValue_of_some p _ _ _ hre]
  simp only [truthyOptText, htr, Bool.and_self, if_true, Option.map_some', hp, drop_token,
    Nat.cast_add, add_assoc]

/-- `reportTrailingComment` on a parser whose remaining text is a comment: one more
error, from the column of the `#` to `originalLength`. -/
theorem reportTrailingComment_comment (p : LineParser) (line : LineInfo) (r : ProcessResult)
    (wc body : Text) (hp : p.text = wc ++ 35 :: body) (hwc : ∀ c ∈ wc, isSpace c = true)
    (hdot : ∀ c ∈ dropTrailingSpace body, isDot c = true)
    (hlen : p.currentIndex + wc.length ≤ p.originalLength) :
    (reportTrailingComment p line r).1 =
      r.fail (trailingCommentMessage line (p.currentIndex + wc.length) p.originalLength) := by
  have hre : commentRegex p.text = some (wc, commentText body) := by
    rw [hp]; exact commentRegex_comment wc body hwc hdot
  unfold reportTrailingComment LineParser.isCommented LineParser.parseComment
  rw [parseSingleValue_of_some p _ _ _ hre, hre]
  simp only [Option.isSome_some, if_true, trailingCommentMessage]
  rw [Range.onRow_of_le _ _ _ hlen]

/-- An optional operator before the arguments of a rule: `nextOperator` returns its
token, if there is one, and leaves the parser on whitespace followed by the
arguments. -/
theorem nextOperator_optional (p : LineParser) (w1 : Text) (op : Option Text) (w2 rest : Text)
    (hp : p.text = w1 ++ operatorPart op w2 ++ rest) (hw1 : ∀ c ∈ w1, isSpace c = true)
    (hop : ∀ o, op = some o → o ∈ operatorAlternatives ∧ w2 ≠ [] ∧ ∀ c ∈ w2, isSpace c = true)
    (hhead : ∀ c, rest.head? = some c → isSpace c = false ∧ c ≠ 60 ∧ c ≠ 61 ∧ c ≠ 62) :
    ∃ p2 wz, p.nextOperator = (operatorToken p.currentIndex w1 op, p2) ∧ p2.text = wz ++ rest ∧
      (∀ c ∈ wz, isSpace c = true) ∧
      p2.currentIndex + wz.length = p.currentIndex + w1.length + (operatorPart op w2).length ∧
      p2.originalLength = p.originalLength ∧ p2.textStartIndex = p.textStartIndex := by
  cases op with
  | none =>
    simp only [operatorPart, List.append_nil] at hp ⊢
    exact ⟨p, w1, nextOperator_none p w1 rest hp hw1 hhead, hp, hw1, by simp, rfl, rfl⟩
  | some o =>
    obtain ⟨ho, hw2ne, hw2⟩ := hop o rfl
    simp only [operatorPart] at hp ⊢
    have hp2 : p.text = w1 ++ o ++ (w2 ++ rest) := by rw [hp]; simp
    refine ⟨{ p with text := w2 ++ rest,
                     currentIndex := p.currentIndex + ((w1.length + o.length : Nat) : Int),
                     empty := if !textRegex (w2 ++ rest) then true else p.empty },
      w2, ?_, rfl, hw2, ?_, rfl, rfl⟩
    · rw [nextOperator_some p w1 o (w2 ++ rest) hp2 hw1 ho
        (atBoundary_of_spaces_append w2 rest hw2 hw2ne)]
      simp only [operatorToken, Nat.cast_add, add_assoc]
    · simp only [List.length_append, Nat.cast_add]
      ring

theorem processRule_Rarity (env : Env) (p : LineParser) (li : LineInfo) (vc vb : List Text) :
    processRule env p li vc vb (utf16 "Rarity") =
      some (Category.condition, plainRule li.editor (processStringRule env p li
        [utf16 "Normal", utf16 "Magic", utf16 "Rare", utf16 "Unique"] false)) := by
  unfold processRule
  simp +decide only [if_false, if_true]

theorem processRule_boolean (env : Env) (p : LineParser) (li : LineInfo) (vc vb : List Text)
    (kw : Text) (h : kw = utf16 "Identified" ∨ kw = utf16 "Corrupted") :
    processRule env p li vc vb kw =
      some (Category.condition, plainRule li.editor (processBooleanRule p li)) := by
  rcases h with rfl | rfl <;> (unfold processRule; simp +decide only [if_false, if_true])

/-- Every validator of a condition-style rule, on its arguments followed by a text at
a boundary, ends with the trailing-comment check on a parser that holds that text. -/
theorem processRule_reports (env : Env) (p : LineParser) (li : LineInfo) (vc vb : List Text)
    (kw w1 : Text) (op : Option Text) (w2 tok tail : Text)
    (hargs : ConditionArguments kw op tok)
    (hp : p.text = w1 ++ operatorPart op w2 ++ tok ++ tail) (hw1 : ∀ c ∈ w1, isSpace c = true)
    (hop : ∀ o, op = some o → o ∈ operatorAlternatives ∧ w2 ≠ [] ∧ ∀ c ∈ w2, isSpace c = true)
    (hb : atBoundary tail = true) :
    ∃ cat res p2, processRule env p li vc vb kw =
        some (cat, plainRule li.editor (reportTrailingComment p2 li res)) ∧
      p2.text = tail ∧
      p2.currentIndex = p.currentIndex + w1.length + (operatorPart op w2).length + tok.length ∧
      p2.originalLength = p.originalLength := by
  rcases hargs with ⟨⟨lo, hi, ope, hr⟩, hne, htok⟩ | ⟨rfl, hne, htok⟩ | ⟨rfl, q, s, rfl, hs⟩ |
    ⟨hk, heq, hbt⟩
  · rw [processRule_rangeRules env p li vc vb kw lo hi ope hr,
      processRangeRule_tokens p li lo hi ope w1 op w2 tok tail hp hw1 hop hne htok hb]
    exact ⟨_, _, _, rfl, rfl, rfl, rfl⟩
  · obtain ⟨h1, h2, h3⟩ := range_tokens p w1 op w2 tok tail hp hw1 hop hne htok hb
    rw [processRule_LinkedSockets]
    unfold processOpNumberRule
    simp only [h1, h2, h3, numberToken, Bool.not_true, Option.isNone_some, Bool.or_self,
      Bool.false_eq_true, if_false]
    exact ⟨_, _, _, rfl, rfl, rfl, rfl⟩
  · obtain ⟨p2, wz, h1, h2, h3, h4, h5, -⟩ := nextOperator_optional p w1 op w2
      (written q s ++ tail) (by rw [hp, List.append_assoc]) hw1 hop (written_head q s tail hs)
    have hns := nextString_token p2 wz q s tail (by rw [h2, List.append_assoc]) h3 hs hb
    rw [processRule_Rarity]
    unfold processStringRule
    rw [h1]
    dsimp only
    rw [hns]
    simp only [Bool.not_true, Bool.false_eq_true, if_false]
    refine ⟨_, _, _, rfl, rfl, ?_, h5⟩
    simp only
    rw [h4]
  · obtain ⟨hne, hch⟩ := booleanToken_chars tok hbt
    obtain ⟨p2, wz, h1, h2, h3, h4, h5, -, -, -⟩ := expectEqualityOp_optional p li w1 op w2
      (tok ++ tail) (by rw [hp, List.append_assoc]) hw1
      (fun o ho => ⟨heq o ho, (hop o ho).2⟩)
      (by
        intro c hc
        cases tok with
        | nil => exact absurd rfl hne
        | cons a b =>
          simp only [List.cons_append, List.head?_cons, Option.some.injEq] at hc
          subst hc
          exact hch a (List.mem_cons_self _ _))
    have hnb := nextBoolean_token p2 wz tok tail (by rw [h2, List.append_assoc]) h3 hbt hb
    rw [processRule_boolean env p li vc vb kw hk]
    unfold processBooleanRule
    rw [h1]
    dsimp only
    rw [hnb]
    refine ⟨_, _, _, rfl, rfl, ?_, h5⟩
    simp only
    rw [h4]

theorem conditionArguments_facts (kw : Text) (op : Option Text) (tok : Text)
    (h : ConditionArguments kw op tok) :
    (kw ≠ utf16 "Show" ∧ kw ≠ utf16 "Hide" ∧ kw ≠ [] ∧ ∀ c ∈ kw, isWordChar c = true) ∧
    eolRegex tok = false := by
  rcases h with ⟨⟨lo, hi, ope, hr⟩, -, htok⟩ | ⟨rfl, -, htok⟩ | ⟨rfl, q, s, rfl, hs⟩ |
    ⟨hk, -, hbt⟩
  · obtain ⟨h1, h2, h3, h4, -⟩ := rangeRules_keyword kw lo hi ope hr
    exact ⟨⟨h1, h2, h3, h4⟩,
      eolRegex_of_not_space tok (fun c hc => isNumberChar_not_space (htok c hc))⟩
  · exact ⟨by decide, eolRegex_of_not_space tok (fun c hc => isNumberChar_not_space (htok c hc))⟩
  · exact ⟨by decide, eolRegex_written q s hs⟩
  · refine ⟨by rcases hk with rfl | rfl <;> decide, ?_⟩
    exact eolRegex_of_not_space tok (fun c hc => ((booleanToken_chars tok hbt).2 c hc).1)

/-- C13, as amended. For every range rule, `LinkedSockets`, `Rarity`, `Identified` and
`Corrupted` line made of the keyword, the operator if one is written, the argument
token of the rule, and then a `#` comment that holds no line separator (U+2028,
U+2029) before its last character that is not whitespace: `parseLine` returns an
invalid Rule whose
last diagnostic is the error "A trailing comment for a ... rule will result in an
error.", which ranges from the column of the `#` to the end of the line (the length
of the line, whitespace after the comment included). -/
theorem parseLine_trailing_comment_error (env : Env) (row : Int) (editor : Editor)
    (itemData : ItemData) (kw w0 w1 : Text) (op : Option Text) (w2 tok wc body : Text)
    (hargs : ConditionArguments kw op tok) (hw0 : Blank w0) (hw1 : Blank w1) (hw1ne : w1 ≠ [])
    (hop : ∀ o, op = some o → o ∈ operatorAlternatives ∧ Blank w2 ∧ w2 ≠ [])
    (hwc : Blank wc) (hwcne : wc ≠ []) (heol : eolRegex body = false)
    (hdot : ∀ c ∈ dropTrailingSpace body, isDot c = true) :
    ∃ r c init, parseLine env
        { lineText := w0 ++ kw ++ (w1 ++ operatorPart op w2 ++ tok ++ (wc ++ 35 :: body)),
          row := row, editor := editor, itemData := itemData } = Except.ok (r, editor) ∧
      r.type = LineType.Rule ∧ r.invalid = true ∧ r.messages = init ++ [c] ∧
      c.severity = Severity.error ∧
      c.excerpt = utf16 "A trailing comment for a \"" ++ kw ++
        utf16 "\" rule will result in an error." ∧
      c.location.position = columns row
        (w0.length + kw.length + w1.length + (operatorPart op w2).length + tok.length + wc.length)
        (w0 ++ kw ++ (w1 ++ operatorPart op w2 ++ tok ++ (wc ++ 35 :: body))).length := by
  obtain ⟨⟨hs1, hs2, hkne, hkw⟩, heolt⟩ := conditionArguments_facts kw op tok hargs
  have hbt : atBoundary (wc ++ 35 :: body) = true :=
    atBoundary_of_spaces_append wc _ hwc.isSpace hwcne
  have heol2 : eolRegex (w1 ++ operatorPart op w2 ++ tok ++ (wc ++ 35 :: body)) = false := by
    have h35 : eolRegex (35 :: body) = false := by
      have := eolRegex_append [35] body
      rw [List.singleton_append] at this
      rw [this, heol]; rfl
    rw [eolRegex_append, eolRegex_append, eolRegex_append, eolRegex_append, hw1.eolRegex,
      eolRegex_operatorPart op w2 (fun o ho => ⟨(hop o ho).1, (hop o ho).2.1⟩), heolt,
      hwc.eolRegex, h35]
    rfl
  obtain ⟨p1, hp1t, hp1c, hp1o, -, hpl⟩ := parseLine_rule_line env
    { lineText := w0 ++ kw ++ (w1 ++ operatorPart op w2 ++ tok ++ (wc ++ 35 :: body)),
      row := row, editor := editor, itemData := itemData }
    w0 kw (w1 ++ operatorPart op w2 ++ tok ++ (wc ++ 35 :: body)) rfl hw0 hkne hkw
    (by rw [List.append_assoc, List.append_assoc]
        exact atBoundary_of_spaces_append w1 _ hw1.isSpace hw1ne)
    heol2 ⟨hs1, hs2⟩
  dsimp only at hpl hp1o
  obtain ⟨cat, res, p2, hrule, ht, hc, ho⟩ := processRule_reports env p1
    { editor := editor, number := row, file := editor.path, keyword := kw }
    (itemData.classes ++ itemData.whitelistClasses) (itemData.bases ++ itemData.whitelistBases)
    kw w1 op w2 tok (wc ++ 35 :: body) hargs hp1t hw1.isSpace
    (fun o ho => ⟨(hop o ho).1, (hop o ho).2.2, (hop o ho).2.1.isSpace⟩) hbt
  have hrep := reportTrailingComment_comment p2
    { editor := editor, number := row, file := editor.path, keyword := kw } res wc body ht
    hwc.isSpace hdot
    (by rw [hc, ho, hp1c, hp1o]
        simp only [List.length_append, List.length_cons, Nat.cast_add, Nat.cast_one]
        omega)
  rw [hpl, hrule]
  simp only [plainRule, finishRule]
  generalize reportTrailingComment p2 _ res = rt at hrep ⊢
  obtain ⟨h1, -, h3, h4, -, -⟩ := ruleResult_of_invalid
    { lineText := w0 ++ kw ++ (w1 ++ operatorPart op w2 ++ tok ++ (wc ++ 35 :: body)),
      row := row, editor := editor, itemData := itemData }
    { name := kw, range := Range.onRow row w0.length ((w0.length + kw.length : Nat) : Int) }
    cat rt.1 rt.2 editor (by rw [hrep]; rfl) (by rw [hrep]; simp [ProcessResult.fail])
  refine ⟨_, trailingCommentMessage
    { editor := editor, number := row, file := editor.path, keyword := kw }
    (p2.currentIndex + wc.length) p2.originalLength, res.messages, rfl, h1, h3, ?_, rfl, rfl, ?_⟩
  · rw [h4, hrep]; rfl
  · simp only [trailingCommentMessage, errorMessage, hc, ho, hp1c, hp1o]

/-- C13 as amended, at the line `ItemLevel 5 # c  ` (two spaces after the comment): the
hypotheses hold, and the result is invalid with the trailing-comment error from
column 12, where the `#` stands, to column 17, the end of the line. -/
theorem parseLine_trailing_comment_error_witness :
    (ConditionArguments (utf16 "ItemLevel") none (utf16 "5") ∧ Blank [] ∧ Blank [32] ∧
      eolRegex (utf16 " c  ") = false ∧
      (∀ c ∈ dropTrailingSpace (utf16 " c  "), isDot c = true) ∧
      [] ++ utf16 "ItemLevel" ++ ([32] ++ operatorPart none [] ++ utf16 "5" ++
        ([32] ++ 35 :: utf16 " c  ")) = utf16 "ItemLevel 5 # c  ") ∧
    ∃ r c init, parseLine asciiEnv
        { lineText := utf16 "ItemLevel 5 # c  ", row := 0,
          editor := { path := none, line := utf16 "ItemLevel 5 # c  " },
          itemData := sampleItems } =
          Except.ok (r, { path := none, line := utf16 "ItemLevel 5 # c  " }) ∧
      r.type = LineType.Rule ∧ r.invalid = true ∧ r.messages = init ++ [c] ∧
      c.severity = Severity.error ∧
      c.excerpt = utf16 "A trailing comment for a \"ItemLevel\" rule will result in an error." ∧
      c.location.position = columns 0 12 17 :=
  ⟨⟨Or.inl ⟨⟨0, 100, true, by decide⟩, by decide⟩, by decide, by decide, by decide, by decide,
      by decide⟩,
   parseLine_trailing_comment_error asciiEnv 0 { path := none, line := utf16 "ItemLevel 5 # c  " }
     sampleItems (utf16 "ItemLevel") [] [32] none [] (utf16 "5") [32] (utf16 " c  ")
     (Or.inl ⟨⟨0, 100, true, by decide⟩, by decide⟩) (by decide) (by decide) (by decide)
     (fun o ho => by cases ho) (by decide) (by decide) (by decide) (by decide)⟩

/-- C13, as stated, fails: on `ItemLevel 5 # c  ` the comment `# c` stands at columns
12-15, but the error for it ranges over columns 12-17, to the end of the line. The
range the parser itself gives a trailing comment is the trimmed one: on
`SetTextColor 1 2 3 # c  ` the captured comment `# c` has the columns 19-22 of a line
that is 24 long. -/
theorem parseLine_comment_error_to_line_end :
    commentText (utf16 " c  ") = utf16 "# c" ∧
    (parseLine asciiEnv (argsFor (utf16 "ItemLevel 5 # c  "))).toOption.map
      (fun x => (x.1.invalid,
        x.1.messages.map (fun m => (m.severity, m.location.position, m.excerpt)))) =
    some (true,
      [(Severity.error, columns 0 12 17,
        utf16 "A trailing comment for a \"ItemLevel\" rule will result in an error.")]) ∧
    columns 0 12 17 ≠ columns 0 12 15 ∧
    (parseLine asciiEnv (argsFor (utf16 "SetTextColor 1 2 3 # c  "))).toOption.map
      (fun x => (x.1.invalid, x.1.messages, x.1.trailingComment)) =
    some (false, [], some { text := utf16 "# c", range := columns 0 19 22 }) := by
  refine ⟨by decide, rfl, by decide, rfl⟩

/-- The trailing-comment error on a line of each kind, evaluated: `LinkedSockets 5 # c`,
`Rarity Rare # c` and `Identified True # c` are invalid, with the error over the
columns from the `#` to the line's end. -/
theorem parseLine_comment_error_scenarios :
    [utf16 "LinkedSockets 5 # c", utf16 "Rarity Rare # c", utf16 "Identified True # c"].map
      (fun line => (parseLine asciiEnv (argsFor line)).toOption.map
        (fun x => (x.1.invalid, x.1.messages.map (fun m => (m.severity, m.location.position))))) =
    [some (true, [(Severity.error, columns 0 16 19)]),
     some (true, [(Severity.error, columns 0 12 15)]),
     some (true, [(Severity.error, columns 0 16 19)])] := by
  rfl

/-- One `nextNumber` call on a number token. -/
theorem nextNumber_step (p : LineParser) (ws tok rest : Text) (hp : p.text = ws ++ tok ++ rest)
    (hws : ∀ c ∈ ws, isSpace c = true) (htok : IsNumberToken tok)
    (hrest : atBoundary rest = true) :
    ∃ p2, p.nextNumber = (numberToken (p.currentIndex + ws.length) tok, p2) ∧ p2.text = rest ∧
      p2.currentIndex = p.currentIndex + ws.length + tok.length ∧
      p2.originalLength = p.originalLength ∧ p2.textStartIndex = p.textStartIndex := by
  refine ⟨{ p with text := rest,
                   currentIndex := p.currentIndex + ((ws.length + tok.length : Nat) : Int),
                   empty := if !textRegex rest then true else p.empty }, ?_, rfl, ?_, rfl, rfl⟩
  · rw [nextNumber_some p ws tok rest hp hws htok.1 htok.2 hrest]
    simp only [numberToken, Nat.cast_add, add_assoc]
  · simp only [Nat.cast_add, add_assoc]

theorem numberRegex_comment (wc body : Text) (hwc : ∀ c ∈ wc, isSpace c = true) :
    numberRegex (wc ++ 35 :: body) = none := by
  have hst := takeWhile_append_stop isSpace wc (35 :: body) hwc
    (by intro c hc; simp only [List.head?_cons, Option.some.injEq] at hc; subst hc; rfl)
  unfold numberRegex classToken
  simp only [hst.2]
  have : (35 :: body).takeWhile isNumberChar = [] := by
    rw [List.takeWhile_cons_of_neg]; decide
  simp [this]

theorem nextNumber_comment (p : LineParser) (wc body : Text) (hp : p.text = wc ++ 35 :: body)
    (hwc : ∀ c ∈ wc, isSpace c = true) :
    p.nextNumber = ({ found := false, startIndex := 0, endIndex := 0, value := none }, p) := by
  unfold LineParser.nextNumber
  rw [parseSingleValue_of_none p _ (by rw [hp]; exact numberRegex_comment wc body hwc)]
  rfl

/-- The trailing-comment capture on a parser whose remaining text is a comment: the
comment is stored with its text and columns, and the parser is left empty. -/
theorem captureTrailingComment_comment (p : LineParser) (line : LineInfo) (r : ProcessResult)
    (wc body : Text) (hp : p.text = wc ++ 35 :: body) (hwc : ∀ c ∈ wc, isSpace c = true)
    (hdot : ∀ c ∈ dropTrailingSpace body, isDot c = true) :
    (captureTrailingComment p line r).1 =
      { r with trailingComment := some (
          { text := commentText body,
            range := columns line.number (p.currentIndex + wc.length)
              (p.currentIndex + wc.length + (commentText body).length) } : TrailingComment) } ∧
    (captureTrailingComment p line r).2.empty = true := by
  have hre : commentRegex p.text = some (wc, commentText body) := by
    rw [hp]; exact commentRegex_comment wc body hwc hdot
  obtain ⟨tail, ht1, ht2⟩ := commentText_split body
  have hdrop : p.text.drop (wc.length + (commentText body).length) = tail := by
    rw [hp, ht1, ← List.append_assoc]
    exact drop_token wc (commentText body) tail
  unfold captureTrailingComment LineParser.isCommented LineParser.parseComment
  rw [parseSingleValue_of_some p _ _ _ hre, hre]
  simp only [Option.isSome_some, if_true, truthyOptText, commentText_truthy, Bool.and_self,
    Option.map_some', hdrop, textRegex_of_spaces tail ht2, Bool.not_false, and_true]
  rw [Range.onRow_of_le _ _ _ (by omega)]
  simp only [Nat.cast_add, add_assoc]

theorem numberIn_value (lo hi : Int) (tok : Text) (s : Int) (h : NumberIn lo hi tok) :
    ∃ n : Int, numberToken s tok =
      { found := true, startIndex := s, endIndex := s + tok.length, value := some (JSNum.ofInt n) } ∧
      lo ≤ n ∧ n ≤ hi := by
  obtain ⟨-, n, hn, h1, h2⟩ := h
  exact ⟨n, by simp [numberToken, hn], h1, h2⟩

theorem numberToken_head (tok rest : Text) (h : IsNumberToken tok) :
    ∀ c, (tok ++ rest).head? = some c →
      (isSpace c = false ∧ c ≠ 60 ∧ c ≠ 61 ∧ c ≠ 62) ∧ c ≠ 35 := by
  intro c hc
  refine ⟨number_head tok rest h.1 h.2 c hc, ?_⟩
  cases tok with
  | nil => exact absurd rfl h.1
  | cons a b =>
    simp only [List.cons_append, List.head?_cons, Option.some.injEq] at hc
    subst hc
    have := h.2 a (List.mem_cons_self _ _)
    rintro rfl
    revert this
    decide

theorem channelOutOfRange_in_range (n : Int) (h0 : 0 ≤ n) (h1 : n ≤ 255) :
    channelOutOfRange (JSNum.ofInt n) = false := by
  simp only [channelOutOfRange, JSNum.lt, JSNum.gt, Bool.or_eq_false_iff, decide_eq_false_iff_not]
  omega

/-- The channel checks on three channels in 0..255 and an alpha channel that is
absent or in 0..255: nothing is reported. -/
theorem checkChannels_in_range (line : LineInfo) (red green blue alpha : ParseResult JSNum)
    (nr ng nb : Int) (hr : red.value = some (JSNum.ofInt nr)) (hg : green.value = some (JSNum.ofInt ng))
    (hb : blue.value = some (JSNum.ofInt nb))
    (hr2 : 0 ≤ nr ∧ nr ≤ 255) (hg2 : 0 ≤ ng ∧ ng ≤ 255) (hb2 : 0 ≤ nb ∧ nb ≤ 255)
    (ha : alpha.found = false ∨ ∃ na : Int, alpha.value = some (JSNum.ofInt na) ∧ 0 ≤ na ∧ na ≤ 255) :
    (checkChannels line red green blue alpha {}).messages = [] ∧
    (checkChannels line red green blue alpha {}).invalid = false ∧
    (checkChannels line red green blue alpha {}).trailingComment = none := by
  have hf : (alpha.found && (alpha.value.getD JSNum.NaN).truthy &&
      channelOutOfRange (alpha.value.getD JSNum.NaN)) = false := by
    rcases ha with h | ⟨na, h, h0, h1⟩
    · simp [h]
    · simp [h, channelOutOfRange_in_range na h0 h1]
  unfold checkChannels
  simp only [hr, hg, hb, Option.getD_some, channelOutOfRange_in_range nr hr2.1 hr2.2,
    channelOutOfRange_in_range ng hg2.1 hg2.2, channelOutOfRange_in_range nb hb2.1 hb2.2, hf,
    Bool.false_eq_true, if_false]
  split <;> simp [ProcessResult.pushValue]

theorem checkChannels_values (line : LineInfo) (red green blue alpha : ParseResult JSNum)
    (nr ng nb : Int) (hr : red.value = some (JSNum.ofInt nr)) (hg : green.value = some (JSNum.ofInt ng))
    (hb : blue.value = some (JSNum.ofInt nb))
    (hr2 : 0 ≤ nr ∧ nr ≤ 255) (hg2 : 0 ≤ ng ∧ ng ≤ 255) (hb2 : 0 ≤ nb ∧ nb ≤ 255)
    (ha : alpha.found = false ∨ ∃ na : Int, alpha.value = some (JSNum.ofInt na) ∧ 0 ≤ na ∧ na ≤ 255) :
    ((checkChannels line red green blue alpha {}).values.map fun v => v.value) =
      [Value.number (JSNum.ofInt nr), Value.number (JSNum.ofInt ng), Value.number (JSNum.ofInt nb)] ++
        (if alpha.found then [Value.number (alpha.value.getD JSNum.NaN)] else []) := by
  have hf : (alpha.found && (alpha.value.getD JSNum.NaN).truthy &&
      channelOutOfRange (alpha.value.getD JSNum.NaN)) = false := by
    rcases ha with h | ⟨na, h, h0, h1⟩
    · simp [h]
    · simp [h, channelOutOfRange_in_range na h0 h1]
  unfold checkChannels
  simp only [hr, hg, hb, Option.getD_some, channelOutOfRange_in_range nr hr2.1 hr2.2,
    channelOutOfRange_in_range ng hg2.1 hg2.2, channelOutOfRange_in_range nb hb2.1 hb2.2, hf,
    Bool.false_eq_true, if_false]
  split <;> simp [ProcessResult.pushValue]

theorem atBoundary_numbersText (more : List (Text × Text)) (tail : Text)
    (hm : ∀ x ∈ more, Blank x.1 ∧ x.1 ≠ []) (ht : atBoundary tail = true) :
    atBoundary (numbersText more ++ tail) = true := by
  cases more with
  | nil => simpa [numbersText] using ht
  | cons x rest =>
    obtain ⟨w, t⟩ := x
    obtain ⟨h1, h2⟩ := hm (w, t) (List.mem_cons_self _ _)
    simp only [numbersText, List.append_assoc]
    exact atBoundary_of_spaces_append w _ h1.isSpace h2

/-- The colour validator from its channel reads on, given what the operator check and
the hex statement left: on three or four channels in 0..255 and a comment nothing is
reported, the comment is captured, and the parser is left empty. -/
theorem processRGBARule_comment_of_stage (p p1 p2 : LineParser) (line : LineInfo) (ed : Editor)
    (wz tok1 : Text) (more : List (Text × Text)) (wc body : Text)
    (hop : expectEqualityOp p line = (none, p1)) (hst : hexStage p1 line = (p2, ed))
    (e2 : p2.text = wz ++ (tok1 ++ (numbersText more ++ (wc ++ 35 :: body))))
    (e3 : ∀ c ∈ wz, isSpace c = true)
    (hm : ∀ x ∈ more, Blank x.1 ∧ x.1 ≠ []) (hlen : more.length = 2 ∨ more.length = 3)
    (h1 : NumberIn 0 255 tok1) (hmore : ∀ x ∈ more, NumberIn 0 255 x.2)
    (hwc : ∀ c ∈ wc, isSpace c = true) (hwcne : wc ≠ [])
    (hdot : ∀ c ∈ dropTrailingSpace body, isDot c = true) :
    (processRGBARule p line).1.messages = [] ∧ (processRGBARule p line).1.invalid = false ∧
    (processRGBARule p line).1.trailingComment = some
      { text := commentText body,
        range := columns line.number
          (p2.currentIndex + wz.length + tok1.length + (numbersText more).length + wc.length)
          (p2.currentIndex + wz.length + tok1.length + (numbersText more).length + wc.length +
            (commentText body).length) } ∧
    (processRGBARule p line).2.1.empty = true ∧ (processRGBARule p line).2.2 = ed ∧
    ((processRGBARule p line).1.values.map fun v => v.value) =
      (tok1 :: more.map fun x => x.2).map fun t => Value.number (parseInt t 10) := by
  have hbt : atBoundary (wc ++ 35 :: body) = true := atBoundary_of_spaces_append wc _ hwc hwcne
  obtain ⟨p3, n1, n2, n3, -, -⟩ := nextNumber_step p2 wz tok1
    (numbersText more ++ (wc ++ 35 :: body)) (by rw [e2, List.append_assoc]) e3 h1.1
    (atBoundary_numbersText more _ hm hbt)
  obtain ⟨nr, vr, vr1, vr2⟩ := numberIn_value 0 255 tok1 (p2.currentIndex + wz.length) h1
  rcases hlen with hl | hl
  · obtain ⟨⟨wg, tg⟩, ⟨wb, tb⟩, rfl⟩ : ∃ a b, more = [a, b] := by
      match more, hl with
      | [a, b], _ => exact ⟨a, b, rfl⟩
    have hg := hmore (wg, tg) (by simp)
    have hb := hmore (wb, tb) (by simp)
    have hmg := hm (wg, tg) (by simp)
    have hmb := hm (wb, tb) (by simp)
    dsimp only at hg hb hmg hmb
    simp only [numbersText, List.append_nil, List.append_assoc] at n2 ⊢
    obtain ⟨p4, g1, g2, g3, -, -⟩ := nextNumber_step p3 wg tg (wb ++ (tb ++ (wc ++ 35 :: body)))
      (by rw [n2]; simp) hmg.1.isSpace hg.1
      (atBoundary_of_spaces_append wb _ hmb.1.isSpace hmb.2)
    obtain ⟨p5, b1, b2, b3, -, -⟩ := nextNumber_step p4 wb tb (wc ++ 35 :: body)
      (by rw [g2]; simp) hmb.1.isSpace hb.1 hbt
    have a1 := nextNumber_comment p5 wc body b2 hwc
    obtain ⟨ng, vg, vg1, vg2⟩ := numberIn_value 0 255 tg (p3.currentIndex + wg.length) hg
    obtain ⟨nb, vb, vb1, vb2⟩ := numberIn_value 0 255 tb (p4.currentIndex + wb.length) hb
    have hread : readChannels p2 =
        (numberToken (p2.currentIndex + wz.length) tok1,
         numberToken (p3.currentIndex + wg.length) tg,
         numberToken (p4.currentIndex + wb.length) tb,
         { found := false, startIndex := 0, endIndex := 0, value := none }, p5) := by
      unfold readChannels
      rw [n1]; dsimp only
      rw [g1]; dsimp only
      rw [b1]; dsimp only
      rw [a1]
    obtain ⟨c1, c2, c3⟩ := checkChannels_in_range line
      (numberToken (p2.currentIndex + wz.length) tok1)
      (numberToken (p3.currentIndex + wg.length) tg)
      (numberToken (p4.currentIndex + wb.length) tb)
      { found := false, startIndex := 0, endIndex := 0, value := none } nr ng nb
      (by rw [vr]) (by rw [vg]) (by rw [vb]) ⟨vr1, vr2⟩ ⟨vg1, vg2⟩ ⟨vb1, vb2⟩ (Or.inl rfl)
    have cv := checkChannels_values line
      (numberToken (p2.currentIndex + wz.length) tok1)
      (numberToken (p3.currentIndex + wg.length) tg)
      (numberToken (p4.currentIndex + wb.length) tb)
      { found := false, startIndex := 0, endIndex := 0, value := none } nr ng nb
      (by rw [vr]) (by rw [vg]) (by rw [vb]) ⟨vr1, vr2⟩ ⟨vg1, vg2⟩ ⟨vb1, vb2⟩ (Or.inl rfl)
    have er : parseInt tok1 10 = JSNum.ofInt nr := by
      have := congrArg ParseResult.value vr
      simpa [numberToken] using this
    have eg : parseInt tg 10 = JSNum.ofInt ng := by
      have := congrArg ParseResult.value vg
      simpa [numberToken] using this
    have eb : parseInt tb 10 = JSNum.ofInt nb := by
      have := congrArg ParseResult.value vb
      simpa [numberToken] using this
    obtain ⟨t1, t2⟩ := captureTrailingComment_comment p5 line
      (checkChannels line
        (numberToken (p2.currentIndex + wz.length) tok1)
        (numberToken (p3.currentIndex + wg.length) tg)
        (numberToken (p4.currentIndex + wb.length) tb)
        { found := false, startIndex := 0, endIndex := 0, value := none } {})
      wc body b2 hwc hdot
    have hidx : p5.currentIndex + wc.length =
        p2.currentIndex + wz.length + tok1.length +
          (wg.length + (tg.length + (wb.length + tb.length))) + wc.length := by
      omega
    unfold processRGBARule
    rw [hop]; dsimp only
    rw [hst]; dsimp only
    rw [hread]
    simp only [numberToken, Bool.not_true, Option.isNone_some, Bool.or_self, Bool.false_eq_true,
      if_false]
    simp only [numberToken] at t1 t2 c1 c2 cv
    rw [t1]
    refine ⟨c1, c2, ?_, t2, trivial, ?_⟩
    · simp only [List.length_append, Nat.cast_add, hidx]
    · rw [cv]
      simp [er, eg, eb]
  · obtain ⟨⟨wg, tg⟩, ⟨wb, tb⟩, ⟨wa, ta⟩, rfl⟩ : ∃ a b c, more = [a, b, c] := by
      match more, hl with
      | [a, b, c], _ => exact ⟨a, b, c, rfl⟩
    have hg := hmore (wg, tg) (by simp)
    have hb := hmore (wb, tb) (by simp)
    have ha := hmore (wa, ta) (by simp)
    have hmg := hm (wg, tg) (by simp)
    have hmb := hm (wb, tb) (by simp)
    have hma := hm (wa, ta) (by simp)
    dsimp only at hg hb ha hmg hmb hma
    simp only [numbersText, List.append_nil, List.append_assoc] at n2 ⊢
    obtain ⟨p4, g1, g2, g3, -, -⟩ := nextNumber_step p3 wg tg
      (wb ++ (tb ++ (wa ++ (ta ++ (wc ++ 35 :: body)))))
      (by rw [n2]; simp) hmg.1.isSpace hg.1
      (atBoundary_of_spaces_append wb _ hmb.1.isSpace hmb.2)
    obtain ⟨p5, b1, b2, b3, -, -⟩ := nextNumber_step p4 wb tb (wa ++ (ta ++ (wc ++ 35 :: body)))
      (by rw [g2]; simp) hmb.1.isSpace hb.1
      (atBoundary_of_spaces_append wa _ hma.1.isSpace hma.2)
    obtain ⟨p6, a1, a2, a3, -, -⟩ := nextNumber_step p5 wa ta (wc ++ 35 :: body)
      (by rw [b2]; simp) hma.1.isSpace ha.1 hbt
    obtain ⟨ng, vg, vg1, vg2⟩ := numberIn_value 0 255 tg (p3.currentIndex + wg.length) hg
    obtain ⟨nb, vb, vb1, vb2⟩ := numberIn_value 0 255 tb (p4.currentIndex + wb.length) hb
    obtain ⟨na, va, va1, va2⟩ := numberIn_value 0 255 ta (p5.currentIndex + wa.length) ha
    have hread : readChannels p2 =
        (numberToken (p2.currentIndex + wz.length) tok1,
         numberToken (p3.currentIndex + wg.length) tg,
         numberToken (p4.currentIndex + wb.length) tb,
         numberToken (p5.currentIndex + wa.length) ta, p6) := by
      unfold readChannels
      rw [n1]; dsimp only
      rw [g1]; dsimp only
      rw [b1]; dsimp only
      rw [a1]
    obtain ⟨c1, c2, c3⟩ := checkChannels_in_range line
      (numberToken (p2.currentIndex + wz.length) tok1)
      (numberToken (p3.currentIndex + wg.length) tg)
      (numberToken (p4.currentIndex + wb.length) tb)
      (numberToken (p5.currentIndex + wa.length) ta) nr ng nb
      (by rw [vr]) (by rw [vg]) (by rw [vb]) ⟨vr1, vr2⟩ ⟨vg1, vg2⟩ ⟨vb1, vb2⟩
      (Or.inr ⟨na, by rw [va], va1, va2⟩)
    have cv := checkChannels_values line
      (numberToken (p2.currentIndex + wz.length) tok1)
      (numberToken (p3.currentIndex + wg.length) tg)
      (numberToken (p4.currentIndex + wb.length) tb)
      (numberToken (p5.currentIndex + wa.length) ta) nr ng nb
      (by rw [vr]) (by rw [vg]) (by rw [vb]) ⟨vr1, vr2⟩ ⟨vg1, vg2⟩ ⟨vb1, vb2⟩
      (Or.inr ⟨na, by rw [va], va1, va2⟩)
    have er : parseInt tok1 10 = JSNum.ofInt nr := by
      have := congrArg ParseResult.value vr
      simpa [numberToken] using this
    have eg : parseInt tg 10 = JSNum.ofInt ng := by
      have := congrArg ParseResult.value vg
      simpa [numberToken] using this
    have eb : parseInt tb 10 = JSNum.ofInt nb := by
      have := congrArg ParseResult.value vb
      simpa [numberToken] using this
    obtain ⟨t1, t2⟩ := captureTrailingComment_comment p6 line
      (checkChannels line
        (numberToken (p2.currentIndex + wz.length) tok1)
        (numberToken (p3.currentIndex + wg.length) tg)
        (numberToken (p4.currentIndex + wb.length) tb)
        (numberToken (p5.currentIndex + wa.length) ta) {})
      wc body a2 hwc hdot
    have hidx : p6.currentIndex + wc.length =
        p2.currentIndex + wz.length + tok1.length +
          (wg.length + (tg.length + (wb.length + (tb.length + (wa.length + ta.length))))) +
          wc.length := by
      omega
    unfold processRGBARule
    rw [hop]; dsimp only
    rw [hst]; dsimp only
    rw [hread]
    simp only [numberToken, Bool.not_true, Option.isNone_some, Bool.or_self, Bool.false_eq_true,
      if_false]
    simp only [numberToken] at t1 t2 c1 c2 cv
    rw [t1]
    refine ⟨c1, c2, ?_, t2, trivial, ?_⟩
    · simp only [List.length_append, Nat.cast_add, hidx]
    · rw [cv]
      simp [er, eg, eb]

/-- The colour validator on an optional `=`, three or four channels in 0..255 and a
comment: nothing is reported, the comment is captured, and the parser is left
empty. -/
theorem processRGBARule_comment (p : LineParser) (line : LineInfo) (w1 : Text)
    (op : Option Text) (w2 tok1 : Text) (more : List (Text × Text)) (wc body : Text)
    (hp : p.text = w1 ++ operatorPart op w2 ++ tok1 ++ (numbersText more ++ (wc ++ 35 :: body)))
    (hw1 : ∀ c ∈ w1, isSpace c = true)
    (hop : ∀ o, op = some o → o = utf16 "=" ∧ w2 ≠ [] ∧ ∀ c ∈ w2, isSpace c = true)
    (hm : ∀ x ∈ more, Blank x.1 ∧ x.1 ≠ []) (hlen : more.length = 2 ∨ more.length = 3)
    (h1 : NumberIn 0 255 tok1) (hmore : ∀ x ∈ more, NumberIn 0 255 x.2)
    (hwc : ∀ c ∈ wc, isSpace c = true) (hwcne : wc ≠ [])
    (hdot : ∀ c ∈ dropTrailingSpace body, isDot c = true) :
    (processRGBARule p line).1.messages = [] ∧ (processRGBARule p line).1.invalid = false ∧
    (processRGBARule p line).1.trailingComment = some
      { text := commentText body,
        range := columns line.number
          (p.currentIndex + w1.length + (operatorPart op w2).length + tok1.length +
            (numbersText more).length + wc.length)
          (p.currentIndex + w1.length + (operatorPart op w2).length + tok1.length +
            (numbersText more).length + wc.length + (commentText body).length) } ∧
    (processRGBARule p line).2.1.empty = true ∧ (processRGBARule p line).2.2 = line.editor ∧
    ((processRGBARule p line).1.values.map fun v => v.value) =
      (tok1 :: more.map fun x => x.2).map fun t => Value.number (parseInt t 10) := by
  obtain ⟨p2, wz, e1, e2, e3, e4, -, -, -, -⟩ := expectEqualityOp_optional p line w1 op w2
    (tok1 ++ (numbersText more ++ (wc ++ 35 :: body))) (by rw [hp, List.append_assoc]) hw1 hop
    (fun c hc => (numberToken_head tok1 _ h1.1 c hc).1)
  have hst : hexStage p2 line = (p2, line.editor) :=
    hexStage_none p2 line (by
      rw [e2]
      exact colorHexRegex_none wz _ e3
        (fun c hc => ⟨(numberToken_head tok1 _ h1.1 c hc).1.1, (numberToken_head tok1 _ h1.1 c hc).2⟩))
  have h := processRGBARule_comment_of_stage p p2 p2 line line.editor wz tok1 more wc body e1 hst
    e2 e3 hm hlen h1 hmore hwc hwcne hdot
  rw [e4] at h
  exact h

theorem processRule_PlayAlertSound (env : Env) (p : LineParser) (li : LineInfo)
    (vc vb : List Text) :
    processRule env p li vc vb (utf16 "PlayAlertSound") =
      some (Category.action, plainRule li.editor (processAlertSoundRule p li)) := by
  unfold processRule
  simp +decide only [if_false, if_true]

/-- The checks of `processAlertSoundRule` on an id in 1..9 and a volume that is absent
or in 0..300: nothing is reported. -/
theorem checkAlertSound_in_range (line : LineInfo) (retVal optVal : ParseResult JSNum)
    (n : Int) (hr : retVal.value = some (JSNum.ofInt n)) (h1 : 1 ≤ n) (h9 : n ≤ 9)
    (ho : optVal.value = none ∨ ∃ v : Int, optVal.value = some (JSNum.ofInt v) ∧ 0 ≤ v ∧ v ≤ 300) :
    (checkAlertSound line retVal optVal {}).messages = [] ∧
    (checkAlertSound line retVal optVal {}).invalid = false := by
  have hid : checkSoundId line retVal {} = {} := by
    unfold checkSoundId
    have : ((JSNum.ofInt n).lt (JSNum.ofInt 1) || (JSNum.ofInt n).gt (JSNum.ofInt 9)) = false := by
      simp only [JSNum.lt, JSNum.gt, Bool.or_eq_false_iff, decide_eq_false_iff_not]
      omega
    simp only [hr, Option.getD_some, this, Bool.false_eq_true, if_false]
  have hvol : checkVolume line optVal {} = {} := by
    unfold checkVolume
    rcases ho with h | ⟨v, h, h0, h3⟩
    · rw [h]
    · rw [h]
      have : ((JSNum.ofInt v).lt (JSNum.ofInt 0) || (JSNum.ofInt v).gt (JSNum.ofInt 300)) = false := by
        simp only [JSNum.lt, JSNum.gt, Bool.or_eq_false_iff, decide_eq_false_iff_not]
        omega
      simp only [this, Bool.and_false, Bool.false_eq_true, if_false]
  unfold checkAlertSound
  rw [hid, hvol]
  unfold captureAlertSound
  rcases ho with h | ⟨v, h, h0, h3⟩
  · rw [h]
    simp [ProcessResult.pushValue]
  · rw [h]
    simp only [Bool.not_false, if_true]
    split <;> simp [ProcessResult.pushValue]

/-- The alert-sound validator on an optional `=`, an id in 1..9, a volume in 0..300 if
one is written, and a comment: nothing is reported, the comment is captured, and the
parser is left empty. -/
theorem processAlertSoundRule_comment (p : LineParser) (line : LineInfo) (w1 : Text)
    (op : Option Text) (w2 tok1 : Text) (more : List (Text × Text)) (wc body : Text)
    (hp : p.text = w1 ++ operatorPart op w2 ++ tok1 ++ (numbersText more ++ (wc ++ 35 :: body)))
    (hw1 : ∀ c ∈ w1, isSpace c = true)
    (hop : ∀ o, op = some o → o = utf16 "=" ∧ w2 ≠ [] ∧ ∀ c ∈ w2, isSpace c = true)
    (hm : ∀ x ∈ more, Blank x.1 ∧ x.1 ≠ []) (hlen : more.length ≤ 1)
    (h1 : NumberIn 1 9 tok1) (hmore : ∀ x ∈ more, NumberIn 0 300 x.2)
    (hwc : ∀ c ∈ wc, isSpace c = true) (hwcne : wc ≠ [])
    (hdot : ∀ c ∈ dropTrailingSpace body, isDot c = true) :
    (processAlertSoundRule p line).1.messages = [] ∧
    (processAlertSoundRule p line).1.invalid = false ∧
    (processAlertSoundRule p line).1.trailingComment = some
      { text := commentText body,
        range := columns line.number
          (p.currentIndex + w1.length + (operatorPart op w2).length + tok1.length +
            (numbersText more).length + wc.length)
          (p.currentIndex + w1.length + (operatorPart op w2).length + tok1.length +
            (numbersText more).length + wc.length + (commentText body).length) } ∧
    (processAlertSoundRule p line).2.empty = true := by
  have hbt : atBoundary (wc ++ 35 :: body) = true := atBoundary_of_spaces_append wc _ hwc hwcne
  obtain ⟨p2, wz, e1, e2, e3, e4, -, -, -, -⟩ := expectEqualityOp_optional p line w1 op w2
    (tok1 ++ (numbersText more ++ (wc ++ 35 :: body))) (by rw [hp, List.append_assoc]) hw1 hop
    (fun c hc => (numberToken_head tok1 _ h1.1 c hc).1)
  obtain ⟨p3, n1, n2, n3, -, -⟩ := nextNumber_step p2 wz tok1
    (numbersText more ++ (wc ++ 35 :: body)) (by rw [e2, List.append_assoc]) e3 h1.1
    (atBoundary_numbersText more _ hm hbt)
  obtain ⟨nr, vr, vr1, vr2⟩ := numberIn_value 1 9 tok1 (p2.currentIndex + wz.length) h1
  have htr : (!(numberToken (p2.currentIndex + wz.length) tok1).found ||
      !((numberToken (p2.currentIndex + wz.length) tok1).value.getD JSNum.NaN).truthy) = false := by
    rw [vr]
    have hne : (nr != 0) = true := by
      rw [bne_iff_ne]
      omega
    simp [JSNum.truthy, hne]
  match more, hlen with
  | [], _ =>
    simp only [numbersText, List.nil_append, List.length_nil, Nat.cast_zero, add_zero] at n2 ⊢
    have a1 := nextNumber_comment p3 wc body n2 hwc
    obtain ⟨c1, c2⟩ := checkAlertSound_in_range line
      (numberToken (p2.currentIndex + wz.length) tok1)
      { found := false, startIndex := 0, endIndex := 0, value := none } nr (by rw [vr]) vr1 vr2
      (Or.inl rfl)
    obtain ⟨t1, t2⟩ := captureTrailingComment_comment p3 line
      (checkAlertSound line (numberToken (p2.currentIndex + wz.length) tok1)
        { found := false, startIndex := 0, endIndex := 0, value := none } {})
      wc body n2 hwc hdot
    have hidx : p3.currentIndex + wc.length =
        p.currentIndex + w1.length + (operatorPart op w2).length + tok1.length + wc.length := by
      rw [n3]; omega
    unfold processAlertSoundRule
    rw [e1]; dsimp only
    rw [n1]; dsimp only
    rw [htr]
    simp only [Bool.false_eq_true, if_false]
    rw [a1]; dsimp only
    rw [t1]
    refine ⟨c1, c2, ?_, t2⟩
    simp only [hidx]
  | [(wv, tv)], _ =>
    have hv := hmore (wv, tv) (by simp)
    have hmv := hm (wv, tv) (by simp)
    dsimp only at hv hmv
    simp only [numbersText, List.append_nil, List.append_assoc] at n2 ⊢
    obtain ⟨p4, g1, g2, g3, -, -⟩ := nextNumber_step p3 wv tv (wc ++ 35 :: body)
      (by rw [n2]; simp) hmv.1.isSpace hv.1 hbt
    obtain ⟨nv, vv, vv1, vv2⟩ := numberIn_value 0 300 tv (p3.currentIndex + wv.length) hv
    obtain ⟨c1, c2⟩ := checkAlertSound_in_range line
      (numberToken (p2.currentIndex + wz.length) tok1)
      (numberToken (p3.currentIndex + wv.length) tv) nr (by rw [vr]) vr1 vr2
      (Or.inr ⟨nv, by rw [vv], vv1, vv2⟩)
    obtain ⟨t1, t2⟩ := captureTrailingComment_comment p4 line
      (checkAlertSound line (numberToken (p2.currentIndex + wz.length) tok1)
        (numberToken (p3.currentIndex + wv.length) tv) {})
      wc body g2 hwc hdot
    have hidx : p4.currentIndex + wc.length =
        p.currentIndex + w1.length + (operatorPart op w2).length + tok1.length +
          (wv.length + tv.length) + wc.length := by
      rw [g3, n3]; omega
    unfold processAlertSoundRule
    rw [e1]; dsimp only
    rw [n1]; dsimp only
    rw [htr]
    simp only [Bool.false_eq_true, if_false]
    rw [g1]; dsimp only
    rw [t1]
    refine ⟨c1, c2, ?_, t2⟩
    simp only [List.length_append, Nat.cast_add, hidx]

theorem eolRegex_numbersText (more : List (Text × Text))
    (hm : ∀ x ∈ more, Blank x.1 ∧ IsNumberToken x.2) : eolRegex (numbersText more) = false := by
  induction more with
  | nil => rfl
  | cons x rest ih =>
    obtain ⟨w, t⟩ := x
    obtain ⟨h1, h2⟩ := hm (w, t) (List.mem_cons_self _ _)
    simp only [numbersText]
    rw [eolRegex_append, eolRegex_append, h1.eolRegex,
      eolRegex_of_not_space t (fun c hc => isNumberChar_not_space (h2.2 c hc)),
      ih (fun x hx => hm x (List.mem_cons_of_mem _ hx))]
    rfl

theorem ruleResult_trailingComment (args : Args) (kw : Keyword) (ruleType : Category)
    (res : ProcessResult) (parser : LineParser) (editor : Editor) :
    (ruleResult args kw ruleType res parser editor).trailingComment = res.trailingComment := by
  simp [ruleResult, LineResult.trailingComment]

theorem tolerantArguments_facts (kw tok1 : Text) (more : List (Text × Text))
    (h : TolerantArguments kw tok1 more) :
    (kw ≠ utf16 "Show" ∧ kw ≠ utf16 "Hide" ∧ kw ≠ [] ∧ ∀ c ∈ kw, isWordChar c = true) ∧
    IsNumberToken tok1 ∧ (∀ x ∈ more, Blank x.1 ∧ IsNumberToken x.2) := by
  obtain ⟨hm, ⟨hk, -, h1, hmore⟩ | ⟨rfl, -, h1, hmore⟩⟩ := h
  · exact ⟨colorKeywords_facts kw hk, h1.1, fun x hx => ⟨(hm x hx).1, (hmore x hx).1⟩⟩
  · exact ⟨by decide, h1.1, fun x hx => ⟨(hm x hx).1, (hmore x hx).1⟩⟩

/-- C12, as amended. For every comment-tolerant action line (SetBorderColor,
SetTextColor, SetBackgroundColor, PlayAlertSound) whose arguments are valid (three or
four channels in 0..255 for a colour, an id in 1..9 and an optional volume in 0..300
for the alert sound, written as numbers, after an optional `=`) and are followed,
after whitespace, by a `#` comment that holds no line separator (U+2028, U+2029)
before its last character that is not whitespace: `parseLine` returns a Rule with
invalid = false, no diagnostics, and a trailingComment whose text is the comment from
its `#` marker, which is part of the text, to its last character that is not
whitespace, or, when only whitespace follows the `#`, the `#` with all that
whitespace, at the columns where it stands; a colour rule
holds the channels as its values, and the editor is left alone. A colour written as a
hex literal is covered by `parseLine_tolerant_hex`. -/
theorem parseLine_tolerant_comment (env : Env) (row : Int) (editor : Editor)
    (itemData : ItemData) (kw w0 w1 : Text) (op : Option Text) (w2 tok1 : Text)
    (more : List (Text × Text)) (wc body : Text)
    (hargs : TolerantArguments kw tok1 more) (hw0 : Blank w0) (hw1 : Blank w1) (hw1ne : w1 ≠ [])
    (hop : ∀ o, op = some o → o = utf16 "=" ∧ Blank w2 ∧ w2 ≠ [])
    (hwc : Blank wc) (hwcne : wc ≠ []) (heol : eolRegex body = false)
    (hdot : ∀ c ∈ dropTrailingSpace body, isDot c = true) :
    ∃ r, parseLine env
        { lineText := w0 ++ kw ++
            (w1 ++ operatorPart op w2 ++ tok1 ++ (numbersText more ++ (wc ++ 35 :: body))),
          row := row, editor := editor, itemData := itemData } = Except.ok (r, editor) ∧
      r.type = LineType.Rule ∧ r.invalid = false ∧ r.messages = [] ∧
      r.trailingComment = some
        { text := commentText body,
          range := columns row
            (w0.length + kw.length + w1.length + (operatorPart op w2).length + tok1.length +
              (numbersText more).length + wc.length)
            (w0.length + kw.length + w1.length + (operatorPart op w2).length + tok1.length +
              (numbersText more).length + wc.length + (commentText body).length) } ∧
      (kw ∈ colorKeywords → (r.values.map fun v => v.value) =
        (tok1 :: more.map fun x => x.2).map fun t => Value.number (parseInt t 10)) := by
  obtain ⟨⟨hs1, hs2, hkne, hkw⟩, htok1, hmt⟩ := tolerantArguments_facts kw tok1 more hargs
  have hopA : ∀ o, op = some o → o ∈ operatorAlternatives ∧ Blank w2 := by
    intro o ho
    obtain ⟨rfl, h2, -⟩ := hop o ho
    exact ⟨by decide, h2⟩
  have heol2 : eolRegex
      (w1 ++ operatorPart op w2 ++ tok1 ++ (numbersText more ++ (wc ++ 35 :: body))) = false := by
    have h35 : eolRegex (35 :: body) = false := by
      have := eolRegex_append [35] body
      rw [List.singleton_append] at this
      rw [this, heol]; rfl
    rw [eolRegex_append, eolRegex_append, eolRegex_append, eolRegex_append, eolRegex_append,
      hw1.eolRegex, eolRegex_operatorPart op w2 hopA,
      eolRegex_of_not_space tok1 (fun c hc => isNumberChar_not_space (htok1.2 c hc)),
      eolRegex_numbersText more hmt, hwc.eolRegex, h35]
    rfl
  obtain ⟨p1, hp1t, hp1c, hp1o, -, hpl⟩ := parseLine_rule_line env
    { lineText := w0 ++ kw ++
        (w1 ++ operatorPart op w2 ++ tok1 ++ (numbersText more ++ (wc ++ 35 :: body))),
      row := row, editor := editor, itemData := itemData }
    w0 kw (w1 ++ operatorPart op w2 ++ tok1 ++ (numbersText more ++ (wc ++ 35 :: body))) rfl
    hw0 hkne hkw
    (by rw [List.append_assoc, List.append_assoc]
        exact atBoundary_of_spaces_append w1 _ hw1.isSpace hw1ne)
    heol2 ⟨hs1, hs2⟩
  dsimp only at hpl hp1o
  have hopS : ∀ o, op = some o → o = utf16 "=" ∧ w2 ≠ [] ∧ ∀ c ∈ w2, isSpace c = true :=
    fun o ho => ⟨(hop o ho).1, (hop o ho).2.2, (hop o ho).2.1.isSpace⟩
  obtain ⟨hm, ⟨hk, hlen, h1, hmore⟩ | ⟨rfl, hlen, h1, hmore⟩⟩ := hargs
  · obtain ⟨c1, c2, c3, c4, c5, c6⟩ := processRGBARule_comment p1
      { editor := editor, number := row, file := editor.path, keyword := kw }
      w1 op w2 tok1 more wc body hp1t hw1.isSpace hopS hm hlen h1 hmore hwc.isSpace hwcne hdot
    rw [hpl, processRule_colorKeywords _ _ _ _ _ kw hk]
    generalize processRGBARule p1 _ = pr at c1 c2 c3 c4 c5 c6 ⊢
    obtain ⟨res, pp, ed⟩ := pr
    dsimp only at c1 c2 c3 c4 c5 c6
    rw [c5]
    simp only [finishRule]
    obtain ⟨r1, -, r3, r4, -, r6⟩ := ruleResult_of_clean
      { lineText := w0 ++ kw ++
          (w1 ++ operatorPart op w2 ++ tok1 ++ (numbersText more ++ (wc ++ 35 :: body))),
        row := row, editor := editor, itemData := itemData }
      { name := kw, range := Range.onRow row w0.length ((w0.length + kw.length : Nat) : Int) }
      Category.action res pp editor c1 c2 c4
    refine ⟨_, rfl, r1, r3, r4, ?_, fun _ => ?_⟩
    · rw [ruleResult_trailingComment, c3, hp1c]
    · rw [r6, c6]
  · obtain ⟨c1, c2, c3, c4⟩ := processAlertSoundRule_comment p1
      { editor := editor, number := row, file := editor.path, keyword := utf16 "PlayAlertSound" }
      w1 op w2 tok1 more wc body hp1t hw1.isSpace hopS hm hlen h1 hmore hwc.isSpace hwcne hdot
    rw [hpl, processRule_PlayAlertSound]
    generalize processAlertSoundRule p1 _ = pr at c1 c2 c3 c4 ⊢
    obtain ⟨res, pp⟩ := pr
    dsimp only at c1 c2 c3 c4
    obtain ⟨r1, -, r3, r4, -, -⟩ := ruleResult_of_clean
      { lineText := w0 ++ utf16 "PlayAlertSound" ++
          (w1 ++ operatorPart op w2 ++ tok1 ++ (numbersText more ++ (wc ++ 35 :: body))),
        row := row, editor := editor, itemData := itemData }
      { name := utf16 "PlayAlertSound",
        range := Range.onRow row w0.length
          ((w0.length + (utf16 "PlayAlertSound").length : Nat) : Int) }
      Category.action res pp editor c1 c2 c4
    refine ⟨_, rfl, r1, r3, r4, ?_, fun h => absurd h (by decide)⟩
    rw [ruleResult_trailingComment, c3, hp1c]

theorem isHexDigit_of_space {c : Nat} (h : isSpace c = true) : isHexDigit c = false := by
  cases hd : isHexDigit c with
  | false => rfl
  | true =>
    have := (hexDigit_facts hd).2.2.1
    rw [h] at this
    cases this

/-- The hex colour regex on a literal after one space that is followed by a text at a
boundary. -/
theorem colorHexRegex_hex_tail (a1 a2 b1 b2 c1 c2 : Nat) (ad : Option (Nat × Nat)) (post : Text)
    (h : ∀ c ∈ hexDigits a1 a2 b1 b2 c1 c2 ad, isHexDigit c = true)
    (hb : atBoundary post = true) :
    colorHexRegex (32 :: 35 :: (hexDigits a1 a2 b1 b2 c1 c2 ad ++ post)) =
      some ([32], 35 :: hexDigits a1 a2 b1 b2 c1 c2 ad) := by
  cases post with
  | nil =>
    rw [List.append_nil]
    exact colorHexRegex_hex a1 a2 b1 b2 c1 c2 ad h
  | cons s rest =>
    have hs : isSpace s = true := by simpa [atBoundary] using hb
    have hsx : isHexDigit s = false := isHexDigit_of_space hs
    have h32 : isSpace 32 = true := by decide
    have h35 : isSpace 35 = false := by decide
    unfold colorHexRegex
    cases ad with
    | none =>
      simp only [hexDigits, List.mem_cons, List.mem_singleton, forall_eq_or_imp, forall_eq,
        List.mem_nil_iff, IsEmpty.forall_iff, implies_true, and_true] at h
      obtain ⟨h1, h2, h3, h4, h5, h6⟩ := h
      simp [hexDigits, List.dropWhile, List.takeWhile, h32, h35, h1, h2, h3, h4, h5, h6, atBoundary,
        hs, hsx]
    | some d =>
      obtain ⟨d1, d2⟩ := d
      simp only [hexDigits, List.mem_cons, List.mem_singleton, forall_eq_or_imp, forall_eq,
        List.mem_nil_iff, IsEmpty.forall_iff, implies_true, and_true] at h
      obtain ⟨h1, h2, h3, h4, h5, h6, h7, h8⟩ := h
      simp [hexDigits, List.dropWhile, List.takeWhile, h32, h35, h1, h2, h3, h4, h5, h6, h7, h8,
        atBoundary, hs]

theorem normalizeHex_six_tail (p2 : LineParser) (line : LineInfo) (path : Option Text)
    (pre post1 sp : Text) (n : Int)
    (a1 a2 b1 b2 c1 c2 : Nat) (hexResult : ParseResult Text)
    (h1 : isHexDigit a1 = true) (h2 : isHexDigit a2 = true) (h3 : isHexDigit b1 = true)
    (h4 : isHexDigit b2 = true) (h5 : isHexDigit c1 = true) (h6 : isHexDigit c2 = true)
    (hed : line.editor =
      { path := path, line := pre ++ [35, a1, a2, b1, b2, c1, c2] ++ (post1 ++ sp) })
    (hs : hexResult.startIndex = pre.length) (he : hexResult.endIndex = pre.length + 7)
    (hci : p2.currentIndex = pre.length + 7) (hol : p2.originalLength = n + 7)
    (hte : p2.textEndIndex = pre.length + post1.length + 7) :
    normalizeHex p2 line hexResult [35, a1, a2, b1, b2, c1, c2] =
      ({ p2 with text := decimalChannels (hexByte a1 a2) (hexByte b1 b2) (hexByte c1 c2) none ++ post1,
                 originalLength := n +
                   (decimalChannels (hexByte a1 a2) (hexByte b1 b2) (hexByte c1 c2) none).length,
                 currentIndex := pre.length,
                 textEndIndex := pre.length + post1.length +
                   (decimalChannels (hexByte a1 a2) (hexByte b1 b2) (hexByte c1 c2) none).length },
       { path := path,
         line := pre ++ decimalChannels (hexByte a1 a2) (hexByte b1 b2) (hexByte c1 c2) none ++
           (post1 ++ sp) }) := by
  have hsp : utf16 " " = [32] := by decide
  simp only [normalizeHex, List.drop, List.take, List.length, parseInt_hexPair h1 h2,
    parseInt_hexPair h3 h4, parseInt_hexPair h5 h6, toText_byte, hed, hs, he, hci, hol, hte, hsp]
  have hD : natToString (hexByte a1 a2) ++ [32] ++ natToString (hexByte b1 b2) ++ [32] ++
      natToString (hexByte c1 c2) =
      decimalChannels (hexByte a1 a2) (hexByte b1 b2) (hexByte c1 c2) none := by
    simp [decimalChannels, alphaPart]
  have h7 : ((0 + 1 + 1 + 1 + 1 + 1 + 1 + 1 : Nat) == 9) = false := by decide
  have hc7 : ((0 + 1 + 1 + 1 + 1 + 1 + 1 + 1 : Nat) : Int) = 7 := by norm_num
  simp only [h7, Bool.false_eq_true, if_false, hD, hc7, add_sub_cancel_right]
  rw [Range.onRow_of_le _ _ _ (by omega), Range.onRow_of_le _ _ _ (by omega),
    setText_replace path pre [35, a1, a2, b1, b2, c1, c2] (post1 ++ sp) _ _ _ _ rfl (by simp)]
  have hg := getText_middle path pre
    (decimalChannels (hexByte a1 a2) (hexByte b1 b2) (hexByte c1 c2) none ++ post1) sp line.number
    pre.length
    (pre.length + post1.length +
      (decimalChannels (hexByte a1 a2) (hexByte b1 b2) (hexByte c1 c2) none).length) rfl
    (by simp only [List.length_append, Nat.cast_add]; omega)
  simp only [List.append_assoc] at hg ⊢
  rw [hg]

theorem normalizeHex_eight_tail (p2 : LineParser) (line : LineInfo) (path : Option Text)
    (pre post1 sp : Text) (n : Int)
    (a1 a2 b1 b2 c1 c2 d1 d2 : Nat) (hexResult : ParseResult Text)
    (h1 : isHexDigit a1 = true) (h2 : isHexDigit a2 = true) (h3 : isHexDigit b1 = true)
    (h4 : isHexDigit b2 = true) (h5 : isHexDigit c1 = true) (h6 : isHexDigit c2 = true)
    (h7 : isHexDigit d1 = true) (h8 : isHexDigit d2 = true)
    (hed : line.editor =
      { path := path, line := pre ++ [35, a1, a2, b1, b2, c1, c2, d1, d2] ++ (post1 ++ sp) })
    (hs : hexResult.startIndex = pre.length) (he : hexResult.endIndex = pre.length + 9)
    (hci : p2.currentIndex = pre.length + 9) (hol : p2.originalLength = n + 9)
    (hte : p2.textEndIndex = pre.length + post1.length + 9) :
    normalizeHex p2 line hexResult [35, a1, a2, b1, b2, c1, c2, d1, d2] =
      ({ p2 with
           text := decimalChannels (hexByte a1 a2) (hexByte b1 b2) (hexByte c1 c2)
             (some (hexByte d1 d2)) ++ post1,
           originalLength := n +
             (decimalChannels (hexByte a1 a2) (hexByte b1 b2) (hexByte c1 c2)
               (some (hexByte d1 d2))).length,
           currentIndex := pre.length,
           textEndIndex := pre.length + post1.length +
             (decimalChannels (hexByte a1 a2) (hexByte b1 b2) (hexByte c1 c2)
               (some (hexByte d1 d2))).length },
       { path := path,
         line := pre ++ decimalChannels (hexByte a1 a2) (hexByte b1 b2) (hexByte c1 c2)
           (some (hexByte d1 d2)) ++ (post1 ++ sp) }) := by
  have hsp : utf16 " " = [32] := by decide
  simp only [normalizeHex, List.drop, List.take, List.length, parseInt_hexPair h1 h2,
    parseInt_hexPair h3 h4, parseInt_hexPair h5 h6, parseInt_hexPair h7 h8, toText_byte, hed, hs,
    he, hci, hol, hte, hsp]
  have hD : natToString (hexByte a1 a2) ++ [32] ++ natToString (hexByte b1 b2) ++ [32] ++
      natToString (hexByte c1 c2) ++ [32] ++ natToString (hexByte d1 d2) =
      decimalChannels (hexByte a1 a2) (hexByte b1 b2) (hexByte c1 c2) (some (hexByte d1 d2)) := by
    simp [decimalChannels, alphaPart]
  have h9 : ((0 + 1 + 1 + 1 + 1 + 1 + 1 + 1 + 1 + 1 : Nat) == 9) = true := by decide
  have hc9 : ((0 + 1 + 1 + 1 + 1 + 1 + 1 + 1 + 1 + 1 : Nat) : Int) = 9 := by norm_num
  simp only [h9, if_true, hD, hc9, add_sub_cancel_right]
  rw [Range.onRow_of_le _ _ _ (by omega), Range.onRow_of_le _ _ _ (by omega),
    setText_replace path pre [35, a1, a2, b1, b2, c1, c2, d1, d2] (post1 ++ sp) _ _ _ _ rfl
      (by simp)]
  have hg := getText_middle path pre
    (decimalChannels (hexByte a1 a2) (hexByte b1 b2) (hexByte c1 c2) (some (hexByte d1 d2)) ++
      post1) sp line.number pre.length
    (pre.length + post1.length +
      (decimalChannels (hexByte a1 a2) (hexByte b1 b2) (hexByte c1 c2)
        (some (hexByte d1 d2))).length) rfl
    (by simp only [List.length_append, Nat.cast_add]; omega)
  simp only [List.append_assoc] at hg ⊢
  rw [hg]

/-- The hex statement of the colour validator on a hex literal after the text `pre` and
one space, followed by more text of which `post1` lies within the trimmed line: the
literal is replaced in the buffer row by its channels in decimal, and the parser is
pointed at those channels and `post1`. -/
theorem hexStage_hex_tail (p1 : LineParser) (line : LineInfo) (path : Option Text)
    (pre post1 sp : Text) (n : Int)
    (a1 a2 b1 b2 c1 c2 : Nat) (ad : Option (Nat × Nat))
    (hex : ∀ c ∈ hexDigits a1 a2 b1 b2 c1 c2 ad, isHexDigit c = true)
    (hp : p1.text = 32 :: 35 :: (hexDigits a1 a2 b1 b2 c1 c2 ad ++ (post1 ++ sp)))
    (hb : atBoundary (post1 ++ sp) = true) (htx : textRegex (post1 ++ sp) = true)
    (hci : p1.currentIndex + 1 = pre.length)
    (hol : p1.originalLength = n + ((hexDigits a1 a2 b1 b2 c1 c2 ad).length + 1 : Nat))
    (hte : p1.textEndIndex =
      pre.length + post1.length + ((hexDigits a1 a2 b1 b2 c1 c2 ad).length + 1 : Nat))
    (hed : line.editor =
      { path := path, line := pre ++ (35 :: hexDigits a1 a2 b1 b2 c1 c2 ad) ++ (post1 ++ sp) }) :
    hexStage p1 line =
      ({ text := decimalChannels (hexByte a1 a2) (hexByte b1 b2) (hexByte c1 c2)
           (ad.map fun d => hexByte d.1 d.2) ++ post1,
         currentIndex := pre.length,
         originalLength := n +
           (decimalChannels (hexByte a1 a2) (hexByte b1 b2) (hexByte c1 c2)
             (ad.map fun d => hexByte d.1 d.2)).length,
         textStartIndex := p1.textStartIndex,
         textEndIndex := pre.length + post1.length +
           (decimalChannels (hexByte a1 a2) (hexByte b1 b2) (hexByte c1 c2)
             (ad.map fun d => hexByte d.1 d.2)).length,
         empty := p1.empty },
       { path := path,
         line := pre ++ decimalChannels (hexByte a1 a2) (hexByte b1 b2) (hexByte c1 c2)
           (ad.map fun d => hexByte d.1 d.2) ++ (post1 ++ sp) }) := by
  have hre : colorHexRegex p1.text = some ([32], 35 :: hexDigits a1 a2 b1 b2 c1 c2 ad) := by
    rw [hp]; exact colorHexRegex_hex_tail a1 a2 b1 b2 c1 c2 ad _ hex hb
  have hdrop : p1.text.drop ([32].length + (35 :: hexDigits a1 a2 b1 b2 c1 c2 ad).length) =
      post1 ++ sp := by
    rw [hp]
    have : (32 :: 35 :: (hexDigits a1 a2 b1 b2 c1 c2 ad ++ (post1 ++ sp))) =
        [32] ++ (35 :: hexDigits a1 a2 b1 b2 c1 c2 ad) ++ (post1 ++ sp) := by simp
    rw [this]
    exact drop_token [32] _ _
  unfold hexStage LineParser.nextHex
  rw [parseSingleValue_of_some p1 _ _ _ hre, hdrop]
  dsimp only
  have htr : truthyText (35 :: hexDigits a1 a2 b1 b2 c1 c2 ad) = true := rfl
  rw [htr]
  simp only [Bool.and_self, if_true, htx, Bool.not_true, Bool.false_eq_true, if_false]
  cases ad with
  | none =>
    simp only [hexDigits, List.mem_cons, List.mem_singleton, forall_eq_or_imp, forall_eq,
      List.mem_nil_iff, IsEmpty.forall_iff, implies_true, and_true] at hex
    obtain ⟨h1, h2, h3, h4, h5, h6⟩ := hex
    simp only [hexDigits] at hp hol hte hed ⊢
    rw [normalizeHex_six_tail _ line path pre post1 sp n a1 a2 b1 b2 c1 c2 _ h1 h2 h3 h4 h5 h6 hed
      (by simp; omega) (by simp; omega) (by simp; omega) (by simp [hol]) (by simp [hte])]
    simp
  | some d =>
    obtain ⟨d1, d2⟩ := d
    simp only [hexDigits, List.mem_cons, List.mem_singleton, forall_eq_or_imp, forall_eq,
      List.mem_nil_iff, IsEmpty.forall_iff, implies_true, and_true] at hex
    obtain ⟨h1, h2, h3, h4, h5, h6, h7, h8⟩ := hex
    simp only [hexDigits] at hp hol hte hed ⊢
    rw [normalizeHex_eight_tail _ line path pre post1 sp n a1 a2 b1 b2 c1 c2 d1 d2 _
      h1 h2 h3 h4 h5 h6 h7 h8 hed
      (by simp; omega) (by simp; omega) (by simp; omega) (by simp [hol]) (by simp [hte])]
    simp

theorem dropTrailingSpace_last (t : Text) :
    ∀ c, (dropTrailingSpace t).getLast? = some c → isSpace c = false := by
  intro c hc
  unfold dropTrailingSpace at hc
  rw [List.getLast?_reverse] at hc
  cases hd : t.reverse.dropWhile isSpace with
  | nil => rw [hd] at hc; cases hc
  | cons a r =>
    rw [hd] at hc
    simp only [List.head?_cons, Option.some.injEq] at hc
    subst hc
    have := List.head_dropWhile_not isSpace t.reverse (by rw [hd]; simp)
    simp only [hd, List.head_cons] at this
    simpa using this

theorem dropTrailingSpace_append_spaces (x tail : Text)
    (hx : ∀ c, x.getLast? = some c → isSpace c = false) (ht : ∀ c ∈ tail, isSpace c = true) :
    dropTrailingSpace (x ++ tail) = x := by
  unfold dropTrailingSpace
  rw [List.reverse_append,
    List.dropWhile_append_of_pos (fun c hc => ht c (List.mem_reverse.mp hc)),
    (dropWhile_of_head isSpace x.reverse (by simpa using hx)).1, List.reverse_reverse]

theorem dropTrailingSpace_idem (t : Text) :
    dropTrailingSpace (dropTrailingSpace t) = dropTrailingSpace t :=
  dropTrailingSpace_of_last _ (dropTrailingSpace_last t)

theorem commentText_trimmed (body : Text) :
    commentText (dropTrailingSpace body) = 35 :: dropTrailingSpace body := by
  unfold commentText
  split
  · rw [dropTrailingSpace_idem]
  · rfl

/-- A text that ends with a `#` comment, without its trailing whitespace: the comment
loses the whitespace after its last character. -/
theorem dropTrailingSpace_comment (a body : Text) :
    dropTrailingSpace (a ++ 35 :: body) = a ++ 35 :: dropTrailingSpace body ∧
    ∃ sp, a ++ 35 :: body = (a ++ 35 :: dropTrailingSpace body) ++ sp ∧
      ∀ c ∈ sp, isSpace c = true := by
  obtain ⟨tail, h1, h2⟩ := dropTrailingSpace_split body
  have e : a ++ 35 :: body = (a ++ 35 :: dropTrailingSpace body) ++ tail := by
    conv_lhs => rw [h1]
    simp
  refine ⟨?_, tail, e, h2⟩
  rw [e]
  apply dropTrailingSpace_append_spaces _ _ _ h2
  intro c hc
  have hne : (35 :: dropTrailingSpace body) ≠ [] := by simp
  rw [List.getLast?_append_of_ne_nil a hne] at hc
  cases hd : dropTrailingSpace body with
  | nil =>
    rw [hd] at hc
    simp only [List.getLast?_singleton, Option.some.injEq] at hc
    subst hc
    decide
  | cons x xs =>
    rw [hd, List.getLast?_cons_cons] at hc
    rw [← hd] at hc
    exact dropTrailingSpace_last body c hc

/-- The constructor on a text without line breaks that starts with a character that is
not whitespace and holds no line terminator up to its last such character: the payload
is the text without its trailing whitespace. -/
theorem LineParser.new_payload (t : Text) (hne : t ≠ [])
    (hhead : ∀ c, t.head? = some c → isSpace c = false) (heol : eolRegex t = false)
    (hdot : ∀ c ∈ dropTrailingSpace t, isDot c = true) :
    LineParser.new t =
      Except.ok { text := t, currentIndex := 0, originalLength := t.length, textStartIndex := 0,
                  textEndIndex := (dropTrailingSpace t).length, empty := false } := by
  have htext : textRegex t = true := by
    cases t with
    | nil => exact absurd rfl hne
    | cons c r =>
      have hc : isSpace c = false := hhead c rfl
      simp [textRegex, hc]
  have hdrop := dropWhile_of_head isSpace t hhead
  have hall : (dropTrailingSpace t).all isDot = true := by rw [List.all_eq_true]; exact hdot
  unfold LineParser.new surroundingWSRegex
  simp [heol, htext, hdrop.1, hdrop.2, hall, truthyText]

theorem numberIn_byte (n : Nat) (h : n < 256) : NumberIn 0 255 (natToString n) := by
  obtain ⟨h1, h2, h3⟩ := natToString_byte n h
  exact ⟨⟨h1, fun c hc => isNumberChar_of_isDigit (h2 c hc)⟩, n, h3, by omega, by omega⟩

theorem parseLine_rule_line_ends (env : Env) (args : Args) (w0 kw rest : Text)
    (hline : args.lineText = w0 ++ kw ++ rest) (hw0 : Blank w0) (hne : kw ≠ [])
    (hkw : ∀ c ∈ kw, isWordChar c = true) (hb : atBoundary rest = true)
    (heol : eolRegex rest = false) (hshow : kw ≠ utf16 "Show" ∧ kw ≠ utf16 "Hide") :
    ∃ p0 p1 : LineParser, LineParser.new args.lineText = Except.ok p0 ∧ p1.text = rest ∧
      p1.currentIndex = (w0.length : Int) + kw.length ∧
      p1.originalLength = p0.originalLength ∧ p1.textStartIndex = p0.textStartIndex ∧
      p1.textEndIndex = p0.textEndIndex ∧ p1.empty = (!textRegex rest) ∧
      parseLine env args =
        finishRule args
          { name := kw, range := Range.onRow args.row w0.length ((w0.length + kw.length : Nat) : Int) }
          { found := true, startIndex := w0.length,
            endIndex := ((w0.length + kw.length : Nat) : Int), value := some kw }
          p1
          (processRule env p1
            { editor := args.editor, number := args.row, file := args.editor.path, keyword := kw }
            (args.itemData.classes ++ args.itemData.whitelistClasses)
            (args.itemData.bases ++ args.itemData.whitelistBases) kw) := by
  obtain ⟨p0, hp0, hpl⟩ := parseLine_keyword_line env args w0 kw rest hline hw0 hne hkw hb heol hshow
  refine ⟨p0, { p0 with text := rest, currentIndex := ((w0.length + kw.length : Nat) : Int),
                        empty := !textRegex rest }, hp0, rfl, ?_, rfl, rfl, rfl, rfl, hpl⟩
  simp

/-- A colour rule line `K #RRGGBB[AA]` with a comment after the literal, parsed against
an editor whose buffer row holds the line: the literal is rewritten to decimal in the
row, and the result is valid, without diagnostics, and holds the channels and the
comment, from its `#` to its last character that is not whitespace, at its columns in
the rewritten row. -/
theorem parseLine_tolerant_hex (env : Env) (row : Int) (path : Option Text) (itemData : ItemData)
    (K : Text) (a1 a2 b1 b2 c1 c2 : Nat) (ad : Option (Nat × Nat)) (wc body : Text)
    (hK : K ∈ colorKeywords)
    (hex : ∀ c ∈ hexDigits a1 a2 b1 b2 c1 c2 ad, isHexDigit c = true)
    (hwc : ∀ c ∈ wc, isSpace c = true ∧ isDot c = true) (hwcne : wc ≠ [])
    (heol : eolRegex body = false) (hdot : ∀ c ∈ dropTrailingSpace body, isDot c = true) :
    ∃ r, parseLine env
        { lineText := K ++ 32 :: 35 :: (hexDigits a1 a2 b1 b2 c1 c2 ad ++ (wc ++ 35 :: body)),
          row := row,
          editor :=
            { path := path,
              line := K ++ 32 :: 35 :: (hexDigits a1 a2 b1 b2 c1 c2 ad ++ (wc ++ 35 :: body)) },
          itemData := itemData } =
        Except.ok (r,
          { path := path,
            line := K ++ 32 :: (decimalChannels (hexByte a1 a2) (hexByte b1 b2) (hexByte c1 c2)
              (ad.map fun d => hexByte d.1 d.2) ++ (wc ++ 35 :: body)) }) ∧
      r.type = LineType.Rule ∧ r.invalid = false ∧ r.messages = [] ∧
      r.trailingComment = some
        { text := 35 :: dropTrailingSpace body,
          range := columns row
            (K.length + 1 + (decimalChannels (hexByte a1 a2) (hexByte b1 b2) (hexByte c1 c2)
              (ad.map fun d => hexByte d.1 d.2)).length + wc.length)
            (K.length + 1 + (decimalChannels (hexByte a1 a2) (hexByte b1 b2) (hexByte c1 c2)
              (ad.map fun d => hexByte d.1 d.2)).length + wc.length +
              (35 :: dropTrailingSpace body).length) } ∧
      (r.values.map fun v => v.value) =
        ([hexByte a1 a2, hexByte b1 b2, hexByte c1 c2] ++
          (ad.map fun d => hexByte d.1 d.2).toList).map fun n => Value.number (JSNum.ofInt n) := by
  obtain ⟨hs1, hs2, hne, hkw⟩ := colorKeywords_facts K hK
  obtain ⟨hr, hg, hb, ha⟩ := hexDigits_bytes a1 a2 b1 b2 c1 c2 ad hex
  have hns : ∀ c ∈ hexDigits a1 a2 b1 b2 c1 c2 ad, isSpace c = false :=
    fun c hc => (hexDigit_facts (hex c hc)).2.2.1
  have hwcs : ∀ c ∈ wc, isSpace c = true := fun c hc => (hwc c hc).1
  have hbt : atBoundary (wc ++ 35 :: body) = true := atBoundary_of_spaces_append wc _ hwcs hwcne
  -- the line and its trimmed form
  have hL : K ++ 32 :: 35 :: (hexDigits a1 a2 b1 b2 c1 c2 ad ++ (wc ++ 35 :: body)) =
      (K ++ 32 :: 35 :: (hexDigits a1 a2 b1 b2 c1 c2 ad ++ wc)) ++ 35 :: body := by simp
  obtain ⟨htrim, -⟩ := dropTrailingSpace_comment
    (K ++ 32 :: 35 :: (hexDigits a1 a2 b1 b2 c1 c2 ad ++ wc)) body
  obtain ⟨sp, hsplit, hsp⟩ := dropTrailingSpace_split body
  have heolL : eolRegex (32 :: 35 :: (hexDigits a1 a2 b1 b2 c1 c2 ad ++ (wc ++ 35 :: body))) =
      false := by
    have e : (32 :: 35 :: (hexDigits a1 a2 b1 b2 c1 c2 ad ++ (wc ++ 35 :: body))) =
        [32, 35] ++ (hexDigits a1 a2 b1 b2 c1 c2 ad ++ (wc ++ ([35] ++ body))) := by simp
    have hwe : eolRegex wc = false := by
      rw [eolRegex_false_iff]
      intro c hc
      have := (hwc c hc).2
      constructor <;> (rintro rfl; revert this; decide)
    rw [e, eolRegex_append, eolRegex_append, eolRegex_append, eolRegex_append,
      eolRegex_of_not_space _ hns, hwe, heol]
    rfl
  obtain ⟨p0, p1, hp0, t1, t2, t3, t4, t5, t6, hpl⟩ := parseLine_rule_line_ends env
    { lineText := K ++ 32 :: 35 :: (hexDigits a1 a2 b1 b2 c1 c2 ad ++ (wc ++ 35 :: body)),
      row := row,
      editor :=
        { path := path,
          line := K ++ 32 :: 35 :: (hexDigits a1 a2 b1 b2 c1 c2 ad ++ (wc ++ 35 :: body)) },
      itemData := itemData }
    [] K (32 :: 35 :: (hexDigits a1 a2 b1 b2 c1 c2 ad ++ (wc ++ 35 :: body))) rfl
    (by intro c hc; simp at hc) hne hkw (atBoundary_space _) heolL ⟨hs1, hs2⟩
  have hnew := LineParser.new_payload
    (K ++ 32 :: 35 :: (hexDigits a1 a2 b1 b2 c1 c2 ad ++ (wc ++ 35 :: body))) (by simp)
    (by
      intro c hc
      cases K with
      | nil => exact absurd rfl hne
      | cons k ks =>
        simp only [List.cons_append, List.head?_cons, Option.some.injEq] at hc
        subst hc
        exact isWordChar_not_space (hkw k (List.mem_cons_self _ _)))
    (by
      have := eolRegex_append K (32 :: 35 :: (hexDigits a1 a2 b1 b2 c1 c2 ad ++ (wc ++ 35 :: body)))
      rw [this, heolL, eolRegex_of_not_space K (fun c hc => isWordChar_not_space (hkw c hc))]
      rfl)
    (by
      rw [hL, htrim]
      intro c hc
      simp only [List.mem_append, List.mem_cons] at hc
      rcases hc with (hc | rfl | rfl | hc | hc) | rfl | hc
      · exact isDot_of_not_space (isWordChar_not_space (hkw c hc))
      · decide
      · decide
      · exact isDot_of_not_space (hns c hc)
      · exact (hwc c hc).2
      · decide
      · exact hdot c hc)
  dsimp only at hp0 hpl
  rw [hnew] at hp0
  injection hp0 with hp0
  subst hp0
  dsimp only at t3 t4 t5
  rw [hL, htrim] at t5
  have hop := expectEqualityOp_absent p1
    { editor :=
        { path := path,
          line := K ++ 32 :: 35 :: (hexDigits a1 a2 b1 b2 c1 c2 ad ++ (wc ++ 35 :: body)) },
      number := row, file := path, keyword := K }
    [32] (35 :: (hexDigits a1 a2 b1 b2 c1 c2 ad ++ (wc ++ 35 :: body))) (by rw [t1]; rfl)
    (by decide)
    (by
      intro c hc
      simp only [List.head?_cons, Option.some.injEq] at hc
      subst hc
      decide)
  have hst := hexStage_hex_tail p1
    { editor :=
        { path := path,
          line := K ++ 32 :: 35 :: (hexDigits a1 a2 b1 b2 c1 c2 ad ++ (wc ++ 35 :: body)) },
      number := row, file := path, keyword := K }
    path (K ++ [32]) (wc ++ 35 :: dropTrailingSpace body) sp
    ((K.length : Int) + 1 + (wc ++ 35 :: body).length)
    a1 a2 b1 b2 c1 c2 ad hex
    (by
      rw [t1]
      conv_lhs => rw [hsplit]
      simp)
    (by
      rw [List.append_assoc]
      exact atBoundary_of_spaces_append wc _ hwcs hwcne)
    (by
      have := textRegex_append_token wc [35] (dropTrailingSpace body ++ sp) (by simp) (by decide)
      simpa using this)
    (by rw [t2]; simp)
    (by
      rw [t3]
      simp only [List.length_append, List.length_cons, List.length_nil, Nat.cast_add, Nat.cast_one,
        Nat.cast_zero]
      omega)
    (by
      rw [t5]
      simp only [List.length_append, List.length_cons, List.length_nil, Nat.cast_add, Nat.cast_one,
        Nat.cast_zero]
      omega)
    (by
      dsimp only
      conv_lhs => rw [hsplit]
      simp)
  cases ad with
  | none =>
    obtain ⟨q1, q2, q3, q4, q5, q6⟩ := processRGBARule_comment_of_stage p1 p1 _ _ _
      [] (natToString (hexByte a1 a2))
      [([32], natToString (hexByte b1 b2)), ([32], natToString (hexByte c1 c2))]
      wc (dropTrailingSpace body) hop hst
      (by simp [decimalChannels, alphaPart, numbersText])
      (by simp)
      (by
        intro x hx
        simp only [List.mem_cons, List.mem_singleton, List.mem_nil_iff, or_false] at hx
        rcases hx with rfl | rfl <;> exact ⟨(by decide : Blank [32]), (by decide : ([32] : Text) ≠ [])⟩)
      (Or.inl rfl) (numberIn_byte _ hr)
      (by
        intro x hx
        simp only [List.mem_cons, List.mem_singleton, List.mem_nil_iff, or_false] at hx
        rcases hx with rfl | rfl
        · exact numberIn_byte _ hg
        · exact numberIn_byte _ hb)
      hwcs hwcne (fun c hc => hdot c (mem_dropTrailingSpace hc))
    rw [hpl, processRule_colorKeywords _ _ _ _ _ K hK]
    generalize processRGBARule p1 _ = pr at q1 q2 q3 q4 q5 q6 ⊢
    obtain ⟨res, pp, ed⟩ := pr
    dsimp only at q1 q2 q3 q4 q5 q6
    simp only [finishRule]
    obtain ⟨r1, -, r3, r4, -, r6⟩ := ruleResult_of_clean
      { lineText := K ++ 32 :: 35 :: (hexDigits a1 a2 b1 b2 c1 c2 none ++ (wc ++ 35 :: body)),
        row := row,
        editor :=
          { path := path,
            line := K ++ 32 :: 35 :: (hexDigits a1 a2 b1 b2 c1 c2 none ++ (wc ++ 35 :: body)) },
        itemData := itemData }
      { name := K, range := Range.onRow row ([] : Text).length
          ((([] : Text).length + K.length : Nat) : Int) }
      Category.action res pp ed q1 q2 q4
    refine ⟨_, ?_, r1, r3, r4, ?_, ?_⟩
    · rw [q5]
      congr 2
      conv_rhs => rw [hsplit]
      simp
    · rw [ruleResult_trailingComment, q3, commentText_trimmed]
      simp [numbersText, decimalChannels, alphaPart]
      congr 1 <;> ring
    · rw [r6, q6]
      simp [(natToString_byte _ hr).2.2, (natToString_byte _ hg).2.2, (natToString_byte _ hb).2.2]
  | some d =>
    obtain ⟨d1, d2⟩ := d
    have han := ha (hexByte d1 d2) rfl
    obtain ⟨q1, q2, q3, q4, q5, q6⟩ := processRGBARule_comment_of_stage p1 p1 _ _ _
      [] (natToString (hexByte a1 a2))
      [([32], natToString (hexByte b1 b2)), ([32], natToString (hexByte c1 c2)),
        ([32], natToString (hexByte d1 d2))]
      wc (dropTrailingSpace body) hop hst
      (by simp [decimalChannels, alphaPart, numbersText])
      (by simp)
      (by
        intro x hx
        simp only [List.mem_cons, List.mem_singleton, List.mem_nil_iff, or_false] at hx
        rcases hx with rfl | rfl | rfl <;> exact ⟨(by decide : Blank [32]), (by decide : ([32] : Text) ≠ [])⟩)
      (Or.inr rfl) (numberIn_byte _ hr)
      (by
        intro x hx
        simp only [List.mem_cons, List.mem_singleton, List.mem_nil_iff, or_false] at hx
        rcases hx with rfl | rfl | rfl
        · exact numberIn_byte _ hg
        · exact numberIn_byte _ hb
        · exact numberIn_byte _ han)
      hwcs hwcne (fun c hc => hdot c (mem_dropTrailingSpace hc))
    rw [hpl, processRule_colorKeywords _ _ _ _ _ K hK]
    generalize processRGBARule p1 _ = pr at q1 q2 q3 q4 q5 q6 ⊢
    obtain ⟨res, pp, ed⟩ := pr
    dsimp only at q1 q2 q3 q4 q5 q6
    simp only [finishRule]
    obtain ⟨r1, -, r3, r4, -, r6⟩ := ruleResult_of_clean
      { lineText := K ++ 32 :: 35 :: (hexDigits a1 a2 b1 b2 c1 c2 (some (d1, d2)) ++
          (wc ++ 35 :: body)),
        row := row,
        editor :=
          { path := path,
            line := K ++ 32 :: 35 :: (hexDigits a1 a2 b1 b2 c1 c2 (some (d1, d2)) ++
              (wc ++ 35 :: body)) },
        itemData := itemData }
      { name := K, range := Range.onRow row ([] : Text).length
          ((([] : Text).length + K.length : Nat) : Int) }
      Category.action res pp ed q1 q2 q4
    refine ⟨_, ?_, r1, r3, r4, ?_, ?_⟩
    · rw [q5]
      congr 2
      conv_rhs => rw [hsplit]
      simp
    · rw [ruleResult_trailingComment, q3, commentText_trimmed]
      simp [numbersText, decimalChannels, alphaPart]
      congr 1 <;> ring
    · rw [r6, q6]
      simp [(natToString_byte _ hr).2.2, (natToString_byte _ hg).2.2, (natToString_byte _ hb).2.2,
        (natToString_byte _ han).2.2]

theorem tolerantArguments_sample :
    TolerantArguments (utf16 "SetTextColor") (utf16 "255") [([32], utf16 "0"), ([32], utf16 "0")] := by
  refine ⟨?_, Or.inl ⟨by decide, Or.inl rfl, ⟨by decide, 255, by decide, by decide, by decide⟩, ?_⟩⟩
  · intro x hx
    simp only [List.mem_cons, List.mem_singleton, List.mem_nil_iff, or_false] at hx
    rcases hx with rfl | rfl <;> exact ⟨(by decide : Blank [32]), (by decide : ([32] : Text) ≠ [])⟩
  · intro x hx
    simp only [List.mem_cons, List.mem_singleton, List.mem_nil_iff, or_false] at hx
    rcases hx with rfl | rfl <;> exact ⟨by decide, 0, by decide, by decide, by decide⟩

/-- C12 as amended, at the line `SetTextColor 255 0 0 # note`: the hypotheses hold, and
the result is a valid Rule without diagnostics whose trailing comment is `# note` at
columns 21-27 and whose values are 255, 0 and 0. -/
theorem parseLine_tolerant_comment_witness :
    (TolerantArguments (utf16 "SetTextColor") (utf16 "255") [([32], utf16 "0"), ([32], utf16 "0")] ∧
      Blank [] ∧ Blank [32] ∧ eolRegex (utf16 " note") = false ∧
      (∀ c ∈ dropTrailingSpace (utf16 " note"), isDot c = true) ∧
      [] ++ utf16 "SetTextColor" ++ ([32] ++ operatorPart none [] ++ utf16 "255" ++
        (numbersText [([32], utf16 "0"), ([32], utf16 "0")] ++ ([32] ++ 35 :: utf16 " note"))) =
        utf16 "SetTextColor 255 0 0 # note") ∧
    ∃ r, parseLine asciiEnv
        { lineText := utf16 "SetTextColor 255 0 0 # note", row := 0,
          editor := { path := none, line := utf16 "SetTextColor 255 0 0 # note" },
          itemData := sampleItems } =
          Except.ok (r, { path := none, line := utf16 "SetTextColor 255 0 0 # note" }) ∧
      r.type = LineType.Rule ∧ r.invalid = false ∧ r.messages = [] ∧
      r.trailingComment = some { text := utf16 "# note", range := columns 0 21 27 } ∧
      (utf16 "SetTextColor" ∈ colorKeywords → (r.values.map fun v => v.value) =
        [Value.number (JSNum.ofInt 255), Value.number (JSNum.ofInt 0),
         Value.number (JSNum.ofInt 0)]) :=
  ⟨⟨tolerantArguments_sample, by decide, by decide, by decide, by decide, by decide⟩,
   parseLine_tolerant_comment asciiEnv 0 { path := none, line := utf16 "SetTextColor 255 0 0 # note" }
     sampleItems (utf16 "SetTextColor") [] [32] none [] (utf16 "255")
     [([32], utf16 "0"), ([32], utf16 "0")] [32] (utf16 " note")
     tolerantArguments_sample (by decide) (by decide) (by decide)
     (fun o ho => by cases ho) (by decide) (by decide) (by decide) (by decide)⟩

/-- C12, as stated, fails: on `SetTextColor 255 0 0 # note` the result is valid, has no
diagnostics and holds the values 255, 0 and 0, but the text of its trailing comment
is `# note`, with the marker, not `note`. -/
theorem parseLine_comment_keeps_marker :
    (parseLine asciiEnv (argsFor (utf16 "SetTextColor 255 0 0 # note"))).toOption.map
      (fun x => (x.1.invalid, x.1.messages, x.1.values.map (fun v => v.value),
        x.1.trailingComment.map (fun t => t.text))) =
    some (false, [],
      [Value.number (JSNum.ofInt 255), Value.number (JSNum.ofInt 0), Value.number (JSNum.ofInt 0)],
      some (utf16 "# note")) ∧
    utf16 "# note" ≠ utf16 "note" := by
  refine ⟨rfl, by decide⟩

/-- Comment-tolerant lines of the other kinds, evaluated: `PlayAlertSound = 9 300 #x`,
`PlayAlertSound 1 # note  ` and the hex colour `SetTextColor #FF0000 # note  ` are
valid, without diagnostics, and hold the comment with its marker at its columns. -/
theorem parseLine_tolerant_scenarios :
    [utf16 "PlayAlertSound = 9 300 #x", utf16 "PlayAlertSound 1 # note  ",
     utf16 "SetTextColor #FF0000 # note  "].map
      (fun line => (parseLine asciiEnv (argsFor line)).toOption.map
        (fun x => (x.1.invalid, x.1.messages, x.1.trailingComment))) =
    [some (false, [], some { text := utf16 "#x", range := columns 0 23 25 }),
     some (false, [], some { text := utf16 "# note", range := columns 0 17 23 }),
     some (false, [], some { text := utf16 "# note", range := columns 0 21 27 })] := by
  rfl

/-- Every extractor is `parseSingleValue` on its regex, as far as the flag, the
columns and the parser go. -/
theorem extract_eq (p : LineParser) (e : Extractor) :
    (p.extract e).1 = ((p.parseSingleValue e.regex).1).span ∧
    (p.extract e).2 = (p.parseSingleValue e.regex).2 := by
  cases e
  · exact ⟨rfl, rfl⟩
  · exact ⟨rfl, rfl⟩
  · exact ⟨rfl, rfl⟩
  · exact ⟨rfl, rfl⟩
  · have h := nextString_found p
    refine ⟨?_, h.2⟩
    unfold LineParser.extract ParseResult.span
    simp only [Extractor.regex, h.1]
    unfold LineParser.nextString
    simp only []
    split
    · split <;> simp
    · simp
  · exact ⟨rfl, rfl⟩
  · exact ⟨rfl, rfl⟩

theorem atBoundary_of_spaces (t : Text) (h : ∀ c ∈ t, isSpace c = true) : atBoundary t = true := by
  cases t with
  | nil => rfl
  | cons a r => exact h a (List.mem_cons_self _ _)

theorem classToken_shape (p : Nat → Bool) (t ws v : Text) (h : classToken p t = some (ws, v)) :
    ∃ rest, t = ws ++ v ++ rest ∧ (∀ c ∈ ws, isSpace c = true) ∧ v ≠ [] ∧
      (∀ c ∈ v, p c = true) ∧ atBoundary rest = true := by
  unfold classToken at h
  simp only [] at h
  split at h
  · rename_i hc
    simp only [Bool.and_eq_true, Bool.not_eq_true', List.isEmpty_eq_false] at hc
    simp only [Option.some.injEq, Prod.mk.injEq] at h
    obtain ⟨rfl, rfl⟩ := h
    refine ⟨(t.dropWhile isSpace).dropWhile p, ?_, fun c hc => List.mem_takeWhile_imp hc, ?_,
      fun c hc => List.mem_takeWhile_imp hc, hc.2⟩
    · rw [List.append_assoc, List.takeWhile_append_dropWhile, List.takeWhile_append_dropWhile]
    · intro h0
      rw [h0] at hc
      simp at hc
  · simp at h

theorem stringRegex_shape (t ws v : Text) (h : stringRegex t = some (ws, v)) :
    ∃ rest, t = ws ++ v ++ rest ∧ (∀ c ∈ ws, isSpace c = true) ∧ atBoundary rest = true ∧
      ((∃ inner, v = 34 :: inner ++ [34] ∧ ∀ c ∈ inner, c ≠ 34) ∨
       (v ≠ [] ∧ ∀ c ∈ v, isBareStringChar c = true)) := by
  unfold stringRegex at h
  simp only [] at h
  split at h
  · rename_i r hr
    split at h
    · rename_i after ha
      split at h
      · rename_i hb
        simp only [Option.some.injEq, Prod.mk.injEq] at h
        obtain ⟨rfl, rfl⟩ := h
        refine ⟨after, ?_, fun c hc => List.mem_takeWhile_imp hc, hb,
          Or.inl ⟨r.takeWhile (fun c => c != 34), rfl, ?_⟩⟩
        · have h1 : t = t.takeWhile isSpace ++ t.dropWhile isSpace :=
            (List.takeWhile_append_dropWhile _ _).symm
          have h2 : r = r.takeWhile (fun c => c != 34) ++ r.dropWhile (fun c => c != 34) :=
            (List.takeWhile_append_dropWhile _ _).symm
          rw [ha] at h2
          conv_lhs => rw [h1, hr, h2]
          simp
        · intro c hc
          have := List.mem_takeWhile_imp hc
          simpa using this
      · simp at h
    · simp at h
  · obtain ⟨rest, h1, h2, h3, h4, h5⟩ := classToken_shape isBareStringChar t ws v h
    exact ⟨rest, h1, h2, h5, Or.inr ⟨h3, h4⟩⟩

theorem commentRegex_shape (t ws v : Text) (h : commentRegex t = some (ws, v)) :
    ∃ body rest, t = ws ++ v ++ rest ∧ (∀ c ∈ ws, isSpace c = true) ∧ v = commentText body ∧
      t = ws ++ 35 :: body ∧ (∀ c ∈ rest, isSpace c = true) := by
  unfold commentRegex at h
  split at h
  · rename_i r hr
    have ht : t = t.takeWhile isSpace ++ 35 :: r := by
      rw [← hr, List.takeWhile_append_dropWhile]
    obtain ⟨tail, hs1, hs2⟩ := commentText_split r
    by_cases htr : textRegex r = true
    · simp only [htr, if_true] at h
      split at h
      · simp only [Option.some.injEq, Prod.mk.injEq] at h
        obtain ⟨rfl, rfl⟩ := h
        refine ⟨r, tail, ?_, fun c hc => List.mem_takeWhile_imp hc, ?_, ht, hs2⟩
        · have e : commentText r = 35 :: dropTrailingSpace r := by simp [commentText, htr]
          rw [← e, List.append_assoc, ← hs1]
          exact ht
        · simp [commentText, htr]
      · simp at h
    · simp only [htr, Bool.false_eq_true, if_false, Option.some.injEq, Prod.mk.injEq] at h
      obtain ⟨rfl, rfl⟩ := h
      refine ⟨r, [], ?_, fun c hc => List.mem_takeWhile_imp hc, ?_, ht, by simp⟩
      · rw [List.append_nil]; exact ht
      · simp [commentText, htr]
  · simp at h

theorem operatorRegex_shape (t ws v : Text) (h : operatorRegex t = some (ws, v)) :
    ∃ rest, t = ws ++ v ++ rest ∧ (∀ c ∈ ws, isSpace c = true) ∧ v ∈ operatorAlternatives ∧
      atBoundary rest = true := by
  unfold operatorRegex at h
  simp only [] at h
  split at h
  · rename_i a ha
    simp only [Option.some.injEq, Prod.mk.injEq] at h
    obtain ⟨rfl, rfl⟩ := h
    have hm := List.mem_of_find?_eq_some ha
    have hp := List.find?_some ha
    simp only [Bool.and_eq_true, List.isPrefixOf_iff_prefix] at hp
    obtain ⟨⟨s, hs⟩, hb⟩ := hp
    refine ⟨(t.dropWhile isSpace).drop a.length, ?_, fun c hc => List.mem_takeWhile_imp hc, hm, hb⟩
    have h1 : t = t.takeWhile isSpace ++ t.dropWhile isSpace :=
      (List.takeWhile_append_dropWhile _ _).symm
    conv_lhs => rw [h1]
    rw [List.append_assoc]
    congr 1
    rw [← hs, List.drop_left]
  · simp at h

theorem booleanRegex_shape (t ws v : Text) (h : booleanRegex t = some (ws, v)) :
    ∃ rest, t = ws ++ v ++ rest ∧ (∀ c ∈ ws, isSpace c = true) ∧ IsBooleanToken v ∧
      atBoundary rest = true := by
  unfold booleanRegex at h
  simp only [] at h
  split at h
  · rename_i a ha
    simp only [Option.some.injEq, Prod.mk.injEq] at h
    obtain ⟨rfl, rfl⟩ := h
    have hm := List.mem_of_find?_eq_some ha
    have hp := List.find?_some ha
    simp only [Bool.and_eq_true, beq_iff_eq] at hp
    obtain ⟨he, hb⟩ := hp
    refine ⟨(t.dropWhile isSpace).drop a.length, ?_, fun c hc => List.mem_takeWhile_imp hc, ?_, hb⟩
    · rw [List.append_assoc, List.take_append_drop, List.takeWhile_append_dropWhile]
    · unfold IsBooleanToken
      rw [he]
      exact List.mem_map_of_mem _ hm
  · simp at h

theorem colorHexRegex_shape (t ws v : Text) (h : colorHexRegex t = some (ws, v)) :
    ∃ digits rest, t = ws ++ v ++ rest ∧ (∀ c ∈ ws, isSpace c = true) ∧ v = 35 :: digits ∧
      atBoundary rest = true := by
  unfold colorHexRegex at h
  split at h
  · rename_i r hr
    have ht : t = t.takeWhile isSpace ++ 35 :: r := by
      rw [← hr, List.takeWhile_append_dropWhile]
    split at h
    · rename_i hc
      simp only [Bool.and_eq_true] at hc
      simp only [Option.some.injEq, Prod.mk.injEq] at h
      obtain ⟨rfl, rfl⟩ := h
      refine ⟨r.take 8, r.drop 8, ?_, fun c hc => List.mem_takeWhile_imp hc, rfl, hc.2⟩
      conv_lhs => rw [ht]
      simp
    · split at h
      · rename_i hc
        simp only [Bool.and_eq_true] at hc
        simp only [Option.some.injEq, Prod.mk.injEq] at h
        obtain ⟨rfl, rfl⟩ := h
        refine ⟨r.take 6, r.drop 6, ?_, fun c hc => List.mem_takeWhile_imp hc, rfl, hc.2⟩
        conv_lhs => rw [ht]
        simp
      · simp at h
  · simp at h

/-- What a match of the regex of any extractor looks like: the text is the leading
whitespace, the token, which is not empty and starts with a character that is not
whitespace, and a rest that is empty or starts with whitespace. -/
theorem regex_shape (e : Extractor) (t ws v : Text) (h : e.regex t = some (ws, v)) :
    ∃ rest, t = ws ++ v ++ rest ∧ (∀ c ∈ ws, isSpace c = true) ∧ v ≠ [] ∧
      (∀ c, v.head? = some c → isSpace c = false) ∧ atBoundary rest = true := by
  have hhead : ∀ (v : Text), v ≠ [] → (∀ c ∈ v, isSpace c = false) →
      ∀ c, v.head? = some c → isSpace c = false := by
    intro v _ hv c hc
    exact hv c (List.mem_of_mem_head? hc)
  cases e with
  | number =>
    obtain ⟨rest, h1, h2, h3, h4, h5⟩ := classToken_shape isNumberChar t ws v h
    exact ⟨rest, h1, h2, h3, hhead v h3 (fun c hc => isNumberChar_not_space (h4 c hc)), h5⟩
  | word =>
    obtain ⟨rest, h1, h2, h3, h4, h5⟩ := classToken_shape isWordChar t ws v h
    exact ⟨rest, h1, h2, h3, hhead v h3 (fun c hc => isWordChar_not_space (h4 c hc)), h5⟩
  | boolean =>
    obtain ⟨rest, h1, h2, h3, h4⟩ := booleanRegex_shape t ws v h
    obtain ⟨b1, b2⟩ := booleanToken_chars v h3
    exact ⟨rest, h1, h2, b1, hhead v b1 (fun c hc => (b2 c hc).1), h4⟩
  | operator =>
    obtain ⟨rest, h1, h2, h3, h4⟩ := operatorRegex_shape t ws v h
    exact ⟨rest, h1, h2, operator_ne_nil v h3, hhead v (operator_ne_nil v h3)
      (operator_not_space v h3), h4⟩
  | string =>
    obtain ⟨rest, h1, h2, h3, h4⟩ := stringRegex_shape t ws v h
    refine ⟨rest, h1, h2, ?_, ?_, h3⟩
    · rcases h4 with ⟨inner, rfl, -⟩ | ⟨h4, -⟩
      · simp
      · exact h4
    · rcases h4 with ⟨inner, rfl, -⟩ | ⟨h4, h5⟩
      · intro c hc
        simp only [List.cons_append, List.head?_cons, Option.some.injEq] at hc
        subst hc
        decide
      · exact hhead v h4 (fun c hc => (isBareStringChar_facts (h5 c hc)).1)
  | hex =>
    obtain ⟨digits, rest, h1, h2, rfl, h4⟩ := colorHexRegex_shape t ws v h
    refine ⟨rest, h1, h2, by simp, ?_, h4⟩
    intro c hc
    simp only [List.head?_cons, Option.some.injEq] at hc
    subst hc
    decide
  | comment =>
    obtain ⟨body, rest, h1, h2, rfl, -, h5⟩ := commentRegex_shape t ws v h
    refine ⟨rest, h1, h2, ?_, ?_, atBoundary_of_spaces rest h5⟩
    · unfold commentText; split <;> simp
    · intro c hc
      have : (commentText body).head? = some 35 := by unfold commentText; split <;> rfl
      rw [this] at hc
      simp only [Option.some.injEq] at hc
      subst hc
      decide

/-- The two outcomes of an extractor call: nothing found and the parser as it was, or
a token found and the parser moved past it. -/
theorem extract_cases (p : LineParser) (e : Extractor) :
    (e.regex p.text = none ∧
      (p.extract e).1 = { found := false, startIndex := 0, endIndex := 0 } ∧
      (p.extract e).2 = p) ∨
    (∃ ws v rest, e.regex p.text = some (ws, v) ∧ p.text = ws ++ v ++ rest ∧
      (∀ c ∈ ws, isSpace c = true) ∧ v ≠ [] ∧ (∀ c, v.head? = some c → isSpace c = false) ∧
      atBoundary rest = true ∧
      (p.extract e).1 = { found := true, startIndex := p.currentIndex + ws.length,
                          endIndex := p.currentIndex + ws.length + v.length } ∧
      (p.extract e).2 = { p with text := rest,
                                 currentIndex := p.currentIndex + ws.length + v.length,
                                 empty := if !textRegex rest then true else p.empty }) := by
  obtain ⟨h1, h2⟩ := extract_eq p e
  cases hre : e.regex p.text with
  | none =>
    left
    rw [h1, h2, parseSingleValue_of_none p _ hre]
    exact ⟨rfl, rfl, rfl⟩
  | some wv =>
    obtain ⟨ws, v⟩ := wv
    right
    obtain ⟨rest, s1, s2, s3, s4, s5⟩ := regex_shape e p.text ws v hre
    have hdrop : p.text.drop (ws.length + v.length) = rest := by
      rw [s1]; exact drop_token ws v rest
    refine ⟨ws, v, rest, rfl, s1, s2, s3, s4, s5, ?_, ?_⟩
    · rw [h1, parseSingleValue_of_some p _ ws v hre]
      simp only [ParseResult.span, Nat.cast_add, add_assoc]
    · rw [h2, parseSingleValue_of_some p _ ws v hre, hdrop]
      simp only [Nat.cast_add, add_assoc]

theorem atBoundary_token_space (ws v rest : Text) (hv : v ≠ [])
    (hh : ∀ c, v.head? = some c → isSpace c = false)
    (hb : atBoundary (ws ++ v ++ rest) = true) : ws ≠ [] := by
  rintro rfl
  cases v with
  | nil => exact hv rfl
  | cons a b =>
    have := hh a rfl
    simp only [List.nil_append, List.cons_append, atBoundary] at hb
    rw [hb] at this
    cases this

theorem textRegex_append (a b : Text) : textRegex (a ++ b) = (textRegex a || textRegex b) := by
  unfold textRegex; exact List.any_append

theorem textRegex_token (v : Text) (hv : v ≠ []) (hh : ∀ c, v.head? = some c → isSpace c = false) :
    textRegex v = true := by
  cases v with
  | nil => exact absurd rfl hv
  | cons a b => simp [textRegex, hh a rfl]

/-- A sequence of extractor calls from a parser that is in step with its line (its
text is the line from its offset on): the parser stays in step, the offset does not
decrease, every token found lies after the offset the sequence started at, is not
empty, ends where the line has whitespace or ends, and any two tokens found are
apart. -/
theorem run_spec (line : Text) :
    ∀ (es : List Extractor) (p : LineParser) (pre : Text), line = pre ++ p.text →
      p.currentIndex = pre.length → p.originalLength = line.length →
      p.empty = (!textRegex p.text) →
      (∃ pre2, line = pre2 ++ (p.run es).2.text ∧ (p.run es).2.currentIndex = pre2.length) ∧
      (p.run es).2.originalLength = line.length ∧
      (p.run es).2.empty = (!textRegex (p.run es).2.text) ∧
      p.currentIndex ≤ (p.run es).2.currentIndex ∧
      (∀ s ∈ (p.run es).1, s.found = true →
        p.currentIndex ≤ s.startIndex ∧ (atBoundary p.text = true → p.currentIndex < s.startIndex) ∧
        s.startIndex < s.endIndex ∧ s.endIndex ≤ (p.run es).2.currentIndex ∧
        atBoundary (line.drop s.endIndex.toNat) = true) ∧
      ((p.run es).1.filter fun s => s.found).Pairwise (fun a b => a.endIndex < b.startIndex) := by
  intro es
  induction es with
  | nil =>
    intro p pre hl hc ho he
    exact ⟨⟨pre, hl, hc⟩, ho, he, le_refl _, by simp [LineParser.run], by simp [LineParser.run]⟩
  | cons e es ih =>
    intro p pre hl hc ho he
    rcases extract_cases p e with ⟨-, h1, h2⟩ | ⟨ws, v, rest, -, ht, hws, hv, hh, hb, h1, h2⟩
    · obtain ⟨i1, i2, i3, i4, i5, i6⟩ := ih p pre hl hc ho he
      simp only [LineParser.run, h1, h2]
      refine ⟨i1, i2, i3, i4, ?_, ?_⟩
      · intro s hs hf
        simp only [List.mem_cons] at hs
        rcases hs with rfl | hs
        · cases hf
        · exact i5 s hs hf
      · simpa [List.filter] using i6
    · have hl2 : line = (pre ++ ws ++ v) ++ rest := by
        rw [hl, ht]; simp
      have hc2 : p.currentIndex + ws.length + v.length = ((pre ++ ws ++ v).length : Int) := by
        rw [hc]; simp only [List.length_append, Nat.cast_add]
      have he2 : (if (!textRegex rest) = true then true else p.empty) = (!textRegex rest) := by
        by_cases hr : textRegex rest = true
        · rw [he, ht, textRegex_append, textRegex_append, textRegex_token v hv hh]
          simp [hr]
        · simp [hr]
      obtain ⟨i1, i2, i3, i4, i5, i6⟩ := ih
        { p with text := rest, currentIndex := p.currentIndex + ws.length + v.length,
                 empty := if !textRegex rest then true else p.empty }
        (pre ++ ws ++ v) hl2 hc2 ho he2
      have hdropend : line.drop (p.currentIndex + ws.length + v.length).toNat = rest := by
        rw [hc2, Int.toNat_ofNat, hl2]
        exact List.drop_left' rfl
      simp only [LineParser.run, h1, h2]
      dsimp only at i4 i5
      refine ⟨i1, i2, i3, by omega, ?_, ?_⟩
      · intro s hs hf
        simp only [List.mem_cons] at hs
        rcases hs with rfl | hs
        · dsimp only
          refine ⟨by omega, ?_, ?_, i4, ?_⟩
          · intro hbt
            have := atBoundary_token_space ws v rest hv hh (by rw [← ht]; exact hbt)
            have : 0 < ws.length := List.length_pos.mpr this
            omega
          · have : 0 < v.length := List.length_pos.mpr hv
            omega
          · rw [hdropend]; exact hb
        · obtain ⟨j1, j2, j3, j4, j5⟩ := i5 s hs hf
          refine ⟨by omega, fun _ => ?_, j3, j4, j5⟩
          have := j2 hb
          have : 0 < v.length := List.length_pos.mpr hv
          omega
      · simp only [List.filter, List.pairwise_cons]
        refine ⟨?_, i6⟩
        intro s hs
        rw [List.mem_filter] at hs
        have := (i5 s hs.1 hs.2).2.1 hb
        exact this

theorem new_in_step (line : Text) (p0 : LineParser) (h : LineParser.new line = Except.ok p0) :
    p0.text = line ∧ p0.currentIndex = 0 ∧ p0.originalLength = line.length ∧
    p0.empty = (!textRegex line) := by
  obtain ⟨q, hq, h1, h2, h3, h4⟩ := LineParser.new_ok line (LineParser.new_no_line_break line p0 h)
  rw [hq] at h
  cases h
  exact ⟨h1, h3, h4, h2⟩

/-- After any sequence of extractor calls on the parser constructed for a line, the
parser is in step with the line: its text is the line from its offset on, its
`originalLength` is the line's length, and its `empty` flag tells whether its text
holds no character that is not whitespace. -/
theorem run_in_step (line : Text) (p0 : LineParser) (es : List Extractor)
    (h : LineParser.new line = Except.ok p0) :
    (∃ pre, line = pre ++ (p0.run es).2.text ∧ (p0.run es).2.currentIndex = pre.length) ∧
    (p0.run es).2.originalLength = line.length ∧
    (p0.run es).2.empty = (!textRegex (p0.run es).2.text) := by
  obtain ⟨h1, h2, h3, h4⟩ := new_in_step line p0 h
  obtain ⟨i1, i2, i3, -⟩ := run_spec line es p0 [] (by rw [h1]; rfl) (by rw [h2]; rfl) h3
    (by rw [h4, h1])
  exact ⟨i1, i2, i3⟩

theorem run_append (p : LineParser) (es fs : List Extractor) :
    p.run (es ++ fs) = ((p.run es).1 ++ ((p.run es).2.run fs).1, ((p.run es).2.run fs).2) := by
  induction es generalizing p with
  | nil => rfl
  | cons e es ih =>
    show ((p.extract e).1 :: ((p.extract e).2.run (es ++ fs)).1,
        ((p.extract e).2.run (es ++ fs)).2) = _
    rw [ih]
    rfl

theorem run_single (p : LineParser) (e : Extractor) :
    p.run [e] = ([(p.extract e).1], (p.extract e).2) := rfl

/-- C24. For each of the seven extractors (`nextNumber`, `nextBoolean`,
`nextOperator`, `nextWord`, `nextString`, `nextHex`, `parseComment`) and every parser
state: when the extractor's regex does not match the remaining text, equivalently
when the call returns `found = false`, the call returns `found = false` with both
columns 0, and the parser afterwards is the parser before, field by field: remaining
text, consumed offset, `originalLength`, `textStartIndex`, `textEndIndex` and the
`empty` flag. -/
theorem extract_not_found (p : LineParser) (e : Extractor)
    (h : e.regex p.text = none ∨ (p.extract e).1.found = false) :
    e.regex p.text = none ∧
    (p.extract e).1 = { found := false, startIndex := 0, endIndex := 0 } ∧
    (p.extract e).2 = p ∧
    (p.extract e).2.text = p.text ∧ (p.extract e).2.currentIndex = p.currentIndex ∧
    (p.extract e).2.originalLength = p.originalLength ∧
    (p.extract e).2.textStartIndex = p.textStartIndex ∧
    (p.extract e).2.textEndIndex = p.textEndIndex ∧ (p.extract e).2.empty = p.empty := by
  rcases extract_cases p e with ⟨h0, h1, h2⟩ | ⟨ws, v, rest, h0, -, -, -, -, -, h1, -⟩
  · rw [h2]
    exact ⟨h0, h1, rfl, rfl, rfl, rfl, rfl, rfl, rfl⟩
  · rcases h with h | h
    · rw [h0] at h; cases h
    · rw [h1] at h; cases h

/-- C24, at `nextWord` on a parser whose text is `Width10`: the regex does not match,
nothing is found, and the parser is unchanged. -/
theorem extract_not_found_witness :
    (Extractor.word.regex (utf16 "Width10") = none ∨
      (({ text := utf16 "Width10", currentIndex := 0, originalLength := 7, textStartIndex := 0,
          textEndIndex := 7, empty := false } : LineParser).extract Extractor.word).1.found =
        false) ∧
    (({ text := utf16 "Width10", currentIndex := 0, originalLength := 7, textStartIndex := 0,
        textEndIndex := 7, empty := false } : LineParser).nextWord).1.found = false ∧
    (({ text := utf16 "Width10", currentIndex := 0, originalLength := 7, textStartIndex := 0,
        textEndIndex := 7, empty := false } : LineParser).nextWord).2 =
      { text := utf16 "Width10", currentIndex := 0, originalLength := 7, textStartIndex := 0,
        textEndIndex := 7, empty := false } :=
  ⟨Or.inl (by decide),
   congrArg Span.found (extract_not_found
     { text := utf16 "Width10", currentIndex := 0, originalLength := 7, textStartIndex := 0,
       textEndIndex := 7, empty := false } Extractor.word (Or.inl (by decide))).2.1,
   (extract_not_found
     { text := utf16 "Width10", currentIndex := 0, originalLength := 7, textStartIndex := 0,
       textEndIndex := 7, empty := false } Extractor.word (Or.inl (by decide))).2.2.1⟩

/-- C25. For every extractor and every line the constructor accepts, at the fresh
parser and after any sequence of extractor calls: if the extraction succeeds, then
the token ends the line or the character of the line at the token's end column is a
whitespace character; so a token that is immediately followed by any other character
is not returned. -/
theorem extract_boundary (line : Text) (p0 : LineParser) (es : List Extractor) (e : Extractor)
    (hnew : LineParser.new line = Except.ok p0)
    (hf : ((p0.run es).2.extract e).1.found = true) :
    ((p0.run es).2.extract e).1.endIndex = line.length ∨
    ∃ c, line.get? ((p0.run es).2.extract e).1.endIndex.toNat = some c ∧ isSpace c = true := by
  obtain ⟨⟨pre, hl, hc⟩, -, -⟩ := run_in_step line p0 es hnew
  rcases extract_cases (p0.run es).2 e with ⟨-, h1, -⟩ | ⟨ws, v, rest, -, ht, -, -, -, hb, h1, -⟩
  · rw [h1] at hf; cases hf
  · rw [h1]
    dsimp only
    have hl2 : line = (pre ++ ws ++ v) ++ rest := by rw [hl, ht]; simp
    have hc2 : (p0.run es).2.currentIndex + ws.length + v.length =
        ((pre ++ ws ++ v).length : Int) := by
      rw [hc]; simp only [List.length_append, Nat.cast_add]
    rw [hc2, Int.toNat_ofNat]
    cases rest with
    | nil =>
      left
      rw [hl2, List.append_nil]
    | cons c r =>
      right
      refine ⟨c, ?_, hb⟩
      rw [hl2, List.get?_eq_getElem?, List.getElem?_append_right (le_refl _)]
      simp

/-- C25, at `nextWord` on the line `Width 10`: the word is found and ends at column
5, where the line has a space; on the line `Width10` the same call finds nothing. -/
theorem extract_boundary_witness :
    (LineParser.new (utf16 "Width 10") = Except.ok
        { text := utf16 "Width 10", currentIndex := 0, originalLength := 8, textStartIndex := 0,
          textEndIndex := 8, empty := false } ∧
      (((({ text := utf16 "Width 10", currentIndex := 0, originalLength := 8,
             textStartIndex := 0, textEndIndex := 8, empty := false } : LineParser).run []).2.extract
          Extractor.word).1 = { found := true, startIndex := 0, endIndex := 5 })) ∧
    ((5 : Int) = (utf16 "Width 10").length ∨
      ∃ c, (utf16 "Width 10").get? (5 : Int).toNat = some c ∧ isSpace c = true) ∧
    (LineParser.new (utf16 "Width10")).toOption.map (fun p => (p.nextWord).1.found) = some false :=
  ⟨⟨rfl, by decide⟩,
   extract_boundary (utf16 "Width 10")
     { text := utf16 "Width 10", currentIndex := 0, originalLength := 8, textStartIndex := 0,
       textEndIndex := 8, empty := false } [] Extractor.word rfl (by decide),
   by decide⟩

/-- C26. For every line the constructor accepts, every sequence of extractor calls on
the parser constructed for it, and one more call after them: the consumed offset does
not decrease in the call; if the call finds a token, then
`0 ≤ startIndex < endIndex ≤ originalLength`, the consumed offset becomes the token's
`endIndex`, and every token found earlier in the sequence ends strictly before this
token starts; so the tokens found along a sequence are pairwise apart, each later one
starting strictly after the end of each earlier one, and no consumed token is returned
again. -/
theorem run_offsets (line : Text) (p0 : LineParser) (es : List Extractor) (e : Extractor)
    (hnew : LineParser.new line = Except.ok p0) :
    (p0.run es).2.currentIndex ≤ ((p0.run es).2.extract e).2.currentIndex ∧
    (((p0.run es).2.extract e).1.found = true →
      0 ≤ ((p0.run es).2.extract e).1.startIndex ∧
      ((p0.run es).2.extract e).1.startIndex < ((p0.run es).2.extract e).1.endIndex ∧
      ((p0.run es).2.extract e).1.endIndex ≤ p0.originalLength ∧
      ((p0.run es).2.extract e).2.currentIndex = ((p0.run es).2.extract e).1.endIndex ∧
      ∀ s ∈ (p0.run es).1, s.found = true →
        s.endIndex < ((p0.run es).2.extract e).1.startIndex) ∧
    ((p0.run (es ++ [e])).1.filter fun s => s.found).Pairwise
      (fun a b => a.endIndex < b.startIndex) ∧
    (∀ s ∈ (p0.run (es ++ [e])).1, s.found = true →
      0 ≤ s.startIndex ∧ s.startIndex < s.endIndex ∧ s.endIndex ≤ p0.originalLength) ∧
    0 ≤ (p0.run es).2.currentIndex ∧
    ((p0.run es).2.extract e).2.currentIndex ≤ p0.originalLength := by
  obtain ⟨h1, h2, h3, h4⟩ := new_in_step line p0 hnew
  obtain ⟨⟨pre, hl, hc⟩, -, -⟩ := run_in_step line p0 es hnew
  obtain ⟨⟨pre2, j1, j2⟩, -, -, j4, j5, j6⟩ := run_spec line (es ++ [e]) p0 []
    (by rw [h1]; rfl) (by rw [h2]; rfl) h3 (by rw [h4, h1])
  have hrun := run_append p0 es [e]
  rw [run_single] at hrun
  rw [hrun] at j1 j2 j4 j5 j6
  dsimp only at j1 j2 j4 j5 j6
  have hlen : ((p0.run es).2.extract e).2.currentIndex ≤ p0.originalLength := by
    rw [j2, h3]
    have := congrArg List.length j1
    simp only [List.length_append] at this
    omega
  have hall : ∀ s ∈ (p0.run es).1 ++ [((p0.run es).2.extract e).1], s.found = true →
      0 ≤ s.startIndex ∧ s.startIndex < s.endIndex ∧ s.endIndex ≤ p0.originalLength := by
    intro s hs hf
    obtain ⟨k1, -, k3, k4, -⟩ := j5 s hs hf
    exact ⟨by omega, k3, by omega⟩
  rw [hrun]
  dsimp only
  refine ⟨?_, ?_, j6, hall, by rw [hc]; omega, hlen⟩
  · rcases extract_cases (p0.run es).2 e with ⟨-, -, g2⟩ | ⟨ws, v, rest, -, -, -, -, -, -, -, g2⟩
    · rw [g2]
    · rw [g2]; dsimp only; omega
  · intro hf
    obtain ⟨k1, k2, k3⟩ := hall _ (by simp) hf
    refine ⟨k1, k2, k3, ?_, ?_⟩
    · rcases extract_cases (p0.run es).2 e with ⟨-, g1, -⟩ | ⟨ws, v, rest, -, -, -, -, -, -, g1, g2⟩
      · rw [g1] at hf; cases hf
      · rw [g1, g2]
    · intro s hs hsf
      rw [List.filter_append, List.pairwise_append] at j6
      refine j6.2.2 s (List.mem_filter.mpr ⟨hs, hsf⟩) _ ?_
      simp [List.filter, hf]

/-- C26, at the line `Width <= 10` and the calls `nextWord`, `nextOperator`,
`nextNumber`: the tokens are found at the columns 0-5, 6-8 and 9-11, and the facts
hold for the third call after the first two. -/
theorem run_offsets_witness :
    (LineParser.new (utf16 "Width <= 10") = Except.ok
        { text := utf16 "Width <= 10", currentIndex := 0, originalLength := 11,
          textStartIndex := 0, textEndIndex := 11, empty := false } ∧
      (({ text := utf16 "Width <= 10", currentIndex := 0, originalLength := 11,
          textStartIndex := 0, textEndIndex := 11, empty := false } : LineParser).run
        [Extractor.word, Extractor.operator, Extractor.number]).1 =
        [{ found := true, startIndex := 0, endIndex := 5 },
         { found := true, startIndex := 6, endIndex := 8 },
         { found := true, startIndex := 9, endIndex := 11 }]) ∧
    ((8 : Int) ≤ 11 ∧
      ((true = true) → (0 : Int) ≤ 9 ∧ (9 : Int) < 11 ∧ (11 : Int) ≤ 11 ∧ (11 : Int) = 11 ∧
        ∀ s ∈ ([{ found := true, startIndex := 0, endIndex := 5 },
                { found := true, startIndex := 6, endIndex := 8 }] : List Span),
          s.found = true → s.endIndex < 9)) :=
  ⟨⟨rfl, by decide⟩,
   (run_offsets (utf16 "Width <= 10")
     { text := utf16 "Width <= 10", currentIndex := 0, originalLength := 11,
       textStartIndex := 0, textEndIndex := 11, empty := false }
     [Extractor.word, Extractor.operator] Extractor.number rfl).1,
   (run_offsets (utf16 "Width <= 10")
     { text := utf16 "Width <= 10", currentIndex := 0, originalLength := 11,
       textStartIndex := 0, textEndIndex := 11, empty := false }
     [Extractor.word, Extractor.operator] Extractor.number rfl).2.1⟩

/-- C27. For every line the constructor accepts and every sequence of extractor calls
on the parser constructed for it (the hex normalization of the colour validator is
not one of them): the `empty` flag of the parser is true if and only if its remaining
text holds no character that is not whitespace. -/
theorem run_empty_iff (line : Text) (p0 : LineParser) (es : List Extractor)
    (hnew : LineParser.new line = Except.ok p0) :
    (p0.run es).2.empty = true ↔ ∀ c ∈ (p0.run es).2.text, isSpace c = true := by
  obtain ⟨-, -, h⟩ := run_in_step line p0 es hnew
  rw [h]
  unfold textRegex
  simp

/-- C27, at the line `Width 10 ` (with a space at its end): the parser is not empty
at first nor after `nextWord`, and it is empty after `nextWord` and `nextNumber`, when
its text is the one space. -/
theorem run_empty_iff_witness :
    LineParser.new (utf16 "Width 10 ") = Except.ok
        { text := utf16 "Width 10 ", currentIndex := 0, originalLength := 9,
          textStartIndex := 0, textEndIndex := 8, empty := false } ∧
    (({ text := utf16 "Width 10 ", currentIndex := 0, originalLength := 9,
        textStartIndex := 0, textEndIndex := 8, empty := false } : LineParser).run
      [Extractor.word, Extractor.number]).2.text = [32] ∧
    ((({ text := utf16 "Width 10 ", currentIndex := 0, originalLength := 9,
         textStartIndex := 0, textEndIndex := 8, empty := false } : LineParser).run
      [Extractor.word, Extractor.number]).2.empty = true ↔
      ∀ c ∈ ([32] : Text), isSpace c = true) :=
  ⟨rfl, by decide,
   run_empty_iff (utf16 "Width 10 ")
     { text := utf16 "Width 10 ", currentIndex := 0, originalLength := 9,
       textStartIndex := 0, textEndIndex := 8, empty := false }
     [Extractor.word, Extractor.number] rfl⟩

theorem quotationRegex_quoted (inner : Text) (h : ∀ c ∈ inner, c ≠ 34) :
    quotationRegex (34 :: inner ++ [34]) = some inner := by
  have hd := dropWhile_not_quote inner [] h
  simp only [quotationRegex, List.cons_append]
  simp only [hd.1, hd.2]

theorem quotationRegex_bare (w : Text) (h : ∀ c, w.head? = some c → c ≠ 34) :
    quotationRegex w = none := by
  cases w with
  | nil => rfl
  | cons a r =>
    have ha := h a rfl
    unfold quotationRegex
    split
    · rename_i r2 heq
      simp only [List.cons.injEq] at heq
      exact absurd heq.1 ha
    · rfl

theorem slice_token (pre ws w rest : Text) (s e : Int) (hs : s = pre.length + ws.length)
    (he : e = pre.length + ws.length + w.length) :
    slice (pre ++ (ws ++ w ++ rest)) s e = w := by
  have h1 : s.toNat = (pre ++ ws).length := by
    rw [hs, ← Nat.cast_add, Int.toNat_ofNat, List.length_append]
  have h2 : e.toNat = (pre ++ ws).length + w.length := by
    rw [he, ← Nat.cast_add, ← Nat.cast_add, Int.toNat_ofNat, List.length_append]
  unfold slice
  rw [h1, h2, Nat.add_sub_cancel_left]
  have : pre ++ (ws ++ w ++ rest) = (pre ++ ws) ++ (w ++ rest) := by simp
  rw [this, List.drop_left' rfl, List.take_left' rfl]

theorem nextString_of_some (p : LineParser) (ws w : Text)
    (hre : stringRegex p.text = some (ws, w)) (hne : w ≠ []) :
    (p.nextString).1 =
      { found := true, startIndex := p.currentIndex + ws.length,
        endIndex := p.currentIndex + ((ws.length + w.length : Nat) : Int),
        value := some ((quotationRegex w).getD w) } := by
  have htr : truthyOptText (some w) = true := by
    cases w with
    | nil => exact absurd rfl hne
    | cons a b => rfl
  unfold LineParser.nextString
  rw [parseSingleValue_of_some p _ ws _ hre]
  simp only [htr, Bool.and_self, if_true, Option.some_bind]
  cases quotationRegex w <;> rfl

/-- What `nextString` returns when it finds a token, on any parser in step with a
line: the value is the text between the quotes of a quoted token, or the bare token
itself; the columns are those of the token as it is written in the line. -/
theorem nextString_found_value (line : Text) (p : LineParser) (pre : Text)
    (hl : line = pre ++ p.text) (hc : p.currentIndex = pre.length)
    (hf : (p.nextString).1.found = true) :
    ∃ v, (p.nextString).1.value = some v ∧
      ((slice line (p.nextString).1.startIndex (p.nextString).1.endIndex = 34 :: v ++ [34] ∧
          (∀ c ∈ v, c ≠ 34) ∧
          (p.nextString).1.endIndex - (p.nextString).1.startIndex = v.length + 2) ∨
       (slice line (p.nextString).1.startIndex (p.nextString).1.endIndex = v ∧ v ≠ [] ∧
          ∀ c ∈ v, isBareStringChar c = true)) := by
  cases hre : stringRegex p.text with
  | none =>
    rw [(nextString_found p).1, parseSingleValue_of_none p _ hre] at hf
    cases hf
  | some wv =>
    obtain ⟨ws, w⟩ := wv
    obtain ⟨rest, s1, s2, s3, s4⟩ := stringRegex_shape p.text ws w hre
    have hsl : slice line (p.currentIndex + ws.length)
        (p.currentIndex + ((ws.length + w.length : Nat) : Int)) = w := by
      rw [hl, s1]
      exact slice_token pre ws w rest _ _ (by rw [hc])
        (by rw [hc]; simp only [Nat.cast_add]; omega)
    rcases s4 with ⟨inner, rfl, hin⟩ | ⟨hne, hbare⟩
    · rw [nextString_of_some p ws _ hre (by simp), quotationRegex_quoted inner hin]
      refine ⟨inner, rfl, Or.inl ⟨hsl, hin, ?_⟩⟩
      simp only [List.length_cons, List.length_append, List.length_nil, Nat.cast_add,
        Nat.cast_one]
      omega
    · have hq : quotationRegex w = none := by
        apply quotationRegex_bare
        intro c hc
        exact (isBareStringChar_facts (hbare c (List.mem_of_mem_head? hc))).2.1
      rw [nextString_of_some p ws _ hre hne, hq]
      exact ⟨w, rfl, Or.inr ⟨hsl, hne, hbare⟩⟩

/-- C30. For every line the constructor accepts and the parser after any sequence of
extractor calls on it, when `nextString` succeeds: either the token is double-quoted,
the value is the text between the quotes, which holds no double quote (and may hold
spaces), and the columns span the token as written, both quotes included, so
`endIndex - startIndex = length(value) + 2`; or the token is bare, and the value is a
non-empty run without whitespace, `"`, `'`, `<`, `>` or `=` which is the text of the
line between `startIndex` and `endIndex`. -/
theorem nextString_value (line : Text) (p0 : LineParser) (es : List Extractor)
    (hnew : LineParser.new line = Except.ok p0)
    (hf : ((p0.run es).2.nextString).1.found = true) :
    ∃ v, ((p0.run es).2.nextString).1.value = some v ∧
      ((slice line ((p0.run es).2.nextString).1.startIndex
            ((p0.run es).2.nextString).1.endIndex = 34 :: v ++ [34] ∧
          (∀ c ∈ v, c ≠ 34) ∧
          ((p0.run es).2.nextString).1.endIndex - ((p0.run es).2.nextString).1.startIndex =
            v.length + 2) ∨
       (slice line ((p0.run es).2.nextString).1.startIndex
            ((p0.run es).2.nextString).1.endIndex = v ∧ v ≠ [] ∧
          ∀ c ∈ v, isBareStringChar c = true)) := by
  obtain ⟨⟨pre, hl, hc⟩, -, -⟩ := run_in_step line p0 es hnew
  exact nextString_found_value line (p0.run es).2 pre hl hc hf

/-- C30, at the line `Class "Life Flasks" Bows` after `nextWord`: `nextString` finds
the quoted token at columns 6-19 with the value `Life Flasks`, 11 long; after that the
bare token `Bows` is found at columns 20-24. -/
theorem nextString_value_witness :
    (LineParser.new (utf16 "Class \"Life Flasks\" Bows") = Except.ok
        { text := utf16 "Class \"Life Flasks\" Bows", currentIndex := 0, originalLength := 24,
          textStartIndex := 0, textEndIndex := 24, empty := false } ∧
      ((({ text := utf16 "Class \"Life Flasks\" Bows", currentIndex := 0, originalLength := 24,
           textStartIndex := 0, textEndIndex := 24, empty := false } : LineParser).run
        [Extractor.word]).2.nextString).1 =
        { found := true, startIndex := 6, endIndex := 19, value := some (utf16 "Life Flasks") } ∧
      ((({ text := utf16 "Class \"Life Flasks\" Bows", currentIndex := 0, originalLength := 24,
           textStartIndex := 0, textEndIndex := 24, empty := false } : LineParser).run
        [Extractor.word, Extractor.string]).2.nextString).1 =
        { found := true, startIndex := 20, endIndex := 24, value := some (utf16 "Bows") }) ∧
    ∃ v, some (utf16 "Life Flasks") = some v ∧
      ((slice (utf16 "Class \"Life Flasks\" Bows") 6 19 = 34 :: v ++ [34] ∧ (∀ c ∈ v, c ≠ 34) ∧
          (19 : Int) - 6 = v.length + 2) ∨
       (slice (utf16 "Class \"Life Flasks\" Bows") 6 19 = v ∧ v ≠ [] ∧
          ∀ c ∈ v, isBareStringChar c = true)) :=
  ⟨⟨rfl, by decide, by decide⟩,
   nextString_value (utf16 "Class \"Life Flasks\" Bows")
     { text := utf16 "Class \"Life Flasks\" Bows", currentIndex := 0, originalLength := 24,
       textStartIndex := 0, textEndIndex := 24, empty := false }
     [Extractor.word] rfl (by decide)⟩

/-- C23, as amended. For every line whose first word is read successfully (the line
is whitespace, a non-empty word of the characters of `wordRegex`, and a rest that is
empty or starts with whitespace, with no line break) and is not `Show`, `Hide` or one
of the 18 rule keywords, case-sensitively: `parseLine` returns kind Unknown with
invalid = true and exactly one diagnostic, the error "Unknown filter keyword." whose
range is the columns where the word starts and ends. -/
theorem parseLine_unknown_keyword (env : Env) (row : Int) (editor : Editor)
    (itemData : ItemData) (w0 kw rest : Text) (hw0 : Blank w0) (hne : kw ≠ [])
    (hkw : ∀ c ∈ kw, isWordChar c = true) (hb : atBoundary rest = true)
    (heol : eolRegex rest = false)
    (hk : kw ≠ utf16 "Show" ∧ kw ≠ utf16 "Hide" ∧ kw ∉ ruleKeywords) :
    ∃ r, parseLine env
        { lineText := w0 ++ kw ++ rest, row := row, editor := editor, itemData := itemData } =
        Except.ok (r, editor) ∧
      r.type = LineType.Unknown ∧ r.invalid = true ∧
      r.messages = [unknownKeywordMessage editor.path row w0.length (w0.length + kw.length)] := by
  obtain ⟨p1, -, -, -, -, hpl⟩ := parseLine_rule_line env
    { lineText := w0 ++ kw ++ rest, row := row, editor := editor, itemData := itemData }
    w0 kw rest rfl hw0 hne hkw hb heol ⟨hk.1, hk.2.1⟩
  dsimp only at hpl
  have hnone : processRule env p1
      { editor := editor, number := row, file := editor.path, keyword := kw }
      (itemData.classes ++ itemData.whitelistClasses)
      (itemData.bases ++ itemData.whitelistBases) kw = none := by
    rcases processRule_category env p1
      { editor := editor, number := row, file := editor.path, keyword := kw }
      (itemData.classes ++ itemData.whitelistClasses)
      (itemData.bases ++ itemData.whitelistBases) kw with ⟨-, -, h⟩ | ⟨-, -, h⟩ | ⟨h, -, -⟩
    · exact absurd (List.mem_append_left _ h) hk.2.2
    · exact absurd (List.mem_append_right _ h) hk.2.2
    · exact h
  rw [hpl, hnone]
  refine ⟨_, rfl, rfl, rfl, ?_⟩
  simp only [finishRule, unknownResult, unknownKeywordMessage]
  rw [Range.onRow_of_le _ _ _ (by simp only [Nat.cast_add]; omega)]
  simp only [Nat.cast_add]

/-- C23 as amended, at the line `Shield 5`: the hypotheses hold, and the result is
Unknown and invalid with the one error "Unknown filter keyword." at columns 0-6. -/
theorem parseLine_unknown_keyword_witness :
    (Blank [] ∧ (∀ c ∈ utf16 "Shield", isWordChar c = true) ∧ atBoundary (utf16 " 5") = true ∧
      eolRegex (utf16 " 5") = false ∧
      (utf16 "Shield" ≠ utf16 "Show" ∧ utf16 "Shield" ≠ utf16 "Hide" ∧
        utf16 "Shield" ∉ ruleKeywords) ∧
      [] ++ utf16 "Shield" ++ utf16 " 5" = utf16 "Shield 5") ∧
    ∃ r, parseLine asciiEnv
        { lineText := utf16 "Shield 5", row := 0,
          editor := { path := none, line := utf16 "Shield 5" }, itemData := sampleItems } =
        Except.ok (r, { path := none, line := utf16 "Shield 5" }) ∧
      r.type = LineType.Unknown ∧ r.invalid = true ∧
      r.messages = [unknownKeywordMessage none 0 0 6] :=
  ⟨⟨by decide, by decide, by decide, by decide, by decide, by decide⟩,
   parseLine_unknown_keyword asciiEnv 0 { path := none, line := utf16 "Shield 5" } sampleItems
     [] (utf16 "Shield") (utf16 " 5") (by decide) (by decide) (by decide) (by decide)
     (by decide) (by decide)⟩

/-- C23, as stated, fails on its count: the rule keywords are 18, not 17. The 18 are
distinct, a line that starts with any of them is a Rule, not Unknown, and so no list
of 17 words holds every first word that keeps a line from being Unknown. -/
theorem parseLine_eighteen_rule_keywords :
    ruleKeywords.Nodup ∧ ruleKeywords.length = 18 ∧
    (∀ k ∈ ruleKeywords, (kindOf asciiEnv (k ++ utf16 " 1")).map (fun x => x.1) =
      some LineType.Rule) ∧
    ¬ ∃ ks : List Text, ks.length ≤ 17 ∧
      ∀ k, k ∉ ks → k ≠ utf16 "Show" → k ≠ utf16 "Hide" →
        (kindOf asciiEnv (k ++ utf16 " 1")).map (fun x => x.1) = some LineType.Unknown := by
  have h1 : ruleKeywords.Nodup := by decide
  have h2 : ruleKeywords.length = 18 := by decide
  have h3 : ∀ k ∈ ruleKeywords, (kindOf asciiEnv (k ++ utf16 " 1")).map (fun x => x.1) =
      some LineType.Rule := by
    decide
  have h4 : ∀ k ∈ ruleKeywords, k ≠ utf16 "Show" ∧ k ≠ utf16 "Hide" := by decide
  refine ⟨h1, h2, h3, ?_⟩
  rintro ⟨ks, hlen, hks⟩
  have hsub : ruleKeywords ⊆ ks := by
    intro k hk
    by_contra hn
    have := hks k hn (h4 k hk).1 (h4 k hk).2
    rw [h3 k hk] at this
    cases this
  have := (List.subperm_of_subset h1 hsub).length_le
  omega

theorem captureOperator_keeps (line : LineInfo) (operator : ParseResult Text)
    (r : ProcessResult) :
    (captureOperator line operator r).messages = r.messages ∧
    (captureOperator line operator r).invalid = r.invalid ∧
    (captureOperator line operator r).values = r.values := by
  unfold captureOperator
  split
  · split
    · exact ⟨rfl, rfl, rfl⟩
    · exact ⟨rfl, rfl, rfl⟩
  · exact ⟨rfl, rfl, rfl⟩

theorem matchFound_rarity (env : Env) (s : Text) :
    (matchFound env rarities false (some s) && truthyOptText (some s)) = true ↔ IsRarity env s := by
  unfold matchFound IsRarity
  simp only [Bool.false_eq_true, if_false, Option.map_some', truthyOptText, truthyText,
    Bool.and_eq_true, List.any_eq_true, beq_iff_eq, Option.some.injEq, Bool.not_eq_true',
    List.isEmpty_eq_false]
  constructor
  · rintro ⟨⟨v, hv, -, he⟩, hne⟩
    exact ⟨hne, v, hv, he⟩
  · rintro ⟨hne, v, hv, he⟩
    exact ⟨⟨v, hv, hne, he⟩, hne⟩

/-- `processStringRule` without case sensitivity, on an optional operator and one
string token followed by whitespace only: the value if it matches an expected one,
else the error over the token's columns. -/
theorem processStringRule_token (env : Env) (p : LineParser) (line : LineInfo)
    (expected : List Text) (w1 : Text) (op : Option Text) (w2 : Text) (q : Bool) (s w3 : Text)
    (hp : p.text = w1 ++ operatorPart op w2 ++ written q s ++ w3)
    (hw1 : ∀ c ∈ w1, isSpace c = true)
    (hop : ∀ o, op = some o → o ∈ operatorAlternatives ∧ w2 ≠ [] ∧ ∀ c ∈ w2, isSpace c = true)
    (hs : IsStringValue q s) (hw3 : ∀ c ∈ w3, isSpace c = true) :
    (processStringRule env p line expected false).2.empty = true ∧
    (processStringRule env p line expected false).1 =
      if matchFound env expected false (some s) && truthyOptText (some s) then
        (captureOperator line (operatorToken p.currentIndex w1 op) {}).pushValue (Value.string s)
          (columns line.number
            (p.currentIndex + w1.length + (operatorPart op w2).length)
            (p.currentIndex + w1.length + (operatorPart op w2).length + (written q s).length))
      else
        (captureOperator line (operatorToken p.currentIndex w1 op) {}).fail
          (errorMessage line.file
            (columns line.number
              (p.currentIndex + w1.length + (operatorPart op w2).length)
              (p.currentIndex + w1.length + (operatorPart op w2).length + (written q s).length))
            (utf16 "Invalid value for \"" ++ line.keyword ++ utf16 "\" rule.")
            (utf16 "http://pathofexile.gamepedia.com/Item_filter#Conditions")
            (some (expected.foldl (fun d value => d ++ utf16 "\n\t" ++ value)
              (utf16 "The following values are valid for this rule:\n")))) := by
  have hb3 : atBoundary w3 = true := atBoundary_of_spaces w3 hw3
  obtain ⟨p2, wz, hnop, hp2t, hwz, hp2c, -, -⟩ := nextOperator_optional p w1 op w2
    (written q s ++ w3) (by rw [hp, List.append_assoc]) hw1 hop (written_head q s w3 hs)
  have hns := nextString_token p2 wz q s w3 (by rw [hp2t, List.append_assoc]) hwz hs hb3
  have ht3 : textRegex w3 = false := textRegex_of_spaces w3 hw3
  have hrep : ∀ r : ProcessResult, reportTrailingComment
      { p2 with text := w3, currentIndex := p2.currentIndex + wz.length + (written q s).length,
                empty := if !textRegex w3 then true else p2.empty } line r =
      (r, { p2 with text := w3,
                    currentIndex := p2.currentIndex + wz.length + (written q s).length,
                    empty := if !textRegex w3 then true else p2.empty }) :=
    fun r => reportTrailingComment_of_spaces _ line r hw3
  unfold processStringRule
  rw [hnop]
  dsimp only
  rw [hns]
  simp only [Bool.not_true, Bool.false_eq_true, if_false, Option.getD_some]
  rw [hrep]
  refine ⟨by simp [ht3], ?_⟩
  dsimp only
  rw [Range.onRow_of_le _ _ _ (by omega), hp2c]

/-- C21. For every line made of `Rarity`, an operator if one is written, and one
string token, bare or in double quotes, with value `s`: the result is a Rule; it is
not invalid and holds the single value `s` over the token's columns exactly when `s`
equals Normal, Magic, Rare or Unique once both are put in lower case (the whole
value, not a part of it), and then it has no diagnostics; otherwise it is invalid,
holds no value, and has exactly one diagnostic, the error "Invalid value for "Rarity"
rule." over the token's columns (the quotes included). -/
theorem parseLine_Rarity (env : Env) (row : Int) (editor : Editor) (itemData : ItemData)
    (w0 w1 : Text) (op : Option Text) (w2 : Text) (q : Bool) (s w3 : Text)
    (hw0 : Blank w0) (hw1 : Blank w1) (hw1ne : w1 ≠ [])
    (hop : ∀ o, op = some o → o ∈ operatorAlternatives ∧ Blank w2 ∧ w2 ≠ [])
    (hs : IsStringValue q s) (hw3 : Blank w3) :
    ∃ r, parseLine env
        { lineText := w0 ++ utf16 "Rarity" ++ (w1 ++ operatorPart op w2 ++ written q s ++ w3),
          row := row, editor := editor, itemData := itemData } = Except.ok (r, editor) ∧
      r.type = LineType.Rule ∧
      ((r.invalid = false ∧
        r.values =
          [{ value := Value.string s,
             range := columns row
               (w0.length + (utf16 "Rarity").length + w1.length + (operatorPart op w2).length)
               (w0.length + (utf16 "Rarity").length + w1.length +
                 (operatorPart op w2).length + (written q s).length) }]) ↔ IsRarity env s) ∧
      (IsRarity env s → r.messages = []) ∧
      (¬ IsRarity env s →
        r.invalid = true ∧ r.values = [] ∧
        ∃ m, r.messages = [m] ∧ m.severity = Severity.error ∧
          m.location.position = columns row
            (w0.length + (utf16 "Rarity").length + w1.length + (operatorPart op w2).length)
            (w0.length + (utf16 "Rarity").length + w1.length +
              (operatorPart op w2).length + (written q s).length) ∧
          m.excerpt = utf16 "Invalid value for \"Rarity\" rule.") := by
  have heol : eolRegex (w1 ++ operatorPart op w2 ++ written q s ++ w3) = false := by
    rw [eolRegex_append, eolRegex_append, eolRegex_append, hw1.eolRegex,
      eolRegex_operatorPart op w2 (fun o ho => ⟨(hop o ho).1, (hop o ho).2.1⟩),
      eolRegex_written q s hs, hw3.eolRegex]
    rfl
  obtain ⟨p1, hp1t, hp1c, -, -, hpl⟩ := parseLine_rule_line env
    { lineText := w0 ++ utf16 "Rarity" ++ (w1 ++ operatorPart op w2 ++ written q s ++ w3),
      row := row, editor := editor, itemData := itemData }
    w0 (utf16 "Rarity") (w1 ++ operatorPart op w2 ++ written q s ++ w3) rfl hw0 (by decide)
    (by decide)
    (by rw [List.append_assoc, List.append_assoc]
        exact atBoundary_of_spaces_append w1 _ hw1.isSpace hw1ne)
    heol ⟨by decide, by decide⟩
  dsimp only at hpl
  obtain ⟨hemp, hres⟩ := processStringRule_token env p1
    { editor := editor, number := row, file := editor.path, keyword := utf16 "Rarity" }
    rarities w1 op w2 q s w3 hp1t hw1.isSpace
    (fun o ho => ⟨(hop o ho).1, (hop o ho).2.2, (hop o ho).2.1.isSpace⟩) hs hw3.isSpace
  rw [hpl, processRule_Rarity]
  simp only [finishRule, plainRule]
  change ∃ r, Except.ok (ruleResult _ _ _ (processStringRule env p1 _ rarities false).1
    (processStringRule env p1 _ rarities false).2 editor, editor) = Except.ok (r, editor) ∧ _
  generalize processStringRule env p1 _ rarities false = pr at hemp hres ⊢
  obtain ⟨res, pp⟩ := pr
  dsimp only at hemp hres ⊢
  refine ⟨_, rfl, ?_⟩
  rw [← matchFound_rarity]
  by_cases hm : (matchFound env rarities false (some s) && truthyOptText (some s)) = true
  · rw [if_pos hm] at hres
    obtain ⟨h1, -, h3, h4, -, h6⟩ := ruleResult_of_clean
      { lineText := w0 ++ utf16 "Rarity" ++ (w1 ++ operatorPart op w2 ++ written q s ++ w3),
        row := row, editor := editor, itemData := itemData }
      { name := utf16 "Rarity",
        range := Range.onRow row w0.length ((w0.length + (utf16 "Rarity").length : Nat) : Int) }
      Category.condition res pp editor
      (by rw [hres]; exact (captureOperator_keeps _ _ _).1)
      (by rw [hres]; exact (captureOperator_keeps _ _ _).2.1) hemp
    refine ⟨h1, ?_, fun _ => h4, fun h => absurd hm h⟩
    rw [h3, h6, hres, hp1c]
    simp only [ProcessResult.pushValue, (captureOperator_keeps _ _ _).2.2]
    simp [hm]
  · rw [if_neg hm] at hres
    obtain ⟨h1, -, h3, h4, -, h6⟩ := ruleResult_of_invalid
      { lineText := w0 ++ utf16 "Rarity" ++ (w1 ++ operatorPart op w2 ++ written q s ++ w3),
        row := row, editor := editor, itemData := itemData }
      { name := utf16 "Rarity",
        range := Range.onRow row w0.length ((w0.length + (utf16 "Rarity").length : Nat) : Int) }
      Category.condition res pp editor (by rw [hres]; rfl)
      (by rw [hres]; simp [ProcessResult.fail])
    refine ⟨h1, ?_, fun h => absurd h hm, fun _ => ⟨h3, ?_,
      errorMessage editor.path
        (columns row
          (w0.length + (utf16 "Rarity").length + w1.length + (operatorPart op w2).length)
          (w0.length + (utf16 "Rarity").length + w1.length +
            (operatorPart op w2).length + (written q s).length))
        (utf16 "Invalid value for \"" ++ utf16 "Rarity" ++ utf16 "\" rule.")
        (utf16 "http://pathofexile.gamepedia.com/Item_filter#Conditions")
        (some (rarities.foldl (fun d value => d ++ utf16 "\n\t" ++ value)
          (utf16 "The following values are valid for this rule:\n"))),
      ?_, rfl, rfl, ?_⟩⟩
    · rw [h3]; simp [hm]
    · rw [h6, hres]
      exact (captureOperator_keeps _ _ _).2.2
    · rw [h4, hres, hp1c]
      simp only [ProcessResult.fail, (captureOperator_keeps _ _ _).1]
      rfl
    · show utf16 "Invalid value for \"" ++ utf16 "Rarity" ++ utf16 "\" rule." =
        utf16 "Invalid value for \"Rarity\" rule."
      decide

/-- C21, at the line `Rarity = "rare"`: the hypotheses hold, `rare` is a rarity when
case is ignored, and the result is valid with the single value `rare` at columns 9-15
(the quotes included) and no diagnostics. -/
theorem parseLine_Rarity_witness :
    (Blank [] ∧ Blank [32] ∧ utf16 "=" ∈ operatorAlternatives ∧
      IsStringValue true (utf16 "rare") ∧ IsRarity asciiEnv (utf16 "rare") ∧
      [] ++ utf16 "Rarity" ++
        ([32] ++ operatorPart (some (utf16 "=")) [32] ++ written true (utf16 "rare") ++ []) =
        utf16 "Rarity = \"rare\"") ∧
    ∃ r, parseLine asciiEnv
        { lineText := utf16 "Rarity = \"rare\"", row := 0,
          editor := { path := none, line := utf16 "Rarity = \"rare\"" },
          itemData := sampleItems } =
          Except.ok (r, { path := none, line := utf16 "Rarity = \"rare\"" }) ∧
      r.type = LineType.Rule ∧ r.invalid = false ∧ r.messages = [] ∧
      r.values = [{ value := Value.string (utf16 "rare"), range := columns 0 9 15 }] := by
  refine ⟨⟨by decide, by decide, by decide, by decide, by decide, by decide⟩, ?_⟩
  obtain ⟨r, h1, h2, h3, h4, -⟩ := parseLine_Rarity asciiEnv 0
    { path := none, line := utf16 "Rarity = \"rare\"" } sampleItems [] [32] (some (utf16 "="))
    [32] true (utf16 "rare") [] (by decide) (by decide) (by decide)
    (fun o ho => by cases ho; exact ⟨by decide, by decide, by decide⟩) (by decide) (by decide)
  have hg : IsRarity asciiEnv (utf16 "rare") := by decide
  exact ⟨r, h1, h2, (h3.mpr hg).1, h4 hg, (h3.mpr hg).2⟩

/-- Lines of `Rarity` that are invalid, evaluated: a value that only contains a rarity
(`Rares`), an empty quoted value and an unknown one each get the one error over the
token's columns. -/
theorem parseLine_Rarity_scenarios :
    [utf16 "Rarity Rares", utf16 "Rarity \"\"", utf16 "Rarity < Epic"].map
      (fun line => (parseLine asciiEnv (argsFor line)).toOption.map
        (fun x => (x.1.invalid, x.1.values,
          x.1.messages.map (fun m => (m.severity, m.location.position, m.excerpt))))) =
    [some (true, [], [(Severity.error, columns 0 7 12,
        utf16 "Invalid value for \"Rarity\" rule.")]),
     some (true, [], [(Severity.error, columns 0 7 9,
        utf16 "Invalid value for \"Rarity\" rule.")]),
     some (true, [], [(Severity.error, columns 0 9 13,
        utf16 "Invalid value for \"Rarity\" rule.")])] := by
  rfl

/-- Two tokens that stand at the start of one text are the same token. -/
theorem token_unique (a b ra rb : Text) (ha : ∀ c ∈ a, isSpace c = false)
    (hb : ∀ c ∈ b, isSpace c = false) (hra : atBoundary ra = true) (hrb : atBoundary rb = true)
    (h : a ++ ra = b ++ rb) : a = b ∧ ra = rb := by
  have key : ∀ (x r : Text), (∀ c ∈ x, isSpace c = false) → atBoundary r = true →
      (x ++ r).takeWhile (fun c => !isSpace c) = x ∧
      (x ++ r).dropWhile (fun c => !isSpace c) = r := by
    intro x r hx hr
    refine takeWhile_append_stop (fun c => !isSpace c) x r (fun c hc => by simp [hx c hc]) ?_
    intro c hc
    have := (atBoundary_iff r).mp hr c hc
    simp [this]
  have h1 := key a ra ha hra
  have h2 := key b rb hb hrb
  rw [h] at h1
  exact ⟨h1.1.symm.trans h2.1, h1.2.symm.trans h2.2⟩

theorem leading_unique (ws ws2 a b : Text) (hws : ∀ c ∈ ws, isSpace c = true)
    (hws2 : ∀ c ∈ ws2, isSpace c = true) (ha : ∀ c, a.head? = some c → isSpace c = false)
    (hb : ∀ c, b.head? = some c → isSpace c = false) (h : ws ++ a = ws2 ++ b) :
    ws = ws2 ∧ a = b := by
  have h1 := takeWhile_append_stop isSpace ws a hws ha
  have h2 := takeWhile_append_stop isSpace ws2 b hws2 hb
  rw [h] at h1
  exact ⟨h1.1.symm.trans h2.1, h1.2.symm.trans h2.2⟩

theorem token_head (tok rest : Text) (h : IsToken tok) :
    ∀ c, (tok ++ rest).head? = some c → isSpace c = false := by
  intro c hc
  obtain ⟨hne, hall⟩ := h
  cases tok with
  | nil => exact absurd rfl hne
  | cons a b =>
    simp only [List.cons_append, List.head?_cons, Option.some.injEq] at hc
    subst hc
    exact hall _ (List.mem_cons_self _ _)

/-- The regex of an extractor reads, on whitespace, a token and a text at a boundary,
that very token or nothing. -/
theorem regex_token (e : Extractor) (ws tok rest ws2 v : Text)
    (hws : ∀ c ∈ ws, isSpace c = true) (htok : IsToken tok) (hb : atBoundary rest = true)
    (hv : ∀ c ∈ v, isSpace c = false)
    (h : e.regex (ws ++ tok ++ rest) = some (ws2, v)) : ws2 = ws ∧ v = tok := by
  obtain ⟨rest2, s1, s2, s3, s4, s5⟩ := regex_shape e _ ws2 v h
  rw [List.append_assoc, List.append_assoc] at s1
  obtain ⟨e1, e2⟩ := leading_unique ws ws2 (tok ++ rest) (v ++ rest2) hws s2
    (token_head tok rest htok)
    (by
      intro c hc
      cases v with
      | nil => exact absurd rfl s3
      | cons a b =>
        simp only [List.cons_append, List.head?_cons, Option.some.injEq] at hc
        subst hc
        exact hv _ (List.mem_cons_self _ _))
    s1
  exact ⟨e1.symm, (token_unique tok v rest rest2 htok.2 hv hb s5 e2).1.symm⟩

theorem regex_of_spaces (e : Extractor) (t : Text) (h : ∀ c ∈ t, isSpace c = true) :
    e.regex t = none := by
  cases hre : e.regex t with
  | none => rfl
  | some wv =>
    obtain ⟨ws, v⟩ := wv
    obtain ⟨rest, s1, -, s3, s4, -⟩ := regex_shape e t ws v hre
    cases v with
    | nil => exact absurd rfl s3
    | cons a b =>
      have h1 := s4 a rfl
      have h2 := h a (by rw [s1]; simp)
      rw [h1] at h2
      cases h2

theorem operatorRegex_token_none (ws tok rest : Text) (hws : ∀ c ∈ ws, isSpace c = true)
    (htok : IsToken tok) (hb : atBoundary rest = true) (hno : tok ∉ operatorAlternatives) :
    operatorRegex (ws ++ tok ++ rest) = none := by
  cases hre : operatorRegex (ws ++ tok ++ rest) with
  | none => rfl
  | some wv =>
    obtain ⟨ws2, v⟩ := wv
    obtain ⟨-, -, -, hv, -⟩ := operatorRegex_shape _ ws2 v hre
    obtain ⟨-, rfl⟩ := regex_token Extractor.operator ws tok rest ws2 v hws htok hb
      (operator_not_space v hv) hre
    exact absurd hv hno

theorem booleanRegex_token_none (ws tok rest : Text) (hws : ∀ c ∈ ws, isSpace c = true)
    (htok : IsToken tok) (hb : atBoundary rest = true) (hno : ¬ IsBooleanToken tok) :
    booleanRegex (ws ++ tok ++ rest) = none := by
  cases hre : booleanRegex (ws ++ tok ++ rest) with
  | none => rfl
  | some wv =>
    obtain ⟨ws2, v⟩ := wv
    obtain ⟨-, -, -, hv, -⟩ := booleanRegex_shape _ ws2 v hre
    obtain ⟨-, rfl⟩ := regex_token Extractor.boolean ws tok rest ws2 v hws htok hb
      (fun c hc => ((booleanToken_chars v hv).2 c hc).1) hre
    exact absurd hv hno

theorem toLowerCaseAscii_canonicalize (t : Text) :
    toLowerCaseAscii (t.map canonicalize) = toLowerCaseAscii t := by
  unfold toLowerCaseAscii
  rw [List.map_map]
  apply List.map_congr_left
  intro c _
  simp only [Function.comp, canonicalize]
  split_ifs <;> omega

/-- The value `nextBoolean` computes for a boolean token is the boolean it stands
for. -/
theorem includes_true_booleanOf (tok : Text) (h : IsBooleanToken tok) :
    includes (toLowerCaseAscii tok) (utf16 "true") = booleanOf tok := by
  have halt : booleanAlternatives.map (List.map canonicalize) =
      [[34, 84, 82, 85, 69, 34], [84, 82, 85, 69], [34, 70, 65, 76, 83, 69, 34],
       [70, 65, 76, 83, 69]] := by decide
  unfold IsBooleanToken at h
  rw [halt] at h
  rw [← toLowerCaseAscii_canonicalize tok]
  unfold booleanOf
  simp only [List.mem_cons, List.mem_singleton, List.mem_nil_iff, or_false] at h
  rcases h with h | h | h | h <;> (rw [h]; decide)

/-- What `expectEqualityOp` leaves for `nextBoolean` on an optional `=` and a token
that is not another operator: no message, and a parser on whitespace and the token,
or, for the token `=` without an operator before it, on what follows the token. -/
theorem expectEqualityOp_token (p : LineParser) (line : LineInfo) (w1 : Text)
    (op : Option Text) (w2 tok w3 : Text)
    (hp : p.text = w1 ++ operatorPart op w2 ++ tok ++ w3)
    (hw1 : ∀ c ∈ w1, isSpace c = true)
    (hop : ∀ o, op = some o → o = utf16 "=" ∧ w2 ≠ [] ∧ ∀ c ∈ w2, isSpace c = true)
    (htok : IsToken tok) (hnop : op = none → tok ∈ operatorAlternatives → tok = utf16 "=")
    (hw3 : ∀ c ∈ w3, isSpace c = true) :
    ∃ p2, expectEqualityOp p line = (none, p2) ∧ p2.originalLength = p.originalLength ∧
      p2.textStartIndex = p.textStartIndex ∧
      ((∃ wz, p2.text = wz ++ tok ++ w3 ∧ (∀ c ∈ wz, isSpace c = true) ∧
          p2.currentIndex + wz.length =
            p.currentIndex + w1.length + (operatorPart op w2).length) ∨
       (p2.text = w3 ∧ ¬ IsBooleanToken tok)) := by
  have hb3 : atBoundary w3 = true := atBoundary_of_spaces w3 hw3
  cases op with
  | some o =>
    obtain ⟨rfl, hw2ne, hw2⟩ := hop o rfl
    simp only [operatorPart] at hp ⊢
    have hp2 : p.text = w1 ++ utf16 "=" ++ (w2 ++ tok ++ w3) := by rw [hp]; simp
    refine ⟨_, expectEqualityOp_equals p line w1 (w2 ++ tok ++ w3) hp2 hw1
      (by rw [List.append_assoc]; exact atBoundary_of_spaces_append w2 _ hw2 hw2ne), rfl, rfl,
      Or.inl ⟨w2, rfl, hw2, ?_⟩⟩
    simp only [List.length_append, Nat.cast_add]
    omega
  | none =>
    simp only [operatorPart, List.append_nil] at hp ⊢
    by_cases hin : tok ∈ operatorAlternatives
    · have he := hnop rfl hin
      subst he
      refine ⟨_, expectEqualityOp_equals p line w1 w3 hp hw1 hb3, rfl, rfl, Or.inr ⟨rfl, ?_⟩⟩
      decide
    · have hre : operatorRegex p.text = none := by
        rw [hp]; exact operatorRegex_token_none w1 tok w3 hw1 htok hb3 hin
      refine ⟨p, ?_, rfl, rfl, Or.inl ⟨w1, hp, hw1, by simp⟩⟩
      unfold expectEqualityOp LineParser.nextOperator
      rw [parseSingleValue_of_none p _ hre]
      rfl

theorem nextBoolean_none (p : LineParser) (h : booleanRegex p.text = none) :
    p.nextBoolean = ({ found := false, startIndex := 0, endIndex := 0, value := none }, p) := by
  unfold LineParser.nextBoolean
  rw [parseSingleValue_of_none p _ h]
  rfl

/-- `processBooleanRule` on an optional `=` and one token that is not another
operator, followed by whitespace only: for a boolean token the value it stands for,
over the token's columns; for any other token the format error first, and nothing
after it unless the token starts with `#`. -/
theorem processBooleanRule_token (p : LineParser) (line : LineInfo) (w1 : Text)
    (op : Option Text) (w2 tok w3 : Text)
    (hp : p.text = w1 ++ operatorPart op w2 ++ tok ++ w3)
    (hw1 : ∀ c ∈ w1, isSpace c = true)
    (hop : ∀ o, op = some o → o = utf16 "=" ∧ w2 ≠ [] ∧ ∀ c ∈ w2, isSpace c = true)
    (htok : IsToken tok) (hnop : op = none → tok ∈ operatorAlternatives → tok = utf16 "=")
    (hw3 : ∀ c ∈ w3, isSpace c = true) :
    (IsBooleanToken tok →
      (processBooleanRule p line).2.empty = true ∧
      (processBooleanRule p line).1 =
        { values := [{ value := Value.boolean (booleanOf tok),
                       range := columns line.number
                         (p.currentIndex + w1.length + (operatorPart op w2).length)
                         (p.currentIndex + w1.length + (operatorPart op w2).length +
                           tok.length) }] }) ∧
    (¬ IsBooleanToken tok →
      (processBooleanRule p line).1.invalid = true ∧
      (processBooleanRule p line).1.values = [] ∧
      ∃ more, (processBooleanRule p line).1.messages =
        errorMessage line.file (Range.onRow line.number p.textStartIndex p.originalLength)
          (utf16 "Invalid format. Expected \"" ++ line.keyword ++ utf16 " <Boolean>\".")
          (utf16 "http://pathofexile.gamepedia.com/Item_filter#Conditions")
          (some (utf16 "A Boolean is a binary value that can be either 'True' or 'False'")) ::
          more ∧
        (tok.head? ≠ some 35 → more = [])) := by
  have hb3 : atBoundary w3 = true := atBoundary_of_spaces w3 hw3
  have ht3 : textRegex w3 = false := textRegex_of_spaces w3 hw3
  obtain ⟨p2, hexp, ho, hs, hcase⟩ := expectEqualityOp_token p line w1 op w2 tok w3 hp hw1 hop
    htok hnop hw3
  constructor
  · intro hbt
    rcases hcase with ⟨wz, ht, hwz, hc⟩ | ⟨-, hn⟩
    · have hnb := nextBoolean_token p2 wz tok w3 ht hwz hbt hb3
      have hrep : ∀ r : ProcessResult, reportTrailingComment
          { p2 with text := w3, currentIndex := p2.currentIndex + wz.length + tok.length,
                    empty := if !textRegex w3 then true else p2.empty } line r =
          (r, { p2 with text := w3, currentIndex := p2.currentIndex + wz.length + tok.length,
                        empty := if !textRegex w3 then true else p2.empty }) :=
        fun r => reportTrailingComment_of_spaces _ line r hw3
      unfold processBooleanRule
      rw [hexp]
      dsimp only
      rw [hnb]
      simp only [Bool.not_true, Bool.false_eq_true, if_false, Option.getD_some]
      rw [hrep]
      refine ⟨by simp [ht3], ?_⟩
      dsimp only
      rw [Range.onRow_of_le _ _ _ (by omega), hc, includes_true_booleanOf tok hbt]
    · exact absurd hbt hn
  · intro hnb
    have hre : booleanRegex p2.text = none := by
      rcases hcase with ⟨wz, ht, hwz, -⟩ | ⟨ht, -⟩
      · rw [ht]; exact booleanRegex_token_none wz tok w3 hwz htok hb3 hnb
      · rw [ht]; exact regex_of_spaces Extractor.boolean w3 hw3
    have hfail := reportTrailingComment_extends p2 line
      (({} : ProcessResult).fail (errorMessage line.file
        (Range.onRow line.number p2.textStartIndex p2.originalLength)
        (utf16 "Invalid format. Expected \"" ++ line.keyword ++ utf16 " <Boolean>\".")
        (utf16 "http://pathofexile.gamepedia.com/Item_filter#Conditions")
        (some (utf16 "A Boolean is a binary value that can be either 'True' or 'False'"))))
      rfl
    have hvals : ∀ r : ProcessResult, (reportTrailingComment p2 line r).1.values = r.values := by
      intro r
      rcases reportTrailingComment_eq p2 line r with ⟨-, h1⟩ | ⟨v, c, -, h1, -, -⟩
      · rw [h1]
      · rw [h1]; rfl
    unfold processBooleanRule
    rw [hexp]
    dsimp only
    rw [nextBoolean_none p2 hre]
    simp only [Bool.not_false, if_true]
    rw [hs, ho] at hfail ⊢
    obtain ⟨f1, tail, f2⟩ := hfail
    refine ⟨f1, by rw [hvals]; rfl, tail, by rw [f2]; rfl, ?_⟩
    intro hh
    have hnone : commentRegex p2.text = none := by
      rcases hcase with ⟨wz, ht, hwz, -⟩ | ⟨ht, -⟩
      · apply commentRegex_of_head
        intro r hr
        rw [ht, dropWhile_space_token wz tok w3 hwz htok.1 htok.2] at hr
        apply hh
        obtain ⟨hne, -⟩ := htok
        cases tok with
        | nil => exact absurd rfl hne
        | cons a b =>
          simp only [List.cons_append, List.cons.injEq] at hr
          rw [hr.1]; rfl
      · rw [ht]; exact commentRegex_of_spaces w3 hw3
    rcases reportTrailingComment_eq p2 line
      (({} : ProcessResult).fail (errorMessage line.file
        (Range.onRow line.number p.textStartIndex p.originalLength)
        (utf16 "Invalid format. Expected \"" ++ line.keyword ++ utf16 " <Boolean>\".")
        (utf16 "http://pathofexile.gamepedia.com/Item_filter#Conditions")
        (some (utf16 "A Boolean is a binary value that can be either 'True' or 'False'"))))
      with ⟨-, h1⟩ | ⟨v, c, h0, -, -, -⟩
    · rw [h1] at f2
      simp only [ProcessResult.fail, List.nil_append] at f2
      have := congrArg List.length f2
      simp only [List.length_singleton, List.length_append, List.length_cons,
        List.length_nil] at this
      exact List.eq_nil_of_length_eq_zero (by omega)
    · rw [hnone] at h0; cases h0

/-- C22. For every line made of `Identified` or `Corrupted`, an `=` if one is written,
and one further whitespace-delimited token (one that is not itself another operator
standing where the operator would), followed by whitespace only: the result is a Rule;
it is not invalid exactly when the token is `true` or `false` in any letter case, bare
or in double quotes, and then it has no diagnostics and holds the single value that
token stands for (true for a true token, false for a false one) over the token's
columns; otherwise it is invalid, holds no value, and its first diagnostic is the
error "Invalid format. Expected "<keyword> <Boolean>"." from the start of the line's
text to the end of the line, the only diagnostic unless the token starts with `#`. -/
theorem parseLine_boolean (env : Env) (row : Int) (editor : Editor) (itemData : ItemData)
    (kw w0 w1 : Text) (op : Option Text) (w2 tok w3 : Text)
    (hk : kw = utf16 "Identified" ∨ kw = utf16 "Corrupted")
    (hw0 : Blank w0) (hw1 : Blank w1) (hw1ne : w1 ≠ [])
    (hop : ∀ o, op = some o → o = utf16 "=" ∧ Blank w2 ∧ w2 ≠ [])
    (htok : IsToken tok) (hnop : op = none → tok ∈ operatorAlternatives → tok = utf16 "=")
    (hw3 : Blank w3) :
    ∃ r, parseLine env
        { lineText := w0 ++ kw ++ (w1 ++ operatorPart op w2 ++ tok ++ w3),
          row := row, editor := editor, itemData := itemData } = Except.ok (r, editor) ∧
      r.type = LineType.Rule ∧
      (r.invalid = false ↔ IsBooleanToken tok) ∧
      (IsBooleanToken tok →
        r.messages = [] ∧
        r.values =
          [{ value := Value.boolean (booleanOf tok),
             range := columns row
               (w0.length + kw.length + w1.length + (operatorPart op w2).length)
               (w0.length + kw.length + w1.length + (operatorPart op w2).length +
                 tok.length) }]) ∧
      (¬ IsBooleanToken tok →
        r.invalid = true ∧ r.values = [] ∧
        ∃ m more, r.messages = m :: more ∧ m.severity = Severity.error ∧
          m.excerpt = utf16 "Invalid format. Expected \"" ++ kw ++ utf16 " <Boolean>\"." ∧
          (∃ s0 : Int, 0 ≤ s0 ∧ s0 ≤ w0.length ∧
            m.location.position = columns row s0
              (w0 ++ kw ++ (w1 ++ operatorPart op w2 ++ tok ++ w3)).length) ∧
          (tok.head? ≠ some 35 → more = [])) := by
  obtain ⟨hs1, hs2, hkne, hkw⟩ := processRule_keyword env
    { text := [], currentIndex := 0, originalLength := 0, textStartIndex := 0, textEndIndex := 0,
      empty := true }
    { editor := editor, number := row, file := editor.path, keyword := kw } [] [] kw _
    (processRule_boolean env _ _ [] [] kw hk)
  have heol : eolRegex (w1 ++ operatorPart op w2 ++ tok ++ w3) = false := by
    rw [eolRegex_append, eolRegex_append, eolRegex_append, hw1.eolRegex,
      eolRegex_equals_part op w2 hop, eolRegex_of_not_space tok htok.2, hw3.eolRegex]
    rfl
  obtain ⟨p1, hp1t, hp1c, hp1o, -, hp1s, hpl⟩ := parseLine_rule_line_start env
    { lineText := w0 ++ kw ++ (w1 ++ operatorPart op w2 ++ tok ++ w3),
      row := row, editor := editor, itemData := itemData }
    w0 kw (w1 ++ operatorPart op w2 ++ tok ++ w3) rfl hw0 hkne hkw
    (by rw [List.append_assoc, List.append_assoc]
        exact atBoundary_of_spaces_append w1 _ hw1.isSpace hw1ne)
    heol ⟨hs1, hs2⟩
  dsimp only at hpl hp1o
  obtain ⟨hyes, hno⟩ := processBooleanRule_token p1
    { editor := editor, number := row, file := editor.path, keyword := kw }
    w1 op w2 tok w3 hp1t hw1.isSpace
    (fun o ho => ⟨(hop o ho).1, (hop o ho).2.2, (hop o ho).2.1.isSpace⟩) htok hnop hw3.isSpace
  rw [hpl, processRule_boolean env _ _ _ _ kw hk]
  simp only [finishRule, plainRule]
  change ∃ r, Except.ok (ruleResult _ _ _ (processBooleanRule p1 _).1
    (processBooleanRule p1 _).2 editor, editor) = Except.ok (r, editor) ∧ _
  generalize processBooleanRule p1 _ = pr at hyes hno ⊢
  obtain ⟨res, pp⟩ := pr
  dsimp only at hyes hno ⊢
  refine ⟨_, rfl, ?_⟩
  by_cases hbt : IsBooleanToken tok
  · obtain ⟨hemp, hres⟩ := hyes hbt
    obtain ⟨h1, -, h3, h4, -, h6⟩ := ruleResult_of_clean
      { lineText := w0 ++ kw ++ (w1 ++ operatorPart op w2 ++ tok ++ w3),
        row := row, editor := editor, itemData := itemData }
      { name := kw, range := Range.onRow row w0.length ((w0.length + kw.length : Nat) : Int) }
      Category.condition res pp editor (by rw [hres]) (by rw [hres]) hemp
    refine ⟨h1, ?_, fun _ => ⟨h4, ?_⟩, fun h => absurd hbt h⟩
    · rw [h3]; simp [hbt]
    · rw [h6, hres, hp1c]
  · obtain ⟨hinv, hvals, more, hmsg, hmore⟩ := hno hbt
    obtain ⟨h1, -, h3, h4, -, h6⟩ := ruleResult_of_invalid
      { lineText := w0 ++ kw ++ (w1 ++ operatorPart op w2 ++ tok ++ w3),
        row := row, editor := editor, itemData := itemData }
      { name := kw, range := Range.onRow row w0.length ((w0.length + kw.length : Nat) : Int) }
      Category.condition res pp editor hinv (by rw [hmsg]; simp)
    refine ⟨h1, ?_, fun h => absurd h hbt, fun _ => ⟨h3, by rw [h6, hvals], _, more,
      by rw [h4, hmsg], rfl, rfl, ⟨p1.textStartIndex, ?_, ?_, ?_⟩, hmore⟩⟩
    · rw [h3]; simp [hbt]
    · rcases hp1s with h | h <;> omega
    · rcases hp1s with h | h <;> omega
    · simp only [errorMessage]
      rw [Range.onRow_of_le _ _ _ (by rcases hp1s with h | h <;> rw [h, hp1o] <;>
        simp only [List.length_append, Nat.cast_add] <;> omega), hp1o]

/-- C22, at the line `Corrupted = "TRUE"`: the hypotheses hold, the token is a boolean
token that stands for true, and the result is valid with the single value true at
columns 12-18 and no diagnostics. -/
theorem parseLine_boolean_witness :
    (Blank [] ∧ Blank [32] ∧ IsToken (utf16 "\"TRUE\"") ∧ IsBooleanToken (utf16 "\"TRUE\"") ∧
      booleanOf (utf16 "\"TRUE\"") = true ∧
      [] ++ utf16 "Corrupted" ++
        ([32] ++ operatorPart (some (utf16 "=")) [32] ++ utf16 "\"TRUE\"" ++ []) =
        utf16 "Corrupted = \"TRUE\"") ∧
    ∃ r, parseLine asciiEnv
        { lineText := utf16 "Corrupted = \"TRUE\"", row := 0,
          editor := { path := none, line := utf16 "Corrupted = \"TRUE\"" },
          itemData := sampleItems } =
          Except.ok (r, { path := none, line := utf16 "Corrupted = \"TRUE\"" }) ∧
      r.type = LineType.Rule ∧ r.invalid = false ∧ r.messages = [] ∧
      r.values = [{ value := Value.boolean true, range := columns 0 12 18 }] := by
  refine ⟨⟨by decide, by decide, by decide, by decide, by decide, by decide⟩, ?_⟩
  obtain ⟨r, h1, h2, h3, h4, -⟩ := parseLine_boolean asciiEnv 0
    { path := none, line := utf16 "Corrupted = \"TRUE\"" } sampleItems (utf16 "Corrupted") []
    [32] (some (utf16 "=")) [32] (utf16 "\"TRUE\"") [] (Or.inr rfl) (by decide) (by decide)
    (by decide) (fun o ho => by cases ho; exact ⟨rfl, by decide, by decide⟩) (by decide)
    (fun h => by cases h) (by decide)
  have hg : IsBooleanToken (utf16 "\"TRUE\"") := by decide
  exact ⟨r, h1, h2, h3.mpr hg, (h4 hg).1, (h4 hg).2⟩

/-- Lines of `Identified`, evaluated: `false` gives the value false; `yes`, `truex`
and a lone `=` give the format error over the whole line; a token that starts with
`#` gives the format error and then the trailing-comment error; and the operator `<`
in place of the token gives the operator error. -/
theorem parseLine_boolean_scenarios :
    [utf16 "Identified false", utf16 "Identified yes", utf16 "Identified truex",
     utf16 "Identified =", utf16 "Identified #x", utf16 "Identified <"].map
      (fun line => (parseLine asciiEnv (argsFor line)).toOption.map
        (fun x => (x.1.invalid, x.1.values.map (fun v => v.value),
          x.1.messages.map (fun m => (m.location.position, m.excerpt))))) =
    [some (false, [Value.boolean false], []),
     some (true, [], [(columns 0 0 14, utf16 "Invalid format. Expected \"Identified <Boolean>\".")]),
     some (true, [], [(columns 0 0 16, utf16 "Invalid format. Expected \"Identified <Boolean>\".")]),
     some (true, [], [(columns 0 0 12, utf16 "Invalid format. Expected \"Identified <Boolean>\".")]),
     some (true, [],
       [(columns 0 0 13, utf16 "Invalid format. Expected \"Identified <Boolean>\"."),
        (columns 0 11 13,
          utf16 "A trailing comment for a \"Identified\" rule will result in an error.")]),
     some (true, [],
       [(columns 0 11 12, utf16 ("Invalid operator for \"Identified\". " ++
          "Only the '=' operator is supported for this rule."))])] := by
  rfl

theorem isIgnored_iff (p : LineParser) :
    p.isIgnored = true ↔ p.empty = true ∨ p.isCommented = true := by
  simp [LineParser.isIgnored]

/-- What the code does for C28: `isCommented` holds exactly for the texts that are
whitespace, a `#`, and then text without a line terminator (U+2028 and U+2029 count
as such for the `.` of the regex) up to its last character that is not whitespace. -/
theorem isCommented_iff_isComment (p : LineParser) :
    p.isCommented = true ↔ IsComment p.text :=
  commentRegex_isSome_iff_isComment p.text

/-- C28, at the remaining text `#a<U+2028>b`, which the constructor accepts as one
line: its first character that is not whitespace is `#`, yet `isCommented` returns
false, and so does `isIgnored`; on `#a b`, with a space in place of U+2028, both
return true, as they do on a bare `#` and on `  #  `. -/
theorem isCommented_line_separator :
    (LineParser.new [35, 97, 8232, 98]).toOption.map
      (fun p => ((p.text.dropWhile isSpace).head?, p.isCommented, p.isIgnored)) =
      some (some 35, false, false) ∧
    (LineParser.new [35, 97, 32, 98]).toOption.map
      (fun p => ((p.text.dropWhile isSpace).head?, p.isCommented, p.isIgnored)) =
      some (some 35, true, true) ∧
    (LineParser.new (utf16 "#")).toOption.map (fun p => (p.isCommented, p.isIgnored)) =
      some (true, true) ∧
    (LineParser.new (utf16 "  #  ")).toOption.map (fun p => (p.isCommented, p.isIgnored)) =
      some (true, true) := by
  decide

theorem nextNumber_found_iff (p : LineParser) :
    (p.nextNumber).1.found = true ↔
      firstToken p.text ≠ [] ∧ ∀ c ∈ firstToken p.text, isNumberChar c = true := by
  have hiff := classToken_eq_some_iff isNumberChar (fun _ h => isNumberChar_not_space h) p.text
  unfold LineParser.nextNumber
  cases hre : numberRegex p.text with
  | none =>
    rw [parseSingleValue_of_none p _ hre]
    simp only [Bool.false_eq_true, false_iff, not_and]
    intro h1 h2
    have := (hiff (p.text.takeWhile isSpace) (firstToken p.text)).mpr ⟨rfl, rfl, h1, h2⟩
    unfold numberRegex at hre
    rw [hre] at this
    cases this
  | some wv =>
    obtain ⟨ws, w⟩ := wv
    rw [parseSingleValue_of_some p _ ws w hre]
    simp only [true_iff]
    unfold numberRegex at hre
    obtain ⟨-, rfl, h3, h4⟩ := (hiff ws w).mp hre
    exact ⟨h3, h4⟩

/-- C29, at the remaining texts `1-2`, `-` and `--5`, none of them an integer literal:
`nextNumber` succeeds on each, over the whole token, with the values 1, NaN and NaN;
on the integer literals `-5` and `12` it returns -5 and 12, and on `1x` it finds
nothing. -/
theorem nextNumber_accepts_dashes :
    [utf16 "1-2", utf16 "-", utf16 "--5", utf16 "-5", utf16 "12", utf16 "1x"].map
      (fun t => (LineParser.new t).toOption.map fun p => (p.nextNumber).1) =
    [some { found := true, startIndex := 0, endIndex := 3, value := some (JSNum.ofInt 1) },
     some { found := true, startIndex := 0, endIndex := 1, value := some JSNum.NaN },
     some { found := true, startIndex := 0, endIndex := 3, value := some JSNum.NaN },
     some { found := true, startIndex := 0, endIndex := 2, value := some (JSNum.ofInt (-5)) },
     some { found := true, startIndex := 0, endIndex := 2, value := some (JSNum.ofInt 12) },
     some { found := false, startIndex := 0, endIndex := 0, value := none }] := by
  decide

theorem foldl_digits (ds : Text) (h : ∀ c ∈ ds, isDigit c = true) (a : Nat) :
    ds.foldl (fun acc c => acc * 10 + (digitValue c).getD 0) a =
      ds.foldl (fun acc c => acc * 10 + (c - 48)) a := by
  induction ds generalizing a with
  | nil => rfl
  | cons d ds ih =>
    have hd := h d (List.mem_cons_self _ _)
    simp only [isDigit, Bool.and_eq_true, decide_eq_true_eq] at hd
    have hv : (digitValue d).getD 0 = d - 48 := by
      simp [digitValue, hd.1, hd.2]
    simp only [List.foldl_cons, hv]
    exact ih (fun c hc => h c (List.mem_cons_of_mem _ hc)) _

theorem isRadixDigit_of_isDigit {c : Nat} (h : isDigit c = true) : isRadixDigit 10 c = true := by
  simp only [isDigit, Bool.and_eq_true, decide_eq_true_eq] at h
  simp only [isRadixDigit, digitValue, h.1, h.2, and_self, if_true, decide_eq_true_eq]
  omega

theorem parseInt_digits (negative : Bool) (s1 ds : Text) (hne : ds ≠ [])
    (hd : ∀ c ∈ ds, isDigit c = true) (hs1 : s1.dropWhile isSpace = s1)
    (hneg : (s1.head? == some 45) = negative)
    (hs2 : (if s1.head? == some 45 || s1.head? == some 43 then s1.tail else s1) = ds) :
    parseInt s1 10 = JSNum.ofInt (literalValue negative ds) := by
  have htake : ds.takeWhile (isRadixDigit 10) = ds := by
    rw [List.takeWhile_eq_self_iff]
    exact fun c hc => isRadixDigit_of_isDigit (hd c hc)
  have h16 : ((10 : Nat) == 16) = false := by decide
  have hem : ds.isEmpty = false := by
    cases ds with
    | nil => exact absurd rfl hne
    | cons a b => rfl
  unfold parseInt
  simp only [hs1]
  simp only [hs2]
  simp only [hneg, h16, Bool.false_and, Bool.false_eq_true, if_false, htake, hem,
    foldl_digits ds hd 0, literalValue, decimalValue]

/-- On an integer literal, `parseInt` gives the integer it denotes. -/
theorem parseInt_integerLiteral (negative : Bool) (ds : Text) (hne : ds ≠ [])
    (hd : ∀ c ∈ ds, isDigit c = true) :
    parseInt (integerLiteral negative ds) 10 = JSNum.ofInt (literalValue negative ds) := by
  cases ds with
  | nil => exact absurd rfl hne
  | cons d r =>
    have hd0 := hd d (List.mem_cons_self _ _)
    have hsp : isSpace d = false := isDigit_not_space hd0
    have hdd : 48 ≤ d ∧ d ≤ 57 := by
      simpa [isDigit] using hd0
    have h45 : d ≠ 45 := by omega
    have h43 : d ≠ 43 := by omega
    cases negative with
    | true =>
      have hs45 : isSpace 45 = false := by decide
      exact parseInt_digits true (45 :: d :: r) (d :: r) hne hd
        (by simp [List.dropWhile, hs45]) (by simp) (by simp)
    | false =>
      exact parseInt_digits false (d :: r) (d :: r) hne hd
        (by simp [List.dropWhile, hsp]) (by simp [h45]) (by simp [h45, h43])

/-- The part of C29 that holds: on an integer literal that stands as the next
whitespace-delimited token, `nextNumber` succeeds over the columns of the literal and
returns the integer it denotes. -/
theorem nextNumber_integer_literal (p : LineParser) (ws : Text) (negative : Bool)
    (ds rest : Text) (hp : p.text = ws ++ integerLiteral negative ds ++ rest)
    (hws : ∀ c ∈ ws, isSpace c = true) (hne : ds ≠ []) (hd : ∀ c ∈ ds, isDigit c = true)
    (hb : atBoundary rest = true) :
    (p.nextNumber).1 =
      { found := true, startIndex := p.currentIndex + ws.length,
        endIndex := p.currentIndex + ws.length + (integerLiteral negative ds).length,
        value := some (JSNum.ofInt (literalValue negative ds)) } := by
  have htok : IsNumberToken (integerLiteral negative ds) := by
    constructor
    · cases negative <;> simp [integerLiteral, hne]
    · intro c hc
      cases negative with
      | true =>
        simp only [integerLiteral, if_true, List.mem_cons] at hc
        rcases hc with rfl | hc
        · decide
        · exact isNumberChar_of_isDigit (hd c hc)
      | false =>
        simp only [integerLiteral, Bool.false_eq_true, if_false] at hc
        exact isNumberChar_of_isDigit (hd c hc)
  obtain ⟨p2, h1, -⟩ := nextNumber_step p ws (integerLiteral negative ds) rest hp hws htok hb
  rw [h1, numberToken, parseInt_integerLiteral negative ds hne hd]

/-- The integer-literal part of C29 at the text ` -15 x`: `nextNumber` reads -15 at
columns 1-4. -/
theorem nextNumber_integer_literal_sample :
    (({ text := utf16 " -15 x", currentIndex := 0, originalLength := 6, textStartIndex := 1,
        textEndIndex := 6, empty := false } : LineParser).nextNumber).1 =
      { found := true, startIndex := 1, endIndex := 4, value := some (JSNum.ofInt (-15)) } := by
  decide

theorem decimalExpansion_hexDigits (a1 a2 b1 b2 c1 c2 : Nat) (ad : Option (Nat × Nat)) :
    decimalExpansion (35 :: hexDigits a1 a2 b1 b2 c1 c2 ad) =
      decimalChannels (hexByte a1 a2) (hexByte b1 b2) (hexByte c1 c2)
        (ad.map fun d => hexByte d.1 d.2) := by
  cases ad with
  | none =>
    simp [decimalExpansion, hexDigits, hexPairs, decimalChannels, alphaPart, List.intercalate]
  | some d =>
    obtain ⟨d1, d2⟩ := d
    simp [decimalExpansion, hexDigits, hexPairs, decimalChannels, alphaPart, List.intercalate]

/-- What a match of the hex colour regex looks like: leading whitespace, `#` and six or
eight hex digits, and a rest that is empty or starts with whitespace. -/
theorem colorHexRegex_digits (t ws v : Text) (h : colorHexRegex t = some (ws, v)) :
    ∃ a1 a2 b1 b2 c1 c2 ad rest, v = 35 :: hexDigits a1 a2 b1 b2 c1 c2 ad ∧
      (∀ c ∈ hexDigits a1 a2 b1 b2 c1 c2 ad, isHexDigit c = true) ∧
      t = ws ++ v ++ rest ∧ (∀ c ∈ ws, isSpace c = true) ∧ atBoundary rest = true := by
  unfold colorHexRegex at h
  split at h
  · rename_i r hr
    have ht : t = t.takeWhile isSpace ++ 35 :: r := by
      rw [← hr, List.takeWhile_append_dropWhile]
    split at h
    · rename_i hc
      simp only [Bool.and_eq_true, beq_iff_eq, List.all_eq_true] at hc
      simp only [Option.some.injEq, Prod.mk.injEq] at h
      obtain ⟨rfl, rfl⟩ := h
      obtain ⟨⟨hlen, hall⟩, hb⟩ := hc
      match hk : r.take 8, hlen with
      | [a1, a2, b1, b2, c1, c2, d1, d2], _ =>
        refine ⟨a1, a2, b1, b2, c1, c2, some (d1, d2), r.drop 8, rfl, ?_, ?_,
          fun c hc => List.mem_takeWhile_imp hc, hb⟩
        · rw [hk] at hall; exact hall
        · conv_lhs => rw [ht]
          rw [← hk]
          simp
    · split at h
      · rename_i hc
        simp only [Bool.and_eq_true, beq_iff_eq, List.all_eq_true] at hc
        simp only [Option.some.injEq, Prod.mk.injEq] at h
        obtain ⟨rfl, rfl⟩ := h
        obtain ⟨⟨hlen, hall⟩, hb⟩ := hc
        match hk : r.take 6, hlen with
        | [a1, a2, b1, b2, c1, c2], _ =>
          refine ⟨a1, a2, b1, b2, c1, c2, none, r.drop 6, rfl, ?_, ?_,
            fun c hc => List.mem_takeWhile_imp hc, hb⟩
          · rw [hk] at hall; exact hall
          · conv_lhs => rw [ht]
            rw [← hk]
            simp
      · simp at h
  · simp at h

theorem dropTrailingSpace_append_of_last (a b : Text)
    (ha : ∀ c, a.getLast? = some c → isSpace c = false) :
    dropTrailingSpace (a ++ b) = a ++ dropTrailingSpace b := by
  obtain ⟨tail, h1, h2⟩ := dropTrailingSpace_split b
  conv_lhs => rw [h1, ← List.append_assoc]
  apply dropTrailingSpace_append_spaces _ _ _ h2
  intro c hc
  by_cases hd : dropTrailingSpace b = []
  · rw [hd, List.append_nil] at hc
    exact ha c hc
  · rw [List.getLast?_append_of_ne_nil a hd] at hc
    exact dropTrailingSpace_last b c hc

theorem hexLiteral_last (a1 a2 b1 b2 c1 c2 : Nat) (ad : Option (Nat × Nat))
    (hex : ∀ c ∈ hexDigits a1 a2 b1 b2 c1 c2 ad, isHexDigit c = true) (x : Text) :
    ∀ c, (x ++ 35 :: hexDigits a1 a2 b1 b2 c1 c2 ad).getLast? = some c → isSpace c = false := by
  have hne : hexDigits a1 a2 b1 b2 c1 c2 ad ≠ [] := by
    cases ad with
    | none => simp [hexDigits]
    | some d => obtain ⟨d1, d2⟩ := d; simp [hexDigits]
  have : x ++ 35 :: hexDigits a1 a2 b1 b2 c1 c2 ad =
      (x ++ [35]) ++ hexDigits a1 a2 b1 b2 c1 c2 ad := by simp
  rw [this]
  apply getLast_append_token _ _ hne
  intro c hc
  cases hs : isSpace c with
  | false => rfl
  | true =>
    have := isHexDigit_of_space hs
    rw [hex c hc] at this
    cases this

theorem decimalChannels_last (r g b : Nat) (a : Option Nat)
    (hr : r < 256) (hg : g < 256) (hb : b < 256) (ha : ∀ n, a = some n → n < 256) (x : Text) :
    ∀ c, (x ++ decimalChannels r g b a).getLast? = some c → isSpace c = false := by
  obtain ⟨-, -, init, last, h1, h2, h3⟩ := decimalChannels_shape r g b a hr hg hb ha
  rw [h1, ← List.append_assoc]
  exact getLast_append_token _ _ h2 (fun c hc => isDigit_not_space (h3 c hc))

/-- The hex statement of the colour validator on a parser that is in step with the
buffer row (its text is the row from its offset on, `originalLength` the row's length,
`textEndIndex` the column after the row's last character that is not whitespace) and
whose text starts with a hex literal: the literal is replaced in the row by its decimal
expansion, and the parser is pointed at the rewritten row from the literal's first
column to the column after its last character that is not whitespace. -/
theorem hexStage_in_step (p : LineParser) (li : LineInfo) (pre ws v : Text)
    (hre : colorHexRegex p.text = some (ws, v))
    (hline : li.editor.line = pre ++ p.text) (hci : p.currentIndex = pre.length)
    (hol : p.originalLength = li.editor.line.length)
    (hte : p.textEndIndex = (dropTrailingSpace li.editor.line).length) :
    ∃ rest, p.text = ws ++ v ++ rest ∧
      hexStage p li =
        ({ text := decimalExpansion v ++ dropTrailingSpace rest,
           currentIndex := ((pre ++ ws).length : Int),
           originalLength := ((pre ++ ws ++ decimalExpansion v ++ rest).length : Int),
           textStartIndex := p.textStartIndex,
           textEndIndex := ((pre ++ ws ++ decimalExpansion v ++ dropTrailingSpace rest).length : Int),
           empty := if !textRegex rest then true else p.empty },
         { path := li.editor.path, line := pre ++ ws ++ decimalExpansion v ++ rest }) := by
  obtain ⟨a1, a2, b1, b2, c1, c2, ad, rest, rfl, hex, ht, hws, hb⟩ :=
    colorHexRegex_digits p.text ws v hre
  refine ⟨rest, ht, ?_⟩
  obtain ⟨sp, hsp1, hsp2⟩ := dropTrailingSpace_split rest
  have hdts : dropTrailingSpace li.editor.line =
      (pre ++ ws ++ 35 :: hexDigits a1 a2 b1 b2 c1 c2 ad) ++ dropTrailingSpace rest := by
    rw [hline, ht, ← dropTrailingSpace_append_of_last _ _
      (hexLiteral_last a1 a2 b1 b2 c1 c2 ad hex (pre ++ ws))]
    simp
  have hdrop : p.text.drop (ws.length + (35 :: hexDigits a1 a2 b1 b2 c1 c2 ad).length) = rest := by
    conv_lhs => rw [ht]
    exact drop_token ws _ _
  have hed : li.editor =
      Editor.mk li.editor.path ((pre ++ ws) ++ (35 :: hexDigits a1 a2 b1 b2 c1 c2 ad) ++
        (dropTrailingSpace rest ++ sp)) := by
    have h0 : li.editor = Editor.mk li.editor.path li.editor.line := rfl
    rw [h0, hline, ht, ← hsp1]
    simp
  have hlen : (li.editor.line.length : Int) =
      ((pre ++ ws).length + rest.length : Nat) +
        ((35 :: hexDigits a1 a2 b1 b2 c1 c2 ad).length : Nat) := by
    rw [hline, ht]
    simp only [List.length_append, Nat.cast_add]
    ring
  rw [decimalExpansion_hexDigits]
  unfold hexStage LineParser.nextHex
  rw [parseSingleValue_of_some p _ _ _ hre, hdrop]
  dsimp only
  have htr : truthyText (35 :: hexDigits a1 a2 b1 b2 c1 c2 ad) = true := rfl
  rw [htr]
  simp only [Bool.and_self, if_true]
  cases ad with
  | none =>
    simp only [hexDigits, List.mem_cons, List.mem_singleton, forall_eq_or_imp, forall_eq,
      List.mem_nil_iff, IsEmpty.forall_iff, implies_true, and_true] at hex
    obtain ⟨h1, h2, h3, h4, h5, h6⟩ := hex
    simp only [hexDigits] at hed hlen hdts ⊢
    rw [normalizeHex_six_tail _ li li.editor.path (pre ++ ws) (dropTrailingSpace rest) sp
      (((pre ++ ws).length + rest.length : Nat) : Int) a1 a2 b1 b2 c1 c2 _ h1 h2 h3 h4 h5 h6 hed
      (by simp [hci]) (by simp [hci]; omega) (by simp [hci]; omega)
      (by simp [hol, hlen]) (by simp [hte, hdts]; omega)]
    simp only [Option.map_none']
    congr 1
    · congr 1
      · simp only [List.length_append, Nat.cast_add]; ring
      · simp only [List.length_append, Nat.cast_add]; ring
    · rw [← hsp1]
  | some d =>
    obtain ⟨d1, d2⟩ := d
    simp only [hexDigits, List.mem_cons, List.mem_singleton, forall_eq_or_imp, forall_eq,
      List.mem_nil_iff, IsEmpty.forall_iff, implies_true, and_true] at hex
    obtain ⟨h1, h2, h3, h4, h5, h6, h7, h8⟩ := hex
    simp only [hexDigits] at hed hlen hdts ⊢
    rw [normalizeHex_eight_tail _ li li.editor.path (pre ++ ws) (dropTrailingSpace rest) sp
      (((pre ++ ws).length + rest.length : Nat) : Int) a1 a2 b1 b2 c1 c2 d1 d2 _
      h1 h2 h3 h4 h5 h6 h7 h8 hed
      (by simp [hci]) (by simp [hci]; omega) (by simp [hci]; omega)
      (by simp [hol, hlen]) (by simp [hte, hdts]; omega)]
    simp only [Option.map_some']
    congr 1
    · congr 1
      · simp only [List.length_append, Nat.cast_add]; ring
      · simp only [List.length_append, Nat.cast_add]; ring
    · rw [← hsp1]

theorem extract_bounds (p : LineParser) (e : Extractor) :
    (p.extract e).2.textEndIndex = p.textEndIndex ∧
    (p.extract e).2.textStartIndex = p.textStartIndex := by
  rcases extract_cases p e with ⟨-, -, h2⟩ | ⟨ws, v, rest, -, -, -, -, -, -, -, h2⟩
  · rw [h2]; exact ⟨rfl, rfl⟩
  · rw [h2]; exact ⟨rfl, rfl⟩

/-- No extractor call changes `textStartIndex` or `textEndIndex`. -/
theorem run_bounds (es : List Extractor) :
    ∀ p : LineParser, (p.run es).2.textEndIndex = p.textEndIndex ∧
      (p.run es).2.textStartIndex = p.textStartIndex := by
  induction es with
  | nil => intro p; exact ⟨rfl, rfl⟩
  | cons e es ih =>
    intro p
    obtain ⟨h1, h2⟩ := ih (p.extract e).2
    obtain ⟨h3, h4⟩ := extract_bounds p e
    exact ⟨h1.trans h3, h2.trans h4⟩

/-- The constructor on a line that holds no line terminator up to its last character
that is not whitespace: `textEndIndex` is the column after that character. -/
theorem LineParser.new_textEndIndex (line : Text) (p0 : LineParser)
    (hnew : LineParser.new line = Except.ok p0)
    (hdot : ∀ c ∈ dropTrailingSpace line, isDot c = true) :
    p0.textEndIndex = (dropTrailingSpace line).length := by
  have heol := LineParser.new_no_line_break line p0 hnew
  unfold LineParser.new at hnew
  simp only [heol, Bool.false_eq_true, if_false] at hnew
  by_cases ht : textRegex line = true
  · have hsplit : line = line.takeWhile isSpace ++ line.dropWhile isSpace :=
      (List.takeWhile_append_dropWhile _ _).symm
    have hne : line.dropWhile isSpace ≠ [] := by
      intro h
      have : ∀ c ∈ line, isSpace c = true := by
        intro c hc
        exact (List.dropWhile_eq_nil_iff.mp h) c hc
      rw [textRegex_of_spaces line this] at ht
      cases ht
    have hhead : ∀ c, (line.takeWhile isSpace).getLast? = some c → isSpace c = true :=
      fun c hc => List.mem_takeWhile_imp (List.mem_of_getLast?_eq_some hc)
    have hd : dropTrailingSpace line =
        line.takeWhile isSpace ++ dropTrailingSpace (line.dropWhile isSpace) := by
      obtain ⟨tail, h1, h2⟩ := dropTrailingSpace_split (line.dropWhile isSpace)
      have hdne : dropTrailingSpace (line.dropWhile isSpace) ≠ [] := by
        intro h
        rw [h, List.nil_append] at h1
        cases hx : line.dropWhile isSpace with
        | nil => exact hne hx
        | cons c r =>
          have h0 := List.head_dropWhile_not isSpace line (by rw [hx]; simp)
          simp only [hx, List.head_cons] at h0
          have hmem : c ∈ tail := by rw [← h1, hx]; exact List.mem_cons_self _ _
          rw [h2 c hmem] at h0
          simp at h0
      conv_lhs => rw [hsplit, h1, ← List.append_assoc]
      apply dropTrailingSpace_append_spaces _ _ _ h2
      intro c hc
      rw [List.getLast?_append_of_ne_nil _ hdne] at hc
      exact dropTrailingSpace_last _ c hc
    have hall : (dropTrailingSpace (line.dropWhile isSpace)).all isDot = true := by
      rw [List.all_eq_true]
      intro c hc
      exact hdot c (by rw [hd]; exact List.mem_append_right _ hc)
    simp only [ht, if_true, surroundingWSRegex, hall, Bool.and_self] at hnew
    cases hnew
    dsimp only
    rw [hd, List.length_append]
    by_cases hw : line.takeWhile isSpace = []
    · simp [hw, truthyText]
    · have : truthyText (line.takeWhile isSpace) = true := by
        cases hx : line.takeWhile isSpace with
        | nil => exact absurd hx hw
        | cons a b => rfl
      simp [this]
  · simp only [ht, Bool.false_eq_true, if_false] at hnew
    cases hnew
    have : textRegex line = false := by simpa using ht
    rw [dropTrailingSpace_of_spaces line this]
    rfl

theorem nextHex_found (p : LineParser) (h : (p.nextHex).1.found = true) :
    ∃ ws v, colorHexRegex p.text = some (ws, v) ∧
      (p.nextHex).1 = { found := true, startIndex := p.currentIndex + ws.length,
                        endIndex := p.currentIndex + (ws.length + v.length : Nat),
                        value := some v } := by
  unfold LineParser.nextHex at h ⊢
  cases hre : colorHexRegex p.text with
  | none =>
    rw [parseSingleValue_of_none p _ hre] at h
    cases h
  | some wv =>
    obtain ⟨ws, v⟩ := wv
    refine ⟨ws, v, rfl, ?_⟩
    rw [parseSingleValue_of_some p _ ws v hre]

/-- What the code does for C31 when the cursor starts in step. For every line the
constructor accepts, whose cursor starts in step with it
(`textEndIndex` is the column after the line's last character that is not whitespace),
held by the buffer row, and every sequence of extractor calls after which `nextHex`
finds a literal `v`: the hex statement of the colour validator replaces the literal in
the row by its decimal expansion, `originalLength` and `textEndIndex` each change by
the length of the expansion minus the length of the literal, `originalLength` is the
length of the rewritten row, `textEndIndex` is the column after the last character of
the rewritten row that is not whitespace, the consumed offset is the column where the
literal began, and the remaining text is the rewritten row from the consumed offset up
to `textEndIndex`. -/
theorem hexStage_resynchronizes (line : Text) (p0 : LineParser) (es : List Extractor)
    (li : LineInfo) (hnew : LineParser.new line = Except.ok p0) (hed : li.editor.line = line)
    (hsync : p0.textEndIndex = (dropTrailingSpace line).length)
    (hf : ((p0.run es).2.nextHex).1.found = true) :
    ∃ v, ((p0.run es).2.nextHex).1.value = some v ∧
      ((p0.run es).2.nextHex).1.endIndex - ((p0.run es).2.nextHex).1.startIndex = v.length ∧
      (hexStage (p0.run es).2 li).2.line =
        line.take ((p0.run es).2.nextHex).1.startIndex.toNat ++ decimalExpansion v ++
          line.drop ((p0.run es).2.nextHex).1.endIndex.toNat ∧
      (hexStage (p0.run es).2 li).1.originalLength =
        (p0.run es).2.originalLength + ((decimalExpansion v).length - v.length) ∧
      (hexStage (p0.run es).2 li).1.textEndIndex =
        (p0.run es).2.textEndIndex + ((decimalExpansion v).length - v.length) ∧
      (hexStage (p0.run es).2 li).1.originalLength = (hexStage (p0.run es).2 li).2.line.length ∧
      (hexStage (p0.run es).2 li).1.textEndIndex =
        (dropTrailingSpace (hexStage (p0.run es).2 li).2.line).length ∧
      (hexStage (p0.run es).2 li).1.currentIndex = ((p0.run es).2.nextHex).1.startIndex ∧
      (hexStage (p0.run es).2 li).1.text =
        slice (hexStage (p0.run es).2 li).2.line (hexStage (p0.run es).2 li).1.currentIndex
          (hexStage (p0.run es).2 li).1.textEndIndex := by
  obtain ⟨⟨pre, hl, hci⟩, hol, -⟩ := run_in_step line p0 es hnew
  obtain ⟨hte, -⟩ := run_bounds es p0
  generalize (p0.run es).2 = p at hl hci hol hte hf ⊢
  obtain ⟨ws, v, hre, hres⟩ := nextHex_found p hf
  obtain ⟨rest, ht, hst⟩ := hexStage_in_step p li pre ws v hre (by rw [hed, hl]) hci
    (by rw [hol, hed]) (by rw [hte, hsync, hed])
  obtain ⟨a1, a2, b1, b2, c1, c2, ad, rest2, hv, hex, -, -, -⟩ :=
    colorHexRegex_digits p.text ws v hre
  obtain ⟨k1, k2, k3, k4⟩ := hexDigits_bytes a1 a2 b1 b2 c1 c2 ad hex
  have hlast := decimalChannels_last (hexByte a1 a2) (hexByte b1 b2) (hexByte c1 c2)
    (ad.map fun d => hexByte d.1 d.2) k1 k2 k3 k4 (pre ++ ws)
  rw [← decimalExpansion_hexDigits, ← hv] at hlast
  have hline : line = pre ++ ws ++ v ++ rest := by rw [hl, ht]; simp
  have hdl : dropTrailingSpace line = pre ++ ws ++ v ++ dropTrailingSpace rest := by
    rw [hline, dropTrailingSpace_append_of_last]
    rw [hv]
    exact hexLiteral_last a1 a2 b1 b2 c1 c2 ad hex (pre ++ ws)
  have hdn : dropTrailingSpace (pre ++ ws ++ decimalExpansion v ++ rest) =
      pre ++ ws ++ decimalExpansion v ++ dropTrailingSpace rest := by
    rw [dropTrailingSpace_append_of_last]
    rw [List.append_assoc]
    rw [List.append_assoc] at hlast
    exact hlast
  obtain ⟨sp, hsp1, -⟩ := dropTrailingSpace_split rest
  rw [hst, hres]
  dsimp only
  refine ⟨v, rfl, ?_, ?_, ?_, ?_, rfl, ?_, ?_, ?_⟩
  · simp only [Nat.cast_add]; ring
  · rw [hci]
    have e1 : ((pre.length : Int) + ws.length).toNat = (pre ++ ws).length := by
      simp only [List.length_append]; omega
    have e2 : ((pre.length : Int) + ((ws.length + v.length : Nat) : Int)).toNat =
        (pre ++ ws ++ v).length := by
      simp only [List.length_append]; omega
    rw [e1, e2]
    conv_rhs => rw [hline]
    rw [List.append_assoc (pre ++ ws) v rest, List.take_left' rfl,
      ← List.append_assoc (pre ++ ws) v rest, List.drop_left' rfl]
  · rw [hol, hline]
    simp only [List.length_append, Nat.cast_add]; ring
  · rw [hte, hsync, hdl]
    simp only [List.length_append, Nat.cast_add]; ring
  · rw [hdn]
  · rw [hci]; simp only [List.length_append, Nat.cast_add]
  · unfold slice
    rw [Int.toNat_ofNat, Int.toNat_ofNat]
    have hd : List.drop (pre ++ ws).length (pre ++ ws ++ decimalExpansion v ++ rest) =
        decimalExpansion v ++ rest := by
      rw [List.append_assoc (pre ++ ws)]
      exact List.drop_left' rfl
    have hn : (pre ++ ws ++ decimalExpansion v ++ dropTrailingSpace rest).length -
        (pre ++ ws).length = (decimalExpansion v ++ dropTrailingSpace rest).length := by
      simp only [List.length_append]
      omega
    have hr : decimalExpansion v ++ rest =
        (decimalExpansion v ++ dropTrailingSpace rest) ++ sp := by
      rw [List.append_assoc, ← hsp1]
    rw [hd, hn, hr, List.take_left' rfl]

/-- The row `SetTextColor #FF000080 # red  ` after the keyword and the absent
operator were read: the cursor starts in step, `nextHex` finds the literal, and after
the hex statement `originalLength` is the length of the rewritten row, `textEndIndex`
the column after its last character that is not whitespace, and the remaining text the
rewritten row between the consumed offset and `textEndIndex`. -/
theorem hexStage_resynchronizes_witness :
    (LineParser.new (utf16 "SetTextColor #FF000080 # red  ") = Except.ok
        { text := utf16 "SetTextColor #FF000080 # red  ", currentIndex := 0,
          originalLength := 30, textStartIndex := 0, textEndIndex := 28, empty := false } ∧
      (28 : Int) = (dropTrailingSpace (utf16 "SetTextColor #FF000080 # red  ")).length ∧
      ((({ text := utf16 "SetTextColor #FF000080 # red  ", currentIndex := 0,
           originalLength := 30, textStartIndex := 0, textEndIndex := 28,
           empty := false } : LineParser).run
          [Extractor.word, Extractor.operator]).2.nextHex).1.found = true) ∧
    ∃ out : LineParser × Editor,
      out = hexStage
        (({ text := utf16 "SetTextColor #FF000080 # red  ", currentIndex := 0,
            originalLength := 30, textStartIndex := 0, textEndIndex := 28,
            empty := false } : LineParser).run [Extractor.word, Extractor.operator]).2
        { editor := { path := none, line := utf16 "SetTextColor #FF000080 # red  " },
          number := 0, file := none, keyword := utf16 "SetTextColor" } ∧
      out.1.originalLength = out.2.line.length ∧
      out.1.textEndIndex = (dropTrailingSpace out.2.line).length ∧
      out.1.text = slice out.2.line out.1.currentIndex out.1.textEndIndex := by
  refine ⟨⟨rfl, by decide, by decide⟩, _, rfl, ?_⟩
  obtain ⟨v, -, -, -, -, -, h1, h2, -, h3⟩ := hexStage_resynchronizes
    (utf16 "SetTextColor #FF000080 # red  ")
    { text := utf16 "SetTextColor #FF000080 # red  ", currentIndex := 0,
      originalLength := 30, textStartIndex := 0, textEndIndex := 28, empty := false }
    [Extractor.word, Extractor.operator]
    { editor := { path := none, line := utf16 "SetTextColor #FF000080 # red  " },
      number := 0, file := none, keyword := utf16 "SetTextColor" }
    rfl rfl (by decide) (by decide)
  exact ⟨h1, h2, h3⟩

/-- The hex statement evaluated after the keyword and the operator were read, giving
the remaining text, the consumed offset, `originalLength`, `textEndIndex` and the
rewritten row: on `SetTextColor #FF000080 # red  ` and on `  SetTextColor = #ff0000  `
the cursor is in step with the rewritten row. On `SetTextColor #FF0000 a<U+2028>b` the
cursor is out of step from its construction on (the constructor leaves `textEndIndex`
at 0 when a line separator stands before the last character that is not whitespace),
the two lengths still change by the same difference, and the text read back is the
start of the row. -/
theorem hexStage_scenarios :
    [utf16 "SetTextColor #FF000080 # red  ", utf16 "  SetTextColor = #ff0000  ",
     utf16 "SetTextColor #FF0000 a" ++ [8232] ++ utf16 "b"].map
      (fun l => (LineParser.new l).toOption.map fun p0 =>
        ((hexStage (p0.run [Extractor.word, Extractor.operator]).2
            { editor := { path := none, line := l }, number := 0, file := none,
              keyword := utf16 "SetTextColor" }).1.text,
         (hexStage (p0.run [Extractor.word, Extractor.operator]).2
            { editor := { path := none, line := l }, number := 0, file := none,
              keyword := utf16 "SetTextColor" }).1.currentIndex,
         (hexStage (p0.run [Extractor.word, Extractor.operator]).2
            { editor := { path := none, line := l }, number := 0, file := none,
              keyword := utf16 "SetTextColor" }).1.originalLength,
         (hexStage (p0.run [Extractor.word, Extractor.operator]).2
            { editor := { path := none, line := l }, number := 0, file := none,
              keyword := utf16 "SetTextColor" }).1.textEndIndex,
         (hexStage (p0.run [Extractor.word, Extractor.operator]).2
            { editor := { path := none, line := l }, number := 0, file := none,
              keyword := utf16 "SetTextColor" }).2.line)) =
    [some (utf16 "255 0 0 128 # red", 13, 32, 30, utf16 "SetTextColor 255 0 0 128 # red  "),
     some (utf16 "255 0 0", 17, 26, 24, utf16 "  SetTextColor = 255 0 0  "),
     some (utf16 "SetTextColor ", 13, 24, 0, utf16 "SetTextColor 255 0 0 a" ++ [8232] ++ utf16 "b")] := by
  decide

theorem channelOutOfRange_parseInt (t : Text) :
    channelOutOfRange (parseInt t 10) = outside255 t := by
  unfold outside255 channelOutOfRange
  cases parseInt t 10 with
  | NaN => rfl
  | ofInt n => simp [JSNum.lt, JSNum.gt, Bool.decide_or]

theorem truthy_of_outside255 (t : Text) (h : outside255 t = true) :
    (parseInt t 10).truthy = true := by
  unfold outside255 at h
  cases hv : parseInt t 10 with
  | NaN => rw [hv] at h; cases h
  | ofInt n =>
    rw [hv] at h
    simp only [decide_eq_true_eq] at h
    simp only [JSNum.truthy, bne_iff_ne, ne_eq]
    omega

/-- The channel checks on three or four channels that were read from tokens, when one
of them is read as a number outside 0..255: the result fails with the out-of-range
error over the columns of the first such channel in the order red, green, blue,
alpha. -/
theorem checkChannels_outside (line : LineInfo) (cr cg cb : Text × Int × Int)
    (ca : Option (Text × Int × Int)) (hit : Text × Int × Int)
    (hfind : ([cr, cg, cb] ++ ca.toList).find? (fun x => outside255 x.1) = some hit) :
    checkChannels line
      { found := true, startIndex := cr.2.1, endIndex := cr.2.2, value := some (parseInt cr.1 10) }
      { found := true, startIndex := cg.2.1, endIndex := cg.2.2, value := some (parseInt cg.1 10) }
      { found := true, startIndex := cb.2.1, endIndex := cb.2.2, value := some (parseInt cb.1 10) }
      (match ca with
        | some c =>
          { found := true, startIndex := c.2.1, endIndex := c.2.2, value := some (parseInt c.1 10) }
        | none => { found := false, startIndex := 0, endIndex := 0, value := none }) {} =
      ProcessResult.fail {}
        (errorMessage line.file (Range.onRow line.number hit.2.1 hit.2.2)
          (utf16 "Invalid value for rule \"" ++ line.keyword ++ utf16 "\". Expected 0-255.")
          (utf16 "http://pathofexile.gamepedia.com/Item_filter#Actions")) := by
  unfold checkChannels
  simp only [Option.getD_some, channelOutOfRange_parseInt]
  by_cases hr : outside255 cr.1 = true
  · simp only [List.cons_append, List.find?_cons, hr, Option.some.injEq] at hfind
    subst hfind
    rw [if_pos hr]
  · simp only [Bool.not_eq_true] at hr
    rw [if_neg (by rw [hr]; simp)]
    by_cases hg : outside255 cg.1 = true
    · simp only [List.cons_append, List.find?_cons, hr, hg, Option.some.injEq] at hfind
      subst hfind
      rw [if_pos hg]
    · simp only [Bool.not_eq_true] at hg
      rw [if_neg (by rw [hg]; simp)]
      by_cases hb : outside255 cb.1 = true
      · simp only [List.cons_append, List.find?_cons, hr, hg, hb, Option.some.injEq] at hfind
        subst hfind
        rw [if_pos hb]
      · simp only [Bool.not_eq_true] at hb
        rw [if_neg (by rw [hb]; simp)]
        cases ca with
        | none =>
          simp [List.find?_cons, hr, hg, hb] at hfind
        | some c =>
          simp only [List.cons_append, List.nil_append, Option.toList, List.find?_cons, hr, hg, hb,
            List.find?_nil] at hfind
          have ha : outside255 c.1 = true := by
            cases h : outside255 c.1 with
            | true => rfl
            | false => rw [h] at hfind; cases hfind
          rw [ha] at hfind
          simp only [Option.some.injEq] at hfind
          subst hfind
          dsimp only
          rw [if_pos (by
            simp only [Option.getD_some, channelOutOfRange_parseInt, ha, truthy_of_outside255 _ ha,
              Bool.and_self])]

theorem captureTrailingComment_keeps (p : LineParser) (line : LineInfo) (r : ProcessResult) :
    (captureTrailingComment p line r).1.messages = r.messages ∧
    (captureTrailingComment p line r).1.invalid = r.invalid ∧
    (captureTrailingComment p line r).1.values = r.values := by
  unfold captureTrailingComment
  split
  · dsimp only
    split <;> exact ⟨rfl, rfl, rfl⟩
  · exact ⟨rfl, rfl, rfl⟩

theorem numberColumns_tokens (more : List (Text × Text)) :
    ∀ s : Int, (numberColumns s more).map (fun x => x.1) = more.map fun x => x.2 := by
  induction more with
  | nil => intro s; rfl
  | cons x rest ih =>
    intro s
    obtain ⟨w, t⟩ := x
    simp only [numberColumns, List.map_cons, ih]

theorem numberColumns_ordered (more : List (Text × Text)) :
    ∀ s : Int, ∀ x ∈ numberColumns s more, x.2.1 ≤ x.2.2 := by
  induction more with
  | nil => intro s x hx; cases hx
  | cons y rest ih =>
    intro s x hx
    obtain ⟨w, t⟩ := y
    simp only [numberColumns, List.mem_cons] at hx
    rcases hx with rfl | hx
    · dsimp only; omega
    · exact ih _ x hx

theorem mem_of_find (l : List (Text × Int × Int)) (q : Text × Int × Int → Bool)
    (hit : Text × Int × Int) (h : l.find? q = some hit) : hit ∈ l :=
  List.mem_of_find?_eq_some h

/-- The colour validator on an optional `=` and three or four number tokens, one of
which is read as a number outside 0..255, before a text that holds no further number:
it reports the out-of-range error over the columns of the first such channel and
nothing else, captures no value, and leaves the editor alone. -/
theorem processRGBARule_outside (p : LineParser) (line : LineInfo) (w1 : Text)
    (op : Option Text) (w2 tok1 : Text) (more : List (Text × Text)) (tail : Text)
    (hit : Text × Int × Int)
    (hp : p.text = w1 ++ operatorPart op w2 ++ tok1 ++ (numbersText more ++ tail))
    (hw1 : ∀ c ∈ w1, isSpace c = true)
    (hop : ∀ o, op = some o → o = utf16 "=" ∧ w2 ≠ [] ∧ ∀ c ∈ w2, isSpace c = true)
    (hm : ∀ x ∈ more, Blank x.1 ∧ x.1 ≠ []) (hlen : more.length = 2 ∨ more.length = 3)
    (h1 : IsNumberToken tok1) (hmore : ∀ x ∈ more, IsNumberToken x.2)
    (hbt : atBoundary tail = true) (hnum : numberRegex tail = none)
    (hfind : (numberColumns (p.currentIndex + w1.length + (operatorPart op w2).length)
      (([], tok1) :: more)).find? (fun x => outside255 x.1) = some hit) :
    (processRGBARule p line).1.messages = [channelMessage line.file line.number line.keyword hit.2.1 hit.2.2] ∧
    (processRGBARule p line).1.invalid = true ∧
    (processRGBARule p line).1.values = [] ∧
    (processRGBARule p line).2.2 = line.editor := by
  obtain ⟨p2, wz, e1, e2, e3, e4, -, -, -, -⟩ := expectEqualityOp_optional p line w1 op w2
    (tok1 ++ (numbersText more ++ tail)) (by rw [hp, List.append_assoc]) hw1 hop
    (fun c hc => (numberToken_head tok1 _ h1 c hc).1)
  have hst : hexStage p2 line = (p2, line.editor) :=
    hexStage_none p2 line (by
      rw [e2]
      exact colorHexRegex_none wz _ e3
        (fun c hc => ⟨(numberToken_head tok1 _ h1 c hc).1.1, (numberToken_head tok1 _ h1 c hc).2⟩))
  have hord := numberColumns_ordered (([], tok1) :: more)
    (p.currentIndex + w1.length + (operatorPart op w2).length) hit (mem_of_find _ _ _ hfind)
  obtain ⟨p3, n1, n2, n3, -, -⟩ := nextNumber_step p2 wz tok1 (numbersText more ++ tail)
    (by rw [e2, List.append_assoc]) e3 h1 (atBoundary_numbersText more _ hm hbt)
  rw [← e4] at hfind
  have hfin : ∀ (red green blue alpha : ParseResult JSNum) (q : LineParser),
      readChannels p2 = (red, green, blue, alpha, q) →
      red.found = true → red.value.isSome = true → green.found = true →
      green.value.isSome = true → blue.found = true → blue.value.isSome = true →
      checkChannels line red green blue alpha {} =
        ProcessResult.fail {}
          (errorMessage line.file (Range.onRow line.number hit.2.1 hit.2.2)
            (utf16 "Invalid value for rule \"" ++ line.keyword ++ utf16 "\". Expected 0-255.")
            (utf16 "http://pathofexile.gamepedia.com/Item_filter#Actions")) →
      (processRGBARule p line).1.messages = [channelMessage line.file line.number line.keyword hit.2.1 hit.2.2] ∧
      (processRGBARule p line).1.invalid = true ∧
      (processRGBARule p line).1.values = [] ∧
      (processRGBARule p line).2.2 = line.editor := by
    intro red green blue alpha q hread f1 f2 f3 f4 f5 f6 hchk
    obtain ⟨k1, k2, k3⟩ := captureTrailingComment_keeps q line
      (checkChannels line red green blue alpha {})
    unfold processRGBARule
    rw [e1]; dsimp only
    rw [hst]; dsimp only
    rw [hread]
    have i2 : red.value.isNone = false := by
      cases h : red.value with
      | none => rw [h] at f2; cases f2
      | some v => rfl
    have i4 : green.value.isNone = false := by
      cases h : green.value with
      | none => rw [h] at f4; cases f4
      | some v => rfl
    have i6 : blue.value.isNone = false := by
      cases h : blue.value with
      | none => rw [h] at f6; cases f6
      | some v => rfl
    simp only [f1, f3, f5, i2, i4, i6, Bool.not_true, Bool.or_self, Bool.false_eq_true, if_false]
    rw [k1, k2, k3, hchk]
    refine ⟨?_, rfl, rfl, trivial⟩
    simp only [ProcessResult.fail, channelMessage, List.nil_append]
    rw [Range.onRow_of_le _ _ _ hord]
  rcases hlen with hl | hl
  · obtain ⟨⟨wg, tg⟩, ⟨wb, tb⟩, rfl⟩ : ∃ a b, more = [a, b] := by
      match more, hl with
      | [a, b], _ => exact ⟨a, b, rfl⟩
    have hg := hmore (wg, tg) (by simp)
    have hb := hmore (wb, tb) (by simp)
    have hmg := hm (wg, tg) (by simp)
    have hmb := hm (wb, tb) (by simp)
    dsimp only at hg hb hmg hmb
    simp only [numbersText, List.append_nil, List.append_assoc, List.nil_append] at n2
    obtain ⟨p4, g1, g2, g3, -, -⟩ := nextNumber_step p3 wg tg (wb ++ (tb ++ tail))
      (by rw [n2]; simp) hmg.1.isSpace hg
      (atBoundary_of_spaces_append wb _ hmb.1.isSpace hmb.2)
    obtain ⟨p5, b1, b2, b3, -, -⟩ := nextNumber_step p4 wb tb tail
      (by rw [g2]; simp) hmb.1.isSpace hb hbt
    have a1 : p5.nextNumber =
        ({ found := false, startIndex := 0, endIndex := 0, value := none }, p5) := by
      unfold LineParser.nextNumber
      rw [parseSingleValue_of_none p5 _ (by rw [b2]; exact hnum)]
      rfl
    have hread : readChannels p2 =
        (numberToken (p2.currentIndex + wz.length) tok1,
         numberToken (p3.currentIndex + wg.length) tg,
         numberToken (p4.currentIndex + wb.length) tb,
         { found := false, startIndex := 0, endIndex := 0, value := none }, p5) := by
      unfold readChannels
      rw [n1]; dsimp only
      rw [g1]; dsimp only
      rw [b1]; dsimp only
      rw [a1]
    refine hfin _ _ _ _ _ hread rfl rfl rfl rfl rfl rfl ?_
    have := checkChannels_outside line
      (tok1, p2.currentIndex + wz.length, p2.currentIndex + wz.length + tok1.length)
      (tg, p3.currentIndex + wg.length, p3.currentIndex + wg.length + tg.length)
      (tb, p4.currentIndex + wb.length, p4.currentIndex + wb.length + tb.length) none hit
      (by
        rw [← hfind]
        simp only [numberColumns, List.length_nil, Nat.cast_zero, add_zero, n3, g3,
          Option.toList, List.append_nil])
    simpa only [numberToken] using this
  · obtain ⟨⟨wg, tg⟩, ⟨wb, tb⟩, ⟨wa, ta⟩, rfl⟩ : ∃ a b c, more = [a, b, c] := by
      match more, hl with
      | [a, b, c], _ => exact ⟨a, b, c, rfl⟩
    have hg := hmore (wg, tg) (by simp)
    have hb := hmore (wb, tb) (by simp)
    have ha := hmore (wa, ta) (by simp)
    have hmg := hm (wg, tg) (by simp)
    have hmb := hm (wb, tb) (by simp)
    have hma := hm (wa, ta) (by simp)
    dsimp only at hg hb ha hmg hmb hma
    simp only [numbersText, List.append_nil, List.append_assoc, List.nil_append] at n2
    obtain ⟨p4, g1, g2, g3, -, -⟩ := nextNumber_step p3 wg tg (wb ++ (tb ++ (wa ++ (ta ++ tail))))
      (by rw [n2]; simp) hmg.1.isSpace hg
      (atBoundary_of_spaces_append wb _ hmb.1.isSpace hmb.2)
    obtain ⟨p5, b1, b2, b3, -, -⟩ := nextNumber_step p4 wb tb (wa ++ (ta ++ tail))
      (by rw [g2]; simp) hmb.1.isSpace hb
      (atBoundary_of_spaces_append wa _ hma.1.isSpace hma.2)
    obtain ⟨p6, a1, a2, a3, -, -⟩ := nextNumber_step p5 wa ta tail
      (by rw [b2]; simp) hma.1.isSpace ha hbt
    have hread : readChannels p2 =
        (numberToken (p2.currentIndex + wz.length) tok1,
         numberToken (p3.currentIndex + wg.length) tg,
         numberToken (p4.currentIndex + wb.length) tb,
         numberToken (p5.currentIndex + wa.length) ta, p6) := by
      unfold readChannels
      rw [n1]; dsimp only
      rw [g1]; dsimp only
      rw [b1]; dsimp only
      rw [a1]
    refine hfin _ _ _ _ _ hread rfl rfl rfl rfl rfl rfl ?_
    have := checkChannels_outside line
      (tok1, p2.currentIndex + wz.length, p2.currentIndex + wz.length + tok1.length)
      (tg, p3.currentIndex + wg.length, p3.currentIndex + wg.length + tg.length)
      (tb, p4.currentIndex + wb.length, p4.currentIndex + wb.length + tb.length)
      (some (ta, p5.currentIndex + wa.length, p5.currentIndex + wa.length + ta.length)) hit
      (by
        rw [← hfind]
        simp only [numberColumns, List.length_nil, Nat.cast_zero, add_zero, n3, g3, b3,
          Option.toList, List.cons_append, List.nil_append])
    simpa only [numberToken] using this

theorem find_of_exists (l : List (Text × Int × Int)) (q : Text × Int × Int → Bool)
    (h : ∃ x ∈ l, q x = true) : ∃ hit, l.find? q = some hit := by
  cases hf : l.find? q with
  | some hit => exact ⟨hit, rfl⟩
  | none =>
    obtain ⟨x, hx, hq⟩ := h
    have := List.find?_eq_none.mp hf x hx
    exact absurd hq this

/-- C32. For every colour rule line (SetBorderColor, SetTextColor,
SetBackgroundColor) with an optional `=` and three or four channels written as number
tokens, followed by nothing but whitespace or a `#` comment, of which at least one
channel is read as a number outside 0..255: `parseLine` returns a Rule that is invalid,
holds no value, and has exactly one diagnostic, the error "Invalid value for rule
"<keyword>". Expected 0-255." over the columns of the first channel outside 0..255 in
the order red, green, blue, alpha; nothing is reported for a later one. -/
theorem parseLine_colour_out_of_range (env : Env) (row : Int) (editor : Editor)
    (itemData : ItemData) (K w0 w1 : Text) (op : Option Text) (w2 tok1 : Text)
    (more : List (Text × Text)) (tail : Text)
    (hK : K ∈ colorKeywords) (hw0 : Blank w0) (hw1 : Blank w1) (hw1ne : w1 ≠ [])
    (hop : ∀ o, op = some o → o = utf16 "=" ∧ Blank w2 ∧ w2 ≠ [])
    (hm : ∀ x ∈ more, Blank x.1 ∧ x.1 ≠ []) (hlen : more.length = 2 ∨ more.length = 3)
    (h1 : IsNumberToken tok1) (hmore : ∀ x ∈ more, IsNumberToken x.2)
    (htail : Blank tail ∨
      ∃ wc body, tail = wc ++ 35 :: body ∧ Blank wc ∧ wc ≠ [] ∧ eolRegex body = false)
    (hout : ∃ t ∈ tok1 :: more.map (fun x => x.2), outside255 t = true) :
    ∃ r tok s e, parseLine env
        { lineText := w0 ++ K ++ (w1 ++ operatorPart op w2 ++ tok1 ++ (numbersText more ++ tail)),
          row := row, editor := editor, itemData := itemData } = Except.ok (r, editor) ∧
      r.type = LineType.Rule ∧ r.invalid = true ∧ r.values = [] ∧
      (numberColumns (w0.length + K.length + w1.length + (operatorPart op w2).length)
        (([], tok1) :: more)).find? (fun x => outside255 x.1) = some (tok, s, e) ∧
      r.messages = [channelMessage editor.path row K s e] := by
  obtain ⟨hs1, hs2, hkne, hkw⟩ := colorKeywords_facts K hK
  have hopA : ∀ o, op = some o → o ∈ operatorAlternatives ∧ Blank w2 := by
    intro o ho
    obtain ⟨rfl, h2, -⟩ := hop o ho
    exact ⟨by decide, h2⟩
  have htl : eolRegex tail = false ∧ atBoundary tail = true ∧ numberRegex tail = none := by
    rcases htail with hb | ⟨wc, body, rfl, hwc, hwcne, hbody⟩
    · refine ⟨hb.eolRegex, ?_, regex_of_spaces Extractor.number tail hb.isSpace⟩
      have := hb.atBoundary [] (Or.inl rfl)
      rwa [List.append_nil] at this
    · refine ⟨?_, atBoundary_of_spaces_append wc _ hwc.isSpace hwcne,
        numberRegex_comment wc body hwc.isSpace⟩
      have h35 : eolRegex (35 :: body) = false := by
        have := eolRegex_append [35] body
        rw [List.singleton_append] at this
        rw [this, hbody]; rfl
      rw [eolRegex_append, hwc.eolRegex, h35]; rfl
  obtain ⟨t1, t2, t3⟩ := htl
  have heol2 : eolRegex
      (w1 ++ operatorPart op w2 ++ tok1 ++ (numbersText more ++ tail)) = false := by
    rw [eolRegex_append, eolRegex_append, eolRegex_append, eolRegex_append,
      hw1.eolRegex, eolRegex_operatorPart op w2 hopA,
      eolRegex_of_not_space tok1 (fun c hc => isNumberChar_not_space (h1.2 c hc)),
      eolRegex_numbersText more (fun x hx => ⟨(hm x hx).1, hmore x hx⟩), t1]
    rfl
  obtain ⟨p1, hp1t, hp1c, -, -, hpl⟩ := parseLine_rule_line env
    { lineText := w0 ++ K ++ (w1 ++ operatorPart op w2 ++ tok1 ++ (numbersText more ++ tail)),
      row := row, editor := editor, itemData := itemData }
    w0 K (w1 ++ operatorPart op w2 ++ tok1 ++ (numbersText more ++ tail)) rfl
    hw0 hkne hkw
    (by rw [List.append_assoc, List.append_assoc]
        exact atBoundary_of_spaces_append w1 _ hw1.isSpace hw1ne)
    heol2 ⟨hs1, hs2⟩
  dsimp only at hpl
  obtain ⟨hit, hfind⟩ := find_of_exists
    (numberColumns (w0.length + K.length + w1.length + (operatorPart op w2).length)
      (([], tok1) :: more)) (fun x => outside255 x.1) (by
      obtain ⟨t, ht, hto⟩ := hout
      have hmem : t ∈ (numberColumns
          (w0.length + K.length + w1.length + (operatorPart op w2).length)
          (([], tok1) :: more)).map (fun x => x.1) := by
        rw [numberColumns_tokens]
        simpa using ht
      obtain ⟨x, hx, rfl⟩ := List.mem_map.mp hmem
      exact ⟨x, hx, hto⟩)
  obtain ⟨c1, c2, c3, c4⟩ := processRGBARule_outside p1
    { editor := editor, number := row, file := editor.path, keyword := K }
    w1 op w2 tok1 more tail hit hp1t hw1.isSpace
    (fun o ho => ⟨(hop o ho).1, (hop o ho).2.2, (hop o ho).2.1.isSpace⟩) hm hlen h1 hmore t2 t3
    (by rw [hp1c]; exact hfind)
  rw [hpl, processRule_colorKeywords _ _ _ _ _ K hK]
  generalize processRGBARule p1 _ = pr at c1 c2 c3 c4 ⊢
  obtain ⟨res, pp, ed⟩ := pr
  dsimp only at c1 c2 c3 c4
  rw [c4]
  simp only [finishRule]
  obtain ⟨r1, -, r3, r4, -, r6⟩ := ruleResult_of_invalid
    { lineText := w0 ++ K ++ (w1 ++ operatorPart op w2 ++ tok1 ++ (numbersText more ++ tail)),
      row := row, editor := editor, itemData := itemData }
    { name := K, range := Range.onRow row w0.length ((w0.length + K.length : Nat) : Int) }
    Category.action res pp editor c2 (by rw [c1]; simp)
  obtain ⟨tok, s, e⟩ := hit
  exact ⟨_, tok, s, e, rfl, r1, r3, by rw [r6, c3], hfind, by rw [r4, c1]⟩

/-- C32, at the line `SetTextColor 300 0 999`: red and blue are outside 0..255, and the
one diagnostic is the error over the columns 13-16 of red. -/
theorem parseLine_colour_out_of_range_witness :
    (utf16 "SetTextColor" ∈ colorKeywords ∧ Blank [] ∧ Blank [32] ∧
      IsNumberToken (utf16 "300") ∧ IsNumberToken (utf16 "0") ∧ IsNumberToken (utf16 "999") ∧
      outside255 (utf16 "300") = true ∧ outside255 (utf16 "999") = true ∧
      [] ++ utf16 "SetTextColor" ++ ([32] ++ operatorPart none [] ++ utf16 "300" ++
        (numbersText [([32], utf16 "0"), ([32], utf16 "999")] ++ [])) =
        utf16 "SetTextColor 300 0 999") ∧
    ∃ r, parseLine asciiEnv
        { lineText := utf16 "SetTextColor 300 0 999", row := 0,
          editor := { path := none, line := utf16 "SetTextColor 300 0 999" },
          itemData := sampleItems } =
          Except.ok (r, { path := none, line := utf16 "SetTextColor 300 0 999" }) ∧
      r.type = LineType.Rule ∧ r.invalid = true ∧ r.values = [] ∧
      r.messages = [channelMessage none 0 (utf16 "SetTextColor") 13 16] := by
  refine ⟨⟨by decide, by decide, by decide, by decide, by decide, by decide, by decide,
    by decide, by decide⟩, ?_⟩
  obtain ⟨r, tok, s, e, h1, h2, h3, h4, h5, h6⟩ := parseLine_colour_out_of_range asciiEnv 0
    { path := none, line := utf16 "SetTextColor 300 0 999" } sampleItems (utf16 "SetTextColor")
    [] [32] none [] (utf16 "300") [([32], utf16 "0"), ([32], utf16 "999")] []
    (by decide) (by decide) (by decide) (by decide) (fun o ho => by cases ho) (by decide)
    (by decide) (by decide) (by decide) (Or.inl (by decide)) ⟨utf16 "300", by decide, by decide⟩
  have hh : some (tok, s, e) = some (utf16 "300", (13 : Int), (16 : Int)) := by
    rw [← h5]; decide
  simp only [Option.some.injEq, Prod.mk.injEq] at hh
  obtain ⟨-, rfl, rfl⟩ := hh
  exact ⟨r, h1, h2, h3, h4, h6⟩

/-- Colour rule lines with a channel outside 0..255, evaluated: each is invalid, holds
no value, and has the one error over the columns of the first such channel: red in
`SetTextColor 300 0 999`, green in `SetBorderColor 0 -1 0 256`, alpha in
`SetBackgroundColor = 0 0 0 300 # c`, blue in `SetTextColor 0 0 256`. -/
theorem parseLine_colour_out_of_range_scenarios :
    [utf16 "SetTextColor 300 0 999", utf16 "SetBorderColor 0 -1 0 256",
     utf16 "SetBackgroundColor = 0 0 0 300 # c", utf16 "SetTextColor 0 0 256"].map
      (fun line => (parseLine asciiEnv (argsFor line)).toOption.map
        (fun x => (x.1.invalid, x.1.values, x.1.messages))) =
    [some (true, [], [channelMessage none 0 (utf16 "SetTextColor") 13 16]),
     some (true, [], [channelMessage none 0 (utf16 "SetBorderColor") 17 19]),
     some (true, [], [channelMessage none 0 (utf16 "SetBackgroundColor") 27 30]),
     some (true, [], [channelMessage none 0 (utf16 "SetTextColor") 17 20])] := by
  rfl

/-- The constructor on a line with text whose part from the first to the last character
that is not whitespace holds no line terminator: `textStartIndex` is the length of the
leading whitespace and `textEndIndex` the column after the last character that is not
whitespace. -/
theorem LineParser.new_text_bounds (t : Text) (p : LineParser)
    (h : LineParser.new t = Except.ok p) (ht : textRegex t = true)
    (hdot : ∀ c ∈ dropTrailingSpace (t.dropWhile isSpace), isDot c = true) :
    p.textStartIndex = (t.takeWhile isSpace).length ∧
    p.textEndIndex =
      (t.takeWhile isSpace).length + (dropTrailingSpace (t.dropWhile isSpace)).length := by
  have heol := LineParser.new_no_line_break t p h
  have hall : (dropTrailingSpace (t.dropWhile isSpace)).all isDot = true := by
    rw [List.all_eq_true]; exact hdot
  unfold LineParser.new at h
  simp only [heol, Bool.false_eq_true, if_false, ht, if_true, surroundingWSRegex, hall,
    Bool.and_self] at h
  cases h
  dsimp only
  by_cases hw : t.takeWhile isSpace = []
  · simp [hw, truthyText]
  · have : truthyText (t.takeWhile isSpace) = true := by
      cases hx : t.takeWhile isSpace with
      | nil => exact absurd hx hw
      | cons a b => rfl
    simp [this]

/-- The start of `parseLine` on a rule line, as `parseLine_rule_line` gives it, with
the columns where the constructor lets the line's text start and end. -/
theorem parseLine_rule_line_bounds (env : Env) (args : Args) (w0 kw rest : Text)
    (hline : args.lineText = w0 ++ kw ++ rest) (hw0 : Blank w0) (hne : kw ≠ [])
    (hkw : ∀ c ∈ kw, isWordChar c = true) (hb : atBoundary rest = true)
    (heol : eolRegex rest = false) (hshow : kw ≠ utf16 "Show" ∧ kw ≠ utf16 "Hide") :
    ∃ p1 : LineParser, p1.text = rest ∧ p1.currentIndex = (w0.length : Int) + kw.length ∧
      p1.originalLength = args.lineText.length ∧ p1.empty = (!textRegex rest) ∧
      (p1.textStartIndex = 0 ∨ p1.textStartIndex = w0.length) ∧
      ((∀ c ∈ dropTrailingSpace (kw ++ rest), isDot c = true) →
        p1.textStartIndex = w0.length ∧
        p1.textEndIndex = (w0.length : Int) + (dropTrailingSpace (kw ++ rest)).length) ∧
      parseLine env args =
        finishRule args
          { name := kw, range := Range.onRow args.row w0.length ((w0.length + kw.length : Nat) : Int) }
          { found := true, startIndex := w0.length,
            endIndex := ((w0.length + kw.length : Nat) : Int), value := some kw }
          p1
          (processRule env p1
            { editor := args.editor, number := args.row, file := args.editor.path, keyword := kw }
            (args.itemData.classes ++ args.itemData.whitelistClasses)
            (args.itemData.bases ++ args.itemData.whitelistBases) kw) := by
  obtain ⟨p0, hp0, hpl⟩ := parseLine_keyword_line env args w0 kw rest hline hw0 hne hkw hb heol hshow
  have hstop : ∀ c, (kw ++ rest).head? = some c → isSpace c = false := by
    intro c hc
    cases kw with
    | nil => exact absurd rfl hne
    | cons k ks =>
      simp only [List.cons_append, List.head?_cons, Option.some.injEq] at hc
      subst hc
      exact isWordChar_not_space (hkw k (List.mem_cons_self _ _))
  have htw := takeWhile_append_stop isSpace w0 (kw ++ rest) hw0.isSpace hstop
  rw [← List.append_assoc, ← hline] at htw
  have htext : textRegex args.lineText = true := by
    rw [hline]
    cases kw with
    | nil => exact absurd rfl hne
    | cons k ks =>
      have := isWordChar_not_space (hkw k (List.mem_cons_self _ _))
      simp [textRegex, this]
  refine ⟨_, rfl, ?_, ?_, rfl, ?_, ?_, hpl⟩
  · simp
  · exact (LineParser.new_originalLength _ _ hp0).1
  · rcases LineParser.new_textStartIndex _ _ hp0 with h | h
    · exact Or.inl h
    · right; rw [h, htw.1]
  · intro hd
    have := LineParser.new_text_bounds _ _ hp0 htext (by rw [htw.2]; exact hd)
    rw [htw.1, htw.2] at this
    exact this

theorem instep_extract (p : LineParser) (e : Extractor) (row sp : Text) (lo : Int)
    (h : p.InStep row sp lo) : (p.extract e).2.InStep row sp lo := by
  rcases extract_cases p e with ⟨-, -, h2⟩ | ⟨ws, v, rest, -, ht, -, -, -, -, -, h2⟩
  · rw [h2]; exact h
  · obtain ⟨⟨pre, h1, hc⟩, hsp, hlo, ho, hte, -⟩ := h
    rw [h2]
    refine ⟨⟨pre ++ ws ++ v, ?_, ?_⟩, hsp, ?_, ho, hte, ?_⟩
    · rw [h1, ht]; simp
    · dsimp only; rw [hc]; simp only [List.length_append, Nat.cast_add]
    · dsimp only; omega
    · dsimp only
      intro he
      by_cases hr : textRegex rest = true
      · exact hr
      · simp [hr] at he

theorem instep_nextNumber {p : LineParser} {row sp : Text} {lo : Int} (h : p.InStep row sp lo) :
    (p.nextNumber).2.InStep row sp lo := instep_extract p Extractor.number row sp lo h

theorem instep_nextBoolean {p : LineParser} {row sp : Text} {lo : Int} (h : p.InStep row sp lo) :
    (p.nextBoolean).2.InStep row sp lo := instep_extract p Extractor.boolean row sp lo h

theorem instep_nextOperator {p : LineParser} {row sp : Text} {lo : Int} (h : p.InStep row sp lo) :
    (p.nextOperator).2.InStep row sp lo := instep_extract p Extractor.operator row sp lo h

theorem instep_nextString {p : LineParser} {row sp : Text} {lo : Int} (h : p.InStep row sp lo) :
    (p.nextString).2.InStep row sp lo := instep_extract p Extractor.string row sp lo h

theorem instep_nextHex {p : LineParser} {row sp : Text} {lo : Int} (h : p.InStep row sp lo) :
    (p.nextHex).2.InStep row sp lo := instep_extract p Extractor.hex row sp lo h

theorem instep_parseComment {p : LineParser} {row sp : Text} {lo : Int} (h : p.InStep row sp lo) :
    (p.parseComment).2.InStep row sp lo := instep_extract p Extractor.comment row sp lo h

theorem instep_expectEqualityOp {p : LineParser} {row sp : Text} {lo : Int}
    (h : p.InStep row sp lo) (line : LineInfo) :
    (expectEqualityOp p line).2.InStep row sp lo := by
  unfold expectEqualityOp
  simp only []
  split <;> exact instep_nextOperator h

theorem instep_reportTrailingComment {p : LineParser} {row sp : Text} {lo : Int}
    (h : p.InStep row sp lo) (line : LineInfo) (r : ProcessResult) :
    (reportTrailingComment p line r).2.InStep row sp lo := by
  unfold reportTrailingComment
  split
  · exact instep_parseComment h
  · exact h

theorem instep_captureTrailingComment {p : LineParser} {row sp : Text} {lo : Int}
    (h : p.InStep row sp lo) (line : LineInfo) (r : ProcessResult) :
    (captureTrailingComment p line r).2.InStep row sp lo := by
  unfold captureTrailingComment
  split
  · dsimp only
    split <;> exact instep_parseComment h
  · exact h

theorem instep_processRangeRule {p : LineParser} {row sp : Text} {lo : Int}
    (h : p.InStep row sp lo) (line : LineInfo) (min max : Int) (hasOperator : Bool) :
    (processRangeRule p line min max hasOperator).2.InStep row sp lo := by
  unfold processRangeRule
  simp only []
  exact instep_reportTrailingComment (instep_nextNumber (instep_nextOperator h)) _ _

theorem instep_processOpNumberRule {p : LineParser} {row sp : Text} {lo : Int}
    (h : p.InStep row sp lo) (line : LineInfo) (values : List Int) :
    (processOpNumberRule p line values).2.InStep row sp lo := by
  unfold processOpNumberRule
  simp only []
  split
  · exact instep_nextNumber (instep_nextOperator h)
  · exact instep_reportTrailingComment (instep_nextNumber (instep_nextOperator h)) _ _

theorem instep_processStringRule {p : LineParser} {row sp : Text} {lo : Int}
    (h : p.InStep row sp lo) (env : Env) (line : LineInfo) (expectedValues : List Text)
    (caseSensitive : Bool) :
    (processStringRule env p line expectedValues caseSensitive).2.InStep row sp lo := by
  unfold processStringRule
  simp only []
  split
  · exact instep_nextString (instep_nextOperator h)
  · exact instep_reportTrailingComment (instep_nextString (instep_nextOperator h)) _ _

theorem instep_processBooleanRule {p : LineParser} {row sp : Text} {lo : Int}
    (h : p.InStep row sp lo) (line : LineInfo) :
    (processBooleanRule p line).2.InStep row sp lo := by
  have h1 := instep_expectEqualityOp h line
  unfold processBooleanRule
  simp only []
  split
  · rename_i m hm
    exact h1
  · exact instep_reportTrailingComment (instep_nextBoolean h1) _ _

theorem instep_processSocketGroup {p : LineParser} {row sp : Text} {lo : Int}
    (h : p.InStep row sp lo) (line : LineInfo) :
    (processSocketGroup p line).2.InStep row sp lo := by
  have h1 := instep_expectEqualityOp h line
  unfold processSocketGroup
  simp only []
  split
  · exact h1
  · split
    · exact instep_nextString h1
    · split <;> exact instep_nextString h1

theorem instep_processAlertSoundRule {p : LineParser} {row sp : Text} {lo : Int}
    (h : p.InStep row sp lo) (line : LineInfo) :
    (processAlertSoundRule p line).2.InStep row sp lo := by
  have h1 := instep_expectEqualityOp h line
  unfold processAlertSoundRule
  simp only []
  split
  · exact h1
  · split
    · exact instep_nextNumber h1
    · exact instep_captureTrailingComment (instep_nextNumber (instep_nextNumber h1)) _ _

theorem instep_processMultiStringLoop (env : Env) (line : LineInfo) (expectedValues : List Text)
    (caseSensitive : Bool) (row sp : Text) (lo : Int) :
    ∀ (fuel : Nat) (parser : LineParser) (result : ProcessResult) (r : ProcessResult × LineParser),
      parser.InStep row sp lo →
      processMultiStringLoop env line expectedValues caseSensitive fuel parser result = some r →
      r.2.InStep row sp lo := by
  intro fuel
  induction fuel with
  | zero => intro parser result r _ h; simp [processMultiStringLoop] at h
  | succ n ih =>
    intro parser result r hs h
    unfold processMultiStringLoop at h
    simp only [] at h
    split at h
    · simp only [Option.some.injEq] at h
      rw [← h]; exact instep_nextString hs
    · split at h
      · simp only [Option.some.injEq] at h
        rw [← h]; exact instep_nextString hs
      · split at h
        · exact ih _ _ _ (instep_nextString hs) h
        · exact ih _ _ _ (instep_nextString hs) h

theorem instep_processMultiStringRule {p : LineParser} {row sp : Text} {lo : Int}
    (h : p.InStep row sp lo) (env : Env) (line : LineInfo) (expectedValues : List Text)
    (caseSensitive : Bool) (r : ProcessResult × LineParser)
    (hr : processMultiStringRule env p line expectedValues caseSensitive = some r) :
    r.2.InStep row sp lo := by
  have h1 := instep_expectEqualityOp h line
  unfold processMultiStringRule at hr
  simp only [] at hr
  split at hr
  · simp only [Option.some.injEq] at hr
    rw [← hr]; exact h1
  · exact instep_processMultiStringLoop env line expectedValues caseSensitive row sp lo _ _ _ _ h1 hr

theorem instep_hexStage {p : LineParser} {lo : Int} (line : LineInfo)
    (h : p.InStep line.editor.line [] lo) :
    ∃ sp, (hexStage p line).1.InStep (hexStage p line).2.line sp lo := by
  cases hre : colorHexRegex p.text with
  | none =>
    rw [hexStage_none p line hre]
    exact ⟨[], h⟩
  | some wv =>
    obtain ⟨ws, v⟩ := wv
    obtain ⟨⟨pre, h1, hc⟩, -, hlo, ho, hte, -⟩ := h
    rw [List.append_nil] at h1
    obtain ⟨rest, ht, hst⟩ := hexStage_in_step p line pre ws v hre h1 hc ho hte
    obtain ⟨a1, a2, b1, b2, c1, c2, ad, rest2, hv, hex, -, -, -⟩ :=
      colorHexRegex_digits p.text ws v hre
    obtain ⟨k1, k2, k3, k4⟩ := hexDigits_bytes a1 a2 b1 b2 c1 c2 ad hex
    have hlast := decimalChannels_last (hexByte a1 a2) (hexByte b1 b2) (hexByte c1 c2)
      (ad.map fun d => hexByte d.1 d.2) k1 k2 k3 k4 (pre ++ ws)
    rw [← decimalExpansion_hexDigits, ← hv] at hlast
    have hdn : dropTrailingSpace (pre ++ ws ++ decimalExpansion v ++ rest) =
        pre ++ ws ++ decimalExpansion v ++ dropTrailingSpace rest := by
      rw [dropTrailingSpace_append_of_last]
      rw [List.append_assoc]
      rw [List.append_assoc] at hlast
      exact hlast
    have htext : textRegex (decimalExpansion v ++ dropTrailingSpace rest) = true := by
      obtain ⟨-, ⟨r2, hr2⟩, -⟩ := decimalChannels_shape (hexByte a1 a2) (hexByte b1 b2)
        (hexByte c1 c2) (ad.map fun d => hexByte d.1 d.2) k1 k2 k3 k4
      obtain ⟨n1, n2, -⟩ := natToString_byte (hexByte a1 a2) k1
      rw [hv, decimalExpansion_hexDigits, hr2]
      cases hn : natToString (hexByte a1 a2) with
      | nil => exact absurd hn n1
      | cons d ds =>
        have hd : isDigit d = true := n2 d (by rw [hn]; exact List.mem_cons_self _ _)
        have := isDigit_not_space hd
        simp [textRegex, this]
    obtain ⟨sp, hsp1, hsp2⟩ := dropTrailingSpace_split rest
    rw [hst]
    refine ⟨sp, ⟨pre ++ ws, ?_, ?_⟩, hsp2, ?_, ?_, ?_, ?_⟩
    · dsimp only
      conv_lhs => rw [hsp1]
      simp
    · dsimp only
    · dsimp only
      rw [hc] at hlo
      simp only [List.length_append, Nat.cast_add]
      omega
    · dsimp only
    · dsimp only
      rw [hdn]
    · dsimp only
      exact fun _ => htext

theorem instep_processRGBARule {p : LineParser} {lo : Int} (line : LineInfo)
    (h : p.InStep line.editor.line [] lo) :
    ∃ sp, (processRGBARule p line).2.1.InStep (processRGBARule p line).2.2.line sp lo := by
  have h1 := instep_expectEqualityOp h line
  obtain ⟨sp, h2⟩ := instep_hexStage line h1
  have h3 : (readChannels (hexStage (expectEqualityOp p line).2 line).1).2.2.2.2.InStep
      (hexStage (expectEqualityOp p line).2 line).2.line sp lo := by
    unfold readChannels
    simp only []
    exact instep_nextNumber (instep_nextNumber (instep_nextNumber (instep_nextNumber h2)))
  unfold processRGBARule
  simp only []
  split
  · dsimp only
    exact ⟨[], h1⟩
  · split
    · dsimp only
      exact ⟨sp, h3⟩
    · dsimp only
      exact ⟨sp, instep_captureTrailingComment h3 _ _⟩

theorem plainRule_instep {lo : Int} (line : LineInfo) (r : ProcessResult × LineParser)
    (hr : r.2.InStep line.editor.line [] lo) (res : ProcessResult) (q : LineParser) (ed : Editor)
    (h : plainRule line.editor r = some (res, q, ed)) : ∃ sp, q.InStep ed.line sp lo := by
  simp only [plainRule, Option.some.injEq, Prod.mk.injEq] at h
  obtain ⟨-, rfl, rfl⟩ := h
  exact ⟨[], hr⟩

/-- Whatever the keyword, the parser a validator returns is in step with the buffer row
it leaves, when the parser it was given was in step with the row it found. -/
theorem instep_processRule (env : Env) (parser : LineParser) (lineInfo : LineInfo)
    (validClasses validBases : List Text) (keyword : Text) (ruleType : Category)
    (res : ProcessResult) (q : LineParser) (ed : Editor) (lo : Int)
    (hp : parser.InStep lineInfo.editor.line [] lo)
    (h : processRule env parser lineInfo validClasses validBases keyword =
      some (ruleType, some (res, q, ed))) :
    ∃ sp, q.InStep ed.line sp lo := by
  unfold processRule at h
  by_cases h0 : keyword = utf16 "ItemLevel" ∨ keyword = utf16 "DropLevel"
  · rw [if_pos h0] at h
    simp only [Option.some.injEq, Prod.mk.injEq] at h
    obtain ⟨-, h⟩ := h
    exact plainRule_instep lineInfo _ (instep_processRangeRule hp _ _ _ _) _ _ _ h
  rw [if_neg h0] at h
  by_cases h1 : keyword = utf16 "Quality"
  · rw [if_pos h1] at h
    simp only [Option.some.injEq, Prod.mk.injEq] at h
    obtain ⟨-, h⟩ := h
    exact plainRule_instep lineInfo _ (instep_processRangeRule hp _ _ _ _) _ _ _ h
  rw [if_neg h1] at h
  by_cases h2 : keyword = utf16 "Sockets"
  · rw [if_pos h2] at h
    simp only [Option.some.injEq, Prod.mk.injEq] at h
    obtain ⟨-, h⟩ := h
    exact plainRule_instep lineInfo _ (instep_processRangeRule hp _ _ _ _) _ _ _ h
  rw [if_neg h2] at h
  by_cases h3 : keyword = utf16 "Height"
  · rw [if_pos h3] at h
    simp only [Option.some.injEq, Prod.mk.injEq] at h
    obtain ⟨-, h⟩ := h
    exact plainRule_instep lineInfo _ (instep_processRangeRule hp _ _ _ _) _ _ _ h
  rw [if_neg h3] at h
  by_cases h4 : keyword = utf16 "Width"
  · rw [if_pos h4] at h
    simp only [Option.some.injEq, Prod.mk.injEq] at h
    obtain ⟨-, h⟩ := h
    exact plainRule_instep lineInfo _ (instep_processRangeRule hp _ _ _ _) _ _ _ h
  rw [if_neg h4] at h
  by_cases h5 : keyword = utf16 "Identified" ∨ keyword = utf16 "Corrupted"
  · rw [if_pos h5] at h
    simp only [Option.some.injEq, Prod.mk.injEq] at h
    obtain ⟨-, h⟩ := h
    exact plainRule_instep lineInfo _ (instep_processBooleanRule hp _) _ _ _ h
  rw [if_neg h5] at h
  by_cases h6 : keyword = utf16 "Rarity"
  · rw [if_pos h6] at h
    simp only [Option.some.injEq, Prod.mk.injEq] at h
    obtain ⟨-, h⟩ := h
    exact plainRule_instep lineInfo _ (instep_processStringRule hp _ _ _ _) _ _ _ h
  rw [if_neg h6] at h
  by_cases h7 : keyword = utf16 "LinkedSockets"
  · rw [if_pos h7] at h
    simp only [Option.some.injEq, Prod.mk.injEq] at h
    obtain ⟨-, h⟩ := h
    exact plainRule_instep lineInfo _ (instep_processOpNumberRule hp _ _) _ _ _ h
  rw [if_neg h7] at h
  by_cases h8 : keyword = utf16 "SocketGroup"
  · rw [if_pos h8] at h
    simp only [Option.some.injEq, Prod.mk.injEq] at h
    obtain ⟨-, h⟩ := h
    exact plainRule_instep lineInfo _ (instep_processSocketGroup hp _) _ _ _ h
  rw [if_neg h8] at h
  by_cases h9 : keyword = utf16 "Class"
  · rw [if_pos h9] at h
    simp only [Option.some.injEq, Prod.mk.injEq] at h
    obtain ⟨-, h⟩ := h
    cases hr : processMultiStringRule env parser lineInfo validClasses false with
    | none => rw [hr] at h; cases h
    | some r =>
      rw [hr] at h
      exact plainRule_instep lineInfo r
        (instep_processMultiStringRule hp env lineInfo _ _ r hr) _ _ _ h
  rw [if_neg h9] at h
  by_cases h10 : keyword = utf16 "BaseType"
  · rw [if_pos h10] at h
    simp only [Option.some.injEq, Prod.mk.injEq] at h
    obtain ⟨-, h⟩ := h
    cases hr : processMultiStringRule env parser lineInfo validBases false with
    | none => rw [hr] at h; cases h
    | some r =>
      rw [hr] at h
      exact plainRule_instep lineInfo r
        (instep_processMultiStringRule hp env lineInfo _ _ r hr) _ _ _ h
  rw [if_neg h10] at h
  by_cases h11 : keyword = utf16 "SetFontSize"
  · rw [if_pos h11] at h
    simp only [Option.some.injEq, Prod.mk.injEq] at h
    obtain ⟨-, h⟩ := h
    exact plainRule_instep lineInfo _ (instep_processRangeRule hp _ _ _ _) _ _ _ h
  rw [if_neg h11] at h
  by_cases h12 : keyword = utf16 "SetBorderColor" ∨ keyword = utf16 "SetTextColor" ∨
      keyword = utf16 "SetBackgroundColor"
  · rw [if_pos h12] at h
    simp only [Option.some.injEq, Prod.mk.injEq] at h
    obtain ⟨-, h⟩ := h
    have hh := instep_processRGBARule lineInfo hp
    rw [h] at hh
    exact hh
  rw [if_neg h12] at h
  by_cases h13 : keyword = utf16 "PlayAlertSound"
  · rw [if_pos h13] at h
    simp only [Option.some.injEq, Prod.mk.injEq] at h
    obtain ⟨-, h⟩ := h
    exact plainRule_instep lineInfo _ (instep_processAlertSoundRule hp _) _ _ _ h
  rw [if_neg h13] at h
  cases h

theorem dropTrailingSpace_ne_nil (t : Text) (h : textRegex t = true) :
    dropTrailingSpace t ≠ [] := by
  intro hd
  obtain ⟨tail, h1, h2⟩ := dropTrailingSpace_split t
  rw [hd, List.nil_append] at h1
  rw [h1, textRegex_of_spaces tail h2] at h
  cases h

theorem dropTrailingSpace_append_text (a x : Text) (hx : textRegex x = true) :
    dropTrailingSpace (a ++ x) = a ++ dropTrailingSpace x := by
  obtain ⟨tail, h1, h2⟩ := dropTrailingSpace_split x
  conv_lhs => rw [h1, ← List.append_assoc]
  apply dropTrailingSpace_append_spaces _ _ _ h2
  intro c hc
  rw [List.getLast?_append_of_ne_nil a (dropTrailingSpace_ne_nil x hx)] at hc
  exact dropTrailingSpace_last x c hc

/-- The parser `parseLine` hands to the validator of a rule keyword is in step with
the buffer row, when the row holds the line and no line separator stands between the
keyword and the last character of the line that is not whitespace. -/
theorem instep_after_keyword (args : Args) (w0 kw rest : Text) (p0 : LineParser)
    (hline : args.lineText = w0 ++ kw ++ rest) (hw0 : Blank w0) (hne : kw ≠ [])
    (hkw : ∀ c ∈ kw, isWordChar c = true)
    (hnew : LineParser.new args.lineText = Except.ok p0)
    (hbuf : args.editor.line = args.lineText)
    (hdot : ∀ c ∈ dropTrailingSpace (kw ++ rest), isDot c = true) :
    ({ p0 with text := rest, currentIndex := ((w0.length + kw.length : Nat) : Int),
               empty := !textRegex rest } : LineParser).InStep args.editor.line []
      ((w0.length : Int) + kw.length) := by
  have hstop : ∀ c, (kw ++ rest).head? = some c → isSpace c = false := by
    intro c hc
    cases kw with
    | nil => exact absurd rfl hne
    | cons k ks =>
      simp only [List.cons_append, List.head?_cons, Option.some.injEq] at hc
      subst hc
      exact isWordChar_not_space (hkw k (List.mem_cons_self _ _))
  have htw := takeWhile_append_stop isSpace w0 (kw ++ rest) hw0.isSpace hstop
  rw [← List.append_assoc, ← hline] at htw
  have htx : textRegex (kw ++ rest) = true := by
    cases kw with
    | nil => exact absurd rfl hne
    | cons k ks =>
      have := isWordChar_not_space (hkw k (List.mem_cons_self _ _))
      simp [textRegex, this]
  have htext : textRegex args.lineText = true := by
    rw [hline, List.append_assoc, textRegex_append, htx]; simp
  obtain ⟨-, hte⟩ := LineParser.new_text_bounds _ _ hnew htext (by rw [htw.2]; exact hdot)
  rw [htw.1, htw.2] at hte
  refine ⟨⟨w0 ++ kw, ?_, ?_⟩, by simp, ?_, ?_, ?_, ?_⟩
  · dsimp only; rw [hbuf, hline]; simp
  · dsimp only; simp
  · dsimp only; simp
  · dsimp only; rw [hbuf]; exact (LineParser.new_originalLength _ _ hnew).1
  · dsimp only
    rw [hte, hbuf, hline, List.append_assoc, dropTrailingSpace_append_text w0 _ htx]
    simp
  · dsimp only
    intro h
    simpa using h

/-- What a parser that is in step with a row and not flagged empty leaves to report:
the row is the consumed part, the remainder up to its last character that is not
whitespace, and whitespace; the cursor stands where the remainder starts and
`textEndIndex` where it ends. -/
theorem instep_remainder (p : LineParser) (row sp : Text) (lo : Int)
    (h : p.InStep row sp lo) (he : p.empty = false) :
    ∃ pre remainder sp2, row = pre ++ remainder ++ sp2 ∧ (∀ c ∈ sp2, isSpace c = true) ∧
      remainder ≠ [] ∧ (∀ c, remainder.getLast? = some c → isSpace c = false) ∧
      p.currentIndex = pre.length ∧ lo ≤ pre.length ∧
      p.textEndIndex = ((pre ++ remainder).length : Int) := by
  obtain ⟨⟨pre, h1, hc⟩, hsp, hlo, -, hte, hem⟩ := h
  have htx := hem he
  obtain ⟨tail, t1, t2⟩ := dropTrailingSpace_split p.text
  have hrow : row = pre ++ dropTrailingSpace p.text ++ (tail ++ sp) := by
    conv_lhs => rw [h1, t1]
    simp
  have hsp2 : ∀ c ∈ tail ++ sp, isSpace c = true := by
    intro c hc
    rcases List.mem_append.mp hc with h | h
    · exact t2 c h
    · exact hsp c h
  refine ⟨pre, dropTrailingSpace p.text, tail ++ sp, hrow, hsp2, dropTrailingSpace_ne_nil _ htx,
    dropTrailingSpace_last _, hc, by rw [← hc]; exact hlo, ?_⟩
  rw [hte]
  conv_lhs => rw [hrow]
  rw [dropTrailingSpace_append_spaces _ _ _ hsp2]
  intro c hc
  rw [List.getLast?_append_of_ne_nil pre (dropTrailingSpace_ne_nil _ htx)] at hc
  exact dropTrailingSpace_last _ c hc

/-- C14, as amended. For every rule line, of any of the eighteen kinds, that holds no
line separator (U+2028, U+2029) between its keyword and its last character that is not
whitespace, parsed against an editor whose buffer row holds the line: when the
validator, called on the parser that `nextWord` leaves after the keyword, returns a
result that is not invalid and a parser that is not flagged empty,
`parseLine` returns an invalid Rule whose only diagnostic is the error "Trailing text
for a filter rule."; the buffer row as the validator left it is a consumed part `pre`
that reaches at least to the end of the keyword, a `remainder` that is not empty and
ends with a character that is not whitespace, and whitespace; the cursor stands at the
first column of the remainder, and the error ranges over exactly the remainder, from
the cursor to the end of the row's text; the error carries one autofix, which replaces
the remainder by itself prefixed with ` #`, exactly when the keyword is one of the four
comment-tolerant actions, and no autofix otherwise. -/
theorem parseLine_trailing_text (env : Env) (args : Args) (w0 kw rest : Text)
    (p0 p : LineParser) (cat : Category) (res : ProcessResult) (ed : Editor)
    (hline : args.lineText = w0 ++ kw ++ rest) (hw0 : Blank w0) (hb : atBoundary rest = true)
    (hnew : LineParser.new args.lineText = Except.ok p0)
    (hbuf : args.editor.line = args.lineText)
    (hdot : ∀ c ∈ dropTrailingSpace (kw ++ rest), isDot c = true)
    (hrule : processRule env p0.nextWord.2
        { editor := args.editor, number := args.row, file := args.editor.path, keyword := kw }
        (args.itemData.classes ++ args.itemData.whitelistClasses)
        (args.itemData.bases ++ args.itemData.whitelistBases) kw = some (cat, some (res, p, ed)))
    (hvalid : res.invalid = false) (hrem : p.empty = false) :
    ∃ r m pre remainder sp, parseLine env args = Except.ok (r, ed) ∧
      r.type = LineType.Rule ∧ r.invalid = true ∧ r.messages = [m] ∧
      r.values = res.values ∧
      m.severity = Severity.error ∧ m.excerpt = utf16 "Trailing text for a filter rule." ∧
      ed.line = pre ++ remainder ++ sp ∧ (∀ c ∈ sp, isSpace c = true) ∧ remainder ≠ [] ∧
      (∀ c, remainder.getLast? = some c → isSpace c = false) ∧
      p.currentIndex = pre.length ∧ w0.length + kw.length ≤ pre.length ∧
      m.location.position = columns args.row pre.length (pre ++ remainder).length ∧
      m.solutions =
        if kw ∈ commentTolerant then
          some [{ currentText := remainder,
                  position := columns args.row pre.length (pre ++ remainder).length,
                  replaceWith := utf16 " #" ++ remainder,
                  title := utf16 "Comment This Text" }]
        else none := by
  obtain ⟨hs1, hs2, hne, hkw⟩ := processRule_keyword _ _ _ _ _ _ _ hrule
  have heol : eolRegex rest = false := by
    have h := LineParser.new_no_line_break _ _ hnew
    rw [hline, eolRegex_append] at h
    simp only [Bool.or_eq_false_iff] at h
    exact h.2
  obtain ⟨p0', hp0', hpl⟩ := parseLine_keyword_line env args w0 kw rest hline hw0 hne hkw hb heol
    ⟨hs1, hs2⟩
  rw [hnew] at hp0'
  injection hp0' with hp0'
  subst hp0'
  have hnw : p0.nextWord.2 =
      { p0 with text := rest, currentIndex := ((w0.length + kw.length : Nat) : Int),
                empty := !textRegex rest } := by
    have heol' : eolRegex args.lineText = false := LineParser.new_no_line_break _ _ hnew
    obtain ⟨q0, hq0, hpt, hpe, hci, -⟩ := LineParser.new_ok args.lineText heol'
    rw [hnew] at hq0
    injection hq0 with hq0
    subst hq0
    have htr : textRegex args.lineText = true := by
      rw [hline]
      exact textRegex_append_token w0 kw rest hne (fun c hc => isWordChar_not_space (hkw c hc))
    rw [nextWord_some p0 w0 kw rest (by rw [hpt, hline]) hw0.isSpace hne hkw hb]
    simp only [hci, zero_add, hpe, htr, Bool.not_true]
    cases textRegex rest <;> rfl
  rw [hnw] at hrule
  obtain ⟨x, hx, hsound⟩ := processRule_sound _ _ _ _ _ _ _ _ hrule
  simp only [Option.some.injEq] at hx
  subst hx
  have hm : res.messages = [] := by
    by_contra h
    have := hsound.1.mpr h
    rw [hvalid] at this
    cases this
  have hstart := instep_after_keyword args w0 kw rest p0 hline hw0 hne hkw hnew hbuf hdot
  obtain ⟨sp0, hin⟩ := instep_processRule env _
    { editor := args.editor, number := args.row, file := args.editor.path, keyword := kw }
    _ _ kw cat res p ed _ hstart hrule
  obtain ⟨pre, remainder, sp, hrow, hsp, hrne, hlast, hci, hlo, hte⟩ :=
    instep_remainder p ed.line sp0 _ hin hrem
  have hle : (pre.length : Int) ≤ ((pre ++ remainder).length : Int) := by
    simp only [List.length_append, Nat.cast_add]; omega
  have hpos : Range.onRow args.row p.currentIndex p.textEndIndex =
      columns args.row pre.length (pre ++ remainder).length := by
    rw [hci, hte, Range.onRow_of_le _ _ _ hle]
  have hget : ed.getTextInBufferRange
      (columns args.row pre.length (pre ++ remainder).length) = remainder := by
    have h0 : ed = Editor.mk ed.path (pre ++ remainder ++ sp) := by
      rw [← hrow]
    rw [h0]
    exact getText_middle ed.path pre remainder sp args.row _ _ rfl
      (by simp only [List.length_append, Nat.cast_add])
  rw [hpl, hrule]
  simp only [finishRule]
  refine ⟨_, errorMessage args.editor.path (Range.onRow args.row p.currentIndex p.textEndIndex)
      (utf16 "Trailing text for a filter rule.")
      (utf16 "http://pathofexile.gamepedia.com/Item_filter_guide")
      (some (utf16 "Path of Exile will consider this an error."))
      (if kw ∈ commentTolerant then
        some [commentOutFix ed (Range.onRow args.row p.currentIndex p.textEndIndex)]
      else none), pre, remainder, sp, rfl, rfl, ?_, ?_, rfl, rfl, rfl, hrow, hsp, hrne, hlast, hci,
      by exact_mod_cast hlo, ?_, ?_⟩
  · simp [ruleResult, mergeMessages, hm, trailingText_of_valid args kw res p ed hvalid hrem]
  · simp [ruleResult, mergeMessages, hm, trailingText_of_valid args kw res p ed hvalid hrem]
  · simp only [errorMessage]
    exact hpos
  · simp only [errorMessage, commentOutFix, hpos, hget]

/-- C14 as amended, at the line `ItemLevel 5 x  `: the hypotheses hold (on the parser
that `nextWord` leaves after the keyword the validator returns the value 5 and a parser
that stands at column 11 with ` x  ` left), and the
result is invalid with the one error "Trailing text for a filter rule.", which has no
autofix, `ItemLevel` being no comment-tolerant action; evaluated, the error ranges over
columns 11-13, the remainder ` x` without the whitespace that ends the line. -/
theorem parseLine_trailing_text_witness :
    (LineParser.new (utf16 "ItemLevel 5 x  ") =
        Except.ok { text := utf16 "ItemLevel 5 x  ", currentIndex := 0, originalLength := 15,
                    textStartIndex := 0, textEndIndex := 13, empty := false } ∧
      (∀ c ∈ dropTrailingSpace (utf16 "ItemLevel" ++ utf16 " 5 x  "), isDot c = true) ∧
      processRule asciiEnv
        (LineParser.nextWord
          { text := utf16 "ItemLevel 5 x  ", currentIndex := 0, originalLength := 15,
            textStartIndex := 0, textEndIndex := 13, empty := false }).2
        { editor := { path := none, line := utf16 "ItemLevel 5 x  " }, number := 0, file := none,
          keyword := utf16 "ItemLevel" }
        (sampleItems.classes ++ sampleItems.whitelistClasses)
        (sampleItems.bases ++ sampleItems.whitelistBases) (utf16 "ItemLevel") =
        some (Category.condition,
          some ({ values := [{ value := Value.number (JSNum.ofInt 5), range := columns 0 10 11 }] },
            { text := utf16 " x  ", currentIndex := 11, originalLength := 15, textStartIndex := 0,
              textEndIndex := 13, empty := false },
            { path := none, line := utf16 "ItemLevel 5 x  " })) ∧
      utf16 "ItemLevel" ∉ commentTolerant) ∧
    (∃ r m pre remainder sp, parseLine asciiEnv (argsFor (utf16 "ItemLevel 5 x  ")) =
        Except.ok (r, { path := none, line := utf16 "ItemLevel 5 x  " }) ∧
      r.type = LineType.Rule ∧ r.invalid = true ∧ r.messages = [m] ∧
      r.values = [{ value := Value.number (JSNum.ofInt 5), range := columns 0 10 11 }] ∧
      m.severity = Severity.error ∧ m.excerpt = utf16 "Trailing text for a filter rule." ∧
      utf16 "ItemLevel 5 x  " = pre ++ remainder ++ sp ∧ (∀ c ∈ sp, isSpace c = true) ∧
      remainder ≠ [] ∧ (∀ c, remainder.getLast? = some c → isSpace c = false) ∧
      (11 : Int) = pre.length ∧
      m.location.position = columns 0 pre.length (pre ++ remainder).length ∧
      m.solutions = none) ∧
    (parseLine asciiEnv (argsFor (utf16 "ItemLevel 5 x  "))).toOption.map
      (fun x => x.1.messages.map (fun m => (m.location.position, m.excerpt, m.solutions))) =
      some [(columns 0 11 13, utf16 "Trailing text for a filter rule.", none)] := by
  refine ⟨⟨by rfl, by decide, by rfl, by decide⟩, ?_, rfl⟩
  obtain ⟨r, m, pre, remainder, sp, h1, h2, h3, h4, h5, h6, h7, h8, h9, h10, h11, h12, -, h14,
      h15⟩ :=
    parseLine_trailing_text asciiEnv (argsFor (utf16 "ItemLevel 5 x  ")) []
      (utf16 "ItemLevel") (utf16 " 5 x  ")
      { text := utf16 "ItemLevel 5 x  ", currentIndex := 0, originalLength := 15,
        textStartIndex := 0, textEndIndex := 13, empty := false }
      { text := utf16 " x  ", currentIndex := 11, originalLength := 15, textStartIndex := 0,
        textEndIndex := 13, empty := false }
      Category.condition
      { values := [{ value := Value.number (JSNum.ofInt 5), range := columns 0 10 11 }] }
      { path := none, line := utf16 "ItemLevel 5 x  " }
      (by decide) (by decide) (by decide) (by rfl) rfl (by decide) (by rfl) rfl rfl
  exact ⟨r, m, pre, remainder, sp, h1, h2, h3, h4, h5, h6, h7, h8, h9, h10, h11, h12, h14,
    by rw [h15]; rfl⟩

/-- The trailing-text error on colour lines, evaluated: on `SetTextColor #FF0000 x y  `
the literal is rewritten first, and the error ranges over ` x y` at columns 20-24 of
the rewritten row, with the autofix that replaces it by ` # x y`; on
`SetTextColor 1 2 3 x` it ranges over ` x` at columns 18-20. -/
theorem parseLine_trailing_text_colour :
    [utf16 "SetTextColor #FF0000 x y  ", utf16 "SetTextColor 1 2 3 x"].map
      (fun line => (parseLine asciiEnv (argsFor line)).toOption.map
        (fun x => (x.1.invalid,
          x.1.messages.map (fun m => (m.location.position, m.excerpt,
            m.solutions.map (fun l => l.map fun f => (f.currentText, f.replaceWith)))),
          x.2.line))) =
    [some (true,
       [(columns 0 20 24, utf16 "Trailing text for a filter rule.",
         some [(utf16 " x y", utf16 " # x y")])],
       utf16 "SetTextColor 255 0 0 x y  "),
     some (true,
       [(columns 0 18 20, utf16 "Trailing text for a filter rule.",
         some [(utf16 " x", utf16 " # x")])],
       utf16 "SetTextColor 1 2 3 x")] := by
  rfl

/-- C20, as amended. For every line made of `SocketGroup`, an `=` if one is written,
and one string token, bare or in double quotes, with value `s`: the result is a
Rule; it is not invalid and holds the single value `s` over the token's columns
exactly when `s` is one to six characters, each of R, G, B, W in either case, and
then it has no diagnostics; otherwise it is invalid, holds no value and has exactly
one diagnostic, an error: over the token's columns when `s` is not empty, and for the
empty quoted token the format error, which ranges to the end of the line from a
column that is at most the first column of the keyword, and is that column when no
line separator (U+2028, U+2029) stands in the whitespace between the keyword and the
token. -/
theorem parseLine_SocketGroup (env : Env) (row : Int) (editor : Editor) (itemData : ItemData)
    (w0 w1 : Text) (op : Option Text) (w2 : Text) (q : Bool) (s w3 : Text)
    (hw0 : Blank w0) (hw1 : Blank w1) (hw1ne : w1 ≠ [])
    (hop : ∀ o, op = some o → o = utf16 "=" ∧ Blank w2 ∧ w2 ≠ [])
    (hs : IsStringValue q s) (hw3 : Blank w3) :
    ∃ r, parseLine env
        { lineText := w0 ++ utf16 "SocketGroup" ++ (w1 ++ operatorPart op w2 ++ written q s ++ w3),
          row := row, editor := editor, itemData := itemData } = Except.ok (r, editor) ∧
      r.type = LineType.Rule ∧
      ((r.invalid = false ∧
        r.values =
          [{ value := Value.string s,
             range := columns row
               (w0.length + (utf16 "SocketGroup").length + w1.length + (operatorPart op w2).length)
               (w0.length + (utf16 "SocketGroup").length + w1.length +
                 (operatorPart op w2).length + (written q s).length) }]) ↔ IsSocketGroup s) ∧
      (IsSocketGroup s → r.messages = []) ∧
      (¬ IsSocketGroup s →
        r.invalid = true ∧ r.values = [] ∧
        ∃ m, r.messages = [m] ∧ m.severity = Severity.error ∧
          (s ≠ [] →
            m.location.position = columns row
              (w0.length + (utf16 "SocketGroup").length + w1.length + (operatorPart op w2).length)
              (w0.length + (utf16 "SocketGroup").length + w1.length +
                (operatorPart op w2).length + (written q s).length) ∧
            m.excerpt =
              utf16 "Invalid value for \"SocketGroup\" rule. Valid characters are: R, B, G, W.") ∧
          (s = [] →
            m.excerpt = utf16 "Invalid format. Expected \"SocketGroup <Group>\"." ∧
            ∃ s0 : Int, 0 ≤ s0 ∧ s0 ≤ w0.length ∧
              m.location.position = columns row s0
                (w0 ++ utf16 "SocketGroup" ++
                  (w1 ++ operatorPart op w2 ++ written q s ++ w3)).length ∧
              ((∀ c ∈ w1 ++ operatorPart op w2, isDot c = true) → s0 = w0.length))) := by
  have heol : eolRegex (w1 ++ operatorPart op w2 ++ written q s ++ w3) = false := by
    rw [eolRegex_append, eolRegex_append, eolRegex_append, hw1.eolRegex,
      eolRegex_equals_part op w2 hop, eolRegex_written q s hs, hw3.eolRegex]
    rfl
  obtain ⟨p1, hp1t, hp1c, hp1o, -, hp1s, hp1d, hpl⟩ := parseLine_rule_line_bounds env
    { lineText := w0 ++ utf16 "SocketGroup" ++ (w1 ++ operatorPart op w2 ++ written q s ++ w3),
      row := row, editor := editor, itemData := itemData }
    w0 (utf16 "SocketGroup") (w1 ++ operatorPart op w2 ++ written q s ++ w3) rfl hw0 (by decide)
    (by decide)
    (by rw [List.append_assoc, List.append_assoc]
        exact atBoundary_of_spaces_append w1 _ hw1.isSpace hw1ne)
    heol ⟨by decide, by decide⟩
  dsimp only at hpl hp1o
  obtain ⟨hemp, hres⟩ := processSocketGroup_token p1
    { editor := editor, number := row, file := editor.path, keyword := utf16 "SocketGroup" }
    w1 op w2 q s w3 hp1t hw1.isSpace
    (fun o ho => ⟨(hop o ho).1, (hop o ho).2.2, (hop o ho).2.1.isSpace⟩) hs hw3.isSpace
  rw [hpl, processRule_SocketGroup]
  simp only [finishRule, plainRule]
  generalize processSocketGroup p1 _ = pr at hemp hres ⊢
  obtain ⟨res, pp⟩ := pr
  dsimp only at hemp hres ⊢
  refine ⟨_, rfl, ?_⟩
  rw [← groupRegex_iff]
  by_cases hsn : s = []
  · have hg : groupRegex s = false := by subst hsn; rfl
    rw [if_pos hsn] at hres
    obtain ⟨h1, -, h3, h4, -, h6⟩ := ruleResult_of_invalid
      { lineText := w0 ++ utf16 "SocketGroup" ++ (w1 ++ operatorPart op w2 ++ written q s ++ w3),
        row := row, editor := editor, itemData := itemData }
      { name := utf16 "SocketGroup",
        range := Range.onRow row w0.length ((w0.length + (utf16 "SocketGroup").length : Nat) : Int) }
      Category.condition res pp editor (by rw [hres]; rfl) (by rw [hres]; simp [ProcessResult.fail])
    refine ⟨h1, ?_, fun h => absurd h (by simp [hg]), fun _ => ⟨h3, by rw [h6, hres]; rfl, _,
      by rw [h4, hres]; rfl, rfl, ?_, ?_⟩⟩
    · rw [h3, hg]; simp
    · intro h; exact absurd hsn h
    · intro _
      refine ⟨rfl, p1.textStartIndex, ?_, ?_, ?_, ?_⟩
      · rcases hp1s with h | h <;> omega
      · rcases hp1s with h | h <;> omega
      · simp only [errorMessage]
        rw [Range.onRow_of_le _ _ _ (by rcases hp1s with h | h <;> rw [h, hp1o] <;>
          simp only [List.length_append, Nat.cast_add] <;> omega), hp1o]
      · intro hd
        refine (hp1d ?_).1
        intro c hc
        have hq : written q s = [34, 34] := by
          subst hsn
          cases q with
          | true => rfl
          | false => exact absurd rfl hs.1
        have hx : utf16 "SocketGroup" ++ (w1 ++ operatorPart op w2 ++ written q s ++ w3) =
            (utf16 "SocketGroup" ++ (w1 ++ operatorPart op w2) ++ [34, 34]) ++ w3 := by
          rw [hq]; simp
        rw [hx, dropTrailingSpace_append_spaces _ _ (by
          intro c hc
          rw [List.getLast?_append_of_ne_nil _ (by simp)] at hc
          simp only [List.getLast?_cons_cons, List.getLast?_singleton, Option.some.injEq] at hc
          subst hc
          decide) hw3.isSpace] at hc
        simp only [List.mem_append] at hc
        rcases hc with (hc | hc) | hc
        · revert c; decide
        · exact hd c (List.mem_append.mpr hc)
        · revert c; decide
  · rw [if_neg hsn] at hres
    by_cases hg : groupRegex s = true
    · rw [if_pos hg] at hres
      obtain ⟨h1, -, h3, h4, -, h6⟩ := ruleResult_of_clean
        { lineText := w0 ++ utf16 "SocketGroup" ++ (w1 ++ operatorPart op w2 ++ written q s ++ w3),
          row := row, editor := editor, itemData := itemData }
        { name := utf16 "SocketGroup",
          range := Range.onRow row w0.length ((w0.length + (utf16 "SocketGroup").length : Nat) : Int) }
        Category.condition res pp editor (by rw [hres]) (by rw [hres]) hemp
      refine ⟨h1, ?_, fun _ => h4, fun h => absurd hg h⟩
      rw [h3, h6, hres, hp1c]
      simp [hg]
    · rw [if_neg hg] at hres
      obtain ⟨h1, -, h3, h4, -, h6⟩ := ruleResult_of_invalid
        { lineText := w0 ++ utf16 "SocketGroup" ++ (w1 ++ operatorPart op w2 ++ written q s ++ w3),
          row := row, editor := editor, itemData := itemData }
        { name := utf16 "SocketGroup",
          range := Range.onRow row w0.length ((w0.length + (utf16 "SocketGroup").length : Nat) : Int) }
        Category.condition res pp editor (by rw [hres]; rfl)
        (by rw [hres]; simp [ProcessResult.fail])
      refine ⟨h1, ?_, fun h => absurd h hg, fun _ => ⟨h3, by rw [h6, hres]; rfl, _,
        by rw [h4, hres]; rfl, rfl, ?_, ?_⟩⟩
      · rw [h3]; simp [hg]
      · intro _
        refine ⟨?_, rfl⟩
        simp only [errorMessage, hp1c]
      · intro h; exact absurd h hsn

/-- C20 as amended, at the line `SocketGroup RGB`: the hypotheses hold, `RGB` is a
socket group, and the result is valid with the single value `RGB` at columns 12-15
and no diagnostics. -/
theorem parseLine_SocketGroup_witness :
    (Blank [] ∧ Blank [32] ∧ IsStringValue false (utf16 "RGB") ∧ IsSocketGroup (utf16 "RGB") ∧
      [] ++ utf16 "SocketGroup" ++ ([32] ++ operatorPart none [] ++ written false (utf16 "RGB") ++ []) =
        utf16 "SocketGroup RGB") ∧
    ∃ r, parseLine asciiEnv
        { lineText := utf16 "SocketGroup RGB", row := 0,
          editor := { path := none, line := utf16 "SocketGroup RGB" },
          itemData := sampleItems } =
          Except.ok (r, { path := none, line := utf16 "SocketGroup RGB" }) ∧
      r.type = LineType.Rule ∧ r.invalid = false ∧ r.messages = [] ∧
      r.values = [{ value := Value.string (utf16 "RGB"), range := columns 0 12 15 }] := by
  refine ⟨⟨by decide, by decide, by decide, by decide, by decide⟩, ?_⟩
  obtain ⟨r, h1, h2, h3, h4, -⟩ := parseLine_SocketGroup asciiEnv 0
    { path := none, line := utf16 "SocketGroup RGB" } sampleItems [] [32] none [] false
    (utf16 "RGB") [] (by decide) (by decide) (by decide) (fun o ho => by cases ho) (by decide)
    (by decide)
  have hg : IsSocketGroup (utf16 "RGB") := by decide
  exact ⟨r, h1, h2, (h3.mpr hg).1, h4 hg, (h3.mpr hg).2⟩

/-- One `nextNumber` call on a number token, with the parser it leaves. -/
theorem nextNumber_step_empty (p : LineParser) (ws tok rest : Text)
    (hp : p.text = ws ++ tok ++ rest)
    (hws : ∀ c ∈ ws, isSpace c = true) (htok : IsNumberToken tok)
    (hrest : atBoundary rest = true) :
    ∃ p2, p.nextNumber = (numberToken (p.currentIndex + ws.length) tok, p2) ∧ p2.text = rest ∧
      p2.empty = (if !textRegex rest then true else p.empty) := by
  refine ⟨{ p with text := rest,
                   currentIndex := p.currentIndex + ((ws.length + tok.length : Nat) : Int),
                   empty := if !textRegex rest then true else p.empty }, ?_, rfl, rfl⟩
  rw [nextNumber_some p ws tok rest hp hws htok.1 htok.2 hrest]
  simp only [numberToken, Nat.cast_add, add_assoc]

theorem nextNumber_of_spaces (p : LineParser) (h : ∀ c ∈ p.text, isSpace c = true) :
    p.nextNumber = ({ found := false, startIndex := 0, endIndex := 0, value := none }, p) := by
  unfold LineParser.nextNumber
  have hre : numberRegex p.text = none := regex_of_spaces Extractor.number p.text h
  rw [parseSingleValue_of_none p _ hre]
  rfl

theorem captureTrailingComment_of_spaces (p : LineParser) (line : LineInfo) (r : ProcessResult)
    (h : ∀ c ∈ p.text, isSpace c = true) : captureTrailingComment p line r = (r, p) := by
  unfold captureTrailingComment LineParser.isCommented
  rw [commentRegex_of_spaces p.text h]
  rfl

/-- The colour validator on an optional `=` and three or four channels in 0..255
followed by whitespace only: nothing is reported, the editor is left alone, and the
parser is left empty. -/
theorem processRGBARule_in_range (p : LineParser) (line : LineInfo) (w1 : Text)
    (op : Option Text) (w2 tok1 : Text) (more : List (Text × Text)) (w3 : Text)
    (hp : p.text = w1 ++ operatorPart op w2 ++ tok1 ++ (numbersText more ++ w3))
    (hw1 : ∀ c ∈ w1, isSpace c = true)
    (hop : ∀ o, op = some o → o = utf16 "=" ∧ w2 ≠ [] ∧ ∀ c ∈ w2, isSpace c = true)
    (hm : ∀ x ∈ more, Blank x.1 ∧ x.1 ≠ []) (hlen : more.length = 2 ∨ more.length = 3)
    (h1 : NumberIn 0 255 tok1) (hmore : ∀ x ∈ more, NumberIn 0 255 x.2)
    (hw3 : ∀ c ∈ w3, isSpace c = true) :
    (processRGBARule p line).1.messages = [] ∧ (processRGBARule p line).1.invalid = false ∧
    (processRGBARule p line).2.1.empty = true ∧ (processRGBARule p line).2.2 = line.editor := by
  have hbt : atBoundary w3 = true := by
    cases w3 with
    | nil => rfl
    | cons c r => exact hw3 c (List.mem_cons_self _ _)
  have ht3 : textRegex w3 = false := textRegex_of_spaces w3 hw3
  obtain ⟨p2, wz, e1, e2, e3, e4, -, -, -, -⟩ := expectEqualityOp_optional p line w1 op w2
    (tok1 ++ (numbersText more ++ w3)) (by rw [hp, List.append_assoc]) hw1 hop
    (fun c hc => (numberToken_head tok1 _ h1.1 c hc).1)
  have hst : hexStage p2 line = (p2, line.editor) :=
    hexStage_none p2 line (by
      rw [e2]
      exact colorHexRegex_none wz _ e3
        (fun c hc => ⟨(numberToken_head tok1 _ h1.1 c hc).1.1,
          (numberToken_head tok1 _ h1.1 c hc).2⟩))
  obtain ⟨p3, n1, n2, -⟩ := nextNumber_step_empty p2 wz tok1 (numbersText more ++ w3)
    (by rw [e2, List.append_assoc]) e3 h1.1 (atBoundary_numbersText more _ hm hbt)
  obtain ⟨nr, vr, vr1, vr2⟩ := numberIn_value 0 255 tok1 (p2.currentIndex + wz.length) h1
  have hfin : ∀ (red green blue alpha : ParseResult JSNum) (q : LineParser),
      readChannels p2 = (red, green, blue, alpha, q) →
      red.found = true → red.value.isSome = true → green.found = true →
      green.value.isSome = true → blue.found = true → blue.value.isSome = true →
      (checkChannels line red green blue alpha {}).messages = [] ∧
        (checkChannels line red green blue alpha {}).invalid = false →
      q.text = w3 → q.empty = true →
      (processRGBARule p line).1.messages = [] ∧ (processRGBARule p line).1.invalid = false ∧
      (processRGBARule p line).2.1.empty = true ∧ (processRGBARule p line).2.2 = line.editor := by
    intro red green blue alpha q hread f1 f2 f3 f4 f5 f6 hchk hqt hqe
    have hcap := captureTrailingComment_of_spaces q line
      (checkChannels line red green blue alpha {}) (by rw [hqt]; exact hw3)
    have i2 : red.value.isNone = false := by
      cases h : red.value with
      | none => rw [h] at f2; cases f2
      | some v => rfl
    have i4 : green.value.isNone = false := by
      cases h : green.value with
      | none => rw [h] at f4; cases f4
      | some v => rfl
    have i6 : blue.value.isNone = false := by
      cases h : blue.value with
      | none => rw [h] at f6; cases f6
      | some v => rfl
    unfold processRGBARule
    rw [e1]; dsimp only
    rw [hst]; dsimp only
    rw [hread]
    simp only [f1, f3, f5, i2, i4, i6, Bool.not_true, Bool.or_self, Bool.false_eq_true, if_false]
    rw [hcap]
    exact ⟨hchk.1, hchk.2, hqe, trivial⟩
  rcases hlen with hl | hl
  · obtain ⟨⟨wg, tg⟩, ⟨wb, tb⟩, rfl⟩ : ∃ a b, more = [a, b] := by
      match more, hl with
      | [a, b], _ => exact ⟨a, b, rfl⟩
    have hg := hmore (wg, tg) (by simp)
    have hb := hmore (wb, tb) (by simp)
    have hmg := hm (wg, tg) (by simp)
    have hmb := hm (wb, tb) (by simp)
    dsimp only at hg hb hmg hmb
    simp only [numbersText, List.append_nil, List.append_assoc, List.nil_append] at n2
    obtain ⟨p4, g1, g2, -⟩ := nextNumber_step_empty p3 wg tg (wb ++ (tb ++ w3))
      (by rw [n2]; simp) hmg.1.isSpace hg.1
      (atBoundary_of_spaces_append wb _ hmb.1.isSpace hmb.2)
    obtain ⟨p5, b1, b2, b3⟩ := nextNumber_step_empty p4 wb tb w3
      (by rw [g2]; simp) hmb.1.isSpace hb.1 hbt
    have a1 := nextNumber_of_spaces p5 (by rw [b2]; exact hw3)
    obtain ⟨ng, vg, vg1, vg2⟩ := numberIn_value 0 255 tg (p3.currentIndex + wg.length) hg
    obtain ⟨nb, vb, vb1, vb2⟩ := numberIn_value 0 255 tb (p4.currentIndex + wb.length) hb
    have hread : readChannels p2 =
        (numberToken (p2.currentIndex + wz.length) tok1,
         numberToken (p3.currentIndex + wg.length) tg,
         numberToken (p4.currentIndex + wb.length) tb,
         { found := false, startIndex := 0, endIndex := 0, value := none }, p5) := by
      unfold readChannels
      rw [n1]; dsimp only
      rw [g1]; dsimp only
      rw [b1]; dsimp only
      rw [a1]
    obtain ⟨c1, c2, -⟩ := checkChannels_in_range line
      (numberToken (p2.currentIndex + wz.length) tok1)
      (numberToken (p3.currentIndex + wg.length) tg)
      (numberToken (p4.currentIndex + wb.length) tb)
      { found := false, startIndex := 0, endIndex := 0, value := none } nr ng nb
      (by rw [vr]) (by rw [vg]) (by rw [vb]) ⟨vr1, vr2⟩ ⟨vg1, vg2⟩ ⟨vb1, vb2⟩ (Or.inl rfl)
    exact hfin _ _ _ _ _ hread rfl rfl rfl rfl rfl rfl ⟨c1, c2⟩ b2 (by rw [b3, ht3]; rfl)
  · obtain ⟨⟨wg, tg⟩, ⟨wb, tb⟩, ⟨wa, ta⟩, rfl⟩ : ∃ a b c, more = [a, b, c] := by
      match more, hl with
      | [a, b, c], _ => exact ⟨a, b, c, rfl⟩
    have hg := hmore (wg, tg) (by simp)
    have hb := hmore (wb, tb) (by simp)
    have ha := hmore (wa, ta) (by simp)
    have hmg := hm (wg, tg) (by simp)
    have hmb := hm (wb, tb) (by simp)
    have hma := hm (wa, ta) (by simp)
    dsimp only at hg hb ha hmg hmb hma
    simp only [numbersText, List.append_nil, List.append_assoc, List.nil_append] at n2
    obtain ⟨p4, g1, g2, -⟩ := nextNumber_step_empty p3 wg tg (wb ++ (tb ++ (wa ++ (ta ++ w3))))
      (by rw [n2]; simp) hmg.1.isSpace hg.1
      (atBoundary_of_spaces_append wb _ hmb.1.isSpace hmb.2)
    obtain ⟨p5, b1, b2, -⟩ := nextNumber_step_empty p4 wb tb (wa ++ (ta ++ w3))
      (by rw [g2]; simp) hmb.1.isSpace hb.1
      (atBoundary_of_spaces_append wa _ hma.1.isSpace hma.2)
    obtain ⟨p6, a1, a2, a3⟩ := nextNumber_step_empty p5 wa ta w3
      (by rw [b2]; simp) hma.1.isSpace ha.1 hbt
    obtain ⟨ng, vg, vg1, vg2⟩ := numberIn_value 0 255 tg (p3.currentIndex + wg.length) hg
    obtain ⟨nb, vb, vb1, vb2⟩ := numberIn_value 0 255 tb (p4.currentIndex + wb.length) hb
    obtain ⟨na, va, va1, va2⟩ := numberIn_value 0 255 ta (p5.currentIndex + wa.length) ha
    have hread : readChannels p2 =
        (numberToken (p2.currentIndex + wz.length) tok1,
         numberToken (p3.currentIndex + wg.length) tg,
         numberToken (p4.currentIndex + wb.length) tb,
         numberToken (p5.currentIndex + wa.length) ta, p6) := by
      unfold readChannels
      rw [n1]; dsimp only
      rw [g1]; dsimp only
      rw [b1]; dsimp only
      rw [a1]
    obtain ⟨c1, c2, -⟩ := checkChannels_in_range line
      (numberToken (p2.currentIndex + wz.length) tok1)
      (numberToken (p3.currentIndex + wg.length) tg)
      (numberToken (p4.currentIndex + wb.length) tb)
      (numberToken (p5.currentIndex + wa.length) ta) nr ng nb
      (by rw [vr]) (by rw [vg]) (by rw [vb]) ⟨vr1, vr2⟩ ⟨vg1, vg2⟩ ⟨vb1, vb2⟩
      (Or.inr ⟨na, by rw [va], va1, va2⟩)
    exact hfin _ _ _ _ _ hread rfl rfl rfl rfl rfl rfl ⟨c1, c2⟩ a2 (by rw [a3, ht3]; rfl)

/-- The alert-sound validator on an optional `=`, an id in 1..9 and a volume in 0..300
if one is written, followed by whitespace only: nothing is reported, and the parser is
left empty. -/
theorem processAlertSoundRule_in_range (p : LineParser) (line : LineInfo) (w1 : Text)
    (op : Option Text) (w2 tok1 : Text) (more : List (Text × Text)) (w3 : Text)
    (hp : p.text = w1 ++ operatorPart op w2 ++ tok1 ++ (numbersText more ++ w3))
    (hw1 : ∀ c ∈ w1, isSpace c = true)
    (hop : ∀ o, op = some o → o = utf16 "=" ∧ w2 ≠ [] ∧ ∀ c ∈ w2, isSpace c = true)
    (hm : ∀ x ∈ more, Blank x.1 ∧ x.1 ≠ []) (hlen : more.length ≤ 1)
    (h1 : NumberIn 1 9 tok1) (hmore : ∀ x ∈ more, NumberIn 0 300 x.2)
    (hw3 : ∀ c ∈ w3, isSpace c = true) :
    (processAlertSoundRule p line).1.messages = [] ∧
    (processAlertSoundRule p line).1.invalid = false ∧
    (processAlertSoundRule p line).2.empty = true := by
  have hbt : atBoundary w3 = true := by
    cases w3 with
    | nil => rfl
    | cons c r => exact hw3 c (List.mem_cons_self _ _)
  have ht3 : textRegex w3 = false := textRegex_of_spaces w3 hw3
  obtain ⟨p2, wz, e1, e2, e3, e4, -, -, -, -⟩ := expectEqualityOp_optional p line w1 op w2
    (tok1 ++ (numbersText more ++ w3)) (by rw [hp, List.append_assoc]) hw1 hop
    (fun c hc => (numberToken_head tok1 _ h1.1 c hc).1)
  obtain ⟨p3, n1, n2, n3⟩ := nextNumber_step_empty p2 wz tok1 (numbersText more ++ w3)
    (by rw [e2, List.append_assoc]) e3 h1.1 (atBoundary_numbersText more _ hm hbt)
  obtain ⟨nr, vr, vr1, vr2⟩ := numberIn_value 1 9 tok1 (p2.currentIndex + wz.length) h1
  have htr : (!(numberToken (p2.currentIndex + wz.length) tok1).found ||
      !((numberToken (p2.currentIndex + wz.length) tok1).value.getD JSNum.NaN).truthy) = false := by
    rw [vr]
    have hne : (nr != 0) = true := by
      rw [bne_iff_ne]
      omega
    simp [JSNum.truthy, hne]
  match more, hlen with
  | [], _ =>
    simp only [numbersText, List.nil_append] at n2 n3
    have a1 := nextNumber_of_spaces p3 (by rw [n2]; exact hw3)
    obtain ⟨c1, c2⟩ := checkAlertSound_in_range line
      (numberToken (p2.currentIndex + wz.length) tok1)
      { found := false, startIndex := 0, endIndex := 0, value := none } nr (by rw [vr]) vr1 vr2
      (Or.inl rfl)
    have t1 := captureTrailingComment_of_spaces p3 line
      (checkAlertSound line (numberToken (p2.currentIndex + wz.length) tok1)
        { found := false, startIndex := 0, endIndex := 0, value := none } {})
      (by rw [n2]; exact hw3)
    unfold processAlertSoundRule
    rw [e1]; dsimp only
    rw [n1]; dsimp only
    rw [htr]
    simp only [Bool.false_eq_true, if_false]
    rw [a1]; dsimp only
    rw [t1]
    exact ⟨c1, c2, by simp [n3, ht3]⟩
  | [(wv, tv)], _ =>
    have hv := hmore (wv, tv) (by simp)
    have hmv := hm (wv, tv) (by simp)
    dsimp only at hv hmv
    simp only [numbersText, List.append_nil, List.append_assoc] at n2
    obtain ⟨p4, g1, g2, g3⟩ := nextNumber_step_empty p3 wv tv w3
      (by rw [n2]; simp) hmv.1.isSpace hv.1 hbt
    obtain ⟨nv, vv, vv1, vv2⟩ := numberIn_value 0 300 tv (p3.currentIndex + wv.length) hv
    obtain ⟨c1, c2⟩ := checkAlertSound_in_range line
      (numberToken (p2.currentIndex + wz.length) tok1)
      (numberToken (p3.currentIndex + wv.length) tv) nr (by rw [vr]) vr1 vr2
      (Or.inr ⟨nv, by rw [vv], vv1, vv2⟩)
    have t1 := captureTrailingComment_of_spaces p4 line
      (checkAlertSound line (numberToken (p2.currentIndex + wz.length) tok1)
        (numberToken (p3.currentIndex + wv.length) tv) {})
      (by rw [g2]; exact hw3)
    unfold processAlertSoundRule
    rw [e1]; dsimp only
    rw [n1]; dsimp only
    rw [htr]
    simp only [Bool.false_eq_true, if_false]
    rw [g1]; dsimp only
    rw [t1]
    exact ⟨c1, c2, by simp [g3, ht3]⟩

theorem tokenColumns_values (toks : List (Text × Bool × Text)) :
    ∀ ci : Int, (tokenColumns ci toks).map (fun t => t.1) = toks.map fun t => t.2.2 := by
  induction toks with
  | nil => intro ci; rfl
  | cons t rest ih =>
    intro ci
    obtain ⟨ws, q, s⟩ := t
    simp only [tokenColumns, List.map_cons, ih]

/-- The multi-string validator on a written `=` and one or more string tokens that are
all found in the catalog, followed by whitespace only: nothing is reported, and the
parser is left empty. -/
theorem processMultiStringRule_equals (env : Env) (p : LineParser) (line : LineInfo)
    (catalog : List Text) (w1 w2 : Text) (q : Bool) (s : Text)
    (more : List (Text × Bool × Text)) (w3 : Text)
    (hp : p.text = w1 ++ operatorPart (some (utf16 "=")) w2 ++ (written q s ++ tokensText more) ++ w3)
    (hw1 : ∀ c ∈ w1, isSpace c = true) (hw2 : Blank w2) (hw2ne : w2 ≠ [])
    (hs : IsStringValue q s) (hsne : s ≠ []) (hmore : WellFormedTokens more)
    (hfound : ∀ t ∈ s :: more.map (fun t => t.2.2), resultFound env catalog false t = true)
    (hw3 : ∀ c ∈ w3, isSpace c = true) :
    ∃ res pf, processMultiStringRule env p line catalog false = some (res, pf) ∧
      res.messages = [] ∧ res.invalid = false ∧ pf.empty = true := by
  have hwf : WellFormedTokens ((w2, q, s) :: more) := by
    intro t ht
    rcases List.mem_cons.mp ht with rfl | ht
    · exact ⟨hw2, hw2ne, hs, hsne⟩
    · exact hmore t ht
  have htext : w1 ++ operatorPart (some (utf16 "=")) w2 ++ (written q s ++ tokensText more) ++ w3 =
      w1 ++ utf16 "=" ++ (tokensText ((w2, q, s) :: more) ++ w3) := by
    simp [operatorPart, tokensText]
  have hexp := expectEqualityOp_equals p line w1 (tokensText ((w2, q, s) :: more) ++ w3)
    (by rw [hp, htext]) hw1 (atBoundary_tokensText _ w3 hwf hw3)
  obtain ⟨p', hexp', ht'⟩ : ∃ p', expectEqualityOp p line = (none, p') ∧
      p'.text = tokensText ((w2, q, s) :: more) ++ w3 := ⟨_, hexp, rfl⟩
  obtain ⟨pf, hloop, -, hemp⟩ := processMultiStringLoop_tokens env line catalog w3 hw3
    ((w2, q, s) :: more) (p'.text.length + 1) p' {} hwf ht'
    (by
      have := length_le_tokensText _ hwf
      rw [ht']
      simp only [List.length_append]
      omega)
    (Or.inl (by simp))
  obtain ⟨-, c2, c3, -, -⟩ := checkValues_fields env line catalog
    (tokenColumns p'.currentIndex ((w2, q, s) :: more)) {}
  have hall : ∀ t ∈ tokenColumns p'.currentIndex ((w2, q, s) :: more),
      resultFound env catalog false t.1 = true := by
    intro t ht
    apply hfound
    have : t.1 ∈ (tokenColumns p'.currentIndex ((w2, q, s) :: more)).map (fun t => t.1) :=
      List.mem_map_of_mem _ ht
    rw [tokenColumns_values] at this
    simpa using this
  refine ⟨checkValues env line catalog (tokenColumns p'.currentIndex ((w2, q, s) :: more)) {},
    pf, ?_, ?_, ?_, hemp (by simp)⟩
  · unfold processMultiStringRule
    rw [hexp']
    exact hloop
  · rw [c2]
    simp only [List.nil_append, List.map_eq_nil_iff, List.filter_eq_nil_iff]
    intro t ht
    simp [hall t ht]
  · rw [c3]
    simp only [Bool.false_or, List.any_eq_false]
    intro t ht
    simp [hall t ht]

/-- Every validator of a rule that permits only `=`, on a written `=` followed by
valid arguments of the rule and whitespace only: nothing is reported, the editor is
left alone, and the parser is left empty. -/
theorem processRule_accepts_equals (env : Env) (p : LineParser) (li : LineInfo)
    (itemData : ItemData) (K w1 w2 a w3 : Text)
    (hargs : EqualityArguments env itemData K a)
    (hp : p.text = w1 ++ operatorPart (some (utf16 "=")) w2 ++ a ++ w3)
    (hw1 : ∀ c ∈ w1, isSpace c = true) (hw2 : Blank w2) (hw2ne : w2 ≠ [])
    (hw3 : ∀ c ∈ w3, isSpace c = true) :
    ∃ cat res q, processRule env p li (itemData.classes ++ itemData.whitelistClasses)
        (itemData.bases ++ itemData.whitelistBases) K = some (cat, some (res, q, li.editor)) ∧
      res.messages = [] ∧ res.invalid = false ∧ q.empty = true := by
  have hop : ∀ o, some (utf16 "=") = some o → o = utf16 "=" ∧ w2 ≠ [] ∧ ∀ c ∈ w2, isSpace c = true :=
    fun o ho => ⟨(Option.some.inj ho).symm, hw2ne, hw2.isSpace⟩
  rcases hargs with ⟨hk, hbt⟩ | ⟨rfl, q, s, rfl, hs, hg⟩ | ⟨hk, q, s, more, rfl, hs, hsne, hmore, hfound⟩ |
    ⟨tok1, more, rfl, hm, hcase⟩
  · obtain ⟨hne, hch⟩ := booleanToken_chars a hbt
    obtain ⟨h1, h2⟩ := (processBooleanRule_token p li w1 (some (utf16 "=")) w2 a w3 hp hw1 hop
      ⟨hne, fun c hc => (hch c hc).1⟩ (fun h => by cases h) hw3).1 hbt
    rw [processRule_boolean env p li _ _ K hk]
    refine ⟨_, _, _, rfl, ?_, ?_, h1⟩
    · rw [h2]
    · rw [h2]
  · obtain ⟨h1, h2⟩ := processSocketGroup_token p li w1 (some (utf16 "=")) w2 q s w3 hp hw1 hop
      hs hw3
    have hsne : s ≠ [] := by
      rintro rfl
      have := hg.1
      simp at this
    rw [if_neg hsne, if_pos ((groupRegex_iff s).mpr hg)] at h2
    rw [processRule_SocketGroup]
    refine ⟨_, _, _, rfl, ?_, ?_, h1⟩
    · rw [h2]
    · rw [h2]
  · obtain ⟨res, pf, h1, h2, h3, h4⟩ := processMultiStringRule_equals env p li
      (catalogOf itemData K) w1 w2 q s more w3 hp hw1 hw2 hw2ne hs hsne hmore hfound hw3
    rw [processRule_multiString env p li itemData K hk, h1]
    exact ⟨_, res, pf, rfl, h2, h3, h4⟩
  · rcases hcase with ⟨hk, hlen, h1, hmore⟩ | ⟨rfl, hlen, h1, hmore⟩
    · obtain ⟨c1, c2, c3, c4⟩ := processRGBARule_in_range p li w1 (some (utf16 "=")) w2 tok1 more
        w3 (by rw [hp]; simp) hw1 hop hm hlen h1 hmore hw3
      rw [processRule_colorKeywords env p li _ _ K hk]
      refine ⟨Category.action, (processRGBARule p li).1, (processRGBARule p li).2.1, ?_, c1, c2, c3⟩
      rw [← c4]
    · obtain ⟨c1, c2, c3⟩ := processAlertSoundRule_in_range p li w1 (some (utf16 "=")) w2 tok1
        more w3 (by rw [hp]; simp) hw1 hop hm hlen h1 hmore hw3
      rw [processRule_PlayAlertSound]
      exact ⟨_, _, _, rfl, c1, c2, c3⟩

/-- C17. For every rule that permits only `=` (Identified, Corrupted, SocketGroup,
Class, BaseType, SetBorderColor, SetTextColor, SetBackgroundColor, PlayAlertSound), on
a line where an operator token follows the keyword: if the operator is not `=`, then
whatever follows it, `parseLine` returns an invalid Rule whose only diagnostic is one
error over the operator's columns, and no value is captured; if it is `=` and valid
arguments of the rule follow it, `parseLine` returns a Rule that is not invalid and
has no diagnostic at all. -/
theorem parseLine_equality_only (env : Env) (row : Int) (editor : Editor) (itemData : ItemData)
    (K w0 w1 op rest : Text) (hK : K ∈ equalityRules) (hw0 : Blank w0) (hw1 : Blank w1)
    (hw1ne : w1 ≠ []) (hop : op ∈ operatorAlternatives) (hb : atBoundary rest = true)
    (heol : eolRegex rest = false) :
    (op ≠ utf16 "=" →
      ∃ r m, parseLine env
          { lineText := w0 ++ K ++ (w1 ++ op ++ rest), row := row, editor := editor,
            itemData := itemData } = Except.ok (r, editor) ∧
        r.type = LineType.Rule ∧ r.invalid = true ∧ r.messages = [m] ∧ r.values = [] ∧
        m.severity = Severity.error ∧
        m.location.position = columns row (w0.length + K.length + w1.length)
          (w0.length + K.length + w1.length + op.length) ∧
        m.excerpt = utf16 "Invalid operator for \"" ++ K ++
          utf16 "\". Only the '=' operator is supported for this rule.") ∧
    (op = utf16 "=" →
      ∀ w2 a w3 : Text, rest = w2 ++ a ++ w3 → Blank w2 → w2 ≠ [] → Blank w3 →
        EqualityArguments env itemData K a →
        ∃ r, parseLine env
            { lineText := w0 ++ K ++ (w1 ++ op ++ rest), row := row, editor := editor,
              itemData := itemData } = Except.ok (r, editor) ∧
          r.type = LineType.Rule ∧ r.invalid = false ∧ r.messages = []) := by
  obtain ⟨hs1, hs2, hkne, hkw⟩ := equalityRules_facts K hK
  obtain ⟨p1, hp1t, hp1c, -, -, hpl⟩ := parseLine_rule_line env
    { lineText := w0 ++ K ++ (w1 ++ op ++ rest), row := row, editor := editor,
      itemData := itemData }
    w0 K (w1 ++ op ++ rest) rfl hw0 hkne hkw
    (by rw [List.append_assoc]; exact atBoundary_of_spaces_append w1 _ hw1.isSpace hw1ne)
    (eolRegex_operator_rest w1 op rest hw1 hop heol) ⟨hs1, hs2⟩
  constructor
  · intro hne
    have hexp := expectEqualityOp_other p1
      { editor := editor, number := row, file := editor.path, keyword := K }
      w1 op rest hp1t hw1.isSpace hop hne hb
    obtain ⟨cat, hrule⟩ := processRule_equalityRules env p1 _ _
      (itemData.classes ++ itemData.whitelistClasses) (itemData.bases ++ itemData.whitelistBases)
      K _ hK hexp
    dsimp only at hpl hrule
    rw [hpl, hrule]
    simp only [finishRule]
    obtain ⟨f1, f2, f3, -⟩ := fail_fields (equalityMessage
      { editor := editor, number := row, file := editor.path, keyword := K }
      (p1.currentIndex + w1.length) (p1.currentIndex + w1.length + op.length))
    obtain ⟨h1, -, h3, h4, -, h6⟩ := ruleResult_of_invalid
      { lineText := w0 ++ K ++ (w1 ++ op ++ rest), row := row, editor := editor,
        itemData := itemData }
      { name := K, range := Range.onRow row w0.length ((w0.length + K.length : Nat) : Int) }
      cat _ _ editor f1 (by rw [f2]; simp)
    refine ⟨_, equalityMessage
      { editor := editor, number := row, file := editor.path, keyword := K }
      (p1.currentIndex + w1.length) (p1.currentIndex + w1.length + op.length),
      rfl, h1, h3, ?_, ?_, ?_, ?_, ?_⟩
    · rw [h4, f2]
    · rw [h6, f3]
    · rfl
    · simp only [equalityMessage, errorMessage, hp1c]
    · rfl
  · intro he w2 a w3 hrest hw2 hw2ne hw3 hargs
    subst he
    obtain ⟨cat, res, q, hrule, hm, hi, hq⟩ := processRule_accepts_equals env p1
      { editor := editor, number := row, file := editor.path, keyword := K }
      itemData K w1 w2 a w3 hargs
      (by rw [hp1t, hrest]; simp [operatorPart]) hw1.isSpace hw2 hw2ne hw3.isSpace
    dsimp only at hpl hrule
    rw [hpl, hrule]
    simp only [finishRule]
    obtain ⟨h1, -, h3, h4, -, -⟩ := ruleResult_of_clean
      { lineText := w0 ++ K ++ (w1 ++ utf16 "=" ++ rest), row := row, editor := editor,
        itemData := itemData }
      { name := K, range := Range.onRow row w0.length ((w0.length + K.length : Nat) : Int) }
      cat res q editor hm hi hq
    exact ⟨_, rfl, h1, h3, h4⟩

/-- C17, at the lines `Identified > True` and `Class = Bows "Life Flasks"`: the
hypotheses hold; the first result is an invalid Rule without values whose only
diagnostic is the operator error over the columns 11-12 of `>`, the second is a valid
Rule without diagnostics. -/
theorem parseLine_equality_only_witness :
    ((utf16 "Identified" ∈ equalityRules ∧ Blank [] ∧ Blank [32] ∧
      utf16 ">" ∈ operatorAlternatives ∧ utf16 ">" ≠ utf16 "=" ∧
      atBoundary (utf16 " True") = true ∧ eolRegex (utf16 " True") = false ∧
      [] ++ utf16 "Identified" ++ ([32] ++ utf16 ">" ++ utf16 " True") =
        utf16 "Identified > True") ∧
    ∃ r m, parseLine asciiEnv
        { lineText := utf16 "Identified > True", row := 0,
          editor := { path := none, line := utf16 "Identified > True" },
          itemData := sampleItems } =
          Except.ok (r, { path := none, line := utf16 "Identified > True" }) ∧
      r.type = LineType.Rule ∧ r.invalid = true ∧ r.messages = [m] ∧ r.values = [] ∧
      m.severity = Severity.error ∧ m.location.position = columns 0 11 12 ∧
      m.excerpt =
        utf16 "Invalid operator for \"Identified\". Only the '=' operator is supported for this rule.") ∧
    ((utf16 "Class" ∈ equalityRules ∧ utf16 "=" ∈ operatorAlternatives ∧
      atBoundary (utf16 " Bows \"Life Flasks\"") = true ∧
      eolRegex (utf16 " Bows \"Life Flasks\"") = false ∧
      utf16 " Bows \"Life Flasks\"" =
        [32] ++ (written false (utf16 "Bows") ++
          tokensText [([32], true, utf16 "Life Flasks")]) ++ [] ∧
      [] ++ utf16 "Class" ++ ([32] ++ utf16 "=" ++ utf16 " Bows \"Life Flasks\"") =
        utf16 "Class = Bows \"Life Flasks\"") ∧
    ∃ r, parseLine asciiEnv
        { lineText := utf16 "Class = Bows \"Life Flasks\"", row := 0,
          editor := { path := none, line := utf16 "Class = Bows \"Life Flasks\"" },
          itemData := sampleItems } =
          Except.ok (r, { path := none, line := utf16 "Class = Bows \"Life Flasks\"" }) ∧
      r.type = LineType.Rule ∧ r.invalid = false ∧ r.messages = []) :=
  ⟨⟨⟨by decide, by decide, by decide, by decide, by decide, by decide, by decide, by decide⟩,
    (parseLine_equality_only asciiEnv 0 { path := none, line := utf16 "Identified > True" }
      sampleItems (utf16 "Identified") [] [32] (utf16 ">") (utf16 " True")
      (by decide) (by decide) (by decide) (by decide) (by decide) (by decide) (by decide)).1
      (by decide)⟩,
   ⟨⟨by decide, by decide, by decide, by decide, by decide, by decide⟩,
    (parseLine_equality_only asciiEnv 0
      { path := none, line := utf16 "Class = Bows \"Life Flasks\"" }
      sampleItems (utf16 "Class") [] [32] (utf16 "=") (utf16 " Bows \"Life Flasks\"")
      (by decide) (by decide) (by decide) (by decide) (by decide) (by decide) (by decide)).2
      rfl [32] (written false (utf16 "Bows") ++ tokensText [([32], true, utf16 "Life Flasks")]) []
      (by decide) (by decide) (by decide) (by decide)
      (Or.inr (Or.inr (Or.inl ⟨Or.inl rfl, false, utf16 "Bows",
        [([32], true, utf16 "Life Flasks")], rfl, by decide, by decide, by decide,
        by decide⟩)))⟩⟩

/-- Lines of the five validators with a written `=` and valid arguments, evaluated:
each result is a valid Rule without diagnostics that holds the written values. -/
theorem parseLine_equals_accepted :
    [utf16 "Class = Bows", utf16 "BaseType = \"Gold Ring\"", utf16 "SocketGroup = RGB",
     utf16 "Corrupted = False", utf16 "SetBorderColor = 1 2 3",
     utf16 "PlayAlertSound = 1 300"].map (fun l =>
      (parseLine asciiEnv (argsFor l)).toOption.map
        (fun x => (x.1.type, x.1.invalid, x.1.messages, x.1.values.map (fun v => v.value)))) =
    [some (LineType.Rule, false, [], [Value.string (utf16 "Bows")]),
     some (LineType.Rule, false, [], [Value.string (utf16 "Gold Ring")]),
     some (LineType.Rule, false, [], [Value.string (utf16 "RGB")]),
     some (LineType.Rule, false, [], [Value.boolean false]),
     some (LineType.Rule, false, [],
       [Value.number (JSNum.ofInt 1), Value.number (JSNum.ofInt 2),
        Value.number (JSNum.ofInt 3)]),
     some (LineType.Rule, false, [],
       [Value.number (JSNum.ofInt 1), Value.number (JSNum.ofInt 300)])] := by
  rfl

/-- C31, at the row `SetTextColor #FF0000 a<U+2028>b`, which the constructor accepts as
one line: the constructor leaves `textEndIndex` at 0, since the `.` of its regex does
not match U+2028; after the keyword and the absent operator were read, `nextHex` finds
the literal at columns 13-20, and the hex statement rewrites the row to
`SetTextColor 255 0 0 a<U+2028>b`. `originalLength` is the rewritten row's length, 24,
but `textEndIndex` is still 0 and not 24, the column after the row's last character
that is not whitespace, and the remaining text is `SetTextColor `, the start of the
row, not the row from the consumed offset 13 on; `parseLine` then reports a format
error for the line. With a space in place of U+2028 the cursor is in step and the line
is read as three channels and trailing text. -/
theorem hexStage_line_separator :
    (LineParser.new (utf16 "SetTextColor #FF0000 a" ++ [8232] ++ utf16 "b")).toOption.map
      (fun p0 =>
        (p0.textEndIndex,
         ((p0.run [Extractor.word, Extractor.operator]).2.nextHex).1,
         hexStage (p0.run [Extractor.word, Extractor.operator]).2
           { editor := { path := none,
                         line := utf16 "SetTextColor #FF0000 a" ++ [8232] ++ utf16 "b" },
             number := 0, file := none, keyword := utf16 "SetTextColor" })) =
      some (0,
        { found := true, startIndex := 13, endIndex := 20, value := some (utf16 "#FF0000") },
        { text := utf16 "SetTextColor ", currentIndex := 13, originalLength := 24,
          textStartIndex := 0, textEndIndex := 0, empty := false },
        { path := none, line := utf16 "SetTextColor 255 0 0 a" ++ [8232] ++ utf16 "b" }) ∧
    (dropTrailingSpace (utf16 "SetTextColor 255 0 0 a" ++ [8232] ++ utf16 "b")).length = 24 ∧
    slice (utf16 "SetTextColor 255 0 0 a" ++ [8232] ++ utf16 "b") 13 24 =
      utf16 "255 0 0 a" ++ [8232] ++ utf16 "b" ∧
    (parseLine asciiEnv (argsFor (utf16 "SetTextColor #FF0000 a" ++ [8232] ++ utf16 "b"))).toOption.map
      (fun x => (x.1.invalid, x.1.values,
        x.1.messages.map (fun m => (m.location.position, m.excerpt)), x.2.line)) =
      some (true, [],
        [(columns 0 0 24,
          utf16 "Invalid format. Expected \"SetTextColor <Red> <Green> <Blue> [Alpha]\".")],
        utf16 "SetTextColor 255 0 0 a" ++ [8232] ++ utf16 "b") ∧
    (LineParser.new (utf16 "SetTextColor #FF0000 a b")).toOption.map
      (fun p0 =>
        (p0.textEndIndex,
         hexStage (p0.run [Extractor.word, Extractor.operator]).2
           { editor := { path := none, line := utf16 "SetTextColor #FF0000 a b" },
             number := 0, file := none, keyword := utf16 "SetTextColor" })) =
      some (24,
        { text := utf16 "255 0 0 a b", currentIndex := 13, originalLength := 24,
          textStartIndex := 0, textEndIndex := 24, empty := false },
        { path := none, line := utf16 "SetTextColor 255 0 0 a b" }) := by
  refine ⟨rfl, by decide, by decide, rfl, rfl⟩

/-- C16, at the line `Show #a<U+2028>b` with the warnings setting on: the rest of the
line starts with `#`, yet it is not captured as a trailing comment; the result is a
Block that is not invalid and has one warning over columns 4-9 with the autofix that
puts ` #` before the text. With a space in place of U+2028 the comment `#a b` is
captured at columns 5-9 and there is no diagnostic. -/
theorem parseLine_block_line_separator :
    (parseLine asciiEnv (argsFor (utf16 "Show #a" ++ [8232] ++ utf16 "b"))).toOption.map
      (fun x => (x.1.type, x.1.invalid, x.1.trailingComment, x.1.messages)) =
      some (LineType.Block, false, none,
        [blockWarning { path := none, line := utf16 "Show #a" ++ [8232] ++ utf16 "b" } 0
          (utf16 "Show") 4 9]) ∧
    (blockWarning { path := none, line := utf16 "Show #a" ++ [8232] ++ utf16 "b" } 0
        (utf16 "Show") 4 9).solutions.map (fun l => l.map fun f => f.replaceWith) =
      some [utf16 " # #a" ++ [8232] ++ utf16 "b"] ∧
    (parseLine asciiEnv (argsFor (utf16 "Show #a b"))).toOption.map
      (fun x => (x.1.type, x.1.invalid, x.1.trailingComment, x.1.messages)) =
      some (LineType.Block, false, some { text := utf16 "#a b", range := columns 0 5 9 }, []) := by
  refine ⟨rfl, by decide, rfl⟩

/-- A comment that is the `#` and whitespace only, evaluated: on
`SetTextColor 1 2 3 #   ` the trailing comment is the `#` with the three spaces, at
columns 19-23, and there is no diagnostic. -/
theorem parseLine_bare_comment_marker :
    (parseLine asciiEnv (argsFor (utf16 "SetTextColor 1 2 3 #   "))).toOption.map
      (fun x => (x.1.invalid, x.1.messages, x.1.trailingComment)) =
    some (false, [], some { text := utf16 "#   ", range := columns 0 19 23 }) := by
  rfl

/-- Rule lines with the line separator U+2028 between two characters that are not
whitespace, evaluated. The constructor accepts them as one line, but the `.` of its
regex and of the comment regex does not match the separator: the cursor keeps
`textStartIndex` and `textEndIndex` at 0 and a comment that holds the separator is not
recognised. On `SetTextColor 1 2 3 #a<U+2028>b` no comment is captured and the one
diagnostic is the trailing-text error over columns 0-18; on `ItemLevel 5 #a<U+2028>b`
there is no trailing-comment error, and on `ItemLevel 5 x<U+2028>y` the trailing-text
error ranges over columns 0-11, the keyword and the value; on
`  SocketGroup <U+2028> ""` the format error starts at column 0, not at the keyword. -/
theorem parseLine_line_separator_scenarios :
    [utf16 "SetTextColor 1 2 3 #a" ++ [8232] ++ utf16 "b",
     utf16 "ItemLevel 5 #a" ++ [8232] ++ utf16 "b",
     utf16 "ItemLevel 5 x" ++ [8232] ++ utf16 "y",
     utf16 "  SocketGroup " ++ [8232] ++ utf16 " \"\""].map
      (fun line => (parseLine asciiEnv (argsFor line)).toOption.map
        (fun x => (x.1.invalid, x.1.trailingComment,
          x.1.messages.map (fun m => (m.location.position, m.excerpt))))) =
    [some (true, none, [(columns 0 0 18, utf16 "Trailing text for a filter rule.")]),
     some (true, none, [(columns 0 0 11, utf16 "Trailing text for a filter rule.")]),
     some (true, none, [(columns 0 0 11, utf16 "Trailing text for a filter rule.")]),
     some (true, none,
       [(columns 0 0 18, utf16 "Invalid format. Expected \"SocketGroup <Group>\".")])] := by
  rfl

end ItemFilter
